import Mathlib

/-! # Ghostscript PDF interpreter (pdf/ghostpdf.c): file-structure entry points

A shallow embedding of the top-level routines of `pdf/ghostpdf.c`
(`pdfi_set_input_stream`, `pdfi_init_file`, `pdfi_process`,
`pdfi_close_pdf_file`, `pdfi_clear_context`) and theorems about them,
followed by smaller routines of the older tree: the sample filters of
`gs/src/gdevpsds.c`, `sdecodelong` of `gs/src/ibnum.c`, the integer writer of
`base/write_t2.c` and the row loop of `gdev_pdf_copy_mono` in
`gs/src/gdevpdfi.c`.

Conventions.
* C integers are `Int`/`Nat`; the one unsigned wrap that the source can
  perform (`uint32_t read`) is written with an explicit `% 2 ^ 32`.
* The working buffer is addressed relative to `Buffer`: address `i` is the
  byte `Buffer[i]`.  Memory is a total function, so that reads which leave
  the allocation (the source performs some) yield whatever the surrounding
  memory holds; that surrounding memory is a parameter of the model.
* Routines of other translation units (`pdfi_read_xref`, `pdfi_read_Root`,
  `pdfi_repair_file`, ...) are parameters: arbitrary functions on the context.
  Every call to one is logged, in order, together with the context it was
  given and the code it returned.
-/

namespace Ghostpdf

/-! ## Constants of headers that accompany ghostpdf.c -/

/-- Ghostscript error code `gs_error_ioerror` (gserrors.h). -/
def gs_error_ioerror : Int := -12
/-- Ghostscript error code `gs_error_syntaxerror` (gserrors.h). -/
def gs_error_syntaxerror : Int := -18
/-- Ghostscript error code `gs_error_undefined` (gserrors.h). -/
def gs_error_undefined : Int := -21
/-- Ghostscript error code `gs_error_VMerror` (gserrors.h). -/
def gs_error_VMerror : Int := -25

/-- Error flag `E_PDF_NOHEADER` (ghostpdf.h); the flags are single bits, in
the order in which `pdfi_report_errors` tests them. -/
def E_PDF_NOHEADER : Nat := 1
/-- Error flag `E_PDF_NOHEADERVERSION`. -/
def E_PDF_NOHEADERVERSION : Nat := 1 <<< 1
/-- Error flag `E_PDF_NOSTARTXREF`. -/
def E_PDF_NOSTARTXREF : Nat := 1 <<< 2
/-- Error flag `E_PDF_BADSTARTXREF`. -/
def E_PDF_BADSTARTXREF : Nat := 1 <<< 3
/-- Error flag `E_PDF_BADXREFSTREAM`. -/
def E_PDF_BADXREFSTREAM : Nat := 1 <<< 4
/-- Error flag `E_PDF_BADXREF`. -/
def E_PDF_BADXREF : Nat := 1 <<< 5

/-! ## Bytes, memory and the C library routines used by the scan -/

/-- Memory seen from `Buffer`: `m i` is the byte at address `Buffer + i`. -/
abbrev Mem := Int → Nat

/-- The nine bytes of the keyword `startxref`. -/
def startxref_kw : List Nat := [115, 116, 97, 114, 116, 120, 114, 101, 102]

/-- The four bytes of the marker `%PDF`. -/
def pdf_marker : List Nat := [37, 80, 68, 70]

/-- Store one byte: `Buffer[i] = v`. -/
def Mem.store (m : Mem) (i : Int) (v : Nat) : Mem :=
  fun j => if j = i then v else m j

/-- The C routine `memcpy(Buffer + dst, Buffer + src, n)`: every destination
byte receives the byte the source held before the call (the C standard leaves
overlapping copies undefined). -/
def memcpy (m : Mem) (dst src n : Int) : Mem :=
  fun j => if dst ≤ j ∧ j < dst + n then m (src + (j - dst)) else m j

/-- Test `memcmp(Buffer + p, s, |s|) == 0`. -/
def memcmp_eq (m : Mem) (p : Int) : List Nat → Bool
  | [] => true
  | c :: s => m p == c && memcmp_eq m (p + 1) s

/-- The C string at `Buffer + p`: the bytes up to the first NUL, of which the
first `n` are looked at. -/
def cstring (m : Mem) (p : Int) : Nat → List Nat
  | 0 => []
  | n + 1 => if m p = 0 then [] else m p :: cstring m (p + 1) n

/-- The C routine `isspace` in the C locale. -/
def isspace (c : Nat) : Bool := c == 32 || (9 ≤ c && c ≤ 13)

/-- The C routine `isdigit`. -/
def isdigit (c : Nat) : Bool := 48 ≤ c && c ≤ 57

/-- Value of a run of decimal digits, most significant first, continuing
from `acc`. -/
def digits_value (acc : Nat) : List Nat → Nat
  | [] => acc
  | c :: s => digits_value (acc * 10 + (c - 48)) s

/-- Conversion of an out-of-range magnitude as `strtol` does it for a 64-bit
`long`: the result saturates. -/
def clamp_long (neg : Bool) (v : Nat) : Int :=
  if neg then (if v ≤ 2 ^ 63 then -(v : Int) else -(2 ^ 63 : Int))
  else (if v < 2 ^ 63 then (v : Int) else (2 ^ 63 - 1 : Int))

/-- The conversion `%ld` on text whose leading white space is gone: an
optional sign, then at least one digit; `none` is a matching failure. -/
def scan_ld (s : List Nat) : Option Int :=
  let neg := s.head? == some 45
  let body := if s.head? == some 45 || s.head? == some 43 then s.tail else s
  let ds := body.takeWhile isdigit
  if ds.isEmpty then none else some (clamp_long neg (digits_value 0 ds))

/-- The call `sscanf(str, " %ld", &x)`: `some x` when it returns 1 (one value
assigned), `none` otherwise. -/
def sscanf_ld (str : List Nat) : Option Int :=
  scan_ld (str.dropWhile isspace)

/-- The call `strstr(str, pat)`: the text from the first occurrence of `pat`
on, or `none`. -/
def strstr (pat : List Nat) : List Nat → Option (List Nat)
  | [] => if pat.isEmpty then some [] else none
  | c :: s => if pat.isPrefixOf (c :: s) then some (c :: s) else strstr pat s

/-- The call `pdfi_read_bytes(ctx, Buffer, 1, count, stream)` with the stream
positioned at `pos` of a file whose reads succeed: the bytes available, at most
`count`, arrive at the start of the buffer and their number is returned. -/
def pdfi_read_bytes (file : List Nat) (pos count : Nat) (m : Mem) : Nat × Mem :=
  let data := (file.drop pos).take count
  (data.length, fun j => if 0 ≤ j ∧ j < (data.length : Int) then data.getD j.toNat 0 else m j)

/-- The call `pdfi_seek(ctx, stream, pos, SEEK_SET)` succeeds (returns 0) for a
position inside the file. -/
def pdfi_seek_ok (file : List Nat) (pos : Int) : Bool :=
  0 ≤ pos && pos ≤ (file.length : Int)

/-! ## The backward scan for `startxref` (ghostpdf.c lines 1082-1156) -/

/-- The inner loop `while (read) { ... read--; }`: returns `found`, the final
`read` and `last_lineend` (as an offset from `Buffer`, `none` for NULL). -/
def search_back (m : Mem) : Nat → Option Int → Bool × Nat × Option Int
  | 0, le => (false, 0, le)
  | read + 1, le =>
    if memcmp_eq m (((read + 1 : Nat) : Int) - 9) startxref_kw then (true, read + 1, le)
    else search_back m read
      (if m (read : Int) == 0x0a || m (read : Int) == 0x0d then some ((read + 1 : Nat) : Int) else le)

/-- What one pass of the do-while loop did: the seek target, the number of
bytes asked of and delivered by `pdfi_read_bytes`, the size of the data
searched, and the position at which the inner loop stopped. -/
structure Pass where
  seek : Int
  asked : Int
  got : Nat
  searched : Int
  stop : Nat
  deriving DecidableEq, Repr

/-- Outcome of the scan. -/
inductive Scan where
  /-- Left through `goto error` with `gs_error_ioerror` because `pdfi_seek` to
  `target` failed. -/
  | seek_error (target : Int) (passes : List Pass)
  /-- Left through `goto error` with `gs_error_ioerror` because
  `pdfi_read_bytes` delivered nothing; the last pass is the failed one. -/
  | ioerror (passes : List Pass)
  /-- The loop ended; `startxref` is `some n` when `sscanf` stored `n`. -/
  | done (found : Bool) (startxref : Option Int) (passes : List Pass)
  /-- The model ran out of iterations (does not happen, see `scan_loop`). -/
  | out_of_fuel
  deriving DecidableEq, Repr

/-- The do-while loop.  `len` is `ctx->main_stream_length`, `cap` the buffer
size `BUF_SIZE`; `m`, `bytes`, `Offset`, `leftover` are the C variables on
entry to an iteration, `ps` the passes made so far. -/
def scan_loop (file : List Nat) (cap : Nat) :
    Nat → Mem → Int → Int → Int → List Pass → Scan
  | 0, _, _, _, _, _ => Scan.out_of_fuel
  | fuel + 1, m, bytes, Offset, leftover, ps =>
    let len : Int := file.length
    if !pdfi_seek_ok file (len - Offset) then Scan.seek_error (len - Offset) ps
    else
      let r := pdfi_read_bytes file (len - Offset).toNat (bytes % 2 ^ 32).toNat m
      let read0 : Nat := r.1
      if read0 = 0 then Scan.ioerror (ps ++ [⟨len - Offset, bytes, read0, 0, 0⟩])
      else
        let m1 : Mem :=
          if bytes ≠ (read0 : Int) ∧ leftover ≠ 0 then memcpy r.2 read0 bytes leftover else r.2
        let bytes1 : Int := (read0 : Int) + leftover
        let read1 : Nat := (bytes1 % 2 ^ 32).toNat
        let sb := search_back m1 read1 none
        let p : Pass := ⟨len - Offset, bytes, read0, bytes1, sb.2.1⟩
        if sb.1 then
          Scan.done true (sscanf_ld (cstring m1 (sb.2.1 : Int) (cap - sb.2.1))) (ps ++ [p])
        else
          match sb.2.2 with
          | some last_lineend =>
            let leftover2 : Int := last_lineend
            let m2 := memcpy m1 (bytes1 - leftover2) last_lineend leftover2
            let bytes2 := bytes1 - leftover2
            let Offset2 := Offset + bytes2
            if Offset2 < len then scan_loop file cap fuel m2 bytes2 Offset2 leftover2 (ps ++ [p])
            else Scan.done false none (ps ++ [p])
          | none =>
            let Offset2 := Offset + bytes1
            if Offset2 < len then scan_loop file cap fuel m1 bytes1 Offset2 0 (ps ++ [p])
            else Scan.done false none (ps ++ [p])

/-! ## The interpreter context and the routines of other translation units -/

/-- The `pdf_c_stream` that `ctx->main_stream` points to: its own address and
its field `s`. -/
structure pdf_c_stream where
  addr : Nat
  s : Option Nat
  deriving DecidableEq, Repr

/-- One `pdf_obj_cache_entry`: its address and the object `o` it holds. -/
structure pdf_obj_cache_entry where
  addr : Nat
  o : Nat
  deriving DecidableEq, Repr

/-- One `pdfi_name_entry_t`: the bytes of the name (`len` is their number)
and the index. -/
structure pdfi_name_entry_t where
  name : List Nat
  index : Int
  deriving DecidableEq, Repr

/-- The fields of `pdf_context` that the routines below read or write.
Pointers are `Option Nat`, `none` being NULL.  `cache` is the chain of cache
entries reached from `cache_LRU` through `next`, `name_table` the chain of
name entries; `world` stands for everything else the interpreter owns
(objects and their reference counts, graphics state, operand stack, ...). -/
structure pdf_context (ω : Type) where
  pdfstoponerror : Bool
  pdfinfo : Bool
  first_page : Int
  last_page : Int
  PageList : Option Nat
  main_stream : Option pdf_c_stream
  main_stream_length : Int
  filename : Option Nat
  startxref : Int
  pdf_errors : Nat
  pdf_warnings : Nat
  is_hybrid : Bool
  prefer_xrefstm : Bool
  xref_table : Option Nat
  Trailer : Option Nat
  Root : Option Nat
  Info : Option Nat
  PagesTree : Option Nat
  AcroForm : Option Nat
  num_pages : Nat
  stack_bot : Option Nat
  pgs : Option Nat
  EKey : Option Nat
  Password : Option Nat
  cache_entries : Int
  cache_LRU : Option Nat
  cache_MRU : Option Nat
  cache : List pdf_obj_cache_entry
  font_dir : Option Nat
  pdffontmap : Option Nat
  name_table : List pdfi_name_entry_t
  world : ω

/-- The routines called by the code modelled here. -/
inductive Fn where
  | pdfi_read_xref
  | pdfi_read_Root
  | pdfi_repair_file
  | pdfi_dict_get_Encrypt
  | pdfi_initialise_Decryption
  | pdfi_read_Info
  | pdfi_read_Pages
  | pdfi_doc_page_array_init
  | pdfi_doc_trailer
  | pdfi_read_OptionalRoot
  | pdfi_output_metadata
  | pdfi_clearstack
  | pdfi_page_render (i : Nat)
  | pdfi_output_page_info (i : Nat)
  | pdfi_report_errors
  | pdfi_countdown (p : Option Nat)
  | gs_free_object (p : Option Nat)
  | sfclose (p : Nat)
  | pdfi_doc_page_array_free
  | pdfi_free_OptionalRoot
  | pgs_cleanup
  | pdfi_free_DefaultQState
  | pdfi_oc_free
  | gx_purge_selected_cached_chars
  | dmprintf_no_catalog
  | dmprintf_no_pages
  deriving DecidableEq, Repr

/-- One logged call: the routine, the context it was given and the code it
returned (0 for a routine whose result is not used). -/
structure Event (ω : Type) where
  fn : Fn
  before : pdf_context ω
  code : Int

/-- The context together with the log of calls made so far. -/
structure State (ω : Type) where
  ctx : pdf_context ω
  trace : List (Event ω)

/-- The external routines.  Those that take the context may change any of its
fields; those that release or inspect objects act on `world` only. -/
structure Collab (ω : Type) where
  pdfi_read_xref : pdf_context ω → Int × pdf_context ω
  pdfi_read_Root : pdf_context ω → Int × pdf_context ω
  pdfi_repair_file : pdf_context ω → Int × pdf_context ω
  pdfi_dict_get_Encrypt : pdf_context ω → (Int × Option Nat) × pdf_context ω
  pdfi_initialise_Decryption : pdf_context ω → Int × pdf_context ω
  pdfi_read_Info : pdf_context ω → Int × pdf_context ω
  pdfi_read_Pages : pdf_context ω → Int × pdf_context ω
  pdfi_doc_page_array_init : pdf_context ω → Int × pdf_context ω
  pdfi_doc_trailer : pdf_context ω → Int × pdf_context ω
  pdfi_read_OptionalRoot : pdf_context ω → Int × pdf_context ω
  pdfi_output_metadata : pdf_context ω → Int × pdf_context ω
  pdfi_page_render : Nat → pdf_context ω → Int × pdf_context ω
  pdfi_output_page_info : Nat → pdf_context ω → Int × pdf_context ω
  pdfi_report_errors : ω → ω
  pdfi_clearstack : ω → ω
  pdfi_countdown : Option Nat → ω → ω
  gs_free_object : Option Nat → ω → ω
  sfclose : Nat → ω → ω
  pdfi_doc_page_array_free : ω → ω
  pdfi_free_OptionalRoot : ω → ω
  pgs_cleanup : ω → ω
  pdfi_free_DefaultQState : ω → ω
  pdfi_oc_free : ω → ω
  gx_purge_selected_cached_chars : ω → ω
  refcnt : ω → Nat → Int

/-- Call a routine that takes the context and returns a code. -/
def call {ω : Type} (fn : Fn) (f : pdf_context ω → Int × pdf_context ω) (s : State ω) :
    Int × State ω :=
  ((f s.ctx).1, ⟨(f s.ctx).2, s.trace ++ [⟨fn, s.ctx, (f s.ctx).1⟩]⟩)

/-- Call a routine that acts on the world only. -/
def wcall {ω : Type} (fn : Fn) (f : ω → ω) (s : State ω) : State ω :=
  ⟨{ s.ctx with world := f s.ctx.world }, s.trace ++ [⟨fn, s.ctx, 0⟩]⟩

/-- Write to the context without calling anything. -/
def upd {ω : Type} (f : pdf_context ω → pdf_context ω) (s : State ω) : State ω :=
  ⟨f s.ctx, s.trace⟩

/-! ## pdfi_init_file (ghostpdf.c lines 890-994) -/

/-- The label `exit:`: `pdfi_countdown(o); return code;`. -/
def init_exit {ω : Type} (col : Collab ω) (o : Option Nat) (code : Int) (s : State ω) :
    Option Int × State ω :=
  (some code, wcall (Fn.pdfi_countdown o) (col.pdfi_countdown o) s)

/-- Lines 963-993: the test of `ctx->Root`, the page tree, the trailer. -/
def init_finish {ω : Type} (col : Collab ω) (o : Option Nat) (s : State ω) :
    Option Int × State ω :=
  if s.ctx.Root = none then
    (some gs_error_syntaxerror, wcall Fn.dmprintf_no_catalog id s)
  else
    let r1 := call Fn.pdfi_read_Pages col.pdfi_read_Pages s
    if r1.1 < 0 then init_exit col o r1.1 r1.2
    else
      let r2 := call Fn.pdfi_doc_page_array_init col.pdfi_doc_page_array_init r1.2
      if r2.1 < 0 then init_exit col o r2.1 r2.2
      else
        let s2 := if r2.2.ctx.num_pages = 0 then wcall Fn.dmprintf_no_pages id r2.2 else r2.2
        let r3 := call Fn.pdfi_doc_trailer col.pdfi_doc_trailer s2
        if r3.1 < 0 then init_exit col o r3.1 r3.2
        else
          let r4 := call Fn.pdfi_read_OptionalRoot col.pdfi_read_OptionalRoot r3.2
          if r4.2.ctx.pdfinfo then
            let r5 := call Fn.pdfi_output_metadata col.pdfi_output_metadata r4.2
            init_exit col o r5.1 r5.2
          else init_exit col o r3.1 r4.2

/-- Lines 954-961, then `init_finish`. -/
def init_info {ω : Type} (col : Collab ω) (o : Option Nat) (s : State ω) :
    Option Int × State ω :=
  if s.ctx.Trailer ≠ none then
    let r := call Fn.pdfi_read_Info col.pdfi_read_Info s
    if r.1 < 0 ∧ r.1 ≠ gs_error_undefined then
      if r.2.ctx.pdfstoponerror then init_exit col o r.1 r.2
      else init_finish col o (wcall Fn.pdfi_clearstack col.pdfi_clearstack r.2)
    else init_finish col o r.2
  else init_finish col o s

/-- The three statements that discard the xref table before a retry:
`pdfi_countdown(ctx->xref_table); ctx->xref_table = NULL;
ctx->prefer_xrefstm = false;`, after `ctx->pdf_errors |= E_PDF_BADXREFSTREAM`. -/
def drop_xref {ω : Type} (col : Collab ω) (s : State ω) : State ω :=
  let s1 := upd (fun c => { c with pdf_errors := c.pdf_errors ||| E_PDF_BADXREFSTREAM }) s
  let s2 := wcall (Fn.pdfi_countdown s1.ctx.xref_table) (col.pdfi_countdown s1.ctx.xref_table) s1
  upd (fun c => { c with xref_table := none, prefer_xrefstm := false }) s2

/-- The label `read_root:` (lines 925-952) and what follows it.  Each arrival
at the label uses one unit of `fuel`; `none` is returned when it is used up. -/
def read_root {ω : Type} (col : Collab ω) (o : Option Nat) :
    Nat → State ω → Option Int × State ω
  | 0, s => (none, s)
  | fuel + 1, s =>
    if s.ctx.Trailer ≠ none then
      let r := call Fn.pdfi_read_Root col.pdfi_read_Root s
      if r.1 < 0 then
        if r.1 = gs_error_undefined ∧ r.2.ctx.is_hybrid = true ∧ r.2.ctx.prefer_xrefstm = true then
          let r2 := call Fn.pdfi_read_xref col.pdfi_read_xref (drop_xref col r.2)
          if r2.1 < 0 then
            init_exit col o r2.1
              (upd (fun c => { c with pdf_errors := c.pdf_errors ||| E_PDF_BADXREF }) r2.2)
          else
            let r3 := call Fn.pdfi_read_Root col.pdfi_read_Root r2.2
            if r3.1 < 0 then init_exit col o r3.1 r3.2
            else init_info col o r3.2
        else
          let r1 := call Fn.pdfi_repair_file col.pdfi_repair_file r.2
          if r1.1 < 0 then init_exit col o r.1 r1.2
          else read_root col o fuel r1.2
      else init_info col o r.2
    else init_info col o s

/-- The call `pdfi_dict_get(ctx, ctx->Trailer, "Encrypt", &o)` without the
object it stores in `o`: its code and the context afterwards. -/
def dict_get_code {ω : Type} (col : Collab ω) (c : pdf_context ω) : Int × pdf_context ω :=
  ((col.pdfi_dict_get_Encrypt c).1.1, (col.pdfi_dict_get_Encrypt c).2)

/-- Lines 914-923: the `/Encrypt` entry of the trailer, then `read_root`. -/
def init_encrypt {ω : Type} (col : Collab ω) (fuel : Nat) (s : State ω) :
    Option Int × State ω :=
  if s.ctx.Trailer ≠ none then
    let o := (col.pdfi_dict_get_Encrypt s.ctx).1.2
    let g := call Fn.pdfi_dict_get_Encrypt (dict_get_code col) s
    if g.1 < 0 ∧ g.1 ≠ gs_error_undefined then init_exit col o g.1 g.2
    else if g.1 = 0 then
      let r := call Fn.pdfi_initialise_Decryption col.pdfi_initialise_Decryption g.2
      if r.1 < 0 then init_exit col o r.1 r.2
      else read_root col o fuel r.2
    else read_root col o fuel g.2
  else read_root col none fuel s

/-- The function `pdfi_init_file`.  `fuel` bounds the number of arrivals at
`read_root:`; the result is `none` when the bound is reached. -/
def pdfi_init_file {ω : Type} (col : Collab ω) (fuel : Nat) (s : State ω) :
    Option Int × State ω :=
  let r := call Fn.pdfi_read_xref col.pdfi_read_xref s
  if r.1 < 0 then
    if r.2.ctx.is_hybrid then
      let r2 := call Fn.pdfi_read_xref col.pdfi_read_xref (drop_xref col r.2)
      if r2.1 < 0 then init_exit col none r2.1 r2.2
      else init_encrypt col fuel r2.2
    else
      init_exit col none r.1
        (upd (fun c => { c with pdf_errors := c.pdf_errors ||| E_PDF_BADXREF }) r.2)
  else init_encrypt col fuel r.2

/-! ## pdfi_process (ghostpdf.c lines 585-614) -/

/-- The label `exit:` of `pdfi_process`: `pdfi_report_errors(ctx); return code;`. -/
def process_exit {ω : Type} (col : Collab ω) (code : Int) (s : State ω) :
    Option Int × State ω :=
  (some code, wcall Fn.pdfi_report_errors col.pdfi_report_errors s)

/-- The `for` loop of `pdfi_process`, entered with loop variable `i` and the
current value of `code`.  The loop test reads `ctx->num_pages` afresh each
time, so the model counts iterations with `fuel`. -/
def process_loop {ω : Type} (col : Collab ω) :
    Nat → Nat → Int → State ω → Option Int × State ω
  | 0, _, _, s => (none, s)
  | fuel + 1, i, code, s =>
    if i < s.ctx.num_pages then
      if s.ctx.first_page ≠ 0 ∧ (i : Int) < s.ctx.first_page - 1 then
        process_loop col fuel (i + 1) code s
      else if s.ctx.last_page ≠ 0 ∧ (i : Int) > s.ctx.last_page - 1 then
        process_exit col code s
      else
        let r := if s.ctx.pdfinfo then
            call (Fn.pdfi_output_page_info i) (col.pdfi_output_page_info i) s
          else call (Fn.pdfi_page_render i) (col.pdfi_page_render i) s
        if r.1 < 0 ∧ r.2.ctx.pdfstoponerror = true then process_exit col r.1 r.2
        else process_loop col fuel (i + 1) 0 r.2
    else process_exit col code s

/-- The function `pdfi_process`; `code0` is the value the uninitialised local
`code` happens to hold. -/
def pdfi_process {ω : Type} (col : Collab ω) (fuel : Nat) (code0 : Int) (s : State ω) :
    Option Int × State ω :=
  process_loop col fuel 0 code0 s

/-! ## pdfi_close_pdf_file and pdfi_clear_context (lines 565-583, 1336-1506) -/

/-- The pattern `if (ctx->F) { pdfi_countdown(ctx->F); ctx->F = NULL; }`. -/
def release {ω : Type} (col : Collab ω) (get : pdf_context ω → Option Nat)
    (clr : pdf_context ω → pdf_context ω) (s : State ω) : State ω :=
  if get s.ctx ≠ none then
    upd clr (wcall (Fn.pdfi_countdown (get s.ctx)) (col.pdfi_countdown (get s.ctx)) s)
  else s

/-- The pattern `if (ctx->F) { gs_free_object(ctx->memory, ctx->F, ...);
ctx->F = NULL; }`. -/
def free_field {ω : Type} (col : Collab ω) (get : pdf_context ω → Option Nat)
    (clr : pdf_context ω → pdf_context ω) (s : State ω) : State ω :=
  if get s.ctx ≠ none then
    upd clr (wcall (Fn.gs_free_object (get s.ctx)) (col.gs_free_object (get s.ctx)) s)
  else s

/-- Lines 1353-1392 of `pdfi_clear_context`. -/
def clear_head {ω : Type} (col : Collab ω) (s : State ω) : State ω :=
  let s := free_field col (fun c => c.PageList) (fun c => { c with PageList := none }) s
  let s := release col (fun c => c.Trailer) (fun c => { c with Trailer := none }) s
  let s := release col (fun c => c.AcroForm) (fun c => { c with AcroForm := none }) s
  let s := release col (fun c => c.Root) (fun c => { c with Root := none }) s
  let s := release col (fun c => c.Info) (fun c => { c with Info := none }) s
  let s := release col (fun c => c.PagesTree) (fun c => { c with PagesTree := none }) s
  let s := wcall Fn.pdfi_doc_page_array_free col.pdfi_doc_page_array_free s
  let s := release col (fun c => c.xref_table) (fun c => { c with xref_table := none }) s
  let s := wcall Fn.pdfi_free_OptionalRoot col.pdfi_free_OptionalRoot s
  if s.ctx.stack_bot ≠ none then wcall Fn.pdfi_clearstack col.pdfi_clearstack s else s

/-- The loop of the build without `DEBUG_CACHE` (lines 1480-1489): every entry
is counted down and freed. -/
def cache_drain {ω : Type} (col : Collab ω) :
    List pdf_obj_cache_entry → State ω → State ω
  | [], s => s
  | e :: rest, s =>
    let s1 := wcall (Fn.pdfi_countdown (some e.o)) (col.pdfi_countdown (some e.o)) s
    let s2 := upd (fun c => { c with cache_entries := c.cache_entries - 1 }) s1
    let s3 := wcall (Fn.gs_free_object (some e.addr)) (col.gs_free_object (some e.addr)) s2
    cache_drain col rest (upd (fun c => { c with cache := rest }) s3)

/-- One execution of the inner `while (entry)` of the `DEBUG_CACHE` build
(lines 1445-1467).  `rest` are the entries still to visit, `kept` those
visited and left linked (so `entry->previous` is NULL exactly when `kept` is
empty), `stop` the flag of that name. -/
def sweep_pass {ω : Type} (col : Collab ω) :
    List pdf_obj_cache_entry → List pdf_obj_cache_entry → Bool → State ω →
      List pdf_obj_cache_entry × Bool × State ω
  | [], kept, stop, s => (kept, stop, s)
  | e :: rest, kept, stop, s =>
    if col.refcnt s.ctx.world e.o = 1 then
      let s1 := wcall (Fn.pdfi_countdown (some e.o)) (col.pdfi_countdown (some e.o)) s
      let s2 := if kept = [] then
          upd (fun c => { c with cache_LRU := (rest.head?).map (fun x => x.addr) }) s1
        else s1
      let s3 := upd (fun c => { c with cache_entries := c.cache_entries - 1,
                                       cache := kept ++ rest }) s2
      let s4 := wcall (Fn.gs_free_object (some e.addr)) (col.gs_free_object (some e.addr)) s3
      sweep_pass col rest kept false s4
    else sweep_pass col rest (kept ++ [e]) stop s

/-- The `do { ... } while (stop == false)` of the `DEBUG_CACHE` build (lines
1441-1468); returns the state and the number of passes made. -/
def cache_sweep {ω : Type} (col : Collab ω) : Nat → Nat → State ω → Option (Nat × State ω)
  | 0, _, _ => none
  | fuel + 1, n, s =>
    let r := sweep_pass col s.ctx.cache [] true s
    if r.2.1 then some (n + 1, r.2.2) else cache_sweep col fuel (n + 1) r.2.2

/-- Lines 1433-1493: the cache block, in the build selected by `debug_cache`
(the value of the macro `DEBUG_CACHE`). -/
def clear_cache {ω : Type} (col : Collab ω) (debug_cache : Bool) (s : State ω) :
    Option (State ω) :=
  if s.ctx.cache_entries ≠ 0 then
    let after : Option (State ω) :=
      if debug_cache then (cache_sweep col (s.ctx.cache.length + 1) 0 s).map (fun r => r.2)
      else some (cache_drain col s.ctx.cache s)
    after.map (upd (fun c => { c with cache_LRU := none, cache_MRU := none,
                                      cache_entries := 0, cache := [] }))
  else some s

/-- Lines 1401-1505 of `pdfi_clear_context`. -/
def clear_tail {ω : Type} (col : Collab ω) (debug_cache : Bool) (s : State ω) :
    Option (State ω) :=
  let s := match s.ctx.main_stream with
    | some ms => upd (fun c => { c with main_stream := none })
        (wcall (Fn.gs_free_object (some ms.addr)) (col.gs_free_object (some ms.addr)) s)
    | none => s
  let s := upd (fun c => { c with main_stream_length := 0 }) s
  let s := if s.ctx.pgs ≠ none then wcall Fn.pgs_cleanup col.pgs_cleanup s else s
  let s := wcall Fn.pdfi_free_DefaultQState col.pdfi_free_DefaultQState s
  let s := wcall Fn.pdfi_oc_free col.pdfi_oc_free s
  let s := release col (fun c => c.EKey) (fun c => { c with EKey := none }) s
  let s := free_field col (fun c => c.Password) (fun c => { c with Password := none }) s
  (clear_cache col debug_cache s).map fun s =>
    let s := if s.ctx.font_dir ≠ none then
        wcall Fn.gx_purge_selected_cached_chars col.gx_purge_selected_cached_chars s
      else s
    upd (fun c => { c with pdffontmap := none })
      (wcall (Fn.pdfi_countdown s.ctx.pdffontmap) (col.pdfi_countdown s.ctx.pdffontmap) s)

/-- The body of `pdfi_close_pdf_file`, given what its call of
`pdfi_clear_context` does. -/
def close_with {ω : Type} (col : Collab ω) (clear : State ω → Option (State ω))
    (s : State ω) : Option (State ω) :=
  let s := match s.ctx.main_stream with
    | some ms =>
      let s := match ms.s with
        | some p => wcall (Fn.sfclose p) (col.sfclose p) s
        | none => s
      upd (fun c => { c with main_stream := none })
        (wcall (Fn.gs_free_object (some ms.addr)) (col.gs_free_object (some ms.addr)) s)
    | none => s
  let s := upd (fun c => { c with main_stream_length := 0 }) s
  let s := free_field col (fun c => c.filename) (fun c => { c with filename := none }) s
  clear s

/-- The function `pdfi_clear_context`.  It and `pdfi_close_pdf_file` call each
other; `depth` bounds the nesting of these calls and `none` is returned when
the bound is reached. -/
def pdfi_clear_context {ω : Type} (col : Collab ω) (debug_cache : Bool) :
    Nat → State ω → Option (State ω)
  | 0, _ => none
  | depth + 1, s =>
    let s := clear_head col s
    let s' : Option (State ω) :=
      if s.ctx.filename ≠ none then
        (close_with col (pdfi_clear_context col debug_cache depth) s).map fun s =>
          upd (fun c => { c with filename := none })
            (wcall (Fn.gs_free_object s.ctx.filename) (col.gs_free_object s.ctx.filename) s)
      else some s
    s'.bind (clear_tail col debug_cache)

/-- The function `pdfi_close_pdf_file`. -/
def pdfi_close_pdf_file {ω : Type} (col : Collab ω) (debug_cache : Bool) (depth : Nat)
    (s : State ω) : Option (State ω) :=
  close_with col (pdfi_clear_context col debug_cache depth) s

/-! ## The name table (lines 456-559) -/

/-- The `while (e != NULL)` loop of `pdfi_get_name_index`: the index of the
first entry whose length and bytes are those of `name`, if there is one, and
the final value of the local `index`. -/
def name_search (name : List Nat) : List pdfi_name_entry_t → Int → Option Int × Int
  | [], index => (none, index)
  | e :: es, _ =>
    if e.name.length = name.length ∧ e.name = name then (some e.index, e.index)
    else name_search name es e.index

/-- The function `pdfi_get_name_index`: the code, the value stored through
`returned` and the table afterwards.  `alloc_entry` and `alloc_name` say
whether the two allocations succeed. -/
def pdfi_get_name_index (alloc_entry alloc_name : Bool) (name : List Nat)
    (t : List pdfi_name_entry_t) : Int × Option Int × List pdfi_name_entry_t :=
  match (name_search name t 0).1 with
  | some i => (0, some i, t)
  | none =>
    if !alloc_entry then (gs_error_VMerror, none, t)
    else if !alloc_name then (gs_error_VMerror, none, t)
    else (0, some ((name_search name t 0).2 + 1), t ++ [⟨name, (name_search name t 0).2 + 1⟩])

/-- The function `pdfi_name_from_index`: the code and, on success, the name
and its length. -/
def pdfi_name_from_index : List pdfi_name_entry_t → Int → Int × Option (List Nat × Nat)
  | [], _ => (gs_error_undefined, none)
  | e :: es, index =>
    if e.index = index then (0, some (e.name, e.name.length))
    else pdfi_name_from_index es index

/-- The function `pdfi_separation_name_from_index`; `client` is
`pgs->client_data`: `none` when it is NULL, `some none` when its `ctx` is
NULL, else the name table of that context. -/
def pdfi_separation_name_from_index (client : Option (Option (List pdfi_name_entry_t)))
    (index : Int) : Int × Option (List Nat × Nat) :=
  match client with
  | none => (gs_error_undefined, none)
  | some none => (gs_error_undefined, none)
  | some (some t) => pdfi_name_from_index t index

/-! ## pdfi_set_input_stream (lines 996-1166) -/

/-- What the surroundings supply to `pdfi_set_input_stream`: the buffer size
`BUF_SIZE`, the content of memory before anything is written, the addresses
returned by the two allocations (`none` for a failed one) and whether
`sscanf(.., "%f", ..)` converts a given text. -/
structure Env where
  BUF_SIZE : Nat
  wild : Mem
  alloc_stream : Option Nat
  alloc_buffer : Option Nat
  sscanf_f : List Nat → Bool

/-- Lines 1048-1071: the flags the header check adds to `ctx->pdf_errors`,
given the C string at the start of the buffer. -/
def header_flags (env : Env) (str : List Nat) : Nat :=
  match strstr pdf_marker str with
  | none => E_PDF_NOHEADER
  | some t => if env.sscanf_f (t.drop 5) then 0 else E_PDF_NOHEADERVERSION

/-- The backward scan as `pdfi_set_input_stream` starts it (lines 1030-1156):
the first read, the terminating NUL, then the loop, which is given
`file.length + 2` iterations. -/
def scan (env : Env) (file : List Nat) : Scan :=
  let Offset : Int := min ((env.BUF_SIZE : Int) - 1) file.length
  let r := pdfi_read_bytes file 0 (Offset % 2 ^ 32).toNat env.wild
  scan_loop file env.BUF_SIZE (file.length + 2) (r.2.store Offset 0) Offset Offset 0 []

/-- The function `pdfi_set_input_stream` on a stream `stm` whose content is
`file`; `fuel` is passed on to `pdfi_init_file`. -/
def pdfi_set_input_stream {ω : Type} (env : Env) (col : Collab ω) (fuel : Nat)
    (stm : Nat) (file : List Nat) (s : State ω) : Option Int × State ω :=
  match env.alloc_stream with
  | none => (some gs_error_VMerror, upd (fun c => { c with main_stream := none }) s)
  | some a =>
    let s := upd (fun c => { c with main_stream := some ⟨a, some stm⟩ }) s
    match env.alloc_buffer with
    | none => (some gs_error_VMerror, wcall (Fn.gs_free_object none) (col.gs_free_object none) s)
    | some b =>
      let s := upd (fun c => { c with main_stream_length := file.length }) s
      let Offset : Int := min ((env.BUF_SIZE : Int) - 1) file.length
      let r := pdfi_read_bytes file 0 (Offset % 2 ^ 32).toNat env.wild
      if r.1 < 8 then
        (some gs_error_ioerror, wcall (Fn.gs_free_object (some b)) (col.gs_free_object (some b)) s)
      else
        let m := r.2.store Offset 0
        let hf := header_flags env (cstring m 0 env.BUF_SIZE)
        let s := upd (fun c => { c with pdf_errors := c.pdf_errors ||| hf }) s
        match scan env file with
        | Scan.out_of_fuel => (none, s)
        | Scan.seek_error _ _ =>
          (some gs_error_ioerror,
            wcall (Fn.gs_free_object (some b)) (col.gs_free_object (some b)) s)
        | Scan.ioerror _ =>
          (some gs_error_ioerror,
            wcall (Fn.gs_free_object (some b)) (col.gs_free_object (some b)) s)
        | Scan.done found sx _ =>
          let s := upd (fun c => { c with startxref := sx.getD c.startxref }) s
          let s := if found then s
            else upd (fun c => { c with pdf_errors := c.pdf_errors ||| E_PDF_NOSTARTXREF }) s
          let r := pdfi_init_file col fuel s
          (r.1, wcall (Fn.gs_free_object (some b)) (col.gs_free_object (some b)) r.2)

/-- The table after interning `names` in order, every allocation succeeding. -/
def intern_all (t : List pdfi_name_entry_t) (names : List (List Nat)) : List pdfi_name_entry_t :=
  names.foldl (fun t n => (pdfi_get_name_index true true n t).2.2) t

/-- The table after a sequence of calls, each with its own allocation outcomes. -/
def name_calls (t : List pdfi_name_entry_t) (calls : List (Bool × Bool × List Nat)) :
    List pdfi_name_entry_t :=
  calls.foldl (fun t c => (pdfi_get_name_index c.1 c.2.1 c.2.2 t).2.2) t

/-- Indices continue `k + 1, k + 2, ...` in list order. -/
def indexed_from : Int → List pdfi_name_entry_t → Prop
  | _, [] => True
  | k, e :: es => e.index = k + 1 ∧ indexed_from (k + 1) es

/-- What `pdfi_get_name_index` keeps true of a table: indices 1, 2, ... in
order and pairwise distinct names. -/
def name_table_inv (t : List pdfi_name_entry_t) : Prop :=
  indexed_from 0 t ∧ (t.map (fun e => e.name)).Nodup

/-- The routines that take the context, as `pdfi_init_file` and
`pdfi_process` call them: each with the name it is logged under. -/
def is_col {ω : Type} (col : Collab ω) (fn : Fn) (f : pdf_context ω → Int × pdf_context ω) :
    Prop :=
  (fn = Fn.pdfi_read_xref ∧ f = col.pdfi_read_xref) ∨
  (fn = Fn.pdfi_read_Root ∧ f = col.pdfi_read_Root) ∨
  (fn = Fn.pdfi_repair_file ∧ f = col.pdfi_repair_file) ∨
  (fn = Fn.pdfi_dict_get_Encrypt ∧ f = dict_get_code col) ∨
  (fn = Fn.pdfi_initialise_Decryption ∧ f = col.pdfi_initialise_Decryption) ∨
  (fn = Fn.pdfi_read_Info ∧ f = col.pdfi_read_Info) ∨
  (fn = Fn.pdfi_read_Pages ∧ f = col.pdfi_read_Pages) ∨
  (fn = Fn.pdfi_doc_page_array_init ∧ f = col.pdfi_doc_page_array_init) ∨
  (fn = Fn.pdfi_doc_trailer ∧ f = col.pdfi_doc_trailer) ∨
  (fn = Fn.pdfi_read_OptionalRoot ∧ f = col.pdfi_read_OptionalRoot) ∨
  (fn = Fn.pdfi_output_metadata ∧ f = col.pdfi_output_metadata)

/-- The routines and messages that `pdfi_init_file` logs without passing the
context: releases, the stack reset and the two messages. -/
def is_wfn : Fn → Prop
  | Fn.pdfi_countdown _ => True
  | Fn.pdfi_clearstack => True
  | Fn.dmprintf_no_catalog => True
  | Fn.dmprintf_no_pages => True
  | _ => False

/-- A property of states that every step of `pdfi_init_file` other than a call
of `pdfi_read_xref` keeps: calls of the other routines, releases, and the
recording of an error flag. -/
structure Closed {ω : Type} (col : Collab ω) (P : State ω → Prop) : Prop where
  hcall : ∀ fn f s, fn ≠ Fn.pdfi_read_xref → is_col col fn f → P s → P (call fn f s).2
  hw : ∀ fn f s, is_wfn fn → P s → P (wcall fn f s)
  herr : ∀ e s, P s → P (upd (fun c => { c with pdf_errors := c.pdf_errors ||| e }) s)

/-- The logged calls of `pdfi_read_xref`, in order. -/
def xref_calls {ω : Type} (tr : List (Event ω)) : List (Event ω) :=
  tr.filter (fun e => decide (e.fn = Fn.pdfi_read_xref))

/-- The values of `ctx->prefer_xrefstm` along a run: at each logged call, then
now. -/
def prefer_seq {ω : Type} (s : State ω) : List Bool :=
  s.trace.map (fun e => e.before.prefer_xrefstm) ++ [s.ctx.prefer_xrefstm]

/-- No routine that takes the context sets `prefer_xrefstm`: each leaves a
false flag false. -/
def keeps_prefer {ω : Type} (col : Collab ω) : Prop :=
  ∀ fn f, is_col col fn f → ∀ c : pdf_context ω,
    c.prefer_xrefstm = false → (f c).2.prefer_xrefstm = false

/-- Every call of `pdfi_read_xref` after the first is made with
`prefer_xrefstm` false and the xref table discarded. -/
def retries_classic {ω : Type} (s : State ω) : Prop :=
  ∀ e ∈ (xref_calls s.trace).tail, e.before.prefer_xrefstm = false ∧ e.before.xref_table = none

/-- At most two calls of `pdfi_read_xref` so far, at most one while
`prefer_xrefstm` is still set, and `prefer_xrefstm` never went from false to
true. -/
def xref_bounded {ω : Type} (s : State ω) : Prop :=
  (xref_calls s.trace).length ≤ 2 ∧
  (s.ctx.prefer_xrefstm = true → (xref_calls s.trace).length ≤ 1) ∧
  (prefer_seq s).Chain' (fun x y => x = false → y = false)

/-- A fixed list of events is the beginning of the log. -/
def starts_with {ω : Type} (pre : List (Event ω)) (s : State ω) : Prop := pre <+: s.trace

/-- The state after the first `pdfi_read_xref` of `pdfi_init_file` entered
with context `ctx` and an empty log. -/
def after_first {ω : Type} (col : Collab ω) (ctx : pdf_context ω) : State ω :=
  (call Fn.pdfi_read_xref col.pdfi_read_xref ⟨ctx, []⟩).2

/-- The state after the retry of lines 901-905: the xref table discarded,
`pdfi_read_xref` called again. -/
def after_retry {ω : Type} (col : Collab ω) (ctx : pdf_context ω) : State ω :=
  (call Fn.pdfi_read_xref col.pdfi_read_xref (drop_xref col (after_first col ctx))).2

/-- The routines called from line 954 on. -/
def is_tail_fn : Fn → Prop
  | Fn.pdfi_read_Info => True
  | Fn.pdfi_read_Pages => True
  | Fn.pdfi_doc_page_array_init => True
  | Fn.pdfi_doc_trailer => True
  | Fn.pdfi_read_OptionalRoot => True
  | Fn.pdfi_output_metadata => True
  | _ => False

/-- The routines called from line 963 on, after the test of `ctx->Root`. -/
def is_page_fn : Fn → Prop
  | Fn.pdfi_read_Pages => True
  | Fn.pdfi_doc_page_array_init => True
  | Fn.pdfi_doc_trailer => True
  | Fn.pdfi_read_OptionalRoot => True
  | Fn.pdfi_output_metadata => True
  | _ => False

/-- The routines called from the label `read_root:` on, `pdfi_read_xref`
apart. -/
def is_root_fn : Fn → Prop
  | Fn.pdfi_read_Root => True
  | Fn.pdfi_repair_file => True
  | fn => is_tail_fn fn

/-- The routines called from line 914 on, `pdfi_read_xref` apart. -/
def is_enc_fn : Fn → Prop
  | Fn.pdfi_dict_get_Encrypt => True
  | Fn.pdfi_initialise_Decryption => True
  | fn => is_root_fn fn

/-- A property of states kept by calls of the routines in `A`, by releases
and messages, and by the recording of an error flag. -/
structure ClosedOn {ω : Type} (col : Collab ω) (A : Fn → Prop) (P : State ω → Prop) :
    Prop where
  hcall : ∀ fn f s, A fn → is_col col fn f → P s → P (call fn f s).2
  hw : ∀ fn f s, is_wfn fn → P s → P (wcall fn f s)
  herr : ∀ e s, P s → P (upd (fun c => { c with pdf_errors := c.pdf_errors ||| e }) s)

/-- A context for examples: every pointer NULL, every flag clear except
`prefer_xrefstm` (as `pdfi_create_context` sets it); the world is a counter. -/
def ctx0 : pdf_context Nat :=
  { pdfstoponerror := false, pdfinfo := false, first_page := 0, last_page := 0,
    PageList := none, main_stream := none, main_stream_length := 0, filename := none,
    startxref := 0, pdf_errors := 0, pdf_warnings := 0, is_hybrid := false,
    prefer_xrefstm := true, xref_table := none, Trailer := none, Root := none, Info := none,
    PagesTree := none, AcroForm := none, num_pages := 0, stack_bot := none, pgs := none,
    EKey := none, Password := none, cache_entries := 0, cache_LRU := none, cache_MRU := none,
    cache := [], font_dir := none, pdffontmap := none, name_table := [], world := 0 }

/-- Routines for examples: a well-behaved document.  `pdfi_read_xref` finds a
table and a trailer, the trailer has no `/Encrypt`, `pdfi_read_Root` finds the
catalog, everything else succeeds without touching the context. -/
def col0 : Collab Nat :=
  { pdfi_read_xref := fun c => (0, { c with xref_table := some 1, Trailer := some 2 }),
    pdfi_read_Root := fun c => (0, { c with Root := some 3 }),
    pdfi_repair_file := fun c => (0, c),
    pdfi_dict_get_Encrypt := fun c => ((gs_error_undefined, none), c),
    pdfi_initialise_Decryption := fun c => (0, c),
    pdfi_read_Info := fun c => (0, c),
    pdfi_read_Pages := fun c => (0, c),
    pdfi_doc_page_array_init := fun c => (0, { c with num_pages := 3 }),
    pdfi_doc_trailer := fun c => (0, c),
    pdfi_read_OptionalRoot := fun c => (0, c),
    pdfi_output_metadata := fun c => (0, c),
    pdfi_page_render := fun _ c => (0, c),
    pdfi_output_page_info := fun _ c => (0, c),
    pdfi_report_errors := id,
    pdfi_clearstack := id,
    pdfi_countdown := fun _ => id,
    gs_free_object := fun _ => id,
    sfclose := fun _ => id,
    pdfi_doc_page_array_free := id,
    pdfi_free_OptionalRoot := id,
    pgs_cleanup := id,
    pdfi_free_DefaultQState := id,
    pdfi_oc_free := id,
    gx_purge_selected_cached_chars := id,
    refcnt := fun _ _ => 1 }

/-- Routines for examples: a hybrid file whose cross-reference stream is
unreadable and whose classic table is fine: `pdfi_read_xref` fails while
`prefer_xrefstm` is set and succeeds once it is clear. -/
def col_hybrid_ok : Collab Nat :=
  { col0 with pdfi_read_xref := fun c =>
      if c.prefer_xrefstm then (-1, { c with is_hybrid := true })
      else (0, { c with xref_table := some 1, Trailer := some 2 }) }

/-- Routines for examples: `pdfi_read_xref` fails and the file is not
hybrid. -/
def col_badxref : Collab Nat :=
  { col0 with pdfi_read_xref := fun c => (-1, c) }

/-- Routines for examples: a hybrid file both of whose cross-reference
sections are unreadable. -/
def col_hybrid_bad : Collab Nat :=
  { col0 with pdfi_read_xref := fun c => (-1, { c with is_hybrid := true }) }

/-- The names of the routines logged, in order. -/
def fns {ω : Type} (tr : List (Event ω)) : List Fn := tr.map (fun e => e.fn)

/-- Number of logged calls of `pdfi_repair_file`. -/
def repairs {ω : Type} (tr : List (Event ω)) : Nat :=
  tr.countP (fun e => decide (e.fn = Fn.pdfi_repair_file))

/-- Number of logged calls of `pdfi_repair_file` that succeeded. -/
def ok_repairs {ω : Type} (tr : List (Event ω)) : Nat :=
  tr.countP (fun e => decide (e.fn = Fn.pdfi_repair_file ∧ 0 ≤ e.code))

/-- Routines for examples: the catalog cannot be read although every repair
reports success. -/
def col_loop : Collab Nat :=
  { col0 with pdfi_read_Root := fun c => (-1, c) }

/-- The numbers of repairs logged are `k` and `m`. -/
def repair_counts {ω : Type} (k m : Nat) (s : State ω) : Prop :=
  repairs s.trace = k ∧ ok_repairs s.trace = m

/-- Page `i` (counted from 0) lies in the range chosen by `first_page` and
`last_page` (0 meaning no limit): the loop neither skips nor stops at it. -/
def sel_pred (first_page last_page : Int) (i : Nat) : Bool :=
  decide ((first_page = 0 ∨ first_page - 1 ≤ (i : Int)) ∧
    (last_page = 0 ∨ (i : Int) ≤ last_page - 1))

/-- The pages of the selected range from page `i` on, of `n` pages. -/
def sel_from (n : Nat) (first_page last_page : Int) (i : Nat) : List Nat :=
  (List.range' i (n - i)).filter (sel_pred first_page last_page)

/-- The pages of the selected range, in order. -/
def selected {ω : Type} (ctx : pdf_context ω) : List Nat :=
  (List.range ctx.num_pages).filter (sel_pred ctx.first_page ctx.last_page)

/-- The routine `pdfi_process` calls for page `i`. -/
def page_fn (pdfinfo : Bool) (i : Nat) : Fn :=
  if pdfinfo then Fn.pdfi_output_page_info i else Fn.pdfi_page_render i

/-- Neither page routine changes the page count or the processing
arguments. -/
def keeps_args {ω : Type} (col : Collab ω) : Prop :=
  ∀ (f : Nat → pdf_context ω → Int × pdf_context ω),
    (f = col.pdfi_page_render ∨ f = col.pdfi_output_page_info) →
    ∀ i (c : pdf_context ω),
      (f i c).2.num_pages = c.num_pages ∧ (f i c).2.first_page = c.first_page ∧
      (f i c).2.last_page = c.last_page ∧ (f i c).2.pdfinfo = c.pdfinfo ∧
      (f i c).2.pdfstoponerror = c.pdfstoponerror

/-- What a run of the page loop did, seen from page `i` on: `P` lists the
pages processed with the codes returned, `res` is the result and `code` the
value of the local `code` on entry. -/
def loop_outcome (stop : Bool) (sel : List Nat) (code : Int) (P : List (Nat × Int))
    (res : Option Int) : Prop :=
  P.map Prod.fst <+: sel ∧
  (stop = false → P.map Prod.fst = sel ∧ res = some (if sel = [] then code else 0)) ∧
  (stop = true → (∀ p ∈ P.dropLast, 0 ≤ p.2) ∧
    ((∃ p, P.getLast? = some p ∧ p.2 < 0 ∧ res = some p.2) ∨
     ((∀ p ∈ P, 0 ≤ p.2) ∧ P.map Prod.fst = sel ∧ res = some (if sel = [] then code else 0))))

/-- The call `pdfi_process` makes for page `i`. -/
def page_call {ω : Type} (col : Collab ω) (i : Nat) (s : State ω) : Int × State ω :=
  if s.ctx.pdfinfo then
    call (Fn.pdfi_output_page_info i) (col.pdfi_output_page_info i) s
  else call (Fn.pdfi_page_render i) (col.pdfi_page_render i) s

/-- Routines for examples: page 1 (the second page) fails to render. -/
def col_pagefail : Collab Nat :=
  { col0 with pdfi_page_render := fun i c => (if i = 1 then -1 else 0, c) }

/-- A context for examples: a document of three pages. -/
def ctx_pages : pdf_context Nat := { ctx0 with num_pages := 3 }

/-- The context `c'` is `F c` up to the world: the step wrote the fields `F`
writes and let routines act on the world. -/
def ctx_step {ω : Type} (F : pdf_context ω → pdf_context ω) (c c' : pdf_context ω) : Prop :=
  ∃ w, c' = { F c with world := w }

/-- The writes `F` do not depend on the world and leave it alone. -/
def world_free {ω : Type} (F : pdf_context ω → pdf_context ω) : Prop :=
  ∀ c w, F { c with world := w } = { F c with world := w }

/-- What `clear_head` writes. -/
def head_ctx {ω : Type} (c : pdf_context ω) : pdf_context ω :=
  { c with PageList := none, Trailer := none, AcroForm := none, Root := none, Info := none,
           PagesTree := none, xref_table := none }

/-- The context `c'` differs from `c` at most in the cache fields and the
world. -/
def cache_frame {ω : Type} (c c' : pdf_context ω) : Prop :=
  ∃ a e l w, c' = { c with cache_LRU := a, cache_entries := e, cache := l, world := w }

/-- What the sweep logs: only releases and frees, each made while
`cache_entries` is the number of linked entries, every release being that of
an object whose reference count is 1. -/
def sweep_ev {ω : Type} (col : Collab ω) (ev : Event ω) : Prop :=
  ev.before.cache_entries = ev.before.cache.length ∧
  ((∃ o, ev.fn = Fn.pdfi_countdown (some o) ∧ col.refcnt ev.before.world o = 1) ∨
   (∃ a, ev.fn = Fn.gs_free_object (some a)))

/-- The removal of entry `e` in the sweep, up to the unlinking (lines
1455-1463): the state before `gs_free_object`. -/
def sweep_unlink {ω : Type} (col : Collab ω) (e : pdf_obj_cache_entry)
    (kept rest : List pdf_obj_cache_entry) (s : State ω) : State ω :=
  let s1 := wcall (Fn.pdfi_countdown (some e.o)) (col.pdfi_countdown (some e.o)) s
  let s2 := if kept = [] then
      upd (fun c => { c with cache_LRU := (rest.head?).map (fun x => x.addr) }) s1
    else s1
  upd (fun c => { c with cache_entries := c.cache_entries - 1, cache := kept ++ rest }) s2

/-- The removal of entry `e` in the sweep (lines 1455-1464): the state after
it. -/
def sweep_remove {ω : Type} (col : Collab ω) (e : pdf_obj_cache_entry)
    (kept rest : List pdf_obj_cache_entry) (s : State ω) : State ω :=
  wcall (Fn.gs_free_object (some e.addr)) (col.gs_free_object (some e.addr))
    (sweep_unlink col e kept rest s)

/-- The cache list is well formed: `cache_entries` counts the linked entries
and `cache_LRU`, `cache_MRU` point to the first and the last of them (both
NULL for an empty list). -/
def cache_wf {ω : Type} (c : pdf_context ω) : Prop :=
  c.cache_entries = (c.cache.length : Int) ∧
  c.cache_LRU = (c.cache.head?).map (fun e => e.addr) ∧
  c.cache_MRU = (c.cache.getLast?).map (fun e => e.addr)

/-- What the cache block writes when it runs. -/
def wipe_cache {ω : Type} (c : pdf_context ω) : pdf_context ω :=
  { c with cache_LRU := none, cache_MRU := none, cache_entries := 0, cache := [] }

/-- Lines 567-573 of `pdfi_close_pdf_file`: the main stream is closed and
freed. -/
def close_stream {ω : Type} (col : Collab ω) (s : State ω) : State ω :=
  match s.ctx.main_stream with
  | some ms =>
    let s := match ms.s with
      | some p => wcall (Fn.sfclose p) (col.sfclose p) s
      | none => s
    upd (fun c => { c with main_stream := none })
      (wcall (Fn.gs_free_object (some ms.addr)) (col.gs_free_object (some ms.addr)) s)
  | none => s

/-- Lines 567-579 of `pdfi_close_pdf_file`: everything before its call of
`pdfi_clear_context`. -/
def close_pre {ω : Type} (col : Collab ω) (s : State ω) : State ω :=
  free_field col (fun c => c.filename) (fun c => { c with filename := none })
    (upd (fun c => { c with main_stream_length := 0 }) (close_stream col s))

/-- What `close_pre` writes. -/
def close_ctx {ω : Type} (c : pdf_context ω) : pdf_context ω :=
  { c with main_stream := none, main_stream_length := 0, filename := none }

/-- Lines 1401-1404 of `pdfi_clear_context`: a main stream still there is
freed. -/
def tail_stream {ω : Type} (col : Collab ω) (s : State ω) : State ω :=
  match s.ctx.main_stream with
  | some ms => upd (fun c => { c with main_stream := none })
      (wcall (Fn.gs_free_object (some ms.addr)) (col.gs_free_object (some ms.addr)) s)
  | none => s

/-- Lines 1401-1431 of `pdfi_clear_context`: what comes before the cache
block. -/
def tail_pre {ω : Type} (col : Collab ω) (s : State ω) : State ω :=
  let s := tail_stream col s
  let s := upd (fun c => { c with main_stream_length := 0 }) s
  let s := if s.ctx.pgs ≠ none then wcall Fn.pgs_cleanup col.pgs_cleanup s else s
  let s := wcall Fn.pdfi_free_DefaultQState col.pdfi_free_DefaultQState s
  let s := wcall Fn.pdfi_oc_free col.pdfi_oc_free s
  let s := release col (fun c => c.EKey) (fun c => { c with EKey := none }) s
  free_field col (fun c => c.Password) (fun c => { c with Password := none }) s

/-- Lines 1495-1503 of `pdfi_clear_context`: what comes after the cache
block. -/
def tail_post {ω : Type} (col : Collab ω) (s : State ω) : State ω :=
  let s := if s.ctx.font_dir ≠ none then
      wcall Fn.gx_purge_selected_cached_chars col.gx_purge_selected_cached_chars s
    else s
  upd (fun c => { c with pdffontmap := none })
    (wcall (Fn.pdfi_countdown s.ctx.pdffontmap) (col.pdfi_countdown s.ctx.pdffontmap) s)

/-- What `tail_pre` writes. -/
def pre_ctx {ω : Type} (c : pdf_context ω) : pdf_context ω :=
  { c with main_stream := none, main_stream_length := 0, EKey := none, Password := none }

/-- What `clear_tail` writes to a context with a well-formed cache. -/
def tail_ctx {ω : Type} (c : pdf_context ω) : pdf_context ω :=
  { c with main_stream := none, main_stream_length := 0, EKey := none, Password := none,
           cache_LRU := none, cache_MRU := none, cache_entries := 0, cache := [],
           pdffontmap := none }

/-- The state of a context after teardown: no cache, no per-document
reference, no stream, no file name. -/
structure cleared {ω : Type} (c : pdf_context ω) : Prop where
  entries : c.cache_entries = 0
  lru : c.cache_LRU = none
  mru : c.cache_MRU = none
  cache : c.cache = []
  trailer : c.Trailer = none
  root : c.Root = none
  info : c.Info = none
  pages : c.PagesTree = none
  acroform : c.AcroForm = none
  xref : c.xref_table = none
  stream : c.main_stream = none
  name : c.filename = none
  length : c.main_stream_length = 0

/-- The diagnostic masks of `c'` are those of `c`. -/
def same_diag {ω : Type} (c c' : pdf_context ω) : Prop :=
  c'.pdf_errors = c.pdf_errors ∧ c'.pdf_warnings = c.pdf_warnings

/-- Value `E_PDF_NOERROR` of the error mask (ghostpdf.h): no bit set. -/
def E_PDF_NOERROR : Nat := 0
/-- Value `W_PDF_NOWARNING` of the warning mask (ghostpdf.h): no bit set. -/
def W_PDF_NOWARNING : Nat := 0

/-- A context for examples: an open document (stream 10 on file 11, file
name 12) whose scan found no `startxref`, with cross-reference table 1,
trailer 2, catalog 3 and two cached objects, 30 (entry 20) and 31 (entry
21). -/
def ctx_open : pdf_context Nat :=
  { ctx0 with main_stream := some ⟨10, some 11⟩, main_stream_length := 100, filename := some 12,
              pdf_errors := E_PDF_NOSTARTXREF, pdf_warnings := 1, xref_table := some 1,
              Trailer := some 2, Root := some 3, cache_entries := 2, cache_LRU := some 20,
              cache_MRU := some 21, cache := [⟨20, 30⟩, ⟨21, 31⟩] }

/-- Routines for examples: object 30 is held by the cache and by one other
owner, every other object by the cache alone. -/
def col_held : Collab Nat :=
  { col0 with refcnt := fun _ o => if o = 30 then 2 else 1 }

/-- The passes a scan outcome records. -/
def scan_passes : Scan → List Pass
  | Scan.seek_error _ ps => ps
  | Scan.ioerror ps => ps
  | Scan.done _ _ ps => ps
  | Scan.out_of_fuel => []

/-- A pass whose seek target is a position inside a file of `len` bytes. -/
def seek_inside (len : Int) (p : Pass) : Prop := 0 ≤ p.seek ∧ p.seek < len

/-- The outcome is one of the loop's own exits: not a failed seek, and not
the model running out of iterations. -/
def scan_ended : Scan → Prop
  | Scan.seek_error _ _ => False
  | Scan.ioerror _ => True
  | Scan.done _ _ _ => True
  | Scan.out_of_fuel => False

/-- The number of bytes the read of a pass delivers (line 1092). -/
def pass_got (file : List Nat) (m : Mem) (bytes Offset : Int) : Nat :=
  (pdfi_read_bytes file ((file.length : Int) - Offset).toNat (bytes % 2 ^ 32).toNat m).1

/-- The buffer as the inner loop of a pass finds it: after the read and the
closing of a gap (lines 1092-1110). -/
def pass_mem (file : List Nat) (m : Mem) (bytes Offset leftover : Int) : Mem :=
  if bytes ≠ (pass_got file m bytes Offset : Int) ∧ leftover ≠ 0 then
    memcpy (pdfi_read_bytes file ((file.length : Int) - Offset).toNat (bytes % 2 ^ 32).toNat m).2
      (pass_got file m bytes Offset) bytes leftover
  else (pdfi_read_bytes file ((file.length : Int) - Offset).toNat (bytes % 2 ^ 32).toNat m).2

/-- The result of the inner loop of a pass (lines 1119-1129). -/
def pass_search (file : List Nat) (m : Mem) (bytes Offset leftover : Int) :
    Bool × Nat × Option Int :=
  search_back (pass_mem file m bytes Offset leftover)
    (((pass_got file m bytes Offset : Int) + leftover) % 2 ^ 32).toNat none

/-- The record of a pass that got past its read. -/
def pass_of (file : List Nat) (m : Mem) (bytes Offset leftover : Int) : Pass :=
  ⟨(file.length : Int) - Offset, bytes, pass_got file m bytes Offset,
    (pass_got file m bytes Offset : Int) + leftover, (pass_search file m bytes Offset leftover).2.1⟩

/-- The value `last_lineend` has after an inner loop that ran down to
`read = 0`: the place just after the lowest line terminator of
`Buffer[0 .. n)`, when there is one. -/
def first_lineend (m : Mem) : Nat → Option Int → Option Int
  | 0, le => le
  | r + 1, le =>
    first_lineend m r
      (if m (r : Int) == 0x0a || m (r : Int) == 0x0d then some ((r + 1 : Nat) : Int) else le)

/-- A file without the keyword: `B` letters `a` and one line feed. -/
def long_line (B : Nat) : List Nat := List.replicate B 97 ++ [10]

/-- The state of `pdfi_set_input_stream` when the backward scan starts (line
1073): stream and length recorded, header flags added. -/
def after_header {ω : Type} (env : Env) (a stm : Nat) (file : List Nat) (s : State ω) : State ω :=
  let Offset : Int := min ((env.BUF_SIZE : Int) - 1) file.length
  let r := pdfi_read_bytes file 0 (Offset % 2 ^ 32).toNat env.wild
  let hf := header_flags env (cstring (r.2.store Offset 0) 0 env.BUF_SIZE)
  upd (fun c => { c with pdf_errors := c.pdf_errors ||| hf })
    (upd (fun c => { c with main_stream_length := file.length })
      (upd (fun c => { c with main_stream := some ⟨a, some stm⟩ }) s))

/-- The state handed to `pdfi_init_file` after a scan that ended with `found`
and the conversion result `sx` (lines 1130-1160). -/
def after_scan {ω : Type} (env : Env) (a stm : Nat) (file : List Nat) (found : Bool)
    (sx : Option Int) (s : State ω) : State ω :=
  let s1 := upd (fun c => { c with startxref := sx.getD c.startxref }) (after_header env a stm file s)
  if found then s1
  else upd (fun c => { c with pdf_errors := c.pdf_errors ||| E_PDF_NOSTARTXREF }) s1

/-- Surroundings for examples: a buffer of 2048 bytes in zeroed memory, both
allocations succeed (stream at 1, buffer at 2), every version text converts. -/
def env0 : Env := ⟨2048, fun _ => 0, some 1, some 2, fun _ => true⟩

/-- A small file for examples: a header, a `startxref` section and the end
marker. -/
def small_pdf : List Nat :=
  [37, 80, 68, 70, 45, 49, 46, 52, 10] ++ startxref_kw ++ [10, 57, 10, 37, 37, 69, 79, 70, 10]

/-- The buffer holds the list `L` from its start. -/
def holds (m : Mem) (L : List Nat) : Prop := ∀ j : Nat, j < L.length → m (j : Int) = L.getD j 0

/-- The buffer as the scan loop is entered (lines 1037-1080): the first
`Offset` bytes of the file, then a NUL. -/
def scan_start (env : Env) (file : List Nat) : Mem :=
  (pdfi_read_bytes file 0
    ((min ((env.BUF_SIZE : Int) - 1) file.length) % 2 ^ 32).toNat env.wild).2.store
      (min ((env.BUF_SIZE : Int) - 1) file.length) 0

/-- The number of bytes in the first block: `min(BUF_SIZE - 1, length)`. -/
def first_block (env : Env) (file : List Nat) : Nat := min (env.BUF_SIZE - 1) file.length

/-- The buffer as the inner loop of the first pass finds it. -/
def first_mem (env : Env) (file : List Nat) : Mem :=
  pass_mem file (scan_start env file) (first_block env file) (first_block env file) 0

/-- The text `xref`, line feed, `1234`, line feed, `%%EOF`, line feed. -/
def xref_tail : List Nat := [120, 114, 101, 102, 10, 49, 50, 51, 52, 10, 37, 37, 69, 79, 70, 10]

/-- What precedes the last block of `straddle B`: seven letters `a`, a line
feed, `B - 12` letters `a` and the text `start`. -/
def straddle_head (B : Nat) : List Nat :=
  List.replicate 7 97 ++ ([10] ++ List.replicate (B - 12) 97 ++ [115, 116, 97, 114, 116])

/-- A file of `2 * B` bytes whose `startxref` keyword straddles the start of
the last block of `B - 1` bytes: that block begins with `xref`. -/
def straddle (B : Nat) : List Nat :=
  straddle_head B ++ (xref_tail ++ List.replicate (B - 17) 97)

/-- A file for examples: one NUL byte, then `small_pdf`. -/
def nul_pdf : List Nat := 0 :: small_pdf

/-- The values of `read` at which the inner loop `while (read)` calls
`memcmp(Buffer + read - 9, "startxref", 9)`, in order: the loop leaves at the
first match. -/
def search_reads (m : Mem) : Nat → List Nat
  | 0 => []
  | read + 1 =>
    (read + 1) ::
      (if memcmp_eq m (((read + 1 : Nat) : Int) - 9) startxref_kw then [] else search_reads m read)

/-- A file for examples: `xref`, line feed, `9`, line feed, `%%EOF`, line
feed.  It does not hold the keyword `startxref`. -/
def xref_only : List Nat := [120, 114, 101, 102, 10, 57, 10, 37, 37, 69, 79, 70, 10]

/-- Surroundings for examples: as `env0`, but the five bytes just below the
buffer hold the text `start`. -/
def env_start : Env :=
  { env0 with wild := fun j =>
      if j = -5 then 115 else if j = -4 then 116 else if j = -3 then 97
      else if j = -2 then 114 else if j = -1 then 116 else 0 }

/-- The state `stream_1248_state`, with the fields the code uses (gdevpsds.h
holds its declaration). -/
structure stream_1248_state where
  samples_per_row : Nat
  bits_per_sample : Nat
  left : Nat
  deriving DecidableEq, Repr

/-- The function `s_1_init`. -/
def s_1_init (ss : stream_1248_state) : stream_1248_state :=
  { ss with left := ss.samples_per_row, bits_per_sample := 1 }

/-- The function `s_2_init`. -/
def s_2_init (ss : stream_1248_state) : stream_1248_state :=
  { ss with left := ss.samples_per_row, bits_per_sample := 2 }

/-- The function `s_4_init`. -/
def s_4_init (ss : stream_1248_state) : stream_1248_state :=
  { ss with left := ss.samples_per_row, bits_per_sample := 4 }

/-- The conversion `(byte) -v`. -/
def neg_byte (v : Nat) : Nat := (256 - v % 256) % 256

/-- What the case label `j` of the 1-bit expansion stores in `q[j]`. -/
def expand_1 (inb j : Nat) : Nat :=
  match j with
  | 8 => neg_byte (inb &&& 1)
  | 7 => neg_byte ((inb >>> 1) &&& 1)
  | 6 => neg_byte ((inb >>> 2) &&& 1)
  | 5 => neg_byte ((inb >>> 3) &&& 1)
  | 4 => neg_byte ((inb >>> 4) &&& 1)
  | 3 => neg_byte ((inb >>> 5) &&& 1)
  | 2 => neg_byte ((inb >>> 6) &&& 1)
  | 1 => neg_byte (inb >>> 7)
  | _ => 0

/-- The table `b2`. -/
def b2 : List Nat := [0x00, 0x55, 0xaa, 0xff]

/-- What the case label `j` of the 2-bit expansion stores in `q[j]`. -/
def expand_2 (inb j : Nat) : Nat :=
  match j with
  | 4 => b2.getD (inb &&& 3) 0
  | 3 => b2.getD ((inb >>> 2) &&& 3) 0
  | 2 => b2.getD ((inb >>> 4) &&& 3) 0
  | 1 => b2.getD (inb >>> 6) 0
  | _ => 0

/-- The table `b4`. -/
def b4 : List Nat :=
  [0x00, 0x11, 0x22, 0x33, 0x44, 0x55, 0x66, 0x77, 0x88, 0x99, 0xaa, 0xbb, 0xcc, 0xdd, 0xee, 0xff]

/-- What the case label `j` of the 4-bit expansion stores in `q[j]`. -/
def expand_4 (inb j : Nat) : Nat :=
  match j with
  | 2 => b4.getD (inb &&& 0xf) 0
  | 1 => b4.getD (inb >>> 4) 0
  | _ => 0

/-- The loop of the macro `foreach_N_8`.  The arguments are the input from
`p[1]` on, `left`, the space `wlimit - q` and the bytes written so far; the
result is `status`, the input not consumed, `left` and the bytes written.
Entering the `switch` at `case n` stores `q[n]`, ..., `q[1]`; `case 0` sets
`left` and runs `continue`, that is the increments `left -= n, q += n, ++p`
with `n = 0`. -/
def foreach_N_8 (samples_per_row : Nat) (expand : Nat → Nat → Nat) (nout : Nat) :
    List Nat → Nat → Nat → List Nat → Int × List Nat × Nat × List Nat
  | [], left, _, out => (0, [], left, out)
  | inb :: rest, left, space, out =>
    if space < min left nout then (1, inb :: rest, left, out)
    else if min left nout = 0 then
      foreach_N_8 samples_per_row expand nout rest samples_per_row space out
    else
      foreach_N_8 samples_per_row expand nout rest (left - min left nout)
        (space - min left nout)
        (out ++ (List.range (min left nout)).map (fun j => expand inb (j + 1)))

/-- The function `s_N_8_process` on the input `inp` with room for `space`
bytes: status, input left, bytes written and the state.  `ERRC` is the
constant of that name. -/
def s_N_8_process (ERRC : Int) (ss : stream_1248_state) (inp : List Nat) (space : Nat) :
    Int × List Nat × List Nat × stream_1248_state :=
  if ss.bits_per_sample = 1 then
    let r := foreach_N_8 ss.samples_per_row expand_1 8 inp ss.left space []
    (r.1, r.2.1, r.2.2.2, { ss with left := r.2.2.1 })
  else if ss.bits_per_sample = 2 then
    let r := foreach_N_8 ss.samples_per_row expand_2 4 inp ss.left space []
    (r.1, r.2.1, r.2.2.2, { ss with left := r.2.2.1 })
  else if ss.bits_per_sample = 4 then
    let r := foreach_N_8 ss.samples_per_row expand_4 2 inp ss.left space []
    (r.1, r.2.1, r.2.2.2, { ss with left := r.2.2.1 })
  else (ERRC, inp, [], ss)

/-- What the case label `j` of the 8-to-1 reduction contributes to `out`. -/
def reduce_1 (j v : Nat) : Nat :=
  match j with
  | 8 => v >>> 7
  | 7 => (v >>> 7) <<< 1
  | 6 => (v >>> 7) <<< 2
  | 5 => (v >>> 7) <<< 3
  | 4 => (v >>> 7) <<< 4
  | 3 => (v >>> 7) <<< 5
  | 2 => (v >>> 7) <<< 6
  | 1 => v &&& 0x80
  | _ => 0

/-- What the case label `j` of the 8-to-2 reduction contributes to `out`. -/
def reduce_2 (j v : Nat) : Nat :=
  match j with
  | 4 => v >>> 6
  | 3 => (v >>> 6) <<< 2
  | 2 => (v >>> 6) <<< 4
  | 1 => v &&& 0xc0
  | _ => 0

/-- What the case label `j` of the 8-to-4 reduction contributes to `out`. -/
def reduce_4 (j v : Nat) : Nat :=
  match j with
  | 2 => v >>> 4
  | 1 => v &&& 0xf0
  | _ => 0

/-- The value of `out` after the `switch` entered at `case n`: the
contributions of the labels `n`, ..., 1, from `p[n]`, ..., `p[1]`, or-ed into
0. -/
def reduce_out (term : Nat → Nat → Nat) (p : List Nat) (n : Nat) : Nat :=
  ((List.range n).reverse.map (fun j => j + 1)).foldl
    (fun out j => out ||| term j (p.getD (j - 1) 0)) 0

/-- The loop of the macro `foreach_8_N`, by the space `wlimit - q`.  `case 0`
sets `left` and runs `continue`, that is the increments
`left -= n, p += n, *++q = out` with `n = 0` and `out = 0`. -/
def foreach_8_N (samples_per_row : Nat) (term : Nat → Nat → Nat) (nin : Nat) :
    Nat → List Nat → Nat → List Nat → Int × List Nat × Nat × List Nat
  | 0, inp, left, out => (1, inp, left, out)
  | space + 1, inp, left, out =>
    if inp.length < min left nin then (0, inp, left, out)
    else if min left nin = 0 then
      foreach_8_N samples_per_row term nin space inp samples_per_row (out ++ [0])
    else
      foreach_8_N samples_per_row term nin space (inp.drop (min left nin))
        (left - min left nin) (out ++ [reduce_out term inp (min left nin)])

/-- The function `s_8_N_process` on the input `inp` with room for `space`
bytes: status, input left, bytes written and the state. -/
def s_8_N_process (ERRC : Int) (ss : stream_1248_state) (inp : List Nat) (space : Nat) :
    Int × List Nat × List Nat × stream_1248_state :=
  if ss.bits_per_sample = 1 then
    let r := foreach_8_N ss.samples_per_row reduce_1 8 space inp ss.left []
    (r.1, r.2.1, r.2.2.2, { ss with left := r.2.2.1 })
  else if ss.bits_per_sample = 2 then
    let r := foreach_8_N ss.samples_per_row reduce_2 4 space inp ss.left []
    (r.1, r.2.1, r.2.2.2, { ss with left := r.2.2.1 })
  else if ss.bits_per_sample = 4 then
    let r := foreach_8_N ss.samples_per_row reduce_4 2 space inp ss.left []
    (r.1, r.2.1, r.2.2.2, { ss with left := r.2.2.1 })
  else (ERRC, inp, [], ss)

/-- The state `stream_Subsample_state`, with the fields the code uses. -/
structure stream_Subsample_state where
  Colors : Nat
  Columns : Nat
  XFactor : Nat
  YFactor : Nat
  x : Nat
  y : Nat
  deriving DecidableEq, Repr

/-- The function `s_Subsample_init`. -/
def s_Subsample_init (ss : stream_Subsample_state) : stream_Subsample_state :=
  { ss with x := 0, y := 0 }

/-- The loop of `s_Subsample_process`, one iteration per unit of `fuel`
(with `Colors = 0` the C loop does not advance).  The arguments are the input
from `p[1]` on, the space `wlimit - q`, `x`, `y` and the bytes written; the
result is `status`, the input not consumed, `x`, `y` and the bytes
written. -/
def subsample_loop (spp width xf yf : Nat) :
    Nat → List Nat → Nat → Nat → Nat → List Nat →
      Option (Int × List Nat × Nat × Nat × List Nat)
  | 0, _, _, _, _, _ => none
  | fuel + 1, inp, space, x, y, out =>
    if inp.length < spp then some (0, inp, x, y, out)
    else if y = yf / 2 ∧ x % xf = xf / 2 ∧ x < (width / xf) * xf then
      if space < spp then some (1, inp, x, y, out)
      else
        if x + 1 = width then
          subsample_loop spp width xf yf fuel (inp.drop spp) (space - spp) 0
            (if y + 1 = yf then 0 else y + 1) (out ++ inp.take spp)
        else
          subsample_loop spp width xf yf fuel (inp.drop spp) (space - spp) (x + 1) y
            (out ++ inp.take spp)
    else
      if x + 1 = width then
        subsample_loop spp width xf yf fuel (inp.drop spp) space 0
          (if y + 1 = yf then 0 else y + 1) out
      else subsample_loop spp width xf yf fuel (inp.drop spp) space (x + 1) y out

/-- The function `s_Subsample_process` on the input `inp` with room for
`space` bytes: status, input left, bytes written and the state; `none` when
`fuel` iterations do not finish the loop. -/
def s_Subsample_process (fuel : Nat) (ss : stream_Subsample_state) (inp : List Nat)
    (space : Nat) : Option (Int × List Nat × List Nat × stream_Subsample_state) :=
  (subsample_loop ss.Colors ss.Columns ss.XFactor ss.YFactor fuel inp space ss.x ss.y []).map
    fun r => (r.1, r.2.1, r.2.2.2.2, { ss with x := r.2.2.1, y := r.2.2.2.1 })

/-- The state `stream_Average_state`, with the fields the code uses.  `sums`
is the memory from the address `ss->sums` on, in units of `uint`; `written`
lists, in order, the indices `bp - sums` at which `*bp++ += *++p` has
stored. -/
structure stream_Average_state where
  Colors : Nat
  Columns : Nat
  XFactor : Nat
  YFactor : Nat
  x : Nat
  y : Nat
  sum_size : Nat
  sums : Nat → Nat
  written : List Nat

/-- The function `s_Average_init` when the allocation succeeds; `wild` is the
content of the fresh memory, of which `memset` clears the first `sum_size`
elements. -/
def s_Average_init (wild : Nat → Nat) (ss : stream_Average_state) : stream_Average_state :=
  { ss with sum_size := ss.Colors * (ss.Columns / ss.XFactor),
            sums := fun i => if i < ss.Colors * (ss.Columns / ss.XFactor) then 0 else wild i,
            x := 0, y := 0 }

/-- The statement `for (i = spp; --i >= 0;) *bp++ += *++p;` with `bp = sums +
k`: `bytes` are the `spp` input bytes. -/
def accumulate (sums : Nat → Nat) (k : Nat) (bytes : List Nat) : Nat → Nat :=
  fun i => if k ≤ i ∧ i < k + bytes.length then (sums i + bytes.getD (i - k) 0) % 2 ^ 32 else sums i

/-- The body of `s_Average_process`, one step per unit of `fuel`: with
`at_top` the code at the label `top:`, otherwise the loop `while (rlimit - p
>= spp)`.  The result is `status`, the input not consumed, the bytes written
and the state. -/
def average_run : Nat → Bool → stream_Average_state → List Nat → Nat → List Nat →
    Option (Int × List Nat × List Nat × stream_Average_state)
  | 0, _, _, _, _, _ => none
  | fuel + 1, true, ss, inp, space, out =>
    if ss.y = ss.YFactor then
      if min ((ss.sum_size : Int) - ss.x) space ≠ 0 then
        let ncopy := (min ((ss.sum_size : Int) - ss.x) space).toNat
        average_run fuel true { ss with x := ss.x + ncopy } inp (space - ncopy)
          (out ++ (List.range ncopy).map
            (fun i => (ss.sums (ss.x + i) / (ss.XFactor * ss.YFactor)) % 256))
      else if ss.x < ss.sum_size then some (1, inp, out, ss)
      else
        average_run fuel false
          { ss with x := 0, y := 0, sums := fun i => if i < ss.sum_size then 0 else ss.sums i }
          inp space out
    else average_run fuel false ss inp space out
  | fuel + 1, false, ss, inp, space, out =>
    if inp.length < ss.Colors then some (0, inp, out, ss)
    else
      let k := ss.x / ss.XFactor * ss.Colors
      let ss1 := { ss with sums := accumulate ss.sums k (inp.take ss.Colors),
                           written := ss.written ++ (List.range ss.Colors).map (fun i => k + i) }
      if ss.x + 1 = ss.Columns then
        average_run fuel true { ss1 with x := 0, y := ss.y + 1 } (inp.drop ss.Colors) space out
      else average_run fuel false { ss1 with x := ss.x + 1 } (inp.drop ss.Colors) space out

/-- The function `s_Average_process`. -/
def s_Average_process (fuel : Nat) (ss : stream_Average_state) (inp : List Nat) (space : Nat) :
    Option (Int × List Nat × List Nat × stream_Average_state) :=
  average_run fuel true ss inp space []

/-- An `Average` filter for examples: 3 colours, 5 columns, both factors 2,
not yet initialised. -/
def avg_rgb5 : stream_Average_state :=
  ⟨3, 5, 2, 2, 0, 0, 0, fun _ => 0, []⟩

/-- A value brought into the range of a 32-bit two's-complement `long`, as
arithmetic that leaves that range does on the usual machines. -/
def wrap_long32 (v : Int) : Int := (v + 2 ^ 31) % 2 ^ 32 - 2 ^ 31

/-- The function `sdecodelong` on the bytes `p[0..3] = a, b, c, d`.  `lsb` is
the value of the macro `num_is_lsb(format)`, `arch_sizeof_long` the constant
of that name; a `long` that is not 4 bytes wide is taken to be wider. -/
def sdecodelong (arch_sizeof_long : Nat) (lsb : Bool) (a b c d : Nat) : Int :=
  let v : Nat := if lsb then (d <<< 24) + (c <<< 16) + (b <<< 8) + a
    else (a <<< 24) + (b <<< 16) + (c <<< 8) + d
  if arch_sizeof_long = 4 then wrap_long32 v
  else ((v &&& 0x7fffffff : Nat) : Int) - ((v &&& 0x80000000 : Nat) : Int)

/-- The 32-bit word with the bytes `a, b, c, d` from the most significant
down. -/
def word32 (a b c d : Nat) : Nat := a * 2 ^ 24 + b * 2 ^ 16 + c * 2 ^ 8 + d

/-- The two's-complement value of a 32-bit word. -/
def signed32 (w : Nat) : Int := if w < 2 ^ 31 then (w : Int) else (w : Int) - 2 ^ 32

/-- The output routines of wrfont.c as write_t2.c uses them, on an output of
type `ω`: `WRF_wbyte`, `WRF_wtext` and the field `m_count`. -/
structure WRF (ω : Type) where
  wbyte : ω → Nat → ω
  wtext : ω → List Nat → ω
  m_count : ω → Int

/-- An output together with the bytes handed to the output routines so far,
in order. -/
structure WRF_output (ω : Type) where
  o : ω
  put : List Nat

/-- The call `WRF_wbyte(memory, a_output, b)`. -/
def WRF_wbyte {ω : Type} (w : WRF ω) (out : WRF_output ω) (b : Nat) : WRF_output ω :=
  ⟨w.wbyte out.o b, out.put ++ [b]⟩

/-- The call `WRF_wtext(memory, a_output, bs, |bs|)`. -/
def WRF_wtext {ω : Type} (w : WRF ω) (out : WRF_output ω) (bs : List Nat) : WRF_output ω :=
  ⟨w.wtext out.o bs, out.put ++ bs⟩

/-- The conversion `(unsigned char) a` of a `long`. -/
def to_uchar (a : Int) : Nat := (a % 256).toNat

/-- The expression `a & 0xFF` on a two's-complement `long`: its low eight
bits. -/
def low8 (a : Int) : Int := a % 256

/-- The function `write_4_byte_int`: the four bytes stored. -/
def write_4_byte_int (a_int : Int) : List Nat :=
  [to_uchar (a_int >>> (24 : Nat)), to_uchar (a_int >>> (16 : Nat)),
    to_uchar (a_int >>> (8 : Nat)), to_uchar (low8 a_int)]

/-- The function `write_type2_int`. -/
def write_type2_int {ω : Type} (w : WRF ω) (out : WRF_output ω) (a_int : Int) : WRF_output ω :=
  if -107 ≤ a_int ∧ a_int ≤ 107 then WRF_wbyte w out (to_uchar (a_int + 139))
  else if -32768 ≤ a_int ∧ a_int ≤ 32767 then
    if 108 ≤ a_int ∧ a_int ≤ 1131 then
      WRF_wbyte w (WRF_wbyte w out (to_uchar ((a_int + 63124) >>> (8 : Nat))))
        (to_uchar (low8 (a_int + 63124)))
    else if -1131 ≤ a_int ∧ a_int ≤ -108 then
      WRF_wbyte w (WRF_wbyte w out (to_uchar ((-a_int + 64148) >>> (8 : Nat))))
        (to_uchar (low8 (-a_int + 64148)))
    else
      WRF_wbyte w (WRF_wbyte w (WRF_wbyte w out 28) (to_uchar (a_int >>> (8 : Nat))))
        (to_uchar (low8 a_int))
  else WRF_wtext w (WRF_wbyte w out 29) (write_4_byte_int a_int)

/-- The integer operand encoding of the Compact Font Format (Adobe Technical
Note 5176, table 3), read back: the value of a byte sequence that is exactly
one integer operand. -/
def cff_operand (bs : List Nat) : Option Int :=
  match bs with
  | [b0] => if 32 ≤ b0 ∧ b0 ≤ 246 then some ((b0 : Int) - 139) else none
  | [b0, b1] =>
    if 247 ≤ b0 ∧ b0 ≤ 250 ∧ b1 < 256 then some (((b0 : Int) - 247) * 256 + b1 + 108)
    else if 251 ≤ b0 ∧ b0 ≤ 254 ∧ b1 < 256 then some (-(((b0 : Int) - 251) * 256) - b1 - 108)
    else none
  | [b0, b1, b2] =>
    if b0 = 28 ∧ b1 < 256 ∧ b2 < 256 then
      some (if b1 * 256 + b2 < 2 ^ 15 then ((b1 * 256 + b2 : Nat) : Int)
        else ((b1 * 256 + b2 : Nat) : Int) - 2 ^ 16)
    else none
  | [b0, b1, b2, b3, b4] =>
    if b0 = 29 ∧ b1 < 256 ∧ b2 < 256 ∧ b3 < 256 ∧ b4 < 256 then
      some (signed32 (word32 b1 b2 b3 b4))
    else none
  | _ => none

/-- The bytes `write_type2_int` puts out for `a_int`. -/
def type2_bytes (a_int : Int) : List Nat :=
  if -107 ≤ a_int ∧ a_int ≤ 107 then [to_uchar (a_int + 139)]
  else if -32768 ≤ a_int ∧ a_int ≤ 32767 then
    if 108 ≤ a_int ∧ a_int ≤ 1131 then
      [to_uchar ((a_int + 63124) >>> (8 : Nat)), to_uchar (low8 (a_int + 63124))]
    else if -1131 ≤ a_int ∧ a_int ≤ -108 then
      [to_uchar ((-a_int + 64148) >>> (8 : Nat)), to_uchar (low8 (-a_int + 64148))]
    else [28, to_uchar (a_int >>> (8 : Nat)), to_uchar (low8 a_int)]
  else 29 :: write_4_byte_int a_int

/-- Output routines for examples: the output is the count of bytes put out. -/
def wrf_count : WRF Int := ⟨fun o _ => o + 1, fun o bs => o + bs.length, fun o => o⟩

/-- The loop `do { ... } while (n < 5)` of `write_private_dict` (lines
512-541), one iteration per unit of `fuel`; `n` is the local of that name on
entry to an iteration. -/
def subrs_offset_loop {ω : Type} (w : WRF ω) (initial : Int) :
    Nat → Int → WRF_output ω → Option (WRF_output ω)
  | 0, _, _ => none
  | fuel + 1, n, out =>
    let n1 := w.m_count out.o - initial + 1 + n
    let r : Int × WRF_output ω :=
      if n = 1 then
        if -107 ≤ n1 ∧ n1 ≤ 107 then (5, write_type2_int w out n1) else (n, out)
      else if n = 2 then
        if (108 ≤ n1 ∧ n1 ≤ 1131) ∨ (-1131 ≤ n1 ∧ n1 ≤ -108) then (5, write_type2_int w out n1)
        else (n, out)
      else if n = 3 then
        if -32768 ≤ n1 ∧ n1 ≤ 32767 then (5, write_type2_int w out n1) else (n, out)
      else if n = 4 then (n, out)
      else if n = 5 then (n, write_type2_int w out n1)
      else (n, out)
    if r.1 + 1 < 5 then subrs_offset_loop w initial fuel (r.1 + 1) r.2 else some r.2

/-- The block `if (count) { ... }` of `write_private_dict` (lines 509-544):
`initial` is `m_count` at the entry of the function, `count` the number of
local Subrs. -/
def private_dict_subrs {ω : Type} (w : WRF ω) (initial : Int) (count : Nat)
    (out : WRF_output ω) : Option (WRF_output ω) :=
  if count ≠ 0 then (subrs_offset_loop w initial 5 1 out).map (fun o => WRF_wbyte w o 19)
  else some out

/-- The output routines count what they put out. -/
def counts {ω : Type} (w : WRF ω) : Prop :=
  (∀ o b, w.m_count (w.wbyte o b) = w.m_count o + 1) ∧
  (∀ o bs, w.m_count (w.wtext o bs) = w.m_count o + bs.length)

/-- The macro `sputc(s, c)` on the image stream, which holds bytes: the value
is stored into a `byte`, so its low 8 bits are appended. -/
def sputc (strm : List Nat) (c : Nat) : List Nat := strm ++ [c % 256]

/-- The loop `for (i = 0; i < nbytes; ++data, ++i) sputc(strm, *data ^ invert)`
of the aligned path. -/
def aligned_loop (mem : Mem) (invert : Nat) (nbytes : Int) :
    Nat → Int → Int → List Nat → Option (List Nat)
  | fuel, i, data, strm =>
    if i < nbytes then
      match fuel with
      | 0 => none
      | f + 1 => aligned_loop mem invert nbytes f (i + 1) (data + 1)
          (sputc strm (mem data ^^^ invert))
    else some strm

/-- The loop `for (; wleft + sbit > 8; ++data, wleft -= 8)` of the unaligned
path; it returns `data`, `wleft` and the stream at the exit. -/
def unaligned_loop (mem : Mem) (invert sbit rbit : Nat) :
    Nat → Int → Int → List Nat → Option (Int × Int × List Nat)
  | fuel, data, wleft, strm =>
    if wleft + sbit > 8 then
      match fuel with
      | 0 => none
      | f + 1 => unaligned_loop mem invert sbit rbit f (data + 1) (wleft - 8)
          (sputc strm (((mem data <<< sbit) + (mem (data + 1) >>> rbit)) ^^^ invert))
    else some (data, wleft, strm)

/-- The body of the loop over `yi` in gdev_pdf_copy_mono: one row of the
bitmap is written to the stream. -/
def copy_mono_row (fuel : Nat) (mem : Mem) (invert : Nat) (base raster sourcex w : Int)
    (yi : Nat) (strm : List Nat) : Option (List Nat) :=
  let data := base + yi * raster + sourcex / 8
  let sbit := (sourcex % 8).toNat
  if sbit = 0 then
    let nbytes := (w + 7) / 8
    aligned_loop mem invert nbytes fuel 0 data strm
  else
    let wleft := w
    let rbit := 8 - sbit
    match unaligned_loop mem invert sbit rbit fuel data wleft strm with
    | none => none
    | some (data, wleft, strm) =>
      if wleft > 0 then
        some (sputc strm (((mem data <<< sbit) ^^^ invert) &&&
          ((0xff00 >>> wleft.toNat) % 256)))
      else some strm

/-- The loop `for (yi = 0; yi < h; ++yi)` of gdev_pdf_copy_mono. -/
def copy_mono_rows (fuel : Nat) (mem : Mem) (invert : Nat) (base raster sourcex w h : Int) :
    Nat → Nat → List Nat → Option (List Nat)
  | k, yi, strm =>
    if (yi : Int) < h then
      match k with
      | 0 => none
      | f + 1 =>
        match copy_mono_row fuel mem invert base raster sourcex w yi strm with
        | none => none
        | some strm1 => copy_mono_rows fuel mem invert base raster sourcex w h f (yi + 1) strm1
    else some strm

/-- Bit `b` of the bitmap row that starts at `row`, most significant bit of
each byte first. -/
def src_bit (mem : Mem) (row b : Int) : Bool :=
  (mem (row + b / 8)).testBit (7 - (b % 8).toNat)

/-- Bit `j` of a byte string, most significant bit of each byte first. -/
def out_bit (bs : List Nat) (j : Nat) : Bool :=
  (bs.getD (j / 8) 0).testBit (7 - j % 8)

/-- The bytes of the stream from index `start` on. -/
def row_out (strm : List Nat) (start : Nat) : List Nat := strm.drop start

/-- A memory that holds the byte `p % 256` at every address `p`. -/
def ramp_mem : Mem := fun p => (p % 256).toNat

/-- The `spp` bytes of the pixel in column `col` of row `row` of an image of
`width` columns given as the byte string `inp`. -/
def pixel (spp width : Nat) (inp : List Nat) (row col : Nat) : List Nat :=
  (inp.drop ((row * width + col) * spp)).take spp

/-- The centre pixels of the blocks of `xf` by `yf` pixels in `G` groups of
`yf` rows: for each group in order, for each `k < width / xf` in order, the
pixel in column `k * xf + xf / 2` of row `yf / 2` of the group. -/
def centre_pixels (spp width xf yf G : Nat) (inp : List Nat) : List Nat :=
  (List.range G).flatMap fun g =>
    (List.range (width / xf)).flatMap fun k => pixel spp width inp (g * yf + yf / 2) (k * xf + xf / 2)

/-- What the loop of `s_Subsample_process` writes for the pixel number `i` of
the input, counted from the initial state. -/
def pick (spp width xf yf : Nat) (inp : List Nat) (i : Nat) : List Nat :=
  if (i / width) % yf = yf / 2 ∧ (i % width) % xf = xf / 2 ∧ i % width < (width / xf) * xf then
    (inp.drop (i * spp)).take spp
  else []

/-! # Theorems -/

theorem name_search_some (name : List Nat) (t ext : List pdfi_name_entry_t) (i0 i : Int)
    (h : (name_search name t i0).1 = some i) :
    (name_search name (t ++ ext) i0).1 = some i := by
  induction t generalizing i0 with
  | nil => simp [name_search] at h
  | cons e es ih =>
    simp only [List.cons_append, name_search] at h ⊢
    split
    · rename_i hc; simpa [hc] using h
    · rename_i hc; simp only [hc, if_false] at h; exact ih _ h

theorem name_search_none_iff (name : List Nat) (t : List pdfi_name_entry_t) (i0 : Int) :
    (name_search name t i0).1 = none ↔ ∀ e ∈ t, e.name ≠ name := by
  induction t generalizing i0 with
  | nil => simp [name_search]
  | cons e es ih =>
    simp only [name_search]
    by_cases hc : e.name = name
    · simp [hc]
    · simp [hc, ih]

theorem name_search_fresh (name : List Nat) (t ext : List pdfi_name_entry_t) (i0 k : Int)
    (h : (name_search name t i0).1 = none) :
    (name_search name (t ++ ⟨name, k⟩ :: ext) i0).1 = some k := by
  induction t generalizing i0 with
  | nil => simp [name_search]
  | cons e es ih =>
    simp only [List.cons_append, name_search] at h ⊢
    split
    · rename_i hc; simp [hc] at h
    · rename_i hc; simp only [hc, if_false] at h; exact ih _ h

theorem get_name_index_prefix (a1 a2 : Bool) (name : List Nat) (t : List pdfi_name_entry_t) :
    (pdfi_get_name_index a1 a2 name t).2.2 = t ∨
    (pdfi_get_name_index a1 a2 name t).2.2 = t ++ [⟨name, (name_search name t 0).2 + 1⟩] := by
  unfold pdfi_get_name_index
  split
  · simp
  · cases a1 <;> cases a2 <;> simp

theorem intern_all_prefix (t : List pdfi_name_entry_t) (names : List (List Nat)) :
    ∃ ext, intern_all t names = t ++ ext := by
  induction names generalizing t with
  | nil => exact ⟨[], by simp [intern_all]⟩
  | cons n ns ih =>
    obtain ⟨ext, h⟩ := ih (pdfi_get_name_index true true n t).2.2
    rcases get_name_index_prefix true true n t with h1 | h1
    · exact ⟨ext, by simpa [intern_all, h1] using h⟩
    · refine ⟨⟨n, (name_search n t 0).2 + 1⟩ :: ext, ?_⟩
      simp only [intern_all, List.foldl_cons] at h ⊢
      rw [h, h1]; simp

/-- C13: a name interned once keeps its index.  For every table `t`, every
`name` and every list `others` of names interned afterwards, a later call of
`pdfi_get_name_index` for `name` returns 0 and the index the first call
returned, whatever its allocations would do, and leaves the table unchanged. -/
theorem name_index_stable (t : List pdfi_name_entry_t) (name : List Nat)
    (others : List (List Nat)) (a1 a2 : Bool) :
    (pdfi_get_name_index true true name t).1 = 0 ∧
    (pdfi_get_name_index a1 a2 name
        (intern_all (pdfi_get_name_index true true name t).2.2 others)).1 = 0 ∧
    (pdfi_get_name_index a1 a2 name
        (intern_all (pdfi_get_name_index true true name t).2.2 others)).2.1
      = (pdfi_get_name_index true true name t).2.1 ∧
    (pdfi_get_name_index a1 a2 name
        (intern_all (pdfi_get_name_index true true name t).2.2 others)).2.2
      = intern_all (pdfi_get_name_index true true name t).2.2 others := by
  obtain ⟨ext, hext⟩ := intern_all_prefix (pdfi_get_name_index true true name t).2.2 others
  rw [hext]
  cases hs : (name_search name t 0).1 with
  | some i =>
    have h1 : pdfi_get_name_index true true name t = (0, some i, t) := by
      simp [pdfi_get_name_index, hs]
    have h2 := name_search_some name t ext 0 i hs
    rw [h1]
    simp [pdfi_get_name_index, h2]
  | none =>
    have h1 : pdfi_get_name_index true true name t =
        (0, some ((name_search name t 0).2 + 1), t ++ [⟨name, (name_search name t 0).2 + 1⟩]) := by
      simp [pdfi_get_name_index, hs]
    have h2 := name_search_fresh name t ext 0 ((name_search name t 0).2 + 1) hs
    rw [h1]
    simp only [List.append_assoc, List.singleton_append]
    simp [pdfi_get_name_index, h2]

theorem indexed_from_cons (k : Int) (e : pdfi_name_entry_t) (es : List pdfi_name_entry_t) :
    indexed_from k (e :: es) ↔ e.index = k + 1 ∧ indexed_from (k + 1) es := Iff.rfl

theorem indexed_from_append (k : Int) (t : List pdfi_name_entry_t) (e : pdfi_name_entry_t) :
    indexed_from k (t ++ [e]) ↔ indexed_from k t ∧ e.index = k + t.length + 1 := by
  induction t generalizing k with
  | nil => simp [indexed_from]
  | cons a as ih =>
    rw [List.cons_append, indexed_from_cons, indexed_from_cons, ih, List.length_cons]
    push_cast
    constructor
    · rintro ⟨h1, h2, h3⟩; exact ⟨⟨h1, h2⟩, by omega⟩
    · rintro ⟨⟨h1, h2⟩, h3⟩; exact ⟨h1, h2, by omega⟩

theorem indexed_from_map (k : Int) (t : List pdfi_name_entry_t) (h : indexed_from k t) :
    t.map (fun e => e.index) = (List.range t.length).map (fun (j : Nat) => k + (j : Int) + 1) := by
  induction t generalizing k with
  | nil => simp
  | cons a as ih =>
    obtain ⟨h1, h2⟩ := h
    rw [List.length_cons, List.range_succ_eq_map, List.map_cons, List.map_cons, List.map_map,
      ih (k + 1) h2, h1]
    simp only [Nat.cast_zero, add_zero, List.cons.injEq, true_and]
    apply List.map_congr_left
    intro j _
    simp only [Function.comp, Nat.cast_succ]
    omega

theorem name_search_snd (name : List Nat) (t : List pdfi_name_entry_t) (k : Int)
    (hi : indexed_from k t) (h : (name_search name t k).1 = none) :
    (name_search name t k).2 = k + t.length := by
  induction t generalizing k with
  | nil => simp [name_search]
  | cons e es ih =>
    obtain ⟨h1, h2⟩ := hi
    simp only [name_search] at h ⊢
    split
    · rename_i hc; simp [hc] at h
    · rename_i hc
      simp only [hc, if_false] at h
      rw [h1] at h ⊢
      rw [ih (k + 1) h2 h]
      simp only [List.length_cons, Nat.cast_add, Nat.cast_one]
      omega

theorem name_search_mem (name : List Nat) (t : List pdfi_name_entry_t) (i0 i : Int)
    (h : (name_search name t i0).1 = some i) : (⟨name, i⟩ : pdfi_name_entry_t) ∈ t := by
  induction t generalizing i0 with
  | nil => simp [name_search] at h
  | cons e es ih =>
    simp only [name_search] at h
    split at h
    · rename_i hc
      simp only [Option.some.injEq] at h
      have : e = ⟨name, i⟩ := by cases e; simp_all
      simp [this]
    · exact List.mem_cons_of_mem _ (ih _ h)

theorem get_name_index_inv (a1 a2 : Bool) (name : List Nat) (t : List pdfi_name_entry_t)
    (h : name_table_inv t) : name_table_inv (pdfi_get_name_index a1 a2 name t).2.2 := by
  unfold pdfi_get_name_index
  cases hs : (name_search name t 0).1 with
  | some i => simpa using h
  | none =>
    cases a1 <;> cases a2 <;> simp only [Bool.not_false, Bool.not_true, if_true] <;> try exact h
    simp only [Bool.false_eq_true, if_false]
    refine ⟨?_, ?_⟩
    · rw [indexed_from_append]
      exact ⟨h.1, by rw [name_search_snd name t 0 h.1 hs]⟩
    · rw [List.map_append, List.nodup_append]
      refine ⟨h.2, by simp, ?_⟩
      have hn := (name_search_none_iff name t 0).1 hs
      intro a ha hb
      simp only [List.map_cons, List.map_nil, List.mem_singleton] at hb
      obtain ⟨e, he, rfl⟩ := List.mem_map.1 ha
      exact hn e he hb

theorem name_calls_inv (calls : List (Bool × Bool × List Nat)) (t : List pdfi_name_entry_t)
    (h : name_table_inv t) : name_table_inv (name_calls t calls) := by
  induction calls generalizing t with
  | nil => simpa [name_calls] using h
  | cons c cs ih =>
    simp only [name_calls, List.foldl_cons]
    exact ih _ (get_name_index_inv _ _ _ _ h)

theorem indexed_nodup (t : List pdfi_name_entry_t) (h : indexed_from 0 t) :
    (t.map (fun e => e.index)).Nodup := by
  rw [indexed_from_map 0 t h]
  apply List.Nodup.map _ (List.nodup_range _)
  intro a b hab
  simp only at hab
  omega

theorem name_from_index_mem (t : List pdfi_name_entry_t) (name : List Nat) (i : Int)
    (hn : (t.map (fun e => e.index)).Nodup) (hm : (⟨name, i⟩ : pdfi_name_entry_t) ∈ t) :
    pdfi_name_from_index t i = (0, some (name, name.length)) := by
  induction t with
  | nil => simp at hm
  | cons e es ih =>
    simp only [List.map_cons, List.nodup_cons] at hn
    simp only [pdfi_name_from_index]
    rcases List.mem_cons.1 hm with h | h
    · subst h; simp
    · have hne : e.index ≠ i := by
        intro he
        exact hn.1 (by rw [he]; exact List.mem_map.2 ⟨_, h, rfl⟩)
      simp only [hne, if_false]
      exact ih hn.2 h

theorem name_from_index_absent (t : List pdfi_name_entry_t) (index : Int)
    (h : ∀ e ∈ t, e.index ≠ index) :
    pdfi_name_from_index t index = (gs_error_undefined, none) := by
  induction t with
  | nil => rfl
  | cons e es ih =>
    simp only [pdfi_name_from_index, h e (List.mem_cons_self _ _), if_false]
    exact ih (fun e he => h e (List.mem_cons_of_mem _ he))

/-- C14: reverse lookup undoes interning.  On a table built from the empty
one by any calls of `pdfi_get_name_index`, whenever a call for `name` returns
0 it stores an index `i` such that `pdfi_name_from_index` (and
`pdfi_separation_name_from_index` on a gstate whose client data points to this
context) returns 0 with the bytes of `name` and their number; and for an index
held by no entry `pdfi_name_from_index` returns `gs_error_undefined`. -/
theorem name_reverse_lookup (calls : List (Bool × Bool × List Nat)) (a1 a2 : Bool)
    (name : List Nat)
    (hok : (pdfi_get_name_index a1 a2 name (name_calls [] calls)).1 = 0) :
    (∃ i, (pdfi_get_name_index a1 a2 name (name_calls [] calls)).2.1 = some i ∧
      pdfi_name_from_index (pdfi_get_name_index a1 a2 name (name_calls [] calls)).2.2 i
        = (0, some (name, name.length)) ∧
      pdfi_separation_name_from_index
          (some (some (pdfi_get_name_index a1 a2 name (name_calls [] calls)).2.2)) i
        = (0, some (name, name.length))) ∧
    (∀ index, (∀ e ∈ (pdfi_get_name_index a1 a2 name (name_calls [] calls)).2.2,
        e.index ≠ index) →
      pdfi_name_from_index (pdfi_get_name_index a1 a2 name (name_calls [] calls)).2.2 index
        = (gs_error_undefined, none)) := by
  have hinv : name_table_inv (name_calls [] calls) :=
    name_calls_inv calls [] ⟨trivial, by simp⟩
  have hinv2 := get_name_index_inv a1 a2 name _ hinv
  have hnd := indexed_nodup _ hinv2.1
  refine ⟨?_, fun index h => name_from_index_absent _ index h⟩
  generalize name_calls [] calls = t at *
  unfold pdfi_get_name_index at hok hnd ⊢
  cases hs : (name_search name t 0).1 with
  | some i =>
    simp only [hs] at hnd ⊢
    have hm := name_search_mem name t 0 i hs
    exact ⟨i, rfl, name_from_index_mem t name i hnd hm, name_from_index_mem t name i hnd hm⟩
  | none =>
    simp only [hs] at hok hnd ⊢
    cases a1 <;> cases a2 <;>
      simp only [Bool.not_false, Bool.not_true, if_true, Bool.false_eq_true, if_false] at hok hnd ⊢ <;>
      try (simp [gs_error_VMerror] at hok)
    have hm : (⟨name, (name_search name t 0).2 + 1⟩ : pdfi_name_entry_t) ∈
        t ++ [⟨name, (name_search name t 0).2 + 1⟩] := by simp
    exact ⟨_, rfl, name_from_index_mem _ name _ hnd hm, name_from_index_mem _ name _ hnd hm⟩

/-- Witness for `name_reverse_lookup`: interning "AB" after "A" was interned. -/
theorem name_reverse_lookup_witness :
    (∃ i, (pdfi_get_name_index true true [65, 66]
        (name_calls [] [(true, true, [65])])).2.1 = some i ∧
      pdfi_name_from_index (pdfi_get_name_index true true [65, 66]
        (name_calls [] [(true, true, [65])])).2.2 i = (0, some ([65, 66], [65, 66].length)) ∧
      pdfi_separation_name_from_index
          (some (some (pdfi_get_name_index true true [65, 66]
            (name_calls [] [(true, true, [65])])).2.2)) i
        = (0, some ([65, 66], [65, 66].length))) ∧
    (∀ index, (∀ e ∈ (pdfi_get_name_index true true [65, 66]
        (name_calls [] [(true, true, [65])])).2.2, e.index ≠ index) →
      pdfi_name_from_index (pdfi_get_name_index true true [65, 66]
        (name_calls [] [(true, true, [65])])).2.2 index = (gs_error_undefined, none)) :=
  name_reverse_lookup [(true, true, [65])] true true [65, 66] (by decide)

/-- C15: the name-table invariant.  After any sequence of calls of
`pdfi_get_name_index` from the empty table, whatever their allocations do,
the indices are 1, 2, ..., n in list order and the names pairwise distinct;
a further call leaves the table as it is or appends one entry; and entries
with distinct names have distinct indices. -/
theorem name_table_invariant (calls : List (Bool × Bool × List Nat)) :
    (name_calls [] calls).map (fun e => e.index)
      = (List.range (name_calls [] calls).length).map (fun (k : Nat) => (k : Int) + 1) ∧
    ((name_calls [] calls).map (fun e => e.name)).Nodup ∧
    (∀ a1 a2 name,
      (pdfi_get_name_index a1 a2 name (name_calls [] calls)).2.2 = name_calls [] calls ∨
      ∃ e, (pdfi_get_name_index a1 a2 name (name_calls [] calls)).2.2
        = name_calls [] calls ++ [e]) ∧
    (∀ e1 ∈ name_calls [] calls, ∀ e2 ∈ name_calls [] calls,
      e1.name ≠ e2.name → e1.index ≠ e2.index) := by
  have hinv : name_table_inv (name_calls [] calls) :=
    name_calls_inv calls [] ⟨trivial, by simp⟩
  refine ⟨?_, hinv.2, ?_, ?_⟩
  · have := indexed_from_map 0 _ hinv.1
    simpa using this
  · intro a1 a2 name
    rcases get_name_index_prefix a1 a2 name (name_calls [] calls) with h | h
    · exact Or.inl h
    · exact Or.inr ⟨_, h⟩
  · intro e1 h1 e2 h2 hne hidx
    have hnd := indexed_nodup _ hinv.1
    have := List.inj_on_of_nodup_map hnd h1 h2 hidx
    exact hne (by rw [this])

variable {ω : Type}

theorem ClosedOn.mono {col : Collab ω} {A B : Fn → Prop} {P : State ω → Prop}
    (h : ClosedOn col A P) (hAB : ∀ fn, B fn → A fn) : ClosedOn col B P :=
  ⟨fun fn f s hb => h.hcall fn f s (hAB fn hb), h.hw, h.herr⟩

theorem Closed.on {col : Collab ω} {P : State ω → Prop} (h : Closed col P)
    (A : Fn → Prop) (hA : ∀ fn, A fn → fn ≠ Fn.pdfi_read_xref) : ClosedOn col A P :=
  ⟨fun fn f s ha => h.hcall fn f s (hA fn ha), h.hw, h.herr⟩

theorem is_tail_root {fn : Fn} (h : is_tail_fn fn) : is_root_fn fn := by
  cases fn <;> first | exact h | trivial

theorem is_root_enc {fn : Fn} (h : is_root_fn fn) : is_enc_fn fn := by
  cases fn <;> first | exact h | trivial

theorem is_enc_ne_xref {fn : Fn} (h : is_enc_fn fn) : fn ≠ Fn.pdfi_read_xref := by
  rintro rfl; exact h

theorem exit_on {col : Collab ω} {A : Fn → Prop} {P : State ω → Prop} (hP : ClosedOn col A P)
    (o : Option Nat) (c : Int) (s : State ω) (h : P s) : P (init_exit col o c s).2 :=
  hP.hw _ _ _ trivial h

theorem is_page_tail {fn : Fn} (h : is_page_fn fn) : is_tail_fn fn := by
  cases fn <;> first | exact h | trivial

theorem finish_on {col : Collab ω} {P : State ω → Prop} (hP : ClosedOn col is_page_fn P)
    (o : Option Nat) (s : State ω) (h : P s) : P (init_finish col o s).2 := by
  have h1 := fun s h => hP.hcall Fn.pdfi_read_Pages col.pdfi_read_Pages s trivial
    (by simp [is_col]) h
  have h2 := fun s h => hP.hcall Fn.pdfi_doc_page_array_init col.pdfi_doc_page_array_init s
    trivial (by simp [is_col]) h
  have h3 := fun s h => hP.hcall Fn.pdfi_doc_trailer col.pdfi_doc_trailer s trivial
    (by simp [is_col]) h
  have h4 := fun s h => hP.hcall Fn.pdfi_read_OptionalRoot col.pdfi_read_OptionalRoot s
    trivial (by simp [is_col]) h
  have h5 := fun s h => hP.hcall Fn.pdfi_output_metadata col.pdfi_output_metadata s
    trivial (by simp [is_col]) h
  unfold init_finish
  dsimp only
  split_ifs <;> simp only [init_exit] <;> apply_rules [hP.hw]

theorem info_on {col : Collab ω} {P : State ω → Prop} (hP : ClosedOn col is_tail_fn P)
    (o : Option Nat) (s : State ω) (h : P s) : P (init_info col o s).2 := by
  have h1 := fun s h => hP.hcall Fn.pdfi_read_Info col.pdfi_read_Info s trivial
    (by simp [is_col]) h
  unfold init_info
  dsimp only
  split_ifs <;> first
    | exact exit_on hP _ _ _ (h1 _ h)
    | exact finish_on (hP.mono (fun fn => is_page_tail)) _ _ (hP.hw _ _ _ trivial (h1 _ h))
    | exact finish_on (hP.mono (fun fn => is_page_tail)) _ _ (h1 _ h)
    | exact finish_on (hP.mono (fun fn => is_page_tail)) _ _ h

/-- The invariant principle for the loop at `read_root:`: a property kept by
the steps of the loop and by a retry of `pdfi_read_xref`, made after a
`pdfi_read_Root` that returned `gs_error_undefined` on a hybrid file with
`prefer_xrefstm` set, holds afterwards, whatever the fuel. -/
theorem root_on {col : Collab ω} {P : State ω → Prop} (hP : ClosedOn col is_root_fn P)
    (hretry : ∀ s, P s → s.ctx.is_hybrid = true → s.ctx.prefer_xrefstm = true →
      P (call Fn.pdfi_read_xref col.pdfi_read_xref (drop_xref col s)).2)
    (o : Option Nat) (fuel : Nat) (s : State ω) (h : P s) :
    P (read_root col o fuel s).2 := by
  have hT := hP.mono (fun fn => is_tail_root)
  have h1 := fun s h => hP.hcall Fn.pdfi_read_Root col.pdfi_read_Root s trivial
    (by simp [is_col]) h
  have h2 := fun s h => hP.hcall Fn.pdfi_repair_file col.pdfi_repair_file s trivial
    (by simp [is_col]) h
  induction fuel generalizing s with
  | zero => simpa [read_root] using h
  | succ n ih =>
    unfold read_root
    dsimp only
    split_ifs with c1 c2 c3 c4 c5 c6
    · exact exit_on hP _ _ _ (hP.herr _ _ (hretry _ (h1 _ h) c3.2.1 c3.2.2))
    · exact exit_on hP _ _ _ (h1 _ (hretry _ (h1 _ h) c3.2.1 c3.2.2))
    · exact info_on hT _ _ (h1 _ (hretry _ (h1 _ h) c3.2.1 c3.2.2))
    · exact exit_on hP _ _ _ (h2 _ (h1 _ h))
    · exact ih _ (h2 _ (h1 _ h))
    · exact info_on hT _ _ (h1 _ h)
    · exact info_on hT _ _ h

theorem encrypt_on {col : Collab ω} {P : State ω → Prop} (hP : ClosedOn col is_enc_fn P)
    (hretry : ∀ s, P s → s.ctx.is_hybrid = true → s.ctx.prefer_xrefstm = true →
      P (call Fn.pdfi_read_xref col.pdfi_read_xref (drop_xref col s)).2)
    (fuel : Nat) (s : State ω) (h : P s) :
    P (init_encrypt col fuel s).2 := by
  have hR := hP.mono (fun fn => is_root_enc)
  have h1 := fun s h => hP.hcall Fn.pdfi_dict_get_Encrypt (dict_get_code col) s trivial
    (by simp [is_col]) h
  have h2 := fun s h => hP.hcall Fn.pdfi_initialise_Decryption col.pdfi_initialise_Decryption s
    trivial (by simp [is_col]) h
  unfold init_encrypt
  dsimp only
  split_ifs <;> first
    | exact exit_on hP _ _ _ (h1 _ h)
    | exact exit_on hP _ _ _ (h2 _ (h1 _ h))
    | exact root_on hR hretry _ _ _ (h2 _ (h1 _ h))
    | exact root_on hR hretry _ _ _ (h1 _ h)
    | exact root_on hR hretry _ _ _ h

/-- The invariant principle for `pdfi_init_file`: a property that holds after
the first `pdfi_read_xref` (and after the retry of line 905 when that is
made), and is kept by the later steps and by the retry of line 937, holds
when `pdfi_init_file` is left. -/
theorem init_on {col : Collab ω} {P : State ω → Prop} (hP : ClosedOn col is_enc_fn P)
    (hretry : ∀ s, P s → s.ctx.is_hybrid = true → s.ctx.prefer_xrefstm = true →
      P (call Fn.pdfi_read_xref col.pdfi_read_xref (drop_xref col s)).2)
    (fuel : Nat) (s : State ω)
    (hfirst : P (call Fn.pdfi_read_xref col.pdfi_read_xref s).2)
    (hsecond : (call Fn.pdfi_read_xref col.pdfi_read_xref s).1 < 0 →
      (call Fn.pdfi_read_xref col.pdfi_read_xref s).2.ctx.is_hybrid = true →
      P (call Fn.pdfi_read_xref col.pdfi_read_xref
        (drop_xref col (call Fn.pdfi_read_xref col.pdfi_read_xref s).2)).2) :
    P (pdfi_init_file col fuel s).2 := by
  unfold pdfi_init_file
  dsimp only
  split_ifs with c1 c2 c3
  · exact exit_on hP _ _ _ (hsecond c1 c2)
  · exact encrypt_on hP hretry _ _ (hsecond c1 c2)
  · exact exit_on hP _ _ _ (hP.herr _ _ hfirst)
  · exact encrypt_on hP hretry _ _ hfirst

theorem exit_closed {col : Collab ω} {P : State ω → Prop} (hP : Closed col P)
    (o : Option Nat) (c : Int) (s : State ω) (h : P s) : P (init_exit col o c s).2 :=
  hP.hw _ _ _ trivial h

theorem encrypt_closed {col : Collab ω} {P : State ω → Prop} (hP : Closed col P)
    (hretry : ∀ s, P s → s.ctx.is_hybrid = true → s.ctx.prefer_xrefstm = true →
      P (call Fn.pdfi_read_xref col.pdfi_read_xref (drop_xref col s)).2)
    (fuel : Nat) (s : State ω) (h : P s) :
    P (init_encrypt col fuel s).2 :=
  encrypt_on (hP.on is_enc_fn (fun _ => is_enc_ne_xref)) hretry fuel s h

theorem init_closed {col : Collab ω} {P : State ω → Prop} (hP : Closed col P)
    (hretry : ∀ s, P s → s.ctx.is_hybrid = true → s.ctx.prefer_xrefstm = true →
      P (call Fn.pdfi_read_xref col.pdfi_read_xref (drop_xref col s)).2)
    (fuel : Nat) (s : State ω)
    (hfirst : P (call Fn.pdfi_read_xref col.pdfi_read_xref s).2)
    (hsecond : (call Fn.pdfi_read_xref col.pdfi_read_xref s).1 < 0 →
      (call Fn.pdfi_read_xref col.pdfi_read_xref s).2.ctx.is_hybrid = true →
      P (call Fn.pdfi_read_xref col.pdfi_read_xref
        (drop_xref col (call Fn.pdfi_read_xref col.pdfi_read_xref s).2)).2) :
    P (pdfi_init_file col fuel s).2 :=
  init_on (hP.on is_enc_fn (fun _ => is_enc_ne_xref)) hretry fuel s hfirst hsecond

theorem xref_calls_append (a b : List (Event ω)) :
    xref_calls (a ++ b) = xref_calls a ++ xref_calls b := by
  simp [xref_calls]

theorem call_trace (fn : Fn) (f : pdf_context ω → Int × pdf_context ω) (s : State ω) :
    (call fn f s).2.trace = s.trace ++ [⟨fn, s.ctx, (f s.ctx).1⟩] := rfl

theorem call_ctx (fn : Fn) (f : pdf_context ω → Int × pdf_context ω) (s : State ω) :
    (call fn f s).2.ctx = (f s.ctx).2 := rfl

theorem call_code (fn : Fn) (f : pdf_context ω → Int × pdf_context ω) (s : State ω) :
    (call fn f s).1 = (f s.ctx).1 := rfl

theorem wcall_trace (fn : Fn) (f : ω → ω) (s : State ω) :
    (wcall fn f s).trace = s.trace ++ [⟨fn, s.ctx, 0⟩] := rfl

theorem wcall_ctx (fn : Fn) (f : ω → ω) (s : State ω) :
    (wcall fn f s).ctx = { s.ctx with world := f s.ctx.world } := rfl

theorem upd_trace (f : pdf_context ω → pdf_context ω) (s : State ω) :
    (upd f s).trace = s.trace := rfl

theorem upd_ctx (f : pdf_context ω → pdf_context ω) (s : State ω) :
    (upd f s).ctx = f s.ctx := rfl

theorem is_wfn_ne_xref {fn : Fn} (h : is_wfn fn) : fn ≠ Fn.pdfi_read_xref := by
  rintro rfl; exact h

theorem xref_calls_single_ne (e : Event ω) (h : e.fn ≠ Fn.pdfi_read_xref) :
    xref_calls [e] = [] := by
  simp [xref_calls, h]

theorem xref_calls_single_eq (e : Event ω) (h : e.fn = Fn.pdfi_read_xref) :
    xref_calls [e] = [e] := by
  simp [xref_calls, h]

/-- The trace and context right after a retry: `drop_xref`, then
`pdfi_read_xref`. -/
theorem retry_trace (col : Collab ω) (s : State ω) :
    (call Fn.pdfi_read_xref col.pdfi_read_xref (drop_xref col s)).2.trace =
      s.trace ++
        [⟨Fn.pdfi_countdown s.ctx.xref_table,
            { s.ctx with pdf_errors := s.ctx.pdf_errors ||| E_PDF_BADXREFSTREAM }, 0⟩,
         ⟨Fn.pdfi_read_xref, (drop_xref col s).ctx,
            (col.pdfi_read_xref (drop_xref col s).ctx).1⟩] := by
  simp [call, drop_xref, wcall, upd]

theorem drop_xref_prefer (col : Collab ω) (s : State ω) :
    (drop_xref col s).ctx.prefer_xrefstm = false ∧ (drop_xref col s).ctx.xref_table = none ∧
    (drop_xref col s).ctx.pdf_errors = s.ctx.pdf_errors ||| E_PDF_BADXREFSTREAM := by
  simp [drop_xref, wcall, upd]

theorem retries_classic_closed (col : Collab ω) : Closed col (retries_classic (ω := ω)) where
  hcall := by
    intro fn f s hne _ h
    simpa [retries_classic, call_trace, xref_calls_append,
      xref_calls_single_ne (⟨fn, s.ctx, (f s.ctx).1⟩ : Event ω) hne] using h
  hw := by
    intro fn f s hw h
    simpa [retries_classic, wcall_trace, xref_calls_append,
      xref_calls_single_ne (⟨fn, s.ctx, 0⟩ : Event ω) (is_wfn_ne_xref hw)] using h
  herr := by
    intro e s h
    simpa [retries_classic, upd_trace] using h

theorem retries_classic_retry (col : Collab ω) (s : State ω) (h : retries_classic s) :
    retries_classic (call Fn.pdfi_read_xref col.pdfi_read_xref (drop_xref col s)).2 := by
  intro e he
  rw [retry_trace, xref_calls_append] at he
  have h2 : xref_calls [(⟨Fn.pdfi_countdown s.ctx.xref_table,
            { s.ctx with pdf_errors := s.ctx.pdf_errors ||| E_PDF_BADXREFSTREAM }, 0⟩ : Event ω),
         ⟨Fn.pdfi_read_xref, (drop_xref col s).ctx,
            (col.pdfi_read_xref (drop_xref col s).ctx).1⟩] =
      [⟨Fn.pdfi_read_xref, (drop_xref col s).ctx,
            (col.pdfi_read_xref (drop_xref col s).ctx).1⟩] := by
    simp [xref_calls]
  rw [h2] at he
  cases hx : xref_calls s.trace with
  | nil => simp [hx] at he
  | cons a as =>
    rw [hx] at he
    simp only [List.cons_append, List.tail_cons, List.mem_append, List.mem_singleton] at he
    rcases he with he | he
    · exact h e (by rw [hx]; simpa using he)
    · subst he
      exact ⟨(drop_xref_prefer col s).1, (drop_xref_prefer col s).2.1⟩

theorem chain_snoc (l : List Bool) (a b : Bool)
    (h : (l ++ [a]).Chain' (fun x y => x = false → y = false)) (hab : a = false → b = false) :
    (l ++ [a] ++ [b]).Chain' (fun x y => x = false → y = false) := by
  rw [List.chain'_append]
  refine ⟨h, List.chain'_singleton b, ?_⟩
  intro x hx y hy
  simp only [List.getLast?_append, List.getLast?_singleton, Option.mem_def,
    Option.some.injEq, List.head?_cons] at hx hy
  have hx2 : a = x := by simpa [Option.or] using hx
  subst hx2; subst hy; exact hab

theorem prefer_seq_call (fn : Fn) (f : pdf_context ω → Int × pdf_context ω) (s : State ω) :
    prefer_seq (call fn f s).2 = prefer_seq s ++ [(f s.ctx).2.prefer_xrefstm] := by
  simp [prefer_seq, call]

theorem prefer_seq_wcall (fn : Fn) (f : ω → ω) (s : State ω) :
    prefer_seq (wcall fn f s) = prefer_seq s ++ [s.ctx.prefer_xrefstm] := by
  simp [prefer_seq, wcall]

theorem xref_bounded_closed (col : Collab ω) (hk : keeps_prefer col) :
    Closed col (xref_bounded (ω := ω)) where
  hcall := by
    intro fn f s hne hc h
    refine ⟨?_, ?_, ?_⟩
    · simpa [call_trace, xref_calls_append,
        xref_calls_single_ne (⟨fn, s.ctx, (f s.ctx).1⟩ : Event ω) hne] using h.1
    · intro hp
      have : s.ctx.prefer_xrefstm = true := by
        by_contra hc2
        have := hk fn f hc s.ctx (by simpa using hc2)
        rw [call_ctx] at hp
        simp [this] at hp
      simpa [call_trace, xref_calls_append,
        xref_calls_single_ne (⟨fn, s.ctx, (f s.ctx).1⟩ : Event ω) hne] using h.2.1 this
    · rw [prefer_seq_call]
      exact chain_snoc _ _ _ h.2.2 (hk fn f hc s.ctx)
  hw := by
    intro fn f s hw h
    refine ⟨?_, ?_, ?_⟩
    · simpa [wcall_trace, xref_calls_append,
        xref_calls_single_ne (⟨fn, s.ctx, 0⟩ : Event ω) (is_wfn_ne_xref hw)] using h.1
    · intro hp
      simpa [wcall_trace, xref_calls_append,
        xref_calls_single_ne (⟨fn, s.ctx, 0⟩ : Event ω) (is_wfn_ne_xref hw)] using h.2.1 hp
    · rw [prefer_seq_wcall]
      exact chain_snoc _ _ _ h.2.2 id
  herr := by
    intro e s h
    exact h

theorem xref_bounded_retry (col : Collab ω) (hk : keeps_prefer col) (s : State ω)
    (h : xref_bounded s) (hone : (xref_calls s.trace).length ≤ 1) :
    xref_bounded (call Fn.pdfi_read_xref col.pdfi_read_xref (drop_xref col s)).2 := by
  have hx : is_col col Fn.pdfi_read_xref col.pdfi_read_xref := by simp [is_col]
  have hf := hk _ _ hx (drop_xref col s).ctx (drop_xref_prefer col s).1
  refine ⟨?_, ?_, ?_⟩
  · rw [retry_trace, xref_calls_append]
    have h2 : xref_calls [(⟨Fn.pdfi_countdown s.ctx.xref_table,
            { s.ctx with pdf_errors := s.ctx.pdf_errors ||| E_PDF_BADXREFSTREAM }, 0⟩ : Event ω),
         ⟨Fn.pdfi_read_xref, (drop_xref col s).ctx,
            (col.pdfi_read_xref (drop_xref col s).ctx).1⟩] =
      [⟨Fn.pdfi_read_xref, (drop_xref col s).ctx,
            (col.pdfi_read_xref (drop_xref col s).ctx).1⟩] := by
      simp [xref_calls]
    rw [h2, List.length_append, List.length_singleton]
    omega
  · intro hp
    rw [call_ctx, hf] at hp
    simp at hp
  · rw [prefer_seq_call, hf]
    have h1 : prefer_seq (drop_xref col s) = prefer_seq s ++ [false] := by
      simp [prefer_seq, drop_xref, wcall, upd]
    rw [h1]
    have := chain_snoc _ _ false h.2.2 (fun _ => rfl)
    obtain ⟨l, a, hl⟩ : ∃ l a, prefer_seq s ++ [false] = l ++ [a] := ⟨_, _, rfl⟩
    exact chain_snoc _ _ false (by simpa [prefer_seq] using this) (fun _ => rfl)

theorem starts_with_closed (col : Collab ω) (pre : List (Event ω)) :
    Closed col (starts_with pre) where
  hcall := by
    intro fn f s _ _ h
    exact h.trans (List.prefix_append _ _)
  hw := by
    intro fn f s _ h
    exact h.trans (List.prefix_append _ _)
  herr := by
    intro e s h
    exact h

theorem starts_with_retry (col : Collab ω) (pre : List (Event ω)) (s : State ω)
    (h : starts_with pre s) :
    starts_with pre (call Fn.pdfi_read_xref col.pdfi_read_xref (drop_xref col s)).2 := by
  unfold starts_with
  rw [retry_trace]
  exact h.trans (List.prefix_append _ _)

theorem starts_with_root_on (col : Collab ω) (pre : List (Event ω)) :
    ClosedOn col is_root_fn (starts_with pre) :=
  (starts_with_closed col pre).on is_root_fn (fun _ h => is_enc_ne_xref (is_root_enc h))

theorem starts_with_tail_on (col : Collab ω) (pre : List (Event ω)) :
    ClosedOn col is_tail_fn (starts_with pre) :=
  (starts_with_root_on col pre).mono (fun _ => is_tail_root)

/-- With a trailer, the first call made from the label `read_root:` is
`pdfi_read_Root`, on the context as it stands. -/
theorem root_call_first (col : Collab ω) (o : Option Nat) (fuel : Nat) (s : State ω)
    (hT : s.ctx.Trailer ≠ none) :
    starts_with (s.trace ++ [⟨Fn.pdfi_read_Root, s.ctx, (col.pdfi_read_Root s.ctx).1⟩])
      (read_root col o (fuel + 1) s).2 := by
  have hP := starts_with_root_on col
    (s.trace ++ [⟨Fn.pdfi_read_Root, s.ctx, (col.pdfi_read_Root s.ctx).1⟩])
  have hT' := starts_with_tail_on col
    (s.trace ++ [⟨Fn.pdfi_read_Root, s.ctx, (col.pdfi_read_Root s.ctx).1⟩])
  have h0 : starts_with (s.trace ++ [⟨Fn.pdfi_read_Root, s.ctx, (col.pdfi_read_Root s.ctx).1⟩])
      (call Fn.pdfi_read_Root col.pdfi_read_Root s).2 := List.prefix_refl _
  have h1 := fun s h => hP.hcall Fn.pdfi_read_Root col.pdfi_read_Root s trivial
    (by simp [is_col]) h
  have h2 := fun s h => hP.hcall Fn.pdfi_repair_file col.pdfi_repair_file s trivial
    (by simp [is_col]) h
  unfold read_root
  dsimp only
  rw [if_pos hT]
  split_ifs with c2 c3 c4 c5 c6
  · exact exit_on hP _ _ _ (hP.herr _ _ (starts_with_retry col _ _ h0))
  · exact exit_on hP _ _ _ (h1 _ (starts_with_retry col _ _ h0))
  · exact info_on hT' _ _ (h1 _ (starts_with_retry col _ _ h0))
  · exact exit_on hP _ _ _ (h2 _ h0)
  · exact root_on hP (fun s h _ _ => starts_with_retry col _ s h) _ _ _ (h2 _ h0)
  · exact info_on hT' _ _ h0

/-- With a trailer, the first call made from line 914 on is the lookup of
`/Encrypt` in the trailer. -/
theorem encrypt_lookup_first (col : Collab ω) (fuel : Nat) (s : State ω)
    (hT : s.ctx.Trailer ≠ none) :
    starts_with
      (s.trace ++ [⟨Fn.pdfi_dict_get_Encrypt, s.ctx, (col.pdfi_dict_get_Encrypt s.ctx).1.1⟩])
      (init_encrypt col fuel s).2 := by
  have hP := starts_with_root_on col
    (s.trace ++ [⟨Fn.pdfi_dict_get_Encrypt, s.ctx, (col.pdfi_dict_get_Encrypt s.ctx).1.1⟩])
  have hE := (starts_with_closed col
    (s.trace ++ [⟨Fn.pdfi_dict_get_Encrypt, s.ctx,
      (col.pdfi_dict_get_Encrypt s.ctx).1.1⟩])).on is_enc_fn (fun _ => is_enc_ne_xref)
  have h0 : starts_with
      (s.trace ++ [⟨Fn.pdfi_dict_get_Encrypt, s.ctx, (col.pdfi_dict_get_Encrypt s.ctx).1.1⟩])
      (call Fn.pdfi_dict_get_Encrypt (dict_get_code col) s).2 := List.prefix_refl _
  have h2 := fun s h => hE.hcall Fn.pdfi_initialise_Decryption col.pdfi_initialise_Decryption s
    trivial (by simp [is_col]) h
  unfold init_encrypt
  dsimp only
  rw [if_pos hT]
  split_ifs
  · exact exit_on hP _ _ _ h0
  · exact exit_on hP _ _ _ (h2 _ h0)
  · exact root_on hP (fun s h _ _ => starts_with_retry col _ s h) _ _ _ (h2 _ h0)
  · exact root_on hP (fun s h _ _ => starts_with_retry col _ s h) _ _ _ h0

/-- When the trailer has no `/Encrypt` (the lookup returns
`gs_error_undefined`, or a positive code) and the trailer is still there,
`pdfi_read_Root` is called right after the lookup. -/
theorem encrypt_then_root (col : Collab ω) (fuel : Nat) (s : State ω)
    (hT : s.ctx.Trailer ≠ none)
    (hu : (col.pdfi_dict_get_Encrypt s.ctx).1.1 = gs_error_undefined ∨
      0 < (col.pdfi_dict_get_Encrypt s.ctx).1.1)
    (hT2 : (col.pdfi_dict_get_Encrypt s.ctx).2.Trailer ≠ none) :
    starts_with
      (s.trace ++ [⟨Fn.pdfi_dict_get_Encrypt, s.ctx, (col.pdfi_dict_get_Encrypt s.ctx).1.1⟩,
        ⟨Fn.pdfi_read_Root, (col.pdfi_dict_get_Encrypt s.ctx).2,
          (col.pdfi_read_Root (col.pdfi_dict_get_Encrypt s.ctx).2).1⟩])
      (init_encrypt col (fuel + 1) s).2 := by
  have hg : (call Fn.pdfi_dict_get_Encrypt (dict_get_code col) s).1
      = (col.pdfi_dict_get_Encrypt s.ctx).1.1 := rfl
  have hn1 : ¬ ((call Fn.pdfi_dict_get_Encrypt (dict_get_code col) s).1 < 0 ∧
      (call Fn.pdfi_dict_get_Encrypt (dict_get_code col) s).1 ≠ gs_error_undefined) := by
    rw [hg]
    rcases hu with h | h
    · exact fun hh => hh.2 h
    · exact fun hh => absurd hh.1 (not_lt.2 (le_of_lt h))
  have hn2 : ¬ (call Fn.pdfi_dict_get_Encrypt (dict_get_code col) s).1 = 0 := by
    rw [hg]
    rcases hu with h | h
    · rw [h]; decide
    · exact fun hh => absurd h (by rw [hh]; decide)
  have hr := root_call_first col (col.pdfi_dict_get_Encrypt s.ctx).1.2 fuel
    (call Fn.pdfi_dict_get_Encrypt (dict_get_code col) s).2 hT2
  unfold init_encrypt
  dsimp only
  rw [if_pos hT, if_neg hn1, if_neg hn2]
  rw [call_trace, List.append_assoc] at hr
  exact hr

/-- When the trailer has an `/Encrypt` entry (the lookup returns 0),
`pdfi_initialise_Decryption` is called right after the lookup; when that
succeeds and the trailer is still there, `pdfi_read_Root` is called next. -/
theorem encrypt_then_decrypt (col : Collab ω) (fuel : Nat) (s : State ω)
    (hT : s.ctx.Trailer ≠ none) (h0 : (col.pdfi_dict_get_Encrypt s.ctx).1.1 = 0) :
    starts_with
        (s.trace ++ [⟨Fn.pdfi_dict_get_Encrypt, s.ctx, 0⟩,
          ⟨Fn.pdfi_initialise_Decryption, (col.pdfi_dict_get_Encrypt s.ctx).2,
            (col.pdfi_initialise_Decryption (col.pdfi_dict_get_Encrypt s.ctx).2).1⟩])
        (init_encrypt col (fuel + 1) s).2 ∧
      (0 ≤ (col.pdfi_initialise_Decryption (col.pdfi_dict_get_Encrypt s.ctx).2).1 →
        (col.pdfi_initialise_Decryption (col.pdfi_dict_get_Encrypt s.ctx).2).2.Trailer ≠ none →
        starts_with
          (s.trace ++ [⟨Fn.pdfi_dict_get_Encrypt, s.ctx, 0⟩,
            ⟨Fn.pdfi_initialise_Decryption, (col.pdfi_dict_get_Encrypt s.ctx).2,
              (col.pdfi_initialise_Decryption (col.pdfi_dict_get_Encrypt s.ctx).2).1⟩,
            ⟨Fn.pdfi_read_Root,
              (col.pdfi_initialise_Decryption (col.pdfi_dict_get_Encrypt s.ctx).2).2,
              (col.pdfi_read_Root
                (col.pdfi_initialise_Decryption (col.pdfi_dict_get_Encrypt s.ctx).2).2).1⟩])
          (init_encrypt col (fuel + 1) s).2) := by
  have hg : (call Fn.pdfi_dict_get_Encrypt (dict_get_code col) s).1 = 0 := h0
  have hn1 : ¬ ((call Fn.pdfi_dict_get_Encrypt (dict_get_code col) s).1 < 0 ∧
      (call Fn.pdfi_dict_get_Encrypt (dict_get_code col) s).1 ≠ gs_error_undefined) := by
    rw [hg]
    exact fun hh => absurd hh.1 (by decide)
  have htr : (call Fn.pdfi_initialise_Decryption col.pdfi_initialise_Decryption
      (call Fn.pdfi_dict_get_Encrypt (dict_get_code col) s).2).2.trace
      = s.trace ++ [⟨Fn.pdfi_dict_get_Encrypt, s.ctx, 0⟩,
          ⟨Fn.pdfi_initialise_Decryption, (col.pdfi_dict_get_Encrypt s.ctx).2,
            (col.pdfi_initialise_Decryption (col.pdfi_dict_get_Encrypt s.ctx).2).1⟩] := by
    rw [call_trace, call_trace, List.append_assoc, ← h0]
    rfl
  constructor
  · have hP := starts_with_root_on col
      (s.trace ++ [⟨Fn.pdfi_dict_get_Encrypt, s.ctx, 0⟩,
        ⟨Fn.pdfi_initialise_Decryption, (col.pdfi_dict_get_Encrypt s.ctx).2,
          (col.pdfi_initialise_Decryption (col.pdfi_dict_get_Encrypt s.ctx).2).1⟩])
    have hd : starts_with
        (s.trace ++ [⟨Fn.pdfi_dict_get_Encrypt, s.ctx, 0⟩,
          ⟨Fn.pdfi_initialise_Decryption, (col.pdfi_dict_get_Encrypt s.ctx).2,
            (col.pdfi_initialise_Decryption (col.pdfi_dict_get_Encrypt s.ctx).2).1⟩])
        (call Fn.pdfi_initialise_Decryption col.pdfi_initialise_Decryption
          (call Fn.pdfi_dict_get_Encrypt (dict_get_code col) s).2).2 := by
      unfold starts_with
      rw [htr]
    unfold init_encrypt
    dsimp only
    rw [if_pos hT, if_neg hn1, if_pos hg]
    split_ifs
    · exact exit_on hP _ _ _ hd
    · exact root_on hP (fun s h _ _ => starts_with_retry col _ s h) _ _ _ hd
  · intro hd0 hT3
    have hr := root_call_first col (col.pdfi_dict_get_Encrypt s.ctx).1.2 fuel
      (call Fn.pdfi_initialise_Decryption col.pdfi_initialise_Decryption
        (call Fn.pdfi_dict_get_Encrypt (dict_get_code col) s).2).2 hT3
    have hn3 : ¬ (call Fn.pdfi_initialise_Decryption col.pdfi_initialise_Decryption
        (call Fn.pdfi_dict_get_Encrypt (dict_get_code col) s).2).1 < 0 := not_lt.2 hd0
    unfold init_encrypt
    dsimp only
    rw [if_pos hT, if_neg hn1, if_pos hg, if_neg hn3]
    rw [htr, List.append_assoc] at hr
    exact hr

/-- Without a trailer nothing is looked up or read: the function goes to the
test of `ctx->Root` at line 963, where it gives up with
`gs_error_syntaxerror` when there is no catalog and calls `pdfi_read_Pages`
otherwise. -/
theorem encrypt_no_trailer (col : Collab ω) (fuel : Nat) (s : State ω)
    (hT : s.ctx.Trailer = none) :
    (s.ctx.Root = none →
      (init_encrypt col (fuel + 1) s).1 = some gs_error_syntaxerror ∧
      (init_encrypt col (fuel + 1) s).2.trace = s.trace ++ [⟨Fn.dmprintf_no_catalog, s.ctx, 0⟩]) ∧
    (s.ctx.Root ≠ none →
      starts_with (s.trace ++ [⟨Fn.pdfi_read_Pages, s.ctx, (col.pdfi_read_Pages s.ctx).1⟩])
        (init_encrypt col (fuel + 1) s).2) := by
  have hT' : ¬ s.ctx.Trailer ≠ none := fun h => h hT
  have he : init_encrypt col (fuel + 1) s = init_finish col none s := by
    unfold init_encrypt
    dsimp only
    rw [if_neg hT']
    unfold read_root
    dsimp only
    rw [if_neg hT']
    unfold init_info
    rw [if_neg hT']
  rw [he]
  constructor
  · intro hR
    unfold init_finish
    rw [if_pos hR]
    exact ⟨rfl, rfl⟩
  · intro hR
    have hP := (starts_with_tail_on col
      (s.trace ++ [⟨Fn.pdfi_read_Pages, s.ctx, (col.pdfi_read_Pages s.ctx).1⟩])).mono
        (fun fn => is_page_tail)
    have h0 : starts_with
        (s.trace ++ [⟨Fn.pdfi_read_Pages, s.ctx, (col.pdfi_read_Pages s.ctx).1⟩])
        (call Fn.pdfi_read_Pages col.pdfi_read_Pages s).2 := List.prefix_refl _
    have h2 := fun s h => hP.hcall Fn.pdfi_doc_page_array_init col.pdfi_doc_page_array_init s
      trivial (by simp [is_col]) h
    have h3 := fun s h => hP.hcall Fn.pdfi_doc_trailer col.pdfi_doc_trailer s trivial
      (by simp [is_col]) h
    have h4 := fun s h => hP.hcall Fn.pdfi_read_OptionalRoot col.pdfi_read_OptionalRoot s
      trivial (by simp [is_col]) h
    have h5 := fun s h => hP.hcall Fn.pdfi_output_metadata col.pdfi_output_metadata s
      trivial (by simp [is_col]) h
    unfold init_finish
    dsimp only
    rw [if_neg hR]
    split_ifs <;> simp only [init_exit] <;> apply_rules [hP.hw]

theorem init_file_hybrid_eq (col : Collab ω) (fuel : Nat) (ctx : pdf_context ω)
    (h1 : (col.pdfi_read_xref ctx).1 < 0) (h2 : (col.pdfi_read_xref ctx).2.is_hybrid = true) :
    pdfi_init_file col fuel ⟨ctx, []⟩ =
      if (col.pdfi_read_xref (drop_xref col (after_first col ctx)).ctx).1 < 0 then
        init_exit col none (col.pdfi_read_xref (drop_xref col (after_first col ctx)).ctx).1
          (after_retry col ctx)
      else init_encrypt col fuel (after_retry col ctx) := by
  unfold pdfi_init_file
  simp only [call_code, call_ctx, h1, h2, if_true, after_retry, after_first]

/-- C4: the hybrid fallback of `pdfi_init_file`, entered with context `ctx`
and an empty log.  (1) Every call of `pdfi_read_xref` after the first is made
with `prefer_xrefstm` false and `xref_table` NULL.  (2) If no routine sets
`prefer_xrefstm`, `pdfi_read_xref` is called at most twice and
`prefer_xrefstm` never goes from false back to true.  (3) If the first
`pdfi_read_xref` fails on a hybrid file, the log starts with that call, the
release of the xref table and the second `pdfi_read_xref`, which is given a
context with `xref_table` NULL, `prefer_xrefstm` false and
`E_PDF_BADXREFSTREAM` recorded; these three calls are the log of
`after_retry`, whose context is the one the retry returned.  (4) If this
retry succeeds the function goes on with the trailer.  With a trailer the
next call is the lookup of `/Encrypt` in it (line 914), on the context the
retry returned; when there is no such entry and the trailer is still there,
`pdfi_read_Root` is called next; when there is one,
`pdfi_initialise_Decryption` is called next and, after its success,
`pdfi_read_Root`.  Without a trailer the function goes to the test of
`ctx->Root` (line 963): it returns `gs_error_syntaxerror` when there is no
catalog and calls `pdfi_read_Pages` otherwise. -/
theorem init_file_hybrid_retry (col : Collab ω) (fuel : Nat) (ctx : pdf_context ω) :
    (∀ e ∈ (xref_calls (pdfi_init_file col fuel ⟨ctx, []⟩).2.trace).tail,
      e.before.prefer_xrefstm = false ∧ e.before.xref_table = none) ∧
    (keeps_prefer col →
      (xref_calls (pdfi_init_file col fuel ⟨ctx, []⟩).2.trace).length ≤ 2 ∧
      (prefer_seq (pdfi_init_file col fuel ⟨ctx, []⟩).2).Chain'
        (fun x y => x = false → y = false)) ∧
    ((col.pdfi_read_xref ctx).1 < 0 → (col.pdfi_read_xref ctx).2.is_hybrid = true →
      (∃ rest, (pdfi_init_file col fuel ⟨ctx, []⟩).2.trace =
        [⟨Fn.pdfi_read_xref, ctx, (col.pdfi_read_xref ctx).1⟩,
         ⟨Fn.pdfi_countdown (col.pdfi_read_xref ctx).2.xref_table,
           { (col.pdfi_read_xref ctx).2 with
             pdf_errors := (col.pdfi_read_xref ctx).2.pdf_errors ||| E_PDF_BADXREFSTREAM }, 0⟩,
         ⟨Fn.pdfi_read_xref, (drop_xref col (after_first col ctx)).ctx,
           (col.pdfi_read_xref (drop_xref col (after_first col ctx)).ctx).1⟩] ++ rest) ∧
      (drop_xref col (after_first col ctx)).ctx.xref_table = none ∧
      (drop_xref col (after_first col ctx)).ctx.prefer_xrefstm = false ∧
      (drop_xref col (after_first col ctx)).ctx.pdf_errors =
        (col.pdfi_read_xref ctx).2.pdf_errors ||| E_PDF_BADXREFSTREAM ∧
      (after_retry col ctx).trace =
        [⟨Fn.pdfi_read_xref, ctx, (col.pdfi_read_xref ctx).1⟩,
         ⟨Fn.pdfi_countdown (col.pdfi_read_xref ctx).2.xref_table,
           { (col.pdfi_read_xref ctx).2 with
             pdf_errors := (col.pdfi_read_xref ctx).2.pdf_errors ||| E_PDF_BADXREFSTREAM }, 0⟩,
         ⟨Fn.pdfi_read_xref, (drop_xref col (after_first col ctx)).ctx,
           (col.pdfi_read_xref (drop_xref col (after_first col ctx)).ctx).1⟩] ∧
      (after_retry col ctx).ctx
        = (col.pdfi_read_xref (drop_xref col (after_first col ctx)).ctx).2 ∧
      (0 ≤ (col.pdfi_read_xref (drop_xref col (after_first col ctx)).ctx).1 → 0 < fuel →
        ((after_retry col ctx).ctx.Trailer ≠ none →
          starts_with ((after_retry col ctx).trace ++
              [⟨Fn.pdfi_dict_get_Encrypt, (after_retry col ctx).ctx,
                (col.pdfi_dict_get_Encrypt (after_retry col ctx).ctx).1.1⟩])
            (pdfi_init_file col fuel ⟨ctx, []⟩).2 ∧
          ((col.pdfi_dict_get_Encrypt (after_retry col ctx).ctx).1.1 = gs_error_undefined ∨
              0 < (col.pdfi_dict_get_Encrypt (after_retry col ctx).ctx).1.1 →
            (col.pdfi_dict_get_Encrypt (after_retry col ctx).ctx).2.Trailer ≠ none →
            starts_with ((after_retry col ctx).trace ++
                [⟨Fn.pdfi_dict_get_Encrypt, (after_retry col ctx).ctx,
                  (col.pdfi_dict_get_Encrypt (after_retry col ctx).ctx).1.1⟩,
                 ⟨Fn.pdfi_read_Root, (col.pdfi_dict_get_Encrypt (after_retry col ctx).ctx).2,
                  (col.pdfi_read_Root
                    (col.pdfi_dict_get_Encrypt (after_retry col ctx).ctx).2).1⟩])
              (pdfi_init_file col fuel ⟨ctx, []⟩).2) ∧
          ((col.pdfi_dict_get_Encrypt (after_retry col ctx).ctx).1.1 = 0 →
            starts_with ((after_retry col ctx).trace ++
                [⟨Fn.pdfi_dict_get_Encrypt, (after_retry col ctx).ctx, 0⟩,
                 ⟨Fn.pdfi_initialise_Decryption,
                  (col.pdfi_dict_get_Encrypt (after_retry col ctx).ctx).2,
                  (col.pdfi_initialise_Decryption
                    (col.pdfi_dict_get_Encrypt (after_retry col ctx).ctx).2).1⟩])
              (pdfi_init_file col fuel ⟨ctx, []⟩).2 ∧
            (0 ≤ (col.pdfi_initialise_Decryption
                  (col.pdfi_dict_get_Encrypt (after_retry col ctx).ctx).2).1 →
              (col.pdfi_initialise_Decryption
                  (col.pdfi_dict_get_Encrypt (after_retry col ctx).ctx).2).2.Trailer ≠ none →
              starts_with ((after_retry col ctx).trace ++
                  [⟨Fn.pdfi_dict_get_Encrypt, (after_retry col ctx).ctx, 0⟩,
                   ⟨Fn.pdfi_initialise_Decryption,
                    (col.pdfi_dict_get_Encrypt (after_retry col ctx).ctx).2,
                    (col.pdfi_initialise_Decryption
                      (col.pdfi_dict_get_Encrypt (after_retry col ctx).ctx).2).1⟩,
                   ⟨Fn.pdfi_read_Root,
                    (col.pdfi_initialise_Decryption
                      (col.pdfi_dict_get_Encrypt (after_retry col ctx).ctx).2).2,
                    (col.pdfi_read_Root
                      (col.pdfi_initialise_Decryption
                        (col.pdfi_dict_get_Encrypt (after_retry col ctx).ctx).2).2).1⟩])
                (pdfi_init_file col fuel ⟨ctx, []⟩).2))) ∧
        ((after_retry col ctx).ctx.Trailer = none →
          ((after_retry col ctx).ctx.Root = none →
            (pdfi_init_file col fuel ⟨ctx, []⟩).1 = some gs_error_syntaxerror ∧
            (pdfi_init_file col fuel ⟨ctx, []⟩).2.trace = (after_retry col ctx).trace ++
              [⟨Fn.dmprintf_no_catalog, (after_retry col ctx).ctx, 0⟩]) ∧
          ((after_retry col ctx).ctx.Root ≠ none →
            starts_with ((after_retry col ctx).trace ++
                [⟨Fn.pdfi_read_Pages, (after_retry col ctx).ctx,
                  (col.pdfi_read_Pages (after_retry col ctx).ctx).1⟩])
              (pdfi_init_file col fuel ⟨ctx, []⟩).2)))) := by
  have hfirst_tr : (call Fn.pdfi_read_xref col.pdfi_read_xref (⟨ctx, []⟩ : State ω)).2.trace =
      [⟨Fn.pdfi_read_xref, ctx, (col.pdfi_read_xref ctx).1⟩] := rfl
  have hx1 : xref_calls (call Fn.pdfi_read_xref col.pdfi_read_xref (⟨ctx, []⟩ : State ω)).2.trace
      = [⟨Fn.pdfi_read_xref, ctx, (col.pdfi_read_xref ctx).1⟩] := by
    rw [hfirst_tr]; exact xref_calls_single_eq _ rfl
  refine ⟨?_, ?_, ?_⟩
  · have hf : retries_classic (call Fn.pdfi_read_xref col.pdfi_read_xref (⟨ctx, []⟩ : State ω)).2 := by
      intro e he
      rw [hx1] at he
      simp at he
    exact init_closed (retries_classic_closed col)
      (fun s h _ _ => retries_classic_retry col s h) fuel _ hf
      (fun _ _ => retries_classic_retry col _ hf)
  · intro hk
    have hf : xref_bounded (call Fn.pdfi_read_xref col.pdfi_read_xref (⟨ctx, []⟩ : State ω)).2 := by
      refine ⟨by rw [hx1]; simp, fun _ => by rw [hx1]; simp, ?_⟩
      have : prefer_seq (call Fn.pdfi_read_xref col.pdfi_read_xref (⟨ctx, []⟩ : State ω)).2 =
          [] ++ [ctx.prefer_xrefstm] ++ [(col.pdfi_read_xref ctx).2.prefer_xrefstm] := rfl
      rw [this]
      exact chain_snoc [] _ _ (List.chain'_singleton _)
        (hk Fn.pdfi_read_xref col.pdfi_read_xref (by simp [is_col]) ctx)
    have := init_closed (xref_bounded_closed col hk)
      (fun s h _ hp => xref_bounded_retry col hk s h (h.2.1 hp)) fuel _ hf
      (fun _ _ => xref_bounded_retry col hk _ hf (by rw [hx1]; simp))
    exact ⟨this.1, this.2.2⟩
  · intro h1 h2
    have hp := drop_xref_prefer col (after_first col ctx)
    have hrt : (after_retry col ctx).trace =
        [⟨Fn.pdfi_read_xref, ctx, (col.pdfi_read_xref ctx).1⟩,
         ⟨Fn.pdfi_countdown (col.pdfi_read_xref ctx).2.xref_table,
           { (col.pdfi_read_xref ctx).2 with
             pdf_errors := (col.pdfi_read_xref ctx).2.pdf_errors ||| E_PDF_BADXREFSTREAM }, 0⟩,
         ⟨Fn.pdfi_read_xref, (drop_xref col (after_first col ctx)).ctx,
           (col.pdfi_read_xref (drop_xref col (after_first col ctx)).ctx).1⟩] := by
      unfold after_retry
      rw [retry_trace]
      rfl
    have heq := init_file_hybrid_eq col fuel ctx h1 h2
    refine ⟨?_, hp.2.1, hp.1, hp.2.2, hrt, rfl, ?_⟩
    · have hs : starts_with (after_retry col ctx).trace (pdfi_init_file col fuel ⟨ctx, []⟩).2 := by
        rw [heq]
        split_ifs
        · exact exit_closed (starts_with_closed col _) _ _ _ (List.prefix_refl _)
        · exact encrypt_closed (starts_with_closed col _)
            (fun s h _ _ => starts_with_retry col _ s h) _ _ (List.prefix_refl _)
      obtain ⟨rest, hrest⟩ := hs
      exact ⟨rest, by rw [← hrest, hrt]⟩
    · intro h3 hfuel
      obtain ⟨f, rfl⟩ : ∃ f, fuel = f + 1 := ⟨fuel - 1, by omega⟩
      rw [heq, if_neg (not_lt.2 h3)]
      refine ⟨fun hT => ⟨encrypt_lookup_first col (f + 1) _ hT,
        fun hu hT2 => encrypt_then_root col f _ hT hu hT2, fun h0 => ?_⟩,
        fun hT => encrypt_no_trailer col f _ hT⟩
      have hd := encrypt_then_decrypt col f (after_retry col ctx) hT h0
      exact hd

/-- C4 on a hybrid file whose stream is unreadable and whose table is fine:
the retry succeeds and is followed by the lookup of `/Encrypt` and by
`pdfi_read_Root`; the whole run makes the calls listed and returns 0. -/
theorem init_file_hybrid_retry_witness :
    ((col_hybrid_ok.pdfi_read_xref ctx0).1 < 0 ∧
      (col_hybrid_ok.pdfi_read_xref ctx0).2.is_hybrid = true ∧
      0 ≤ (col_hybrid_ok.pdfi_read_xref
        (drop_xref col_hybrid_ok (after_first col_hybrid_ok ctx0)).ctx).1 ∧
      (after_retry col_hybrid_ok ctx0).ctx.Trailer ≠ none ∧
      (col_hybrid_ok.pdfi_dict_get_Encrypt (after_retry col_hybrid_ok ctx0).ctx).1.1
        = gs_error_undefined ∧
      (col_hybrid_ok.pdfi_dict_get_Encrypt (after_retry col_hybrid_ok ctx0).ctx).2.Trailer
        ≠ none) ∧
    starts_with ((after_retry col_hybrid_ok ctx0).trace ++
        [⟨Fn.pdfi_dict_get_Encrypt, (after_retry col_hybrid_ok ctx0).ctx,
          (col_hybrid_ok.pdfi_dict_get_Encrypt (after_retry col_hybrid_ok ctx0).ctx).1.1⟩,
         ⟨Fn.pdfi_read_Root,
          (col_hybrid_ok.pdfi_dict_get_Encrypt (after_retry col_hybrid_ok ctx0).ctx).2,
          (col_hybrid_ok.pdfi_read_Root
            (col_hybrid_ok.pdfi_dict_get_Encrypt (after_retry col_hybrid_ok ctx0).ctx).2).1⟩])
      (pdfi_init_file col_hybrid_ok 5 ⟨ctx0, []⟩).2 ∧
    (pdfi_init_file col_hybrid_ok 5 ⟨ctx0, []⟩).1 = some 0 ∧
    fns (pdfi_init_file col_hybrid_ok 5 ⟨ctx0, []⟩).2.trace
      = [Fn.pdfi_read_xref, Fn.pdfi_countdown none, Fn.pdfi_read_xref,
         Fn.pdfi_dict_get_Encrypt, Fn.pdfi_read_Root, Fn.pdfi_read_Info, Fn.pdfi_read_Pages,
         Fn.pdfi_doc_page_array_init, Fn.pdfi_doc_trailer, Fn.pdfi_read_OptionalRoot,
         Fn.pdfi_countdown none] :=
  ⟨⟨by decide, by decide, by decide, by decide, by decide, by decide⟩,
    ((((init_file_hybrid_retry col_hybrid_ok 5 ctx0).2.2 (by decide) (by decide)).2.2.2.2.2.2
      (by decide) (by decide)).1 (by decide)).2.1 (Or.inl (by decide)) (by decide),
    by decide, by decide⟩

/-- C7 (as the code has it): when `pdfi_read_xref` fails and the file is not
hybrid, `pdfi_init_file` records `E_PDF_BADXREF` and returns the code of
`pdfi_read_xref`; the only routines it calls are `pdfi_read_xref` and the
final `pdfi_countdown(o)` with `o` NULL, so `pdfi_repair_file` is not
invoked. -/
theorem init_file_xref_nonhybrid (col : Collab ω) (fuel : Nat) (ctx : pdf_context ω)
    (h1 : (col.pdfi_read_xref ctx).1 < 0)
    (h2 : (col.pdfi_read_xref ctx).2.is_hybrid = false) :
    (pdfi_init_file col fuel ⟨ctx, []⟩).1 = some (col.pdfi_read_xref ctx).1 ∧
    fns (pdfi_init_file col fuel ⟨ctx, []⟩).2.trace
      = [Fn.pdfi_read_xref, Fn.pdfi_countdown none] ∧
    (pdfi_init_file col fuel ⟨ctx, []⟩).2.ctx.pdf_errors
      = (col.pdfi_read_xref ctx).2.pdf_errors ||| E_PDF_BADXREF := by
  unfold pdfi_init_file
  simp [call, h1, h2, init_exit, wcall, upd, fns]

/-- Witness for `init_file_xref_nonhybrid`. -/
theorem init_file_xref_nonhybrid_witness :
    (pdfi_init_file col_badxref 5 ⟨ctx0, []⟩).1 = some (col_badxref.pdfi_read_xref ctx0).1 ∧
    fns (pdfi_init_file col_badxref 5 ⟨ctx0, []⟩).2.trace
      = [Fn.pdfi_read_xref, Fn.pdfi_countdown none] ∧
    (pdfi_init_file col_badxref 5 ⟨ctx0, []⟩).2.ctx.pdf_errors
      = (col_badxref.pdfi_read_xref ctx0).2.pdf_errors ||| E_PDF_BADXREF :=
  init_file_xref_nonhybrid col_badxref 5 ctx0 (by decide) (by decide)

/-- Counterexample to C7 as stated: `pdfi_read_xref` fails on a file that is
not hybrid, `pdfi_init_file` gives up with that error, and `pdfi_repair_file`
was never invoked. -/
theorem init_file_no_repair_counterexample :
    (pdfi_init_file col_badxref 5 ⟨ctx0, []⟩).1 = some (-1) ∧
    Fn.pdfi_repair_file ∉ fns (pdfi_init_file col_badxref 5 ⟨ctx0, []⟩).2.trace := by
  decide

theorem drop_xref_trace (col : Collab ω) (s : State ω) :
    (drop_xref col s).trace = s.trace ++
      [⟨Fn.pdfi_countdown s.ctx.xref_table,
        { s.ctx with pdf_errors := s.ctx.pdf_errors ||| E_PDF_BADXREFSTREAM }, 0⟩] := by
  simp [drop_xref, wcall, upd]

/-- C5: a failed retry of `pdfi_read_xref` is final.  At line 905 (first
`pdfi_read_xref` failed on a hybrid file) and at line 937 (`pdfi_read_Root`
returned `gs_error_undefined` on a hybrid file with `prefer_xrefstm` set):
if the retry fails, the function returns the retry's code and the only call
it still makes is the `pdfi_countdown(o)` at `exit:`. -/
theorem init_file_retry_fails (col : Collab ω) (fuel : Nat) (ctx : pdf_context ω) :
    ((col.pdfi_read_xref ctx).1 < 0 → (col.pdfi_read_xref ctx).2.is_hybrid = true →
      (col.pdfi_read_xref (drop_xref col (after_first col ctx)).ctx).1 < 0 →
      (pdfi_init_file col fuel ⟨ctx, []⟩).1
        = some (col.pdfi_read_xref (drop_xref col (after_first col ctx)).ctx).1 ∧
      fns (pdfi_init_file col fuel ⟨ctx, []⟩).2.trace
        = [Fn.pdfi_read_xref, Fn.pdfi_countdown (col.pdfi_read_xref ctx).2.xref_table,
           Fn.pdfi_read_xref, Fn.pdfi_countdown none]) ∧
    (∀ (o : Option Nat) (s : State ω), s.ctx.Trailer ≠ none →
      (col.pdfi_read_Root s.ctx).1 = gs_error_undefined →
      (col.pdfi_read_Root s.ctx).2.is_hybrid = true →
      (col.pdfi_read_Root s.ctx).2.prefer_xrefstm = true →
      (col.pdfi_read_xref
        (drop_xref col (call Fn.pdfi_read_Root col.pdfi_read_Root s).2).ctx).1 < 0 →
      (read_root col o (fuel + 1) s).1
        = some (col.pdfi_read_xref
            (drop_xref col (call Fn.pdfi_read_Root col.pdfi_read_Root s).2).ctx).1 ∧
      fns (read_root col o (fuel + 1) s).2.trace
        = fns s.trace ++ [Fn.pdfi_read_Root,
            Fn.pdfi_countdown (col.pdfi_read_Root s.ctx).2.xref_table,
            Fn.pdfi_read_xref, Fn.pdfi_countdown o]) := by
  constructor
  · intro h1 h2 h3
    rw [init_file_hybrid_eq col fuel ctx h1 h2, if_pos h3]
    simp [init_exit, wcall, after_retry, after_first, call, drop_xref, upd, fns]
  · intro o s hT hu hh hp h3
    have hneg : (call Fn.pdfi_read_Root col.pdfi_read_Root s).1 < 0 := by
      rw [call_code, hu]; decide
    have hc : (call Fn.pdfi_read_Root col.pdfi_read_Root s).1 = gs_error_undefined ∧
        (call Fn.pdfi_read_Root col.pdfi_read_Root s).2.ctx.is_hybrid = true ∧
        (call Fn.pdfi_read_Root col.pdfi_read_Root s).2.ctx.prefer_xrefstm = true :=
      ⟨hu, hh, hp⟩
    have h3' : (call Fn.pdfi_read_xref col.pdfi_read_xref
        (drop_xref col (call Fn.pdfi_read_Root col.pdfi_read_Root s).2)).1 < 0 := h3
    unfold read_root
    dsimp only
    rw [if_pos hT, if_pos hneg, if_pos hc, if_pos h3']
    refine ⟨rfl, ?_⟩
    simp only [init_exit, wcall_trace, upd_trace, drop_xref_trace, call_trace, call_ctx, fns]
    simp

/-- Witness for `init_file_retry_fails`: a hybrid file whose stream and table
are both unreadable returns the second error after four calls. -/
theorem init_file_retry_fails_witness :
    (pdfi_init_file col_hybrid_bad 5 ⟨ctx0, []⟩).1 = some (-1) ∧
    fns (pdfi_init_file col_hybrid_bad 5 ⟨ctx0, []⟩).2.trace
      = [Fn.pdfi_read_xref, Fn.pdfi_countdown none, Fn.pdfi_read_xref,
         Fn.pdfi_countdown none] :=
  (init_file_retry_fails col_hybrid_bad 5 ctx0).1 (by decide) (by decide) (by decide)

theorem repairs_snoc_ne (tr : List (Event ω)) (e : Event ω) (h : e.fn ≠ Fn.pdfi_repair_file) :
    repairs (tr ++ [e]) = repairs tr ∧ ok_repairs (tr ++ [e]) = ok_repairs tr := by
  simp [repairs, ok_repairs, List.countP_append, List.countP_cons, h]

theorem repairs_snoc_ok (tr : List (Event ω)) (e : Event ω) (h : e.fn = Fn.pdfi_repair_file)
    (hc : 0 ≤ e.code) :
    repairs (tr ++ [e]) = repairs tr + 1 ∧ ok_repairs (tr ++ [e]) = ok_repairs tr + 1 := by
  simp [repairs, ok_repairs, List.countP_append, List.countP_cons, h, hc]

theorem repairs_snoc_bad (tr : List (Event ω)) (e : Event ω) (h : e.fn = Fn.pdfi_repair_file)
    (hc : e.code < 0) :
    repairs (tr ++ [e]) = repairs tr + 1 ∧ ok_repairs (tr ++ [e]) = ok_repairs tr := by
  simp [repairs, ok_repairs, List.countP_append, List.countP_cons, h, not_le.2 hc]

theorem is_wfn_ne_repair {fn : Fn} (h : is_wfn fn) : fn ≠ Fn.pdfi_repair_file := by
  rintro rfl; exact h

theorem is_tail_ne_repair {fn : Fn} (h : is_tail_fn fn) : fn ≠ Fn.pdfi_repair_file := by
  rintro rfl; exact h

theorem repair_counts_call (k m : Nat) (fn : Fn) (f : pdf_context ω → Int × pdf_context ω)
    (s : State ω) (hne : fn ≠ Fn.pdfi_repair_file) (h : repair_counts k m s) :
    repair_counts k m (call fn f s).2 := by
  have := repairs_snoc_ne s.trace ⟨fn, s.ctx, (f s.ctx).1⟩ hne
  exact ⟨by rw [call_trace, this.1]; exact h.1, by rw [call_trace, this.2]; exact h.2⟩

theorem repair_counts_wcall (k m : Nat) (fn : Fn) (f : ω → ω)
    (s : State ω) (hne : fn ≠ Fn.pdfi_repair_file) (h : repair_counts k m s) :
    repair_counts k m (wcall fn f s) := by
  have := repairs_snoc_ne s.trace ⟨fn, s.ctx, 0⟩ hne
  exact ⟨by rw [wcall_trace, this.1]; exact h.1, by rw [wcall_trace, this.2]; exact h.2⟩

theorem repair_counts_tail (col : Collab ω) (k m : Nat) :
    ClosedOn col is_tail_fn (repair_counts k m) where
  hcall := fun fn f s ht _ h => repair_counts_call k m fn f s (is_tail_ne_repair ht) h
  hw := fun fn f s hw h => repair_counts_wcall k m fn f s (is_wfn_ne_repair hw) h
  herr := fun _ _ h => h

theorem repair_counts_enc (col : Collab ω) (k m : Nat) (A : Fn → Prop)
    (hA : ∀ fn, A fn → fn ≠ Fn.pdfi_repair_file) :
    ClosedOn col A (repair_counts k m) where
  hcall := fun fn f s ht _ h => repair_counts_call k m fn f s (hA fn ht) h
  hw := fun fn f s hw h => repair_counts_wcall k m fn f s (is_wfn_ne_repair hw) h
  herr := fun _ _ h => h

theorem repair_counts_retry (col : Collab ω) (k m : Nat) (s : State ω)
    (h : repair_counts k m s) :
    repair_counts k m (call Fn.pdfi_read_xref col.pdfi_read_xref (drop_xref col s)).2 := by
  apply repair_counts_call _ _ _ _ _ (by decide)
  have := repairs_snoc_ne s.trace ⟨Fn.pdfi_countdown s.ctx.xref_table,
        { s.ctx with pdf_errors := s.ctx.pdf_errors ||| E_PDF_BADXREFSTREAM }, 0⟩ (by simp)
  exact ⟨by rw [drop_xref_trace, this.1]; exact h.1, by rw [drop_xref_trace, this.2]; exact h.2⟩

theorem exit_some (col : Collab ω) (o : Option Nat) (c : Int) (s : State ω) :
    (init_exit col o c s).1 = some c := rfl

theorem finish_some (col : Collab ω) (o : Option Nat) (s : State ω) :
    (init_finish col o s).1 ≠ none := by
  unfold init_finish
  dsimp only
  split_ifs <;> simp [init_exit]

theorem info_some (col : Collab ω) (o : Option Nat) (s : State ω) :
    (init_info col o s).1 ≠ none := by
  unfold init_info
  dsimp only
  split_ifs <;> first | exact finish_some _ _ _ | simp [init_exit]

/-- The rounds of the loop at `read_root:`: with `fuel` arrivals allowed, at
most `fuel` repairs succeed, all of them do if the label is reached once
more, and at most one repair fails. -/
theorem root_rounds (col : Collab ω) (o : Option Nat) (fuel : Nat) (s : State ω) :
    ok_repairs (read_root col o fuel s).2.trace ≤ ok_repairs s.trace + fuel ∧
    ((read_root col o fuel s).1 = none →
      ok_repairs (read_root col o fuel s).2.trace = ok_repairs s.trace + fuel) ∧
    repairs (read_root col o fuel s).2.trace + ok_repairs s.trace
      ≤ ok_repairs (read_root col o fuel s).2.trace + repairs s.trace + 1 := by
  induction fuel generalizing s with
  | zero => simp [read_root]; omega
  | succ n ih =>
    have hT := repair_counts_tail col
    have hroot : ∀ s' : State ω, repair_counts (repairs s.trace) (ok_repairs s.trace) s' →
        repair_counts (repairs s.trace) (ok_repairs s.trace)
          (call Fn.pdfi_read_Root col.pdfi_read_Root s').2 :=
      fun s' h => repair_counts_call _ _ _ _ _ (by decide) h
    have h0 : repair_counts (repairs s.trace) (ok_repairs s.trace) s := ⟨rfl, rfl⟩
    have fin : ∀ r : Option Int × State ω, r.1 ≠ none →
        repair_counts (repairs s.trace) (ok_repairs s.trace) r.2 →
        ok_repairs r.2.trace ≤ ok_repairs s.trace + (n + 1) ∧
        (r.1 = none → ok_repairs r.2.trace = ok_repairs s.trace + (n + 1)) ∧
        repairs r.2.trace + ok_repairs s.trace ≤ ok_repairs r.2.trace + repairs s.trace + 1 := by
      intro r hr hc
      refine ⟨by rw [hc.2]; omega, fun h => absurd h hr, by rw [hc.1, hc.2]; omega⟩
    unfold read_root
    dsimp only
    split_ifs with c1 c2 c3 c4 c5 c6
    · exact fin _ (by simp [init_exit])
        (exit_on (hT _ _) _ _ _ (repair_counts_retry col _ _ _ (hroot _ h0)))
    · exact fin _ (by simp [init_exit])
        (exit_on (hT _ _) _ _ _ (hroot _ (repair_counts_retry col _ _ _ (hroot _ h0))))
    · exact fin _ (info_some _ _ _)
        (info_on (hT _ _) _ _ (hroot _ (repair_counts_retry col _ _ _ (hroot _ h0))))
    · have hb := repairs_snoc_bad (call Fn.pdfi_read_Root col.pdfi_read_Root s).2.trace
        ⟨Fn.pdfi_repair_file, (call Fn.pdfi_read_Root col.pdfi_read_Root s).2.ctx,
          (col.pdfi_repair_file (call Fn.pdfi_read_Root col.pdfi_read_Root s).2.ctx).1⟩ rfl c6
      have hr := hroot _ h0
      simp only [init_exit, wcall_trace]
      have hw := repairs_snoc_ne
        (call Fn.pdfi_repair_file col.pdfi_repair_file
          (call Fn.pdfi_read_Root col.pdfi_read_Root s).2).2.trace
        ⟨Fn.pdfi_countdown o, (call Fn.pdfi_repair_file col.pdfi_repair_file
          (call Fn.pdfi_read_Root col.pdfi_read_Root s).2).2.ctx, 0⟩ (by simp)
      rw [hw.1, hw.2]
      rw [call_trace Fn.pdfi_repair_file, hb.1, hb.2, hr.1, hr.2]
      refine ⟨by omega, fun h => by simp at h, by omega⟩
    · have hb := repairs_snoc_ok (call Fn.pdfi_read_Root col.pdfi_read_Root s).2.trace
        ⟨Fn.pdfi_repair_file, (call Fn.pdfi_read_Root col.pdfi_read_Root s).2.ctx,
          (col.pdfi_repair_file (call Fn.pdfi_read_Root col.pdfi_read_Root s).2.ctx).1⟩ rfl
          (not_lt.1 c6)
      have hr := hroot _ h0
      have := ih (call Fn.pdfi_repair_file col.pdfi_repair_file
          (call Fn.pdfi_read_Root col.pdfi_read_Root s).2).2
      rw [call_trace Fn.pdfi_repair_file, hb.1, hb.2, hr.1, hr.2] at this
      refine ⟨by omega, fun h => by have := this.2.1 h; omega, by omega⟩
    · exact fin _ (info_some _ _ _) (info_on (hT _ _) _ _ (hroot _ h0))
    · exact fin _ (info_some _ _ _) (info_on (hT _ _) _ _ h0)

theorem encrypt_rounds (col : Collab ω) (fuel : Nat) (s : State ω)
    (h0 : repair_counts 0 0 s) :
    ok_repairs (init_encrypt col fuel s).2.trace ≤ fuel ∧
    ((init_encrypt col fuel s).1 = none →
      ok_repairs (init_encrypt col fuel s).2.trace = fuel) ∧
    repairs (init_encrypt col fuel s).2.trace
      ≤ ok_repairs (init_encrypt col fuel s).2.trace + 1 := by
  have hc : ∀ (fn : Fn) (f : pdf_context ω → Int × pdf_context ω) (s' : State ω),
      fn ≠ Fn.pdfi_repair_file → repair_counts 0 0 s' → repair_counts 0 0 (call fn f s').2 :=
    fun fn f s' hne h => repair_counts_call 0 0 fn f s' hne h
  have fin : ∀ r : Option Int × State ω, r.1 ≠ none → repair_counts 0 0 r.2 →
      ok_repairs r.2.trace ≤ fuel ∧ (r.1 = none → ok_repairs r.2.trace = fuel) ∧
      repairs r.2.trace ≤ ok_repairs r.2.trace + 1 := by
    intro r hr hc
    exact ⟨by rw [hc.2]; omega, fun h => absurd h hr, by rw [hc.1, hc.2]; omega⟩
  have root : ∀ (o : Option Nat) (s' : State ω), repair_counts 0 0 s' →
      ok_repairs (read_root col o fuel s').2.trace ≤ fuel ∧
      ((read_root col o fuel s').1 = none → ok_repairs (read_root col o fuel s').2.trace = fuel) ∧
      repairs (read_root col o fuel s').2.trace
        ≤ ok_repairs (read_root col o fuel s').2.trace + 1 := by
    intro o s' h
    have := root_rounds col o fuel s'
    rw [h.1, h.2] at this
    refine ⟨by omega, fun hn => by have := this.2.1 hn; omega, by omega⟩
  unfold init_encrypt
  dsimp only
  split_ifs
  · exact fin _ (by simp [init_exit])
      (exit_on (repair_counts_tail col 0 0) _ _ _ (hc _ _ _ (by decide) h0))
  · exact fin _ (by simp [init_exit])
      (exit_on (repair_counts_tail col 0 0) _ _ _
        (hc _ _ _ (by decide) (hc _ _ _ (by decide) h0)))
  · exact root _ _ (hc _ _ _ (by decide) (hc _ _ _ (by decide) h0))
  · exact root _ _ (hc _ _ _ (by decide) h0)
  · exact root _ _ h0

/-- C6 (as the code has it): the repair rounds of `pdfi_init_file`, entered
with an empty log and `fuel` arrivals at `read_root:` allowed.  (1) At most
one logged `pdfi_repair_file` failed: the calls number at most one more than
the successful ones.  (2) At most `fuel` repairs succeeded, and if the
function has not returned (`none`) then exactly `fuel` did: it fails to return
only while repairs keep succeeding.  (3) At the label, with a Trailer, when
`pdfi_read_Root` fails and the XRefStm retry does not apply: a failing repair
makes the function return the code of `pdfi_read_Root` after the calls
`pdfi_read_Root`, `pdfi_repair_file`, `pdfi_countdown(o)`; a successful one
leads back to the label. -/
theorem init_file_repair_rounds (col : Collab ω) (fuel : Nat) (ctx : pdf_context ω) :
    repairs (pdfi_init_file col fuel ⟨ctx, []⟩).2.trace
      ≤ ok_repairs (pdfi_init_file col fuel ⟨ctx, []⟩).2.trace + 1 ∧
    ok_repairs (pdfi_init_file col fuel ⟨ctx, []⟩).2.trace ≤ fuel ∧
    ((pdfi_init_file col fuel ⟨ctx, []⟩).1 = none →
      ok_repairs (pdfi_init_file col fuel ⟨ctx, []⟩).2.trace = fuel) ∧
    (∀ (o : Option Nat) (n : Nat) (s : State ω), s.ctx.Trailer ≠ none →
      (col.pdfi_read_Root s.ctx).1 < 0 →
      ¬ ((col.pdfi_read_Root s.ctx).1 = gs_error_undefined ∧
          (col.pdfi_read_Root s.ctx).2.is_hybrid = true ∧
          (col.pdfi_read_Root s.ctx).2.prefer_xrefstm = true) →
      ((col.pdfi_repair_file (col.pdfi_read_Root s.ctx).2).1 < 0 →
        (read_root col o (n + 1) s).1 = some (col.pdfi_read_Root s.ctx).1 ∧
        fns (read_root col o (n + 1) s).2.trace
          = fns s.trace ++ [Fn.pdfi_read_Root, Fn.pdfi_repair_file, Fn.pdfi_countdown o]) ∧
      (0 ≤ (col.pdfi_repair_file (col.pdfi_read_Root s.ctx).2).1 →
        read_root col o (n + 1) s = read_root col o n
          (call Fn.pdfi_repair_file col.pdfi_repair_file
            (call Fn.pdfi_read_Root col.pdfi_read_Root s).2).2)) := by
  have h0 : repair_counts 0 0 (⟨ctx, []⟩ : State ω) := ⟨rfl, rfl⟩
  have hc : ∀ (fn : Fn) (f : pdf_context ω → Int × pdf_context ω) (s' : State ω),
      fn ≠ Fn.pdfi_repair_file → repair_counts 0 0 s' → repair_counts 0 0 (call fn f s').2 :=
    fun fn f s' hne h => repair_counts_call 0 0 fn f s' hne h
  have fin : ∀ r : Option Int × State ω, r.1 ≠ none → repair_counts 0 0 r.2 →
      repairs r.2.trace ≤ ok_repairs r.2.trace + 1 ∧ ok_repairs r.2.trace ≤ fuel ∧
      (r.1 = none → ok_repairs r.2.trace = fuel) := by
    intro r hr hc
    exact ⟨by rw [hc.1, hc.2]; omega, by rw [hc.2]; omega, fun h => absurd h hr⟩
  have enc : ∀ s' : State ω, repair_counts 0 0 s' →
      repairs (init_encrypt col fuel s').2.trace
        ≤ ok_repairs (init_encrypt col fuel s').2.trace + 1 ∧
      ok_repairs (init_encrypt col fuel s').2.trace ≤ fuel ∧
      ((init_encrypt col fuel s').1 = none →
        ok_repairs (init_encrypt col fuel s').2.trace = fuel) := by
    intro s' h
    have := encrypt_rounds col fuel s' h
    exact ⟨this.2.2, this.1, this.2.1⟩
  have main : repairs (pdfi_init_file col fuel ⟨ctx, []⟩).2.trace
      ≤ ok_repairs (pdfi_init_file col fuel ⟨ctx, []⟩).2.trace + 1 ∧
    ok_repairs (pdfi_init_file col fuel ⟨ctx, []⟩).2.trace ≤ fuel ∧
    ((pdfi_init_file col fuel ⟨ctx, []⟩).1 = none →
      ok_repairs (pdfi_init_file col fuel ⟨ctx, []⟩).2.trace = fuel) := by
    unfold pdfi_init_file
    dsimp only
    split_ifs
    · exact fin _ (by simp [init_exit])
        (exit_on (repair_counts_tail col 0 0) _ _ _
          (repair_counts_retry col 0 0 _ (hc _ _ _ (by decide) h0)))
    · exact enc _ (repair_counts_retry col 0 0 _ (hc _ _ _ (by decide) h0))
    · exact fin _ (by simp [init_exit])
        (exit_on (repair_counts_tail col 0 0) _ _ _ (hc _ _ _ (by decide) h0))
    · exact enc _ (hc _ _ _ (by decide) h0)
  refine ⟨main.1, main.2.1, main.2.2, ?_⟩
  intro o n s hT hneg hno
  have hneg' : (call Fn.pdfi_read_Root col.pdfi_read_Root s).1 < 0 := hneg
  have hno' : ¬ ((call Fn.pdfi_read_Root col.pdfi_read_Root s).1 = gs_error_undefined ∧
      (call Fn.pdfi_read_Root col.pdfi_read_Root s).2.ctx.is_hybrid = true ∧
      (call Fn.pdfi_read_Root col.pdfi_read_Root s).2.ctx.prefer_xrefstm = true) := hno
  constructor
  · intro hr
    have hr' : (call Fn.pdfi_repair_file col.pdfi_repair_file
        (call Fn.pdfi_read_Root col.pdfi_read_Root s).2).1 < 0 := hr
    rw [read_root]
    dsimp only
    rw [if_pos hT, if_pos hneg', if_neg hno', if_pos hr']
    refine ⟨rfl, ?_⟩
    simp only [init_exit, wcall_trace, call_trace, fns]
    simp
  · intro hr
    have hr' : ¬ (call Fn.pdfi_repair_file col.pdfi_repair_file
        (call Fn.pdfi_read_Root col.pdfi_read_Root s).2).1 < 0 := not_lt.2 hr
    rw [read_root]
    dsimp only
    rw [if_pos hT, if_pos hneg', if_neg hno', if_neg hr']

theorem col_loop_never (o : Option Nat) (fuel : Nat) (s : State Nat)
    (hT : s.ctx.Trailer ≠ none) : (read_root col_loop o fuel s).1 = none := by
  induction fuel generalizing s with
  | zero => rfl
  | succ n ih =>
    rw [read_root]
    dsimp only
    have h1 : (call Fn.pdfi_read_Root col_loop.pdfi_read_Root s).1 < 0 := by
      show (-1 : Int) < 0
      decide
    have h2 : ¬ ((call Fn.pdfi_read_Root col_loop.pdfi_read_Root s).1 = gs_error_undefined ∧
      (call Fn.pdfi_read_Root col_loop.pdfi_read_Root s).2.ctx.is_hybrid = true ∧
      (call Fn.pdfi_read_Root col_loop.pdfi_read_Root s).2.ctx.prefer_xrefstm = true) := by
      intro h
      have h' : (-1 : Int) = gs_error_undefined := h.1
      revert h'
      decide
    have h3 : ¬ (call Fn.pdfi_repair_file col_loop.pdfi_repair_file
        (call Fn.pdfi_read_Root col_loop.pdfi_read_Root s).2).1 < 0 := by
      show ¬ ((0 : Int) < 0)
      decide
    rw [if_pos hT, if_pos h1, if_neg h2, if_neg h3]
    exact ih _ hT

/-- Counterexample to C6 as stated: with a catalog that cannot be read and a
repair that always reports success, three arrivals at `read_root:` invoke
`pdfi_repair_file` three times, and `pdfi_init_file` returns for no bound on
the arrivals. -/
theorem init_file_repair_counterexample :
    repairs (pdfi_init_file col_loop 3 ⟨ctx0, []⟩).2.trace = 3 ∧
    ¬ ∃ fuel, (pdfi_init_file col_loop fuel ⟨ctx0, []⟩).1 ≠ none := by
  constructor
  · decide
  · rintro ⟨fuel, h⟩
    apply h
    unfold pdfi_init_file
    dsimp only
    have h1 : ¬ (call Fn.pdfi_read_xref col_loop.pdfi_read_xref ⟨ctx0, []⟩).1 < 0 := by decide
    rw [if_neg h1]
    unfold init_encrypt
    dsimp only
    have h2 : (call Fn.pdfi_read_xref col_loop.pdfi_read_xref ⟨ctx0, []⟩).2.ctx.Trailer ≠ none := by
      decide
    have h3 : ¬ ((call Fn.pdfi_dict_get_Encrypt (dict_get_code col_loop)
        (call Fn.pdfi_read_xref col_loop.pdfi_read_xref ⟨ctx0, []⟩).2).1 < 0 ∧
      (call Fn.pdfi_dict_get_Encrypt (dict_get_code col_loop)
        (call Fn.pdfi_read_xref col_loop.pdfi_read_xref ⟨ctx0, []⟩).2).1 ≠ gs_error_undefined) := by
      decide
    have h4 : ¬ (call Fn.pdfi_dict_get_Encrypt (dict_get_code col_loop)
        (call Fn.pdfi_read_xref col_loop.pdfi_read_xref ⟨ctx0, []⟩).2).1 = 0 := by decide
    rw [if_pos h2, if_neg h3, if_neg h4]
    exact col_loop_never _ _ _ h2

theorem loop_outcome_nil (stop : Bool) (code : Int) :
    loop_outcome stop [] code [] (some code) := by
  refine ⟨List.prefix_refl _, fun _ => ⟨rfl, rfl⟩, fun _ => ⟨by simp, Or.inr ⟨by simp, rfl, rfl⟩⟩⟩

theorem loop_outcome_stop (sel : List Nat) (code c : Int) (i : Nat) (hc : c < 0) :
    loop_outcome true (i :: sel) code [(i, c)] (some c) := by
  refine ⟨by simp, fun h => by simp at h, fun _ => ⟨by simp, Or.inl ⟨(i, c), rfl, hc, rfl⟩⟩⟩

theorem loop_outcome_cons (stop : Bool) (sel : List Nat) (c : Int) (i : Nat)
    (P : List (Nat × Int)) (res : Option Int) (code : Int)
    (hc : ¬ (c < 0 ∧ stop = true)) (h : loop_outcome stop sel 0 P res) :
    loop_outcome stop (i :: sel) code ((i, c) :: P) res := by
  obtain ⟨h1, h2, h3⟩ := h
  refine ⟨by simpa using h1, ?_, ?_⟩
  · intro hs
    obtain ⟨ha, hb⟩ := h2 hs
    refine ⟨by simp [ha], ?_⟩
    rw [hb]; simp
  · intro hs
    have hc0 : 0 ≤ c := by
      by_contra hneg
      exact hc ⟨by omega, hs⟩
    obtain ⟨ha, hb⟩ := h3 hs
    constructor
    · intro p hp
      cases P with
      | nil => simp at hp
      | cons q Q =>
        rw [List.dropLast_cons_of_ne_nil (by simp)] at hp
        rcases List.mem_cons.1 hp with rfl | hp
        · exact hc0
        · exact ha p hp
    · rcases hb with ⟨p, hp1, hp2, hp3⟩ | ⟨hb1, hb2, hb3⟩
      · left
        refine ⟨p, ?_, hp2, hp3⟩
        cases P with
        | nil => simp at hp1
        | cons q Q => simpa [List.getLast?_cons_cons] using hp1
      · right
        refine ⟨?_, by simp [hb2], ?_⟩
        · intro p hp
          rcases List.mem_cons.1 hp with rfl | hp
          · exact hc0
          · exact hb1 p hp
        · rw [hb3]; simp

theorem sel_from_ge (n : Nat) (fp lp : Int) (i : Nat) (h : n ≤ i) : sel_from n fp lp i = [] := by
  simp [sel_from, Nat.sub_eq_zero_of_le h]

theorem sel_from_lt (n : Nat) (fp lp : Int) (i : Nat) (h : i < n) :
    sel_from n fp lp i =
      if sel_pred fp lp i then i :: sel_from n fp lp (i + 1) else sel_from n fp lp (i + 1) := by
  unfold sel_from
  have : n - i = (n - (i + 1)) + 1 := by omega
  rw [this, List.range'_succ, List.filter_cons]

theorem sel_from_break (n : Nat) (fp lp : Int) (i : Nat) (h : lp ≠ 0 ∧ (i : Int) > lp - 1) :
    sel_from n fp lp i = [] := by
  unfold sel_from
  rw [List.filter_eq_nil_iff]
  intro j hj
  rw [List.mem_range'_1] at hj
  simp only [sel_pred, decide_eq_true_eq, not_and, not_or]
  intro _
  exact ⟨h.1, by omega⟩

theorem page_call_spec (col : Collab ω) (hk : keeps_args col) (i : Nat) (s : State ω) :
    (page_call col i s).2.trace =
      s.trace ++ [⟨page_fn s.ctx.pdfinfo i, s.ctx, (page_call col i s).1⟩] ∧
    (page_call col i s).2.ctx.num_pages = s.ctx.num_pages ∧
    (page_call col i s).2.ctx.first_page = s.ctx.first_page ∧
    (page_call col i s).2.ctx.last_page = s.ctx.last_page ∧
    (page_call col i s).2.ctx.pdfinfo = s.ctx.pdfinfo ∧
    (page_call col i s).2.ctx.pdfstoponerror = s.ctx.pdfstoponerror := by
  unfold page_call page_fn
  split_ifs with h
  · exact ⟨rfl, hk _ (Or.inr rfl) i s.ctx⟩
  · exact ⟨rfl, hk _ (Or.inl rfl) i s.ctx⟩

theorem process_loop_succ (col : Collab ω) (fuel i : Nat) (code : Int) (s : State ω) :
    process_loop col (fuel + 1) i code s =
      if i < s.ctx.num_pages then
        if s.ctx.first_page ≠ 0 ∧ (i : Int) < s.ctx.first_page - 1 then
          process_loop col fuel (i + 1) code s
        else if s.ctx.last_page ≠ 0 ∧ (i : Int) > s.ctx.last_page - 1 then
          process_exit col code s
        else
          if (page_call col i s).1 < 0 ∧ (page_call col i s).2.ctx.pdfstoponerror = true then
            process_exit col (page_call col i s).1 (page_call col i s).2
          else process_loop col fuel (i + 1) 0 (page_call col i s).2
      else process_exit col code s := by
  rw [process_loop]
  rfl

theorem process_loop_spec (col : Collab ω) (hk : keeps_args col) (n : Nat) (fp lp : Int)
    (info stop : Bool) (fuel : Nat) :
    ∀ (i : Nat) (code : Int) (s : State ω), s.ctx.num_pages = n → s.ctx.first_page = fp →
      s.ctx.last_page = lp → s.ctx.pdfinfo = info → s.ctx.pdfstoponerror = stop →
      i ≤ n → n + 1 ≤ fuel + i →
      ∃ (P : List (Nat × Int)) (pev : List (Event ω)) (rep : Event ω),
        (process_loop col fuel i code s).2.trace = s.trace ++ pev ++ [rep] ∧
        rep.fn = Fn.pdfi_report_errors ∧
        pev.map (fun e => (e.fn, e.code)) = P.map (fun p => (page_fn info p.1, p.2)) ∧
        loop_outcome stop (sel_from n fp lp i) code P (process_loop col fuel i code s).1 := by
  induction fuel with
  | zero => intro i code s _ _ _ _ _ h1 h2; omega
  | succ m ih =>
    intro i code s hn hfp hlp hinfo hstop hi hf
    rw [process_loop_succ]
    by_cases c0 : i < s.ctx.num_pages
    · rw [if_pos c0]
      have hlt : i < n := by omega
      by_cases c1 : s.ctx.first_page ≠ 0 ∧ (i : Int) < s.ctx.first_page - 1
      · rw [if_pos c1]
        have hsel : sel_pred fp lp i = false := by
          rw [hfp] at c1
          simp only [sel_pred, decide_eq_false_iff_not, not_and]
          intro h
          rcases h with h | h
          · exact absurd h c1.1
          · omega
        rw [sel_from_lt n fp lp i hlt, hsel]
        exact ih (i + 1) code s hn hfp hlp hinfo hstop (by omega) (by omega)
      · rw [if_neg c1]
        by_cases c2 : s.ctx.last_page ≠ 0 ∧ (i : Int) > s.ctx.last_page - 1
        · rw [if_pos c2, sel_from_break n fp lp i (by rw [← hlp]; exact c2)]
          exact ⟨[], [], ⟨Fn.pdfi_report_errors, s.ctx, 0⟩, by simp [process_exit, wcall], rfl, rfl,
            loop_outcome_nil _ _⟩
        · rw [if_neg c2]
          have hsel : sel_pred fp lp i = true := by
            rw [hfp] at c1; rw [hlp] at c2
            simp only [sel_pred, decide_eq_true_eq]
            constructor
            · by_contra h
              simp only [not_or, not_le] at h
              exact c1 ⟨h.1, h.2⟩
            · by_contra h
              simp only [not_or, not_le] at h
              exact c2 ⟨h.1, h.2⟩
          rw [sel_from_lt n fp lp i hlt, hsel, if_pos rfl]
          obtain ⟨ht, h1, h2, h3, h4, h5⟩ := page_call_spec col hk i s
          by_cases c3 : (page_call col i s).1 < 0 ∧ (page_call col i s).2.ctx.pdfstoponerror = true
          · rw [if_pos c3]
            have hst : stop = true := by rw [← hstop, ← h5]; exact c3.2
            subst hst
            refine ⟨[(i, (page_call col i s).1)],
              [⟨page_fn s.ctx.pdfinfo i, s.ctx, (page_call col i s).1⟩],
              ⟨Fn.pdfi_report_errors, (page_call col i s).2.ctx, 0⟩, ?_, rfl, ?_, ?_⟩
            · simp [process_exit, wcall, ht]
            · simp [hinfo]
            · exact loop_outcome_stop _ _ _ _ c3.1
          · rw [if_neg c3]
            obtain ⟨P, pev, rep, e1, e2, e3, e4⟩ := ih (i + 1) 0 (page_call col i s).2
              (by rw [h1, hn]) (by rw [h2, hfp]) (by rw [h3, hlp]) (by rw [h4, hinfo])
              (by rw [h5, hstop]) (by omega) (by omega)
            refine ⟨(i, (page_call col i s).1) :: P,
              ⟨page_fn s.ctx.pdfinfo i, s.ctx, (page_call col i s).1⟩ :: pev, rep, ?_, e2, ?_, ?_⟩
            · rw [e1, ht]; simp
            · simp [e3, hinfo]
            · apply loop_outcome_cons _ _ _ _ _ _ _ _ e4
              rw [← hstop, ← h5]
              exact c3
    · rw [if_neg c0, sel_from_ge n fp lp i (by omega)]
      exact ⟨[], [], ⟨Fn.pdfi_report_errors, s.ctx, 0⟩, by simp [process_exit, wcall], rfl, rfl,
        loop_outcome_nil _ _⟩

theorem keeps_args_pagefail : keeps_args col_pagefail := by
  intro f hf i c
  rcases hf with rfl | rfl <;> simp [col_pagefail, col0]

/-- C9: `pdfi_process`, entered with an empty log, the page routines leaving
the page count and the arguments alone, `code0` being the initial content of
the local `code`.  The log is the calls made for the pages `P` (each to
`pdfi_output_page_info` or `pdfi_page_render` according to `pdfinfo`) followed
by exactly one `pdfi_report_errors`.  Without `pdfstoponerror` the pages are
those of the selected range, all of them, and the result is 0 (the range
being non-empty).  With `pdfstoponerror` they are the pages of the range up to
and including the first that fails, whose code is returned; if none fails they
are the whole range and the result is 0.  For an empty range the result is
`code0`. -/
theorem process_pages (col : Collab ω) (hk : keeps_args col) (fuel : Nat) (code0 : Int)
    (ctx : pdf_context ω) (hf : ctx.num_pages + 1 ≤ fuel) :
    ∃ (P : List (Nat × Int)) (pev : List (Event ω)) (rep : Event ω),
      (pdfi_process col fuel code0 ⟨ctx, []⟩).2.trace = pev ++ [rep] ∧
      rep.fn = Fn.pdfi_report_errors ∧
      pev.map (fun e => (e.fn, e.code)) = P.map (fun p => (page_fn ctx.pdfinfo p.1, p.2)) ∧
      P.map Prod.fst <+: selected ctx ∧
      (ctx.pdfstoponerror = false →
        P.map Prod.fst = selected ctx ∧
        (selected ctx ≠ [] → (pdfi_process col fuel code0 ⟨ctx, []⟩).1 = some 0)) ∧
      (ctx.pdfstoponerror = true →
        (∀ p ∈ P.dropLast, 0 ≤ p.2) ∧
        ((∃ p, P.getLast? = some p ∧ p.2 < 0 ∧
            (pdfi_process col fuel code0 ⟨ctx, []⟩).1 = some p.2) ∨
         ((∀ p ∈ P, 0 ≤ p.2) ∧ P.map Prod.fst = selected ctx ∧
            (selected ctx ≠ [] → (pdfi_process col fuel code0 ⟨ctx, []⟩).1 = some 0)))) ∧
      (selected ctx = [] → (pdfi_process col fuel code0 ⟨ctx, []⟩).1 = some code0) := by
  have hsel : selected ctx = sel_from ctx.num_pages ctx.first_page ctx.last_page 0 := by
    simp [selected, sel_from, List.range_eq_range']
  obtain ⟨P, pev, rep, h1, h2, h3, h4, h5, h6⟩ :=
    process_loop_spec col hk ctx.num_pages ctx.first_page ctx.last_page ctx.pdfinfo
      ctx.pdfstoponerror fuel 0 code0 ⟨ctx, []⟩ rfl rfl rfl rfl rfl (Nat.zero_le _) (by omega)
  rw [← hsel] at h4 h5 h6
  refine ⟨P, pev, rep, by simpa [pdfi_process] using h1, h2, h3, h4, ?_, ?_, ?_⟩
  · intro hs
    obtain ⟨ha, hb⟩ := h5 hs
    exact ⟨ha, fun hne => by rw [pdfi_process, hb, if_neg hne]⟩
  · intro hs
    obtain ⟨ha, hb⟩ := h6 hs
    refine ⟨ha, ?_⟩
    rcases hb with hb | ⟨hb1, hb2, hb3⟩
    · exact Or.inl hb
    · exact Or.inr ⟨hb1, hb2, fun hne => by rw [pdfi_process, hb3, if_neg hne]⟩
  · intro he
    cases hst : ctx.pdfstoponerror with
    | false =>
      have := (h5 hst).2
      rw [pdfi_process, this, if_pos he]
    | true =>
      rcases (h6 hst).2 with ⟨p, hp1, _, _⟩ | ⟨_, _, hb3⟩
      · have hP : P = [] := by
          have := h4
          rw [he] at this
          simpa using this
        rw [hP] at hp1
        simp at hp1
      · rw [pdfi_process, hb3, if_pos he]

/-- Witness for `process_pages`: three pages, the second of which fails. -/
theorem process_pages_witness :
    ∃ (P : List (Nat × Int)) (pev : List (Event Nat)) (rep : Event Nat),
      (pdfi_process col_pagefail 4 7 ⟨ctx_pages, []⟩).2.trace = pev ++ [rep] ∧
      rep.fn = Fn.pdfi_report_errors ∧
      pev.map (fun e => (e.fn, e.code))
        = P.map (fun p => (page_fn ctx_pages.pdfinfo p.1, p.2)) ∧
      P.map Prod.fst <+: selected ctx_pages ∧
      (ctx_pages.pdfstoponerror = false →
        P.map Prod.fst = selected ctx_pages ∧
        (selected ctx_pages ≠ [] →
          (pdfi_process col_pagefail 4 7 ⟨ctx_pages, []⟩).1 = some 0)) ∧
      (ctx_pages.pdfstoponerror = true →
        (∀ p ∈ P.dropLast, 0 ≤ p.2) ∧
        ((∃ p, P.getLast? = some p ∧ p.2 < 0 ∧
            (pdfi_process col_pagefail 4 7 ⟨ctx_pages, []⟩).1 = some p.2) ∨
         ((∀ p ∈ P, 0 ≤ p.2) ∧ P.map Prod.fst = selected ctx_pages ∧
            (selected ctx_pages ≠ [] →
              (pdfi_process col_pagefail 4 7 ⟨ctx_pages, []⟩).1 = some 0)))) ∧
      (selected ctx_pages = [] →
        (pdfi_process col_pagefail 4 7 ⟨ctx_pages, []⟩).1 = some 7) :=
  process_pages col_pagefail keeps_args_pagefail 4 7 ctx_pages (by decide)

theorem ctx_step_comp {F G : pdf_context ω → pdf_context ω} {c c' c'' : pdf_context ω}
    (hG : world_free G) (h1 : ctx_step F c c') (h2 : ctx_step G c' c'') :
    ctx_step (fun x => G (F x)) c c'' := by
  obtain ⟨w1, rfl⟩ := h1
  obtain ⟨w2, rfl⟩ := h2
  exact ⟨w2, by rw [hG]⟩

theorem ctx_step_id (c : pdf_context ω) : ctx_step id c c := ⟨c.world, rfl⟩

theorem wcall_step (fn : Fn) (f : ω → ω) (s : State ω) :
    ctx_step id s.ctx (wcall fn f s).ctx := ⟨f s.ctx.world, rfl⟩

theorem release_step (col : Collab ω) (get : pdf_context ω → Option Nat)
    (clr : pdf_context ω → pdf_context ω) (hclr : ∀ c, get c = none → clr c = c)
    (hw : world_free clr) (s : State ω) :
    ctx_step clr s.ctx (release col get clr s).ctx := by
  unfold release
  split_ifs with h
  · exact ⟨col.pdfi_countdown (get s.ctx) s.ctx.world, by simp only [upd_ctx, wcall_ctx]; rw [hw]⟩
  · exact ⟨s.ctx.world, by rw [hclr _ (not_not.1 h)]⟩

theorem free_field_step (col : Collab ω) (get : pdf_context ω → Option Nat)
    (clr : pdf_context ω → pdf_context ω) (hclr : ∀ c, get c = none → clr c = c)
    (hw : world_free clr) (s : State ω) :
    ctx_step clr s.ctx (free_field col get clr s).ctx := by
  unfold free_field
  split_ifs with h
  · exact ⟨col.gs_free_object (get s.ctx) s.ctx.world, by simp only [upd_ctx, wcall_ctx]; rw [hw]⟩
  · exact ⟨s.ctx.world, by rw [hclr _ (not_not.1 h)]⟩

theorem clear_head_step (col : Collab ω) (s : State ω) :
    ctx_step head_ctx s.ctx (clear_head col s).ctx := by
  let s1 := free_field col (fun c => c.PageList) (fun c => { c with PageList := none }) s
  let s2 := release col (fun c => c.Trailer) (fun c => { c with Trailer := none }) s1
  let s3 := release col (fun c => c.AcroForm) (fun c => { c with AcroForm := none }) s2
  let s4 := release col (fun c => c.Root) (fun c => { c with Root := none }) s3
  let s5 := release col (fun c => c.Info) (fun c => { c with Info := none }) s4
  let s6 := release col (fun c => c.PagesTree) (fun c => { c with PagesTree := none }) s5
  let s7 := wcall Fn.pdfi_doc_page_array_free col.pdfi_doc_page_array_free s6
  let s8 := release col (fun c => c.xref_table) (fun c => { c with xref_table := none }) s7
  let s9 := wcall Fn.pdfi_free_OptionalRoot col.pdfi_free_OptionalRoot s8
  have e1 : ctx_step _ s.ctx s1.ctx := free_field_step col (fun c => c.PageList)
    (fun c => { c with PageList := none }) (fun c h => by cases c; simp_all) (fun _ _ => rfl) s
  have e2 : ctx_step _ s1.ctx s2.ctx := release_step col (fun c => c.Trailer)
    (fun c => { c with Trailer := none }) (fun c h => by cases c; simp_all) (fun _ _ => rfl) s1
  have e3 : ctx_step _ s2.ctx s3.ctx := release_step col (fun c => c.AcroForm)
    (fun c => { c with AcroForm := none }) (fun c h => by cases c; simp_all) (fun _ _ => rfl) s2
  have e4 : ctx_step _ s3.ctx s4.ctx := release_step col (fun c => c.Root)
    (fun c => { c with Root := none }) (fun c h => by cases c; simp_all) (fun _ _ => rfl) s3
  have e5 : ctx_step _ s4.ctx s5.ctx := release_step col (fun c => c.Info)
    (fun c => { c with Info := none }) (fun c h => by cases c; simp_all) (fun _ _ => rfl) s4
  have e6 : ctx_step _ s5.ctx s6.ctx := release_step col (fun c => c.PagesTree)
    (fun c => { c with PagesTree := none }) (fun c h => by cases c; simp_all) (fun _ _ => rfl) s5
  have e7 : ctx_step id s6.ctx s7.ctx := wcall_step _ _ s6
  have e8 : ctx_step _ s7.ctx s8.ctx := release_step col (fun c => c.xref_table)
    (fun c => { c with xref_table := none }) (fun c h => by cases c; simp_all) (fun _ _ => rfl) s7
  have e9 : ctx_step id s8.ctx s9.ctx := wcall_step _ _ s8
  have c : ctx_step head_ctx s.ctx s9.ctx := by
    obtain ⟨w1, h1⟩ := e1
    obtain ⟨w2, h2⟩ := e2
    obtain ⟨w3, h3⟩ := e3
    obtain ⟨w4, h4⟩ := e4
    obtain ⟨w5, h5⟩ := e5
    obtain ⟨w6, h6⟩ := e6
    obtain ⟨w7, h7⟩ := e7
    obtain ⟨w8, h8⟩ := e8
    obtain ⟨w9, h9⟩ := e9
    refine ⟨w9, ?_⟩
    rw [h9, h8, h7, h6, h5, h4, h3, h2, h1]
    rfl
  have hs : clear_head col s =
      if s9.ctx.stack_bot ≠ none then wcall Fn.pdfi_clearstack col.pdfi_clearstack s9 else s9 := rfl
  rw [hs]
  split_ifs
  · obtain ⟨w, hw⟩ := c
    exact ⟨col.pdfi_clearstack s9.ctx.world, by rw [wcall_ctx, hw]⟩
  · exact c

theorem cache_frame_refl (c : pdf_context ω) : cache_frame c c :=
  ⟨c.cache_LRU, c.cache_entries, c.cache, c.world, rfl⟩

theorem cache_frame_trans {c c' c'' : pdf_context ω} (h1 : cache_frame c c')
    (h2 : cache_frame c' c'') : cache_frame c c'' := by
  obtain ⟨a, e, l, w, rfl⟩ := h1
  obtain ⟨a', e', l', w', rfl⟩ := h2
  exact ⟨a', e', l', w', rfl⟩

theorem sweep_pass_cons (col : Collab ω) (e : pdf_obj_cache_entry)
    (rest kept : List pdf_obj_cache_entry) (stop : Bool) (s : State ω) :
    sweep_pass col (e :: rest) kept stop s =
      if col.refcnt s.ctx.world e.o = 1 then
        sweep_pass col rest kept false (sweep_remove col e kept rest s)
      else sweep_pass col rest (kept ++ [e]) stop s := by
  rw [sweep_pass]
  rfl

theorem sweep_unlink_spec (col : Collab ω) (e : pdf_obj_cache_entry)
    (kept rest : List pdf_obj_cache_entry) (s : State ω) :
    (sweep_unlink col e kept rest s).ctx.cache = kept ++ rest ∧
    (sweep_unlink col e kept rest s).ctx.cache_entries = s.ctx.cache_entries - 1 ∧
    cache_frame s.ctx (sweep_unlink col e kept rest s).ctx ∧
    (sweep_unlink col e kept rest s).trace =
      s.trace ++ [⟨Fn.pdfi_countdown (some e.o), s.ctx, 0⟩] := by
  unfold sweep_unlink
  dsimp only
  by_cases hk : kept = []
  · rw [if_pos hk]
    exact ⟨rfl, rfl, ⟨(rest.head?).map (fun x => x.addr), s.ctx.cache_entries - 1, kept ++ rest,
      col.pdfi_countdown (some e.o) s.ctx.world, rfl⟩, rfl⟩
  · rw [if_neg hk]
    exact ⟨rfl, rfl, ⟨s.ctx.cache_LRU, s.ctx.cache_entries - 1, kept ++ rest,
      col.pdfi_countdown (some e.o) s.ctx.world, rfl⟩, rfl⟩

theorem sweep_remove_spec (col : Collab ω) (e : pdf_obj_cache_entry)
    (kept rest : List pdf_obj_cache_entry) (s : State ω) :
    (sweep_remove col e kept rest s).ctx.cache = kept ++ rest ∧
    (sweep_remove col e kept rest s).ctx.cache_entries = s.ctx.cache_entries - 1 ∧
    cache_frame s.ctx (sweep_remove col e kept rest s).ctx ∧
    ∃ c1, (sweep_remove col e kept rest s).trace =
      s.trace ++ [⟨Fn.pdfi_countdown (some e.o), s.ctx, 0⟩,
        ⟨Fn.gs_free_object (some e.addr), c1, 0⟩] ∧
      c1.cache = kept ++ rest ∧ c1.cache_entries = s.ctx.cache_entries - 1 := by
  obtain ⟨h1, h2, h3, h4⟩ := sweep_unlink_spec col e kept rest s
  refine ⟨h1, h2, cache_frame_trans h3 ⟨_, _, _, _, rfl⟩, (sweep_unlink col e kept rest s).ctx,
    ?_, h1, h2⟩
  unfold sweep_remove
  rw [wcall_trace, h4]
  simp

theorem sweep_pass_spec (col : Collab ω) (rest : List pdf_obj_cache_entry) :
    ∀ (kept : List pdf_obj_cache_entry) (stop : Bool) (s : State ω),
      s.ctx.cache = kept ++ rest → s.ctx.cache_entries = ((kept ++ rest).length : Int) →
      cache_frame s.ctx (sweep_pass col rest kept stop s).2.2.ctx ∧
      (sweep_pass col rest kept stop s).2.2.ctx.cache = (sweep_pass col rest kept stop s).1 ∧
      (sweep_pass col rest kept stop s).2.2.ctx.cache_entries
        = ((sweep_pass col rest kept stop s).1.length : Int) ∧
      (sweep_pass col rest kept stop s).1.Sublist (kept ++ rest) ∧
      ((sweep_pass col rest kept stop s).2.1 = false →
        stop = false ∨ (sweep_pass col rest kept stop s).1.length < (kept ++ rest).length) ∧
      ((sweep_pass col rest kept stop s).2.1 = true →
        stop = true ∧ (sweep_pass col rest kept stop s).2.2 = s ∧
        ∀ e ∈ rest, col.refcnt s.ctx.world e.o ≠ 1) ∧
      ∃ evs, (sweep_pass col rest kept stop s).2.2.trace = s.trace ++ evs ∧
        ∀ ev ∈ evs, sweep_ev col ev := by
  induction rest with
  | nil =>
    intro kept stop s hc he
    have hnil : sweep_pass col [] kept stop s = (kept, stop, s) := rfl
    rw [hnil]
    rw [List.append_nil] at hc he ⊢
    refine ⟨cache_frame_refl _, hc, he, List.Sublist.refl _, fun h => Or.inl h,
      fun h => ⟨h, rfl, fun e he => absurd he (List.not_mem_nil e)⟩, [], by simp, by simp⟩
  | cons e rest ih =>
    intro kept stop s hc he
    rw [sweep_pass_cons]
    split_ifs with h1
    · obtain ⟨r1, r2, r3, c1, r4, r5, r6⟩ := sweep_remove_spec col e kept rest s
      have he' : (sweep_remove col e kept rest s).ctx.cache_entries
          = ((kept ++ rest).length : Int) := by
        rw [r2, he]; simp only [List.length_append, List.length_cons]; push_cast; omega
      obtain ⟨f1, f2, f3, f4, f5, f6, evs, f7, f8⟩ := ih kept false _ r1 he'
      refine ⟨cache_frame_trans r3 f1, f2, f3,
        f4.trans (List.Sublist.append_left (List.sublist_cons_self _ _) _), ?_, ?_, ?_⟩
      · intro _
        right
        have := f4.length_le
        simp only [List.length_append, List.length_cons] at this ⊢
        omega
      · intro h
        exact absurd (f6 h).1 (by simp)
      · refine ⟨[⟨Fn.pdfi_countdown (some e.o), s.ctx, 0⟩,
          ⟨Fn.gs_free_object (some e.addr), c1, 0⟩] ++ evs, ?_, ?_⟩
        · rw [f7, r4]; simp
        · intro ev hev
          simp only [List.cons_append, List.nil_append, List.mem_cons] at hev
          rcases hev with rfl | rfl | hev
          · exact ⟨by rw [hc, he], Or.inl ⟨e.o, rfl, h1⟩⟩
          · refine ⟨?_, Or.inr ⟨e.addr, rfl⟩⟩
            show c1.cache_entries = (c1.cache.length : Int)
            rw [r5, r6, he]; simp only [List.length_append, List.length_cons]; push_cast; omega
          · exact f8 ev hev
    · have hc' : s.ctx.cache = (kept ++ [e]) ++ rest := by rw [hc]; simp
      have he' : s.ctx.cache_entries = (((kept ++ [e]) ++ rest).length : Int) := by
        rw [he]; simp
      obtain ⟨f1, f2, f3, f4, f5, f6, f7⟩ := ih (kept ++ [e]) stop s hc' he'
      have hl : (kept ++ [e]) ++ rest = kept ++ e :: rest := by simp
      rw [hl] at f4 f5
      refine ⟨f1, f2, f3, f4, f5, ?_, f7⟩
      intro h
      obtain ⟨g1, g2, g3⟩ := f6 h
      refine ⟨g1, g2, ?_⟩
      intro x hx
      rcases List.mem_cons.1 hx with rfl | hx
      · exact h1
      · exact g3 x hx

theorem cache_frame_world (c : pdf_context ω) (w : ω) :
    cache_frame c { c with world := w } :=
  ⟨c.cache_LRU, c.cache_entries, c.cache, w, rfl⟩

theorem cache_frame_entries (c : pdf_context ω) (n : Int) :
    cache_frame c { c with cache_entries := n } :=
  ⟨c.cache_LRU, n, c.cache, c.world, rfl⟩

theorem cache_frame_cache (c : pdf_context ω) (l : List pdf_obj_cache_entry) :
    cache_frame c { c with cache := l } :=
  ⟨c.cache_LRU, c.cache_entries, l, c.world, rfl⟩

theorem cache_drain_spec (col : Collab ω) (l : List pdf_obj_cache_entry) :
    ∀ s : State ω, cache_frame s.ctx (cache_drain col l s).ctx ∧
      s.trace <+: (cache_drain col l s).trace := by
  induction l with
  | nil => intro s; exact ⟨cache_frame_refl _, List.prefix_refl _⟩
  | cons e rest ih =>
    intro s
    let s1 := wcall (Fn.pdfi_countdown (some e.o)) (col.pdfi_countdown (some e.o)) s
    let s2 := upd (fun c => { c with cache_entries := c.cache_entries - 1 }) s1
    let s3 := wcall (Fn.gs_free_object (some e.addr)) (col.gs_free_object (some e.addr)) s2
    let s4 := upd (fun c => { c with cache := rest }) s3
    have hs : cache_drain col (e :: rest) s = cache_drain col rest s4 := rfl
    rw [hs]
    obtain ⟨h1, h2⟩ := ih s4
    have c1 : cache_frame s.ctx s1.ctx := cache_frame_world _ _
    have c2 : cache_frame s1.ctx s2.ctx := cache_frame_entries _ _
    have c3 : cache_frame s2.ctx s3.ctx := cache_frame_world _ _
    have c4 : cache_frame s3.ctx s4.ctx := cache_frame_cache _ _
    refine ⟨cache_frame_trans (cache_frame_trans (cache_frame_trans (cache_frame_trans c1 c2) c3) c4) h1, ?_⟩
    refine List.IsPrefix.trans ?_ h2
    have ht : s4.trace = s.trace ++ ([⟨Fn.pdfi_countdown (some e.o), s.ctx, 0⟩] ++
        [⟨Fn.gs_free_object (some e.addr), s2.ctx, 0⟩]) := by
      show (s.trace ++ _) ++ _ = _
      rw [List.append_assoc]
    rw [ht]
    exact List.prefix_append _ _

theorem cache_sweep_spec (col : Collab ω) :
    ∀ (fuel n : Nat) (s : State ω), s.ctx.cache.length < fuel →
      s.ctx.cache_entries = (s.ctx.cache.length : Int) →
      ∃ k s', cache_sweep col fuel n s = some (k, s') ∧ k ≤ n + s.ctx.cache.length + 1 ∧
        n < k ∧
        cache_frame s.ctx s'.ctx ∧ s'.ctx.cache_entries = (s'.ctx.cache.length : Int) ∧
        s'.ctx.cache.Sublist s.ctx.cache ∧
        (∀ e ∈ s'.ctx.cache, col.refcnt s'.ctx.world e.o ≠ 1) ∧
        (sweep_pass col s'.ctx.cache [] true s').2 = (true, s') ∧
        ∃ evs, s'.trace = s.trace ++ evs ∧ ∀ ev ∈ evs, sweep_ev col ev := by
  intro fuel
  induction fuel with
  | zero => intro n s h; exact absurd h (Nat.not_lt_zero _)
  | succ fuel ih =>
    intro n s hl he
    obtain ⟨f1, f2, f3, f4, f5, f6, evs, f7, f8⟩ :=
      sweep_pass_spec col s.ctx.cache [] true s (by simp) (by simpa using he)
    have hs : cache_sweep col (fuel + 1) n s =
        if (sweep_pass col s.ctx.cache [] true s).2.1 then
          some (n + 1, (sweep_pass col s.ctx.cache [] true s).2.2)
        else cache_sweep col fuel (n + 1) (sweep_pass col s.ctx.cache [] true s).2.2 := rfl
    rw [hs]
    by_cases hstop : (sweep_pass col s.ctx.cache [] true s).2.1 = true
    · rw [if_pos hstop]
      obtain ⟨_, g2, g3⟩ := f6 hstop
      refine ⟨n + 1, _, rfl, by omega, by omega, f1, ?_, ?_, ?_, ?_, evs, f7, f8⟩
      · rw [g2]; exact he
      · rw [g2]
      · rw [g2]; exact g3
      · rw [g2]; exact Prod.ext hstop g2
    · rw [if_neg hstop]
      have hfalse : (sweep_pass col s.ctx.cache [] true s).2.1 = false := by
        simpa using hstop
      have hlt : (sweep_pass col s.ctx.cache [] true s).1.length < s.ctx.cache.length := by
        rcases f5 hfalse with h | h
        · exact absurd h (by simp)
        · simpa using h
      have hl' : (sweep_pass col s.ctx.cache [] true s).2.2.ctx.cache.length < fuel := by
        rw [f2]; omega
      have he' : (sweep_pass col s.ctx.cache [] true s).2.2.ctx.cache_entries
          = ((sweep_pass col s.ctx.cache [] true s).2.2.ctx.cache.length : Int) := by
        rw [f3, f2]
      obtain ⟨k, s', i1, i2, i2', i3, i4, i5, i6, i9, evs', i7, i8⟩ := ih (n + 1) _ hl' he'
      rw [f2] at i2 i5
      refine ⟨k, s', i1, by omega, by omega, cache_frame_trans f1 i3, i4, ?_, i6, i9,
        evs ++ evs', ?_, ?_⟩
      · exact i5.trans (by simpa using f4)
      · rw [i7, f7, List.append_assoc]
      · intro ev hev
        rcases List.mem_append.1 hev with h | h
        · exact f8 ev h
        · exact i8 ev h

theorem wipe_of_frame {c c' : pdf_context ω} (h : cache_frame c c') :
    ctx_step wipe_cache c (wipe_cache c') := by
  obtain ⟨a, e, l, w, rfl⟩ := h
  exact ⟨w, rfl⟩

theorem wipe_of_wf {c : pdf_context ω} (h : cache_wf c) (h0 : c.cache_entries = 0) :
    c = wipe_cache c := by
  obtain ⟨h1, h2, h3⟩ := h
  have hl : c.cache = [] := by
    rw [h0] at h1
    exact List.length_eq_zero.1 (by exact_mod_cast h1.symm)
  have h2' : c.cache_LRU = none := by rw [h2, hl]; rfl
  have h3' : c.cache_MRU = none := by rw [h3, hl]; rfl
  have e : c = { c with cache_LRU := c.cache_LRU, cache_MRU := c.cache_MRU,
                        cache_entries := c.cache_entries, cache := c.cache } := rfl
  rw [h2', h3', h0, hl] at e
  exact e

theorem clear_cache_step (col : Collab ω) (debug_cache : Bool) (s : State ω)
    (hwf : cache_wf s.ctx) :
    ∃ s', clear_cache col debug_cache s = some s' ∧ ctx_step wipe_cache s.ctx s'.ctx ∧
      s.trace <+: s'.trace := by
  unfold clear_cache
  by_cases h0 : s.ctx.cache_entries = 0
  · rw [if_neg (not_not.2 h0)]
    refine ⟨s, rfl, ⟨s.ctx.world, ?_⟩, List.prefix_refl _⟩
    have := wipe_of_wf hwf h0
    rw [← this]
  · rw [if_pos h0]
    cases debug_cache with
    | true =>
      obtain ⟨k, s1, i1, _, _, i3, _, _, _, _, evs, i7, _⟩ :=
        cache_sweep_spec col (s.ctx.cache.length + 1) 0 s (Nat.lt_succ_self _) hwf.1
      refine ⟨upd wipe_cache s1, ?_, wipe_of_frame i3, ?_⟩
      · simp only [if_true, i1, Option.map_some']
        rfl
      · rw [upd_trace, i7]; exact List.prefix_append _ _
    | false =>
      obtain ⟨i1, i2⟩ := cache_drain_spec col s.ctx.cache s
      exact ⟨upd wipe_cache (cache_drain col s.ctx.cache s), rfl, wipe_of_frame i1, i2⟩

theorem close_with_eq (col : Collab ω) (clear : State ω → Option (State ω)) (s : State ω) :
    close_with col clear s = clear (close_pre col s) := rfl

theorem wcall_extends (fn : Fn) (f : ω → ω) (s : State ω) : s.trace <+: (wcall fn f s).trace :=
  List.prefix_append _ _

theorem release_extends (col : Collab ω) (get : pdf_context ω → Option Nat)
    (clr : pdf_context ω → pdf_context ω) (s : State ω) :
    s.trace <+: (release col get clr s).trace := by
  unfold release
  split_ifs
  · exact List.prefix_append _ _
  · exact List.prefix_refl _

theorem free_field_extends (col : Collab ω) (get : pdf_context ω → Option Nat)
    (clr : pdf_context ω → pdf_context ω) (s : State ω) :
    s.trace <+: (free_field col get clr s).trace := by
  unfold free_field
  split_ifs
  · exact List.prefix_append _ _
  · exact List.prefix_refl _

theorem stream_none_eq {c : pdf_context ω} (h : c.main_stream = none) :
    c = { c with main_stream := none } := by
  have e : c = { c with main_stream := c.main_stream } := rfl
  rw [h] at e
  exact e

theorem close_stream_step (col : Collab ω) (s : State ω) :
    ctx_step (fun c => { c with main_stream := none }) s.ctx (close_stream col s).ctx ∧
      s.trace <+: (close_stream col s).trace := by
  unfold close_stream
  cases hm : s.ctx.main_stream with
  | none =>
    refine ⟨⟨s.ctx.world, ?_⟩, List.prefix_refl _⟩
    have := stream_none_eq hm
    rw [← this]
  | some ms =>
    cases hp : ms.s with
    | none =>
      refine ⟨⟨col.gs_free_object (some ms.addr) s.ctx.world, ?_⟩, ?_⟩
      · simp only [hp]; rfl
      · simp only [hp]; exact List.prefix_append _ _
    | some p =>
      refine ⟨⟨col.gs_free_object (some ms.addr) (col.sfclose p s.ctx.world), ?_⟩, ?_⟩
      · simp only [hp]; rfl
      · simp only [hp, upd_trace, wcall_trace, List.append_assoc]; exact List.prefix_append _ _

theorem close_pre_step (col : Collab ω) (s : State ω) :
    ctx_step close_ctx s.ctx (close_pre col s).ctx ∧ s.trace <+: (close_pre col s).trace := by
  let s1 := close_stream col s
  let s2 := upd (fun c => { c with main_stream_length := 0 }) s1
  obtain ⟨⟨w1, h1⟩, p1⟩ := close_stream_step col s
  have e3 : ctx_step _ s2.ctx (close_pre col s).ctx := free_field_step col (fun c => c.filename)
    (fun c => { c with filename := none })
    (fun c h => by
      have h' : c.filename = none := h
      have e : c = { c with filename := c.filename } := rfl
      rw [h'] at e
      exact e.symm) (fun _ _ => rfl) s2
  have p3 : s2.trace <+: (close_pre col s).trace := free_field_extends _ _ _ s2
  refine ⟨?_, p1.trans p3⟩
  obtain ⟨w3, h3⟩ := e3
  refine ⟨w3, ?_⟩
  rw [h3]
  have h2 : s2.ctx = { s1.ctx with main_stream_length := 0 } := rfl
  rw [h2, h1]
  rfl

theorem clear_head_extends (col : Collab ω) (s : State ω) :
    s.trace <+: (clear_head col s).trace := by
  let s1 := free_field col (fun c => c.PageList) (fun c => { c with PageList := none }) s
  let s2 := release col (fun c => c.Trailer) (fun c => { c with Trailer := none }) s1
  let s3 := release col (fun c => c.AcroForm) (fun c => { c with AcroForm := none }) s2
  let s4 := release col (fun c => c.Root) (fun c => { c with Root := none }) s3
  let s5 := release col (fun c => c.Info) (fun c => { c with Info := none }) s4
  let s6 := release col (fun c => c.PagesTree) (fun c => { c with PagesTree := none }) s5
  let s7 := wcall Fn.pdfi_doc_page_array_free col.pdfi_doc_page_array_free s6
  let s8 := release col (fun c => c.xref_table) (fun c => { c with xref_table := none }) s7
  let s9 := wcall Fn.pdfi_free_OptionalRoot col.pdfi_free_OptionalRoot s8
  have e1 : s.trace <+: s1.trace := free_field_extends _ _ _ s
  have e2 : s1.trace <+: s2.trace := release_extends _ _ _ s1
  have e3 : s2.trace <+: s3.trace := release_extends _ _ _ s2
  have e4 : s3.trace <+: s4.trace := release_extends _ _ _ s3
  have e5 : s4.trace <+: s5.trace := release_extends _ _ _ s4
  have e6 : s5.trace <+: s6.trace := release_extends _ _ _ s5
  have e7 : s6.trace <+: s7.trace := wcall_extends _ _ s6
  have e8 : s7.trace <+: s8.trace := release_extends _ _ _ s7
  have e9 : s8.trace <+: s9.trace := wcall_extends _ _ s8
  have c : s.trace <+: s9.trace :=
    e1.trans (e2.trans (e3.trans (e4.trans (e5.trans (e6.trans (e7.trans (e8.trans e9)))))))
  have hs : clear_head col s =
      if s9.ctx.stack_bot ≠ none then wcall Fn.pdfi_clearstack col.pdfi_clearstack s9 else s9 := rfl
  rw [hs]
  split_ifs
  · exact c.trans (wcall_extends _ _ s9)
  · exact c

theorem clear_tail_eq (col : Collab ω) (debug_cache : Bool) (s : State ω) :
    clear_tail col debug_cache s =
      (clear_cache col debug_cache (tail_pre col s)).map (tail_post col) := rfl

theorem tail_stream_step (col : Collab ω) (s : State ω) :
    ctx_step (fun c => { c with main_stream := none }) s.ctx (tail_stream col s).ctx ∧
      s.trace <+: (tail_stream col s).trace := by
  unfold tail_stream
  cases hm : s.ctx.main_stream with
  | none =>
    refine ⟨⟨s.ctx.world, ?_⟩, List.prefix_refl _⟩
    have := stream_none_eq hm
    rw [← this]
  | some ms =>
    exact ⟨⟨col.gs_free_object (some ms.addr) s.ctx.world, rfl⟩, List.prefix_append _ _⟩

theorem ite_wcall_step (b : Prop) [Decidable b] (fn : Fn) (f : ω → ω) (s : State ω) :
    ctx_step id s.ctx (if b then wcall fn f s else s).ctx ∧
      s.trace <+: (if b then wcall fn f s else s).trace := by
  split_ifs
  · exact ⟨wcall_step fn f s, wcall_extends fn f s⟩
  · exact ⟨ctx_step_id _, List.prefix_refl _⟩

theorem tail_pre_step (col : Collab ω) (s : State ω) :
    ctx_step pre_ctx s.ctx (tail_pre col s).ctx ∧ s.trace <+: (tail_pre col s).trace := by
  let s1 := tail_stream col s
  let s2 := upd (fun c => { c with main_stream_length := 0 }) s1
  let s3 := if s2.ctx.pgs ≠ none then wcall Fn.pgs_cleanup col.pgs_cleanup s2 else s2
  let s4 := wcall Fn.pdfi_free_DefaultQState col.pdfi_free_DefaultQState s3
  let s5 := wcall Fn.pdfi_oc_free col.pdfi_oc_free s4
  let s6 := release col (fun c => c.EKey) (fun c => { c with EKey := none }) s5
  let s7 := free_field col (fun c => c.Password) (fun c => { c with Password := none }) s6
  have hs : tail_pre col s = s7 := rfl
  obtain ⟨⟨w1, h1⟩, p1⟩ := tail_stream_step col s
  have h2 : s2.ctx = { s1.ctx with main_stream_length := 0 } := rfl
  obtain ⟨⟨w3, h3⟩, p3⟩ := ite_wcall_step (s2.ctx.pgs ≠ none) Fn.pgs_cleanup col.pgs_cleanup s2
  have h4 : s4.ctx = { s3.ctx with world := col.pdfi_free_DefaultQState s3.ctx.world } := rfl
  have h5 : s5.ctx = { s4.ctx with world := col.pdfi_oc_free s4.ctx.world } := rfl
  have e6 : ctx_step _ s5.ctx s6.ctx := release_step col (fun c => c.EKey)
    (fun c => { c with EKey := none })
    (fun c h => by
      have h' : c.EKey = none := h
      have e : c = { c with EKey := c.EKey } := rfl
      rw [h'] at e
      exact e.symm) (fun _ _ => rfl) s5
  have e7 : ctx_step _ s6.ctx s7.ctx := free_field_step col (fun c => c.Password)
    (fun c => { c with Password := none })
    (fun c h => by
      have h' : c.Password = none := h
      have e : c = { c with Password := c.Password } := rfl
      rw [h'] at e
      exact e.symm) (fun _ _ => rfl) s6
  have p4 : s3.trace <+: s4.trace := wcall_extends _ _ s3
  have p5 : s4.trace <+: s5.trace := wcall_extends _ _ s4
  have p6 : s5.trace <+: s6.trace := release_extends _ _ _ s5
  have p7 : s6.trace <+: s7.trace := free_field_extends _ _ _ s6
  rw [hs]
  refine ⟨?_, p1.trans (p3.trans (p4.trans (p5.trans (p6.trans p7))))⟩
  obtain ⟨w6, h6⟩ := e6
  obtain ⟨w7, h7⟩ := e7
  refine ⟨w7, ?_⟩
  rw [h7, h6, h5, h4]
  change s3.ctx = { id s2.ctx with world := w3 } at h3
  rw [h3, h2, h1]
  rfl

theorem tail_post_step (col : Collab ω) (s : State ω) :
    ctx_step (fun c => { c with pdffontmap := none }) s.ctx (tail_post col s).ctx ∧
      s.trace <+: (tail_post col s).trace := by
  let s1 := if s.ctx.font_dir ≠ none then
      wcall Fn.gx_purge_selected_cached_chars col.gx_purge_selected_cached_chars s
    else s
  obtain ⟨⟨w1, h1⟩, p1⟩ := ite_wcall_step (s.ctx.font_dir ≠ none)
    Fn.gx_purge_selected_cached_chars col.gx_purge_selected_cached_chars s
  have hs : tail_post col s = upd (fun c => { c with pdffontmap := none })
    (wcall (Fn.pdfi_countdown s1.ctx.pdffontmap) (col.pdfi_countdown s1.ctx.pdffontmap) s1) := rfl
  rw [hs]
  refine ⟨⟨col.pdfi_countdown s1.ctx.pdffontmap s1.ctx.world, ?_⟩, ?_⟩
  · rw [upd_ctx, wcall_ctx]
    change s1.ctx = { id s.ctx with world := w1 } at h1
    rw [h1]
    rfl
  · rw [upd_trace]
    exact p1.trans (wcall_extends _ _ s1)

theorem cache_wf_step {F : pdf_context ω → pdf_context ω} {c c' : pdf_context ω}
    (h : ctx_step F c c') (hF : (F c).cache_entries = c.cache_entries ∧
      (F c).cache_LRU = c.cache_LRU ∧ (F c).cache_MRU = c.cache_MRU ∧ (F c).cache = c.cache)
    (hwf : cache_wf c) : cache_wf c' := by
  obtain ⟨w, rfl⟩ := h
  obtain ⟨a, b, d, e⟩ := hF
  obtain ⟨h1, h2, h3⟩ := hwf
  refine ⟨?_, ?_, ?_⟩
  · show (F c).cache_entries = ((F c).cache.length : Int)
    rw [a, e]; exact h1
  · show (F c).cache_LRU = ((F c).cache.head?).map (fun e => e.addr)
    rw [b, e]; exact h2
  · show (F c).cache_MRU = ((F c).cache.getLast?).map (fun e => e.addr)
    rw [d, e]; exact h3

theorem clear_tail_step (col : Collab ω) (debug_cache : Bool) (s : State ω)
    (hwf : cache_wf s.ctx) :
    ∃ s', clear_tail col debug_cache s = some s' ∧ ctx_step tail_ctx s.ctx s'.ctx ∧
      s.trace <+: s'.trace := by
  obtain ⟨e1, p1⟩ := tail_pre_step col s
  have hwf1 : cache_wf (tail_pre col s).ctx := cache_wf_step e1 ⟨rfl, rfl, rfl, rfl⟩ hwf
  obtain ⟨s2, h2, e2, p2⟩ := clear_cache_step col debug_cache (tail_pre col s) hwf1
  obtain ⟨e3, p3⟩ := tail_post_step col s2
  refine ⟨tail_post col s2, ?_, ?_, p1.trans (p2.trans p3)⟩
  · rw [clear_tail_eq, h2]; rfl
  · obtain ⟨w1, h1⟩ := e1
    obtain ⟨w2, h2⟩ := e2
    obtain ⟨w3, h3⟩ := e3
    refine ⟨w3, ?_⟩
    rw [h3, h2, h1]
    rfl

theorem same_diag_trans {c c' c'' : pdf_context ω} (h1 : same_diag c c') (h2 : same_diag c' c'') :
    same_diag c c'' :=
  ⟨h2.1.trans h1.1, h2.2.trans h1.2⟩

theorem clear_context_eq (col : Collab ω) (debug_cache : Bool) (depth : Nat) (s : State ω) :
    pdfi_clear_context col debug_cache (depth + 1) s =
      (if (clear_head col s).ctx.filename ≠ none then
        (close_with col (pdfi_clear_context col debug_cache depth) (clear_head col s)).map
          fun s => upd (fun c => { c with filename := none })
            (wcall (Fn.gs_free_object s.ctx.filename) (col.gs_free_object s.ctx.filename) s)
      else some (clear_head col s)).bind (clear_tail col debug_cache) := rfl

/-- The teardown from a context without file name: `clear_head`, then
`clear_tail`. -/
theorem clear_context_plain (col : Collab ω) (debug_cache : Bool) (depth : Nat) (s : State ω)
    (hfn : s.ctx.filename = none) (hwf : cache_wf s.ctx) :
    ∃ s', pdfi_clear_context col debug_cache (depth + 1) s = some s' ∧
      clear_tail col debug_cache (clear_head col s) = some s' ∧
      cleared s'.ctx ∧ same_diag s.ctx s'.ctx ∧
      (clear_head col s).ctx.xref_table = none ∧
      (clear_head col s).ctx.main_stream = s.ctx.main_stream ∧
      (clear_head col s).ctx.cache = s.ctx.cache ∧
      (clear_head col s).ctx.cache_entries = s.ctx.cache_entries ∧
      s.trace <+: (clear_head col s).trace ∧ (clear_head col s).trace <+: s'.trace := by
  have e1 := clear_head_step col s
  have p1 := clear_head_extends col s
  have hwf1 : cache_wf (clear_head col s).ctx := cache_wf_step e1 ⟨rfl, rfl, rfl, rfl⟩ hwf
  obtain ⟨w1, h1⟩ := e1
  have hfn1 : (clear_head col s).ctx.filename = none := by rw [h1]; exact hfn
  obtain ⟨s', h2, ⟨w2, e2⟩, p2⟩ := clear_tail_step col debug_cache (clear_head col s) hwf1
  refine ⟨s', ?_, h2, ?_, ?_, by rw [h1]; rfl, by rw [h1]; rfl, by rw [h1]; rfl,
    by rw [h1]; rfl, p1, p2⟩
  · rw [clear_context_eq, if_neg (not_not.2 hfn1)]
    exact h2
  · rw [h1] at e2
    refine ⟨?_, ?_, ?_, ?_, ?_, ?_, ?_, ?_, ?_, ?_, ?_, ?_, ?_⟩ <;> rw [e2]
    all_goals first | rfl | exact hfn
  · rw [h1] at e2
    exact ⟨by rw [e2]; rfl, by rw [e2]; rfl⟩

/-- The run of `pdfi_close_pdf_file`: `close_pre`, `clear_head`,
`clear_tail`. -/
theorem close_pdf_file_run (col : Collab ω) (debug_cache : Bool) (depth : Nat) (s : State ω)
    (hwf : cache_wf s.ctx) :
    ∃ s', pdfi_close_pdf_file col debug_cache (depth + 1) s = some s' ∧
      clear_tail col debug_cache (clear_head col (close_pre col s)) = some s' ∧
      cleared s'.ctx ∧ same_diag s.ctx s'.ctx ∧
      ((close_pre col s).ctx.main_stream = none ∧
        (close_pre col s).ctx.xref_table = s.ctx.xref_table ∧
        (close_pre col s).ctx.cache = s.ctx.cache ∧
        (close_pre col s).ctx.cache_entries = s.ctx.cache_entries) ∧
      ((clear_head col (close_pre col s)).ctx.main_stream = none ∧
        (clear_head col (close_pre col s)).ctx.xref_table = none ∧
        (clear_head col (close_pre col s)).ctx.cache = s.ctx.cache ∧
        (clear_head col (close_pre col s)).ctx.cache_entries = s.ctx.cache_entries) ∧
      s.trace <+: (close_pre col s).trace ∧
      (close_pre col s).trace <+: (clear_head col (close_pre col s)).trace ∧
      (clear_head col (close_pre col s)).trace <+: s'.trace := by
  obtain ⟨e1, p1⟩ := close_pre_step col s
  have hwf1 : cache_wf (close_pre col s).ctx := cache_wf_step e1 ⟨rfl, rfl, rfl, rfl⟩ hwf
  obtain ⟨w1, h1⟩ := e1
  have hfn1 : (close_pre col s).ctx.filename = none := by rw [h1]; rfl
  have hm : (close_pre col s).ctx.main_stream = none := by rw [h1]; rfl
  have hx : (close_pre col s).ctx.xref_table = s.ctx.xref_table := by rw [h1]; rfl
  have hc : (close_pre col s).ctx.cache = s.ctx.cache := by rw [h1]; rfl
  have he : (close_pre col s).ctx.cache_entries = s.ctx.cache_entries := by rw [h1]; rfl
  have hd : same_diag s.ctx (close_pre col s).ctx := ⟨by rw [h1]; rfl, by rw [h1]; rfl⟩
  obtain ⟨s', r1, r2, r3, r4, r5, r6, r7, r8, r9, r10⟩ :=
    clear_context_plain col debug_cache depth (close_pre col s) hfn1 hwf1
  refine ⟨s', ?_, r2, r3, same_diag_trans hd r4, ⟨hm, hx, hc, he⟩,
    ⟨r6.trans hm, r5, r7.trans hc, r8.trans he⟩, p1, r9, r10⟩
  unfold pdfi_close_pdf_file
  rw [close_with_eq]
  exact r1

theorem cleared_wf {c : pdf_context ω} (h : cleared c) : cache_wf c := by
  refine ⟨?_, ?_, ?_⟩
  · rw [h.entries, h.cache]; rfl
  · rw [h.lru, h.cache]; rfl
  · rw [h.mru, h.cache]; rfl

/-- The teardown from any context with a well-formed cache. -/
theorem clear_context_run (col : Collab ω) (debug_cache : Bool) (depth : Nat) (s : State ω)
    (hwf : cache_wf s.ctx) :
    ∃ s', pdfi_clear_context col debug_cache (depth + 2) s = some s' ∧
      cleared s'.ctx ∧ same_diag s.ctx s'.ctx ∧ s.trace <+: s'.trace := by
  by_cases hfn : s.ctx.filename = none
  · obtain ⟨s', r1, _, r3, r4, _, _, _, _, r9, r10⟩ :=
      clear_context_plain col debug_cache (depth + 1) s hfn hwf
    exact ⟨s', r1, r3, r4, r9.trans r10⟩
  · have e1 := clear_head_step col s
    have p1 := clear_head_extends col s
    have hwf1 : cache_wf (clear_head col s).ctx := cache_wf_step e1 ⟨rfl, rfl, rfl, rfl⟩ hwf
    obtain ⟨w1, h1⟩ := e1
    have hfn1 : (clear_head col s).ctx.filename ≠ none := by rw [h1]; exact hfn
    have hd1 : same_diag s.ctx (clear_head col s).ctx := ⟨by rw [h1]; rfl, by rw [h1]; rfl⟩
    obtain ⟨s2, q1, _, q3, q4, _, _, q7, q8, q9⟩ :=
      close_pdf_file_run col debug_cache depth (clear_head col s) hwf1
    have q1' : close_with col (pdfi_clear_context col debug_cache (depth + 1))
        (clear_head col s) = some s2 := q1
    let s3 := upd (fun c => { c with filename := none })
      (wcall (Fn.gs_free_object s2.ctx.filename) (col.gs_free_object s2.ctx.filename) s2)
    have h3 : s3.ctx = { s2.ctx with world := col.gs_free_object s2.ctx.filename s2.ctx.world,
                                     filename := none } := rfl
    have c3 : cleared s3.ctx :=
      ⟨q3.entries, q3.lru, q3.mru, q3.cache, q3.trailer, q3.root, q3.info, q3.pages,
        q3.acroform, q3.xref, q3.stream, rfl, q3.length⟩
    have d3 : same_diag s2.ctx s3.ctx := ⟨rfl, rfl⟩
    have p3 : s2.trace <+: s3.trace :=
      wcall_extends (Fn.gs_free_object s2.ctx.filename) (col.gs_free_object s2.ctx.filename) s2
    obtain ⟨s', t1, ⟨w4, t2⟩, t3⟩ := clear_tail_step col debug_cache s3 (cleared_wf c3)
    refine ⟨s', ?_, ?_, ?_, p1.trans (q7.trans (q8.trans (q9.trans (p3.trans t3))))⟩
    · rw [clear_context_eq, if_pos hfn1, q1']
      exact t1
    · refine ⟨?_, ?_, ?_, ?_, ?_, ?_, ?_, ?_, ?_, ?_, ?_, ?_, ?_⟩ <;> rw [t2]
      · rfl
      · rfl
      · rfl
      · rfl
      · exact c3.trailer
      · exact c3.root
      · exact c3.info
      · exact c3.pages
      · exact c3.acroform
      · exact c3.xref
      · rfl
      · exact c3.name
      · rfl
    · refine same_diag_trans hd1 (same_diag_trans q4 (same_diag_trans d3 ?_))
      exact ⟨by rw [t2]; rfl, by rw [t2]; rfl⟩

/-- C10: from every context with a well-formed cache list `pdfi_clear_context`
returns, and so does `pdfi_close_pdf_file` (in either build of the cache
block); afterwards the object cache is empty (`cache_entries = 0`,
`cache_LRU = cache_MRU = NULL`), `Trailer`, `Root`, `Info`, `PagesTree`,
`AcroForm`, `xref_table`, `main_stream` and `filename` are NULL and
`main_stream_length = 0`. -/
theorem clear_context_resets (col : Collab ω) (debug_cache : Bool) (depth : Nat) (s : State ω)
    (hwf : cache_wf s.ctx) :
    (∃ s', pdfi_clear_context col debug_cache (depth + 2) s = some s' ∧
      s'.ctx.cache_entries = 0 ∧ s'.ctx.cache_LRU = none ∧ s'.ctx.cache_MRU = none ∧
      s'.ctx.Trailer = none ∧ s'.ctx.Root = none ∧ s'.ctx.Info = none ∧
      s'.ctx.PagesTree = none ∧ s'.ctx.AcroForm = none ∧ s'.ctx.xref_table = none ∧
      s'.ctx.main_stream = none ∧ s'.ctx.filename = none ∧ s'.ctx.main_stream_length = 0) ∧
    (∃ s', pdfi_close_pdf_file col debug_cache (depth + 2) s = some s' ∧
      s'.ctx.cache_entries = 0 ∧ s'.ctx.cache_LRU = none ∧ s'.ctx.cache_MRU = none ∧
      s'.ctx.Trailer = none ∧ s'.ctx.Root = none ∧ s'.ctx.Info = none ∧
      s'.ctx.PagesTree = none ∧ s'.ctx.AcroForm = none ∧ s'.ctx.xref_table = none ∧
      s'.ctx.main_stream = none ∧ s'.ctx.filename = none ∧ s'.ctx.main_stream_length = 0) := by
  obtain ⟨s1, a1, a2, _⟩ := clear_context_run col debug_cache depth s hwf
  obtain ⟨s2, b1, _, b2, _⟩ := close_pdf_file_run col debug_cache (depth + 1) s hwf
  exact ⟨⟨s1, a1, a2.entries, a2.lru, a2.mru, a2.trailer, a2.root, a2.info, a2.pages,
      a2.acroform, a2.xref, a2.stream, a2.name, a2.length⟩,
    ⟨s2, b1, b2.entries, b2.lru, b2.mru, b2.trailer, b2.root, b2.info, b2.pages,
      b2.acroform, b2.xref, b2.stream, b2.name, b2.length⟩⟩

/-- C10 at the open document `ctx_open`, whose cache holds two entries. -/
theorem clear_context_resets_witness :
    cache_wf ctx_open ∧
    ((∃ s', pdfi_clear_context col_held true 2 ⟨ctx_open, []⟩ = some s' ∧
      s'.ctx.cache_entries = 0 ∧ s'.ctx.cache_LRU = none ∧ s'.ctx.cache_MRU = none ∧
      s'.ctx.Trailer = none ∧ s'.ctx.Root = none ∧ s'.ctx.Info = none ∧
      s'.ctx.PagesTree = none ∧ s'.ctx.AcroForm = none ∧ s'.ctx.xref_table = none ∧
      s'.ctx.main_stream = none ∧ s'.ctx.filename = none ∧ s'.ctx.main_stream_length = 0) ∧
    (∃ s', pdfi_close_pdf_file col_held true 2 ⟨ctx_open, []⟩ = some s' ∧
      s'.ctx.cache_entries = 0 ∧ s'.ctx.cache_LRU = none ∧ s'.ctx.cache_MRU = none ∧
      s'.ctx.Trailer = none ∧ s'.ctx.Root = none ∧ s'.ctx.Info = none ∧
      s'.ctx.PagesTree = none ∧ s'.ctx.AcroForm = none ∧ s'.ctx.xref_table = none ∧
      s'.ctx.main_stream = none ∧ s'.ctx.filename = none ∧ s'.ctx.main_stream_length = 0)) :=
  ⟨⟨rfl, rfl, rfl⟩, clear_context_resets col_held true 0 ⟨ctx_open, []⟩ ⟨rfl, rfl, rfl⟩⟩

/-- C11 (as amended): in `pdfi_close_pdf_file` the main stream is closed and
freed first, while the cross-reference table and the cache are still
untouched (the state `close_pre` reaches); `pdfi_clear_context` then releases
the cross-reference table while the cache is still untouched (the state
`clear_head` reaches); the cache is emptied last, by `clear_tail`.  The log
of each of the three stages extends that of the stage before. -/
theorem close_order (col : Collab ω) (debug_cache : Bool) (depth : Nat) (s : State ω)
    (hwf : cache_wf s.ctx) :
    ∃ s', pdfi_close_pdf_file col debug_cache (depth + 1) s = some s' ∧
      clear_tail col debug_cache (clear_head col (close_pre col s)) = some s' ∧
      ((close_pre col s).ctx.main_stream = none ∧
        (close_pre col s).ctx.xref_table = s.ctx.xref_table ∧
        (close_pre col s).ctx.cache = s.ctx.cache ∧
        (close_pre col s).ctx.cache_entries = s.ctx.cache_entries) ∧
      ((clear_head col (close_pre col s)).ctx.main_stream = none ∧
        (clear_head col (close_pre col s)).ctx.xref_table = none ∧
        (clear_head col (close_pre col s)).ctx.cache = s.ctx.cache ∧
        (clear_head col (close_pre col s)).ctx.cache_entries = s.ctx.cache_entries) ∧
      (s'.ctx.main_stream = none ∧ s'.ctx.xref_table = none ∧ s'.ctx.cache = [] ∧
        s'.ctx.cache_entries = 0) ∧
      s.trace <+: (close_pre col s).trace ∧
      (close_pre col s).trace <+: (clear_head col (close_pre col s)).trace ∧
      (clear_head col (close_pre col s)).trace <+: s'.trace := by
  obtain ⟨s', r1, r2, r3, _, r5, r6, r7, r8, r9⟩ :=
    close_pdf_file_run col debug_cache depth s hwf
  exact ⟨s', r1, r2, r5, r6, ⟨r3.stream, r3.xref, r3.cache, r3.entries⟩, r7, r8, r9⟩

/-- C11 (as amended) at the open document `ctx_open`. -/
theorem close_order_witness :
    cache_wf ctx_open ∧
    ∃ s', pdfi_close_pdf_file col0 false 1 ⟨ctx_open, []⟩ = some s' ∧
      clear_tail col0 false (clear_head col0 (close_pre col0 ⟨ctx_open, []⟩)) = some s' ∧
      ((close_pre col0 ⟨ctx_open, []⟩).ctx.main_stream = none ∧
        (close_pre col0 ⟨ctx_open, []⟩).ctx.xref_table = ctx_open.xref_table ∧
        (close_pre col0 ⟨ctx_open, []⟩).ctx.cache = ctx_open.cache ∧
        (close_pre col0 ⟨ctx_open, []⟩).ctx.cache_entries = ctx_open.cache_entries) ∧
      ((clear_head col0 (close_pre col0 ⟨ctx_open, []⟩)).ctx.main_stream = none ∧
        (clear_head col0 (close_pre col0 ⟨ctx_open, []⟩)).ctx.xref_table = none ∧
        (clear_head col0 (close_pre col0 ⟨ctx_open, []⟩)).ctx.cache = ctx_open.cache ∧
        (clear_head col0 (close_pre col0 ⟨ctx_open, []⟩)).ctx.cache_entries
          = ctx_open.cache_entries) ∧
      (s'.ctx.main_stream = none ∧ s'.ctx.xref_table = none ∧ s'.ctx.cache = [] ∧
        s'.ctx.cache_entries = 0) ∧
      ([] : List (Event Nat)) <+: (close_pre col0 ⟨ctx_open, []⟩).trace ∧
      (close_pre col0 ⟨ctx_open, []⟩).trace
        <+: (clear_head col0 (close_pre col0 ⟨ctx_open, []⟩)).trace ∧
      (clear_head col0 (close_pre col0 ⟨ctx_open, []⟩)).trace <+: s'.trace :=
  ⟨⟨rfl, rfl, rfl⟩, close_order col0 false 0 ⟨ctx_open, []⟩ ⟨rfl, rfl, rfl⟩⟩

/-- C11 fails as stated: closing the open document `ctx_open` logs the calls
below.  The main stream (file 11, stream 10) is closed and freed first, the
cross-reference table (object 1) is released after it, and the cached objects
(30 and 31) are released last: the reverse of the order claimed. -/
theorem close_order_counterexample :
    (pdfi_close_pdf_file col0 false 1 ⟨ctx_open, []⟩).map (fun s => fns s.trace) =
      some [Fn.sfclose 11, Fn.gs_free_object (some 10), Fn.gs_free_object (some 12),
        Fn.pdfi_countdown (some 2), Fn.pdfi_countdown (some 3), Fn.pdfi_doc_page_array_free,
        Fn.pdfi_countdown (some 1), Fn.pdfi_free_OptionalRoot, Fn.pdfi_free_DefaultQState,
        Fn.pdfi_oc_free, Fn.pdfi_countdown (some 30), Fn.gs_free_object (some 20),
        Fn.pdfi_countdown (some 31), Fn.gs_free_object (some 21), Fn.pdfi_countdown none] ∧
    ¬ ∃ l, (pdfi_close_pdf_file col0 false 1 ⟨ctx_open, []⟩).map (fun s => fns s.trace)
        = some l ∧
      l.indexOf (Fn.pdfi_countdown (some 30)) < l.indexOf (Fn.pdfi_countdown (some 1)) ∧
      l.indexOf (Fn.pdfi_countdown (some 1)) < l.indexOf (Fn.gs_free_object (some 10)) := by
  have h : (pdfi_close_pdf_file col0 false 1 ⟨ctx_open, []⟩).map (fun s => fns s.trace) =
      some [Fn.sfclose 11, Fn.gs_free_object (some 10), Fn.gs_free_object (some 12),
        Fn.pdfi_countdown (some 2), Fn.pdfi_countdown (some 3), Fn.pdfi_doc_page_array_free,
        Fn.pdfi_countdown (some 1), Fn.pdfi_free_OptionalRoot, Fn.pdfi_free_DefaultQState,
        Fn.pdfi_oc_free, Fn.pdfi_countdown (some 30), Fn.gs_free_object (some 20),
        Fn.pdfi_countdown (some 31), Fn.gs_free_object (some 21), Fn.pdfi_countdown none] := by
    decide
  refine ⟨h, ?_⟩
  rintro ⟨l, hl, h1, _⟩
  rw [h] at hl
  cases hl
  revert h1
  decide

/-- C12 (as amended): `pdfi_close_pdf_file` leaves the masks `pdf_errors` and
`pdf_warnings` as it found them. -/
theorem close_keeps_diagnostics (col : Collab ω) (debug_cache : Bool) (depth : Nat)
    (s : State ω) (hwf : cache_wf s.ctx) :
    ∃ s', pdfi_close_pdf_file col debug_cache (depth + 1) s = some s' ∧
      s'.ctx.pdf_errors = s.ctx.pdf_errors ∧ s'.ctx.pdf_warnings = s.ctx.pdf_warnings := by
  obtain ⟨s', r1, _, _, r4, _⟩ := close_pdf_file_run col debug_cache depth s hwf
  exact ⟨s', r1, r4.1, r4.2⟩

/-- C12 (as amended) at the open document `ctx_open`. -/
theorem close_keeps_diagnostics_witness :
    cache_wf ctx_open ∧
    ∃ s', pdfi_close_pdf_file col0 false 1 ⟨ctx_open, []⟩ = some s' ∧
      s'.ctx.pdf_errors = ctx_open.pdf_errors ∧ s'.ctx.pdf_warnings = ctx_open.pdf_warnings :=
  ⟨⟨rfl, rfl, rfl⟩, close_keeps_diagnostics col0 false 0 ⟨ctx_open, []⟩ ⟨rfl, rfl, rfl⟩⟩

/-- C12 fails as stated: after `pdfi_close_pdf_file` on `ctx_open`, whose scan
had set `E_PDF_NOSTARTXREF` and whose warning mask was 1, both masks still
hold these values, neither `E_PDF_NOERROR` nor `W_PDF_NOWARNING`. -/
theorem close_diagnostics_counterexample :
    (pdfi_close_pdf_file col0 false 1 ⟨ctx_open, []⟩).map
        (fun s => (s.ctx.pdf_errors, s.ctx.pdf_warnings)) = some (E_PDF_NOSTARTXREF, 1) ∧
      E_PDF_NOSTARTXREF ≠ E_PDF_NOERROR ∧ 1 ≠ W_PDF_NOWARNING := by
  decide

theorem scan_loop_succ (file : List Nat) (cap fuel : Nat) (m : Mem)
    (bytes Offset leftover : Int) (ps : List Pass) :
    scan_loop file cap (fuel + 1) m bytes Offset leftover ps =
      if pdfi_seek_ok file ((file.length : Int) - Offset) = false then
        Scan.seek_error ((file.length : Int) - Offset) ps
      else if pass_got file m bytes Offset = 0 then
        Scan.ioerror (ps ++ [⟨(file.length : Int) - Offset, bytes, pass_got file m bytes Offset, 0, 0⟩])
      else if (pass_search file m bytes Offset leftover).1 = true then
        Scan.done true (sscanf_ld (cstring (pass_mem file m bytes Offset leftover)
          ((pass_search file m bytes Offset leftover).2.1 : Int)
          (cap - (pass_search file m bytes Offset leftover).2.1)))
          (ps ++ [pass_of file m bytes Offset leftover])
      else
        match (pass_search file m bytes Offset leftover).2.2 with
        | some last_lineend =>
          if Offset + ((pass_got file m bytes Offset : Int) + leftover - last_lineend)
              < (file.length : Int) then
            scan_loop file cap fuel
              (memcpy (pass_mem file m bytes Offset leftover)
                ((pass_got file m bytes Offset : Int) + leftover - last_lineend) last_lineend
                last_lineend)
              ((pass_got file m bytes Offset : Int) + leftover - last_lineend)
              (Offset + ((pass_got file m bytes Offset : Int) + leftover - last_lineend))
              last_lineend (ps ++ [pass_of file m bytes Offset leftover])
          else Scan.done false none (ps ++ [pass_of file m bytes Offset leftover])
        | none =>
          if Offset + ((pass_got file m bytes Offset : Int) + leftover) < (file.length : Int) then
            scan_loop file cap fuel (pass_mem file m bytes Offset leftover)
              ((pass_got file m bytes Offset : Int) + leftover)
              (Offset + ((pass_got file m bytes Offset : Int) + leftover)) 0
              (ps ++ [pass_of file m bytes Offset leftover])
          else Scan.done false none (ps ++ [pass_of file m bytes Offset leftover]) := by
  rw [scan_loop]
  by_cases h1 : pdfi_seek_ok file ((file.length : Int) - Offset) = true
  · simp only [h1, Bool.not_true, Bool.false_eq_true, if_false]
    rfl
  · have h1' : pdfi_seek_ok file ((file.length : Int) - Offset) = false := by simpa using h1
    simp only [h1', Bool.not_false, if_true]

theorem search_back_lineend (m : Mem) :
    ∀ (n : Nat) (le : Option Int) (x : Int), (search_back m n le).2.2 = some x →
      le = some x ∨ (1 ≤ x ∧ x ≤ (n : Int)) := by
  intro n
  induction n with
  | zero => intro le x h; exact Or.inl h
  | succ n ih =>
    intro le x h
    rw [search_back] at h
    split_ifs at h with h1 h4
    · exact Or.inl h
    · right
      rcases ih _ x h with h2 | ⟨h2, h3⟩
      · have : ((n + 1 : Nat) : Int) = x := Option.some.inj h2
        omega
      · push_cast
        omega
    · rcases ih _ x h with h2 | ⟨h2, h3⟩
      · exact Or.inl h2
      · right
        push_cast
        omega

theorem read_bytes_length (file : List Nat) (pos count : Nat) (m : Mem) :
    (pdfi_read_bytes file pos count m).1 = min count (file.length - pos) := by
  simp [pdfi_read_bytes]

theorem emod_word_le (b : Int) (h : 0 ≤ b) : b % 2 ^ 32 ≤ b := by
  have e : (2 : Int) ^ 32 = 4294967296 := by norm_num
  rw [e]
  omega

theorem pass_got_le (file : List Nat) (m : Mem) (bytes Offset : Int) (hb : 0 ≤ bytes) :
    (pass_got file m bytes Offset : Int) ≤ bytes := by
  unfold pass_got
  rw [read_bytes_length]
  have h1 : ((bytes % 2 ^ 32).toNat : Int) ≤ bytes := by
    rw [Int.toNat_of_nonneg (Int.emod_nonneg _ (by norm_num))]
    exact emod_word_le _ hb
  have h2 : min (bytes % 2 ^ 32).toNat (file.length - ((file.length : Int) - Offset).toNat)
      ≤ (bytes % 2 ^ 32).toNat := min_le_left _ _
  omega

theorem pass_got_zero (file : List Nat) (m : Mem) (bytes Offset : Int)
    (h : bytes % 2 ^ 32 = 0) : pass_got file m bytes Offset = 0 := by
  unfold pass_got
  rw [read_bytes_length, h]
  simp

theorem scan_loop_safe (file : List Nat) (cap : Nat) :
    ∀ (fuel : Nat) (m : Mem) (bytes Offset leftover : Int) (ps : List Pass),
      0 ≤ bytes → 0 ≤ leftover → 0 < Offset → Offset ≤ (file.length : Int) →
      1 ≤ fuel → (0 < bytes % 2 ^ 32 → ((file.length : Int) - Offset).toNat + 2 ≤ fuel) →
      (∀ p ∈ ps, seek_inside file.length p) →
      scan_ended (scan_loop file cap fuel m bytes Offset leftover ps) ∧
      ∀ p ∈ scan_passes (scan_loop file cap fuel m bytes Offset leftover ps),
        seek_inside file.length p := by
  intro fuel
  induction fuel with
  | zero => intro m bytes Offset leftover ps _ _ _ _ h; exact absurd h (by decide)
  | succ fuel ih =>
    intro m bytes Offset leftover ps hb hl ho hol _ hf hps
    have hseek : ¬ pdfi_seek_ok file ((file.length : Int) - Offset) = false := by
      simp only [pdfi_seek_ok, Bool.and_eq_false_iff, decide_eq_false_iff_not, not_or, not_not]
      omega
    have hp : ∀ (a : Int) (b : Nat) (c : Int) (d : Nat),
        ∀ p ∈ ps ++ [⟨(file.length : Int) - Offset, a, b, c, d⟩],
        seek_inside file.length p := by
      intro a b c d p hp
      rcases List.mem_append.1 hp with h | h
      · exact hps p h
      · rw [List.mem_singleton.1 h]
        exact ⟨by show 0 ≤ (file.length : Int) - Offset; omega,
          by show (file.length : Int) - Offset < file.length; omega⟩
    rw [scan_loop_succ, if_neg hseek]
    by_cases h0 : pass_got file m bytes Offset = 0
    · rw [if_pos h0]
      exact ⟨trivial, hp _ _ _ _⟩
    rw [if_neg h0]
    by_cases hfound : (pass_search file m bytes Offset leftover).1 = true
    · rw [if_pos hfound]
      exact ⟨trivial, hp _ _ _ _⟩
    rw [if_neg hfound]
    have hgot : (pass_got file m bytes Offset : Int) ≤ bytes := pass_got_le file m bytes Offset hb
    have hmod : 0 < bytes % 2 ^ 32 := by
      rcases (Int.emod_nonneg bytes (by norm_num : (2 : Int) ^ 32 ≠ 0)).lt_or_eq with h | h
      · exact h
      · exact absurd (pass_got_zero file m bytes Offset h.symm) h0
    have hfuel := hf hmod
    have hgpos : 0 < (pass_got file m bytes Offset : Int) := by
      have := Nat.pos_of_ne_zero h0
      exact_mod_cast this
    cases hle : (pass_search file m bytes Offset leftover).2.2 with
    | none =>
      simp only []
      split_ifs with hlt
      · refine ih _ _ _ _ _ (by omega) (le_refl _) (by omega) (by omega) (by omega) ?_
          (hp _ _ _ _)
        intro _
        omega
      · exact ⟨trivial, hp _ _ _ _⟩
    | some x =>
      simp only []
      have hx := search_back_lineend _ _ none x hle
      have hx' : 1 ≤ x ∧ x ≤ (pass_got file m bytes Offset : Int) + leftover := by
        rcases hx with h | ⟨h1, h2⟩
        · exact absurd h (by simp)
        · refine ⟨h1, le_trans h2 ?_⟩
          rw [Int.toNat_of_nonneg (Int.emod_nonneg _ (by norm_num))]
          exact emod_word_le _ (by omega)
      split_ifs with hlt
      · refine ih _ _ _ _ _ (by omega) (by omega) (by omega) (by omega) (by omega) ?_
          (hp _ _ _ _)
        intro hpos
        have : 0 < (pass_got file m bytes Offset : Int) + leftover - x := by
          by_contra hc
          have h0' : (pass_got file m bytes Offset : Int) + leftover - x = 0 := by omega
          rw [h0'] at hpos
          exact absurd hpos (by decide)
        omega
      · exact ⟨trivial, hp _ _ _ _⟩

theorem memcmp_eq_last {m : Mem} {p : Int} (h : m (p + 8) ≠ 102) :
    memcmp_eq m p startxref_kw = false := by
  have e : p + 1 + 1 + 1 + 1 + 1 + 1 + 1 + 1 = p + 8 := by ring
  simp only [startxref_kw, memcmp_eq, e, Bool.and_true, Bool.and_eq_false_iff, beq_eq_false_iff_ne,
    ne_eq]
  simp [h]

theorem search_back_nomatch (m : Mem) :
    ∀ (n : Nat) (le : Option Int),
      (∀ r : Nat, 1 ≤ r → r ≤ n → memcmp_eq m ((r : Int) - 9) startxref_kw = false) →
      search_back m n le = (false, 0, first_lineend m n le) := by
  intro n
  induction n with
  | zero => intro le _; rfl
  | succ n ih =>
    intro le h
    rw [search_back, first_lineend]
    have h1 := h (n + 1) (by omega) (le_refl _)
    rw [if_neg (by rw [h1]; decide)]
    exact ih _ (fun r hr1 hr2 => h r hr1 (by omega))

theorem first_lineend_at (m : Mem) (k : Nat) (hk : m (k : Int) = 10 ∨ m (k : Int) = 13)
    (hlt : ∀ j : Nat, j < k → m (j : Int) ≠ 10 ∧ m (j : Int) ≠ 13) :
    ∀ (n : Nat) (le : Option Int), k < n → first_lineend m n le = some ((k : Int) + 1) := by
  have hlow : ∀ (n : Nat) (le : Option Int), n ≤ k → first_lineend m n le = le := by
    intro n
    induction n with
    | zero => intro le _; rfl
    | succ n ih =>
      intro le hn
      rw [first_lineend]
      obtain ⟨a, b⟩ := hlt n (by omega)
      have : (m (n : Int) == 0x0a || m (n : Int) == 0x0d) = false := by simp [a, b]
      rw [this]
      exact ih _ (by omega)
  intro n
  induction n with
  | zero => intro le h; exact absurd h (Nat.not_lt_zero _)
  | succ n ih =>
    intro le hn
    rw [first_lineend]
    by_cases hkn : k = n
    · subst hkn
      have : (m (k : Int) == 0x0a || m (k : Int) == 0x0d) = true := by
        rcases hk with h | h <;> simp [h]
      rw [this, if_pos rfl, hlow k _ (le_refl _)]
      push_cast
      rfl
    · exact ih _ (by omega)

theorem read_mem_in (file : List Nat) (pos count : Nat) (m : Mem) (j : Nat)
    (h : j < ((file.drop pos).take count).length) :
    (pdfi_read_bytes file pos count m).2 (j : Int) = ((file.drop pos).take count).getD j 0 := by
  simp only [pdfi_read_bytes]
  rw [if_pos ⟨by omega, by exact_mod_cast h⟩]
  simp

theorem read_mem_out (file : List Nat) (pos count : Nat) (m : Mem) (j : Int)
    (h : j < 0 ∨ (((file.drop pos).take count).length : Int) ≤ j) :
    (pdfi_read_bytes file pos count m).2 j = m j := by
  simp only [pdfi_read_bytes]
  rw [if_neg (by omega)]

theorem long_line_loop (B cap fuel : Nat) (m : Mem) (hB : 10 ≤ B) (hB' : B ≤ 2 ^ 32) :
    scan_loop (long_line B) cap (fuel + 2) m ((B : Int) - 1) ((B : Int) - 1) 0 [] =
      Scan.ioerror [⟨2, (B : Int) - 1, B - 1, (B : Int) - 1, 0⟩, ⟨2, 0, 0, 0, 0⟩] := by
  have hlen : (long_line B).length = B + 1 := by simp [long_line]
  have hpos : (((long_line B).length : Int) - ((B : Int) - 1)).toNat = 2 := by
    rw [hlen]; push_cast; omega
  have hseek : ((long_line B).length : Int) - ((B : Int) - 1) = 2 := by
    rw [hlen]; push_cast; omega
  have hcnt : (((B : Int) - 1) % 2 ^ 32).toNat = B - 1 := by
    have e : (2 : Int) ^ 32 = 4294967296 := by norm_num
    have e' : (2 : Nat) ^ 32 = 4294967296 := by norm_num
    rw [e]; rw [e'] at hB'
    omega
  have hdata : ((long_line B).drop 2).take (B - 1) = List.replicate (B - 2) 97 ++ [10] := by
    unfold long_line
    rw [List.drop_append_of_le_length (by simp; omega), List.drop_replicate]
    exact List.take_of_length_le (by simp; omega)
  have hgot : pass_got (long_line B) m ((B : Int) - 1) ((B : Int) - 1) = B - 1 := by
    unfold pass_got
    rw [read_bytes_length, hpos, hcnt, hlen]
    omega
  have hmem : pass_mem (long_line B) m ((B : Int) - 1) ((B : Int) - 1) 0 =
      (pdfi_read_bytes (long_line B) 2 (B - 1) m).2 := by
    unfold pass_mem
    rw [if_neg (by simp), hpos, hcnt]
  have hbyte : ∀ j : Nat, j < B - 1 →
      (pdfi_read_bytes (long_line B) 2 (B - 1) m).2 (j : Int) = if j = B - 2 then 10 else 97 := by
    intro j hj
    rw [read_mem_in _ _ _ _ _ (by rw [hdata]; simp; omega), hdata]
    split_ifs with h
    · rw [List.getD_append_right _ _ _ _ (by simp; omega)]
      simp [h]
    · rw [List.getD_append _ _ _ _ (by simp; omega),
        List.getD_eq_getElem _ _ (by simp; omega)]
      simp
  have hsearch : pass_search (long_line B) m ((B : Int) - 1) ((B : Int) - 1) 0 =
      (false, 0, some ((B : Int) - 1)) := by
    unfold pass_search
    rw [hgot, hmem]
    have hn : ((((B - 1 : Nat) : Int) + 0) % 2 ^ 32).toNat = B - 1 := by
      have c : ((B - 1 : Nat) : Int) + 0 = (B : Int) - 1 := by omega
      rw [c]
      exact hcnt
    rw [hn, search_back_nomatch]
    · rw [first_lineend_at _ (B - 2) ?_ ?_ _ _ (by omega)]
      · have c : ((B - 2 : Nat) : Int) + 1 = (B : Int) - 1 := by omega
        rw [c]
      · left
        rw [hbyte _ (by omega), if_pos rfl]
      · intro j hj
        rw [hbyte _ (by omega), if_neg (by omega)]
        decide
    · intro r hr1 hr2
      apply memcmp_eq_last
      have e : (r : Int) - 9 + 8 = ((r - 1 : Nat) : Int) := by omega
      rw [e, hbyte _ (by omega)]
      split_ifs <;> decide
  have hfuel : fuel + 2 = (fuel + 1) + 1 := rfl
  rw [hfuel, scan_loop_succ, hseek]
  have hs : ¬ pdfi_seek_ok (long_line B) 2 = false := by
    simp [pdfi_seek_ok, hlen]
    omega
  rw [if_neg hs, if_neg (by rw [hgot]; omega), if_neg (by rw [hsearch]; simp)]
  simp only [hsearch]
  have hoff : (B : Int) - 1 + (((pass_got (long_line B) m ((B : Int) - 1) ((B : Int) - 1) : Nat) : Int)
      + 0 - ((B : Int) - 1)) = (B : Int) - 1 := by
    rw [hgot]; omega
  have hbytes : (((pass_got (long_line B) m ((B : Int) - 1) ((B : Int) - 1) : Nat) : Int)
      + 0 - ((B : Int) - 1)) = 0 := by
    rw [hgot]; omega
  rw [hoff, hbytes, if_pos (by rw [hlen]; push_cast; omega)]
  rw [scan_loop_succ, hseek, if_neg hs, if_pos (pass_got_zero _ _ _ _ (by norm_num))]
  have hp : pass_of (long_line B) m ((B : Int) - 1) ((B : Int) - 1) 0
      = ⟨2, (B : Int) - 1, B - 1, (B : Int) - 1, 0⟩ := by
    unfold pass_of
    rw [hseek, hsearch, hgot]
    congr 1
    omega
  rw [hp, pass_got_zero _ _ _ _ (by norm_num)]
  rfl

theorem set_input_stream_eq (env : Env) (col : Collab ω) (fuel stm a b : Nat) (file : List Nat)
    (s : State ω) (ha : env.alloc_stream = some a) (hb : env.alloc_buffer = some b)
    (h8 : ¬ (pdfi_read_bytes file 0
      ((min ((env.BUF_SIZE : Int) - 1) file.length) % 2 ^ 32).toNat env.wild).1 < 8) :
    pdfi_set_input_stream env col fuel stm file s =
      match scan env file with
      | Scan.out_of_fuel => (none, after_header env a stm file s)
      | Scan.seek_error _ _ =>
        (some gs_error_ioerror, wcall (Fn.gs_free_object (some b)) (col.gs_free_object (some b))
          (after_header env a stm file s))
      | Scan.ioerror _ =>
        (some gs_error_ioerror, wcall (Fn.gs_free_object (some b)) (col.gs_free_object (some b))
          (after_header env a stm file s))
      | Scan.done found sx _ =>
        ((pdfi_init_file col fuel (after_scan env a stm file found sx s)).1,
          wcall (Fn.gs_free_object (some b)) (col.gs_free_object (some b))
            (pdfi_init_file col fuel (after_scan env a stm file found sx s)).2) := by
  unfold pdfi_set_input_stream
  simp only [ha, hb]
  rw [if_neg h8]
  cases scan env file <;> rfl

theorem scan_long_line (env : Env) (hB : 10 ≤ env.BUF_SIZE) (hB' : env.BUF_SIZE ≤ 2 ^ 32) :
    scan env (long_line env.BUF_SIZE) =
      Scan.ioerror [⟨2, (env.BUF_SIZE : Int) - 1, env.BUF_SIZE - 1, (env.BUF_SIZE : Int) - 1, 0⟩,
        ⟨2, 0, 0, 0, 0⟩] := by
  have hlen : (long_line env.BUF_SIZE).length = env.BUF_SIZE + 1 := by simp [long_line]
  have hmin : min ((env.BUF_SIZE : Int) - 1) ((long_line env.BUF_SIZE).length : Int)
      = (env.BUF_SIZE : Int) - 1 := by
    rw [hlen]; push_cast; omega
  unfold scan
  simp only [hmin]
  exact long_line_loop _ _ _ _ hB hB'

theorem long_line_no_keyword (B : Nat) : ¬ startxref_kw <:+: long_line B := by
  intro h
  have h1 : (115 : Nat) ∈ long_line B := h.subset (by simp [startxref_kw])
  simp [long_line] at h1

theorem header_flags_cases (env : Env) (str : List Nat) :
    header_flags env str = 0 ∨ header_flags env str = E_PDF_NOHEADER ∨
      header_flags env str = E_PDF_NOHEADERVERSION := by
  unfold header_flags
  cases strstr pdf_marker str with
  | none => exact Or.inr (Or.inl rfl)
  | some t =>
    simp only []
    split_ifs
    · exact Or.inl rfl
    · exact Or.inr (Or.inr rfl)

/-- C2, the defect: the file of `BUF_SIZE` letters `a` followed by one line
feed holds no `startxref`, has more than 8 bytes and all its reads succeed, yet
`pdfi_set_input_stream` returns `gs_error_ioerror`: the first pass finds the
only line terminator at the very end of the block, `bytes` becomes 0, and the
second pass takes its read of 0 bytes for a failure.  `pdfi_init_file` is
never called (the only call logged frees the buffer) and `pdf_errors` receives
the header flags only, never `E_PDF_NOSTARTXREF`. -/
theorem set_input_stream_long_line (env : Env) (col : Collab ω) (fuel stm a b : Nat)
    (s : State ω) (hB : 10 ≤ env.BUF_SIZE) (hB' : env.BUF_SIZE ≤ 2 ^ 32)
    (ha : env.alloc_stream = some a) (hb : env.alloc_buffer = some b) :
    8 ≤ (long_line env.BUF_SIZE).length ∧ ¬ startxref_kw <:+: long_line env.BUF_SIZE ∧
    (pdfi_set_input_stream env col fuel stm (long_line env.BUF_SIZE) s).1
      = some gs_error_ioerror ∧
    (pdfi_set_input_stream env col fuel stm (long_line env.BUF_SIZE) s).2.trace
      = s.trace ++ [⟨Fn.gs_free_object (some b), (after_header env a stm (long_line env.BUF_SIZE) s).ctx, 0⟩] ∧
    ∃ hf, (hf = 0 ∨ hf = E_PDF_NOHEADER ∨ hf = E_PDF_NOHEADERVERSION) ∧
      (pdfi_set_input_stream env col fuel stm (long_line env.BUF_SIZE) s).2.ctx.pdf_errors
        = s.ctx.pdf_errors ||| hf := by
  have hlen : (long_line env.BUF_SIZE).length = env.BUF_SIZE + 1 := by simp [long_line]
  have h8 : ¬ (pdfi_read_bytes (long_line env.BUF_SIZE) 0
      ((min ((env.BUF_SIZE : Int) - 1) (long_line env.BUF_SIZE).length) % 2 ^ 32).toNat
        env.wild).1 < 8 := by
    have hmin : min ((env.BUF_SIZE : Int) - 1) ((long_line env.BUF_SIZE).length : Int)
        = (env.BUF_SIZE : Int) - 1 := by
      rw [hlen]; push_cast; omega
    have hcnt : (((env.BUF_SIZE : Int) - 1) % 2 ^ 32).toNat = env.BUF_SIZE - 1 := by
      have e : (2 : Int) ^ 32 = 4294967296 := by norm_num
      have e' : (2 : Nat) ^ 32 = 4294967296 := by norm_num
      rw [e]; rw [e'] at hB'
      omega
    rw [read_bytes_length, hmin, hcnt, hlen]
    omega
  have he := set_input_stream_eq env col fuel stm a b (long_line env.BUF_SIZE) s ha hb h8
  rw [scan_long_line env hB hB'] at he
  simp only [] at he
  rw [he]
  refine ⟨by rw [hlen]; omega, long_line_no_keyword _, rfl, rfl, _, header_flags_cases env _, rfl⟩

/-- C2, the defect, at the buffer size 2048 (a file of 2049 bytes). -/
theorem set_input_stream_long_line_witness :
    10 ≤ env0.BUF_SIZE ∧ env0.BUF_SIZE ≤ 2 ^ 32 ∧
    (8 ≤ (long_line env0.BUF_SIZE).length ∧ ¬ startxref_kw <:+: long_line env0.BUF_SIZE ∧
    (pdfi_set_input_stream env0 col0 0 7 (long_line env0.BUF_SIZE) ⟨ctx0, []⟩).1
      = some gs_error_ioerror ∧
    (pdfi_set_input_stream env0 col0 0 7 (long_line env0.BUF_SIZE) ⟨ctx0, []⟩).2.trace
      = [] ++ [⟨Fn.gs_free_object (some 2),
          (after_header env0 1 7 (long_line env0.BUF_SIZE) ⟨ctx0, []⟩).ctx, 0⟩] ∧
    ∃ hf, (hf = 0 ∨ hf = E_PDF_NOHEADER ∨ hf = E_PDF_NOHEADERVERSION) ∧
      (pdfi_set_input_stream env0 col0 0 7 (long_line env0.BUF_SIZE) ⟨ctx0, []⟩).2.ctx.pdf_errors
        = ctx0.pdf_errors ||| hf) :=
  ⟨by decide, by decide,
    set_input_stream_long_line env0 col0 0 7 1 2 ⟨ctx0, []⟩ (by decide) (by decide) rfl rfl⟩

theorem scan_safe (env : Env) (file : List Nat)
    (h : 0 < min ((env.BUF_SIZE : Int) - 1) file.length) :
    scan_ended (scan env file) ∧ ∀ p ∈ scan_passes (scan env file), seek_inside file.length p := by
  unfold scan
  refine scan_loop_safe file env.BUF_SIZE (file.length + 2) _ _ _ 0 [] (le_of_lt h) (le_refl _) h
    (min_le_right _ _) (by omega) ?_ ?_
  · intro _
    have : 0 < ((env.BUF_SIZE : Int) - 1) ⊓ (file.length : Int) := h
    omega
  · intro p hp
    exact absurd hp (List.not_mem_nil p)

/-- C16: whenever the loop is entered with a positive `Offset` (the function
reaches it only after a first read of at least 8 bytes), no `pdfi_seek` of the
backward scan fails, and the target `main_stream_length - Offset` of every
iteration is a position inside the file: `0 <= target < main_stream_length`. -/
theorem scan_seek_inside (env : Env) (file : List Nat)
    (h : 0 < min ((env.BUF_SIZE : Int) - 1) file.length) :
    (∀ t ps, scan env file ≠ Scan.seek_error t ps) ∧
    ∀ p ∈ scan_passes (scan env file), 0 ≤ p.seek ∧ p.seek < (file.length : Int) := by
  obtain ⟨h1, h2⟩ := scan_safe env file h
  refine ⟨?_, h2⟩
  intro t ps he
  rw [he] at h1
  exact h1

/-- C16 at the file `small_pdf`. -/
theorem scan_seek_inside_witness :
    0 < min ((env0.BUF_SIZE : Int) - 1) small_pdf.length ∧
    ((∀ t ps, scan env0 small_pdf ≠ Scan.seek_error t ps) ∧
    ∀ p ∈ scan_passes (scan env0 small_pdf), 0 ≤ p.seek ∧ p.seek < (small_pdf.length : Int)) :=
  ⟨by decide, scan_seek_inside env0 small_pdf (by decide)⟩

theorem scan_not_out_of_fuel (env : Env) (file : List Nat) : scan env file ≠ Scan.out_of_fuel := by
  by_cases h : 0 < min ((env.BUF_SIZE : Int) - 1) file.length
  · intro he
    have h1 := (scan_safe env file h).1
    rw [he] at h1
    exact h1
  · unfold scan
    simp only []
    rw [scan_loop_succ]
    by_cases h1 : pdfi_seek_ok file
        ((file.length : Int) - min ((env.BUF_SIZE : Int) - 1) file.length) = false
    · rw [if_pos h1]
      intro hc
      cases hc
    · rw [if_neg h1]
      have h3 : pdfi_seek_ok file ((file.length : Int) - min ((env.BUF_SIZE : Int) - 1) file.length)
          = true := by simpa using h1
      simp only [pdfi_seek_ok, Bool.and_eq_true, decide_eq_true_eq] at h3
      have h4 : min ((env.BUF_SIZE : Int) - 1) (file.length : Int) = 0 := by omega
      rw [if_pos (pass_got_zero _ _ _ _ (by rw [h4]; rfl))]
      intro hc
      cases hc

/-- C17: the loop terminates for every file and buffer size (the `file.length
+ 2` iterations the model allows always suffice), but not by the mechanism
claimed.  On the file of 2048 letters `a` and one line feed, with the buffer
size 2048, the first iteration neither finds the keyword nor exits, and the
second starts with the same `Offset` (both seek to position 2): `bytes` has
become 0, and the loop ends only because the read of 0 bytes is taken for an
I/O error. -/
theorem scan_terminates :
    (∀ (env : Env) (file : List Nat), scan env file ≠ Scan.out_of_fuel) ∧
    scan env0 (long_line 2048) =
      Scan.ioerror [⟨2, 2047, 2047, 2047, 0⟩, ⟨2, 0, 0, 0, 0⟩] :=
  ⟨scan_not_out_of_fuel, scan_long_line env0 (by decide) (by decide)⟩

theorem memcmp_eq_iff (m : Mem) : ∀ (s : List Nat) (p : Int),
    memcmp_eq m p s = true ↔ ∀ i : Nat, i < s.length → m (p + i) = s.getD i 0 := by
  intro s
  induction s with
  | nil => intro p; simp [memcmp_eq]
  | cons c s ih =>
    intro p
    simp only [memcmp_eq, Bool.and_eq_true, beq_iff_eq, ih, List.length_cons]
    constructor
    · rintro ⟨h1, h2⟩ i hi
      cases i with
      | zero => simpa using h1
      | succ i =>
        have := h2 i (by omega)
        simp only [List.getD_cons_succ]
        rw [← this]
        congr 1
        push_cast
        ring
    · intro h
      refine ⟨by simpa using h 0 (by omega), fun i hi => ?_⟩
      have := h (i + 1) (by omega)
      simp only [List.getD_cons_succ] at this
      rw [← this]
      congr 1
      push_cast
      ring

theorem memcmp_holds {m : Mem} {L : List Nat} (h : holds m L) (s : List Nat) (j : Nat)
    (hj : j + s.length ≤ L.length) :
    memcmp_eq m (j : Int) s = true ↔ s <+: L.drop j := by
  rw [memcmp_eq_iff]
  constructor
  · intro hm
    rw [List.prefix_iff_eq_take]
    apply List.ext_getElem
    · simp; omega
    · intro i h1 h2
      have := hm i h1
      rw [show ((j : Int) + (i : Int)) = ((j + i : Nat) : Int) by push_cast; rfl,
        h (j + i) (by omega), List.getD_eq_getElem _ _ (by omega),
        List.getD_eq_getElem _ _ h1] at this
      rw [List.getElem_take, List.getElem_drop]
      exact this.symm
  · rintro ⟨t, ht⟩ i hi
    rw [show ((j : Int) + (i : Int)) = ((j + i : Nat) : Int) by push_cast; rfl,
      h (j + i) (by omega), List.getD_eq_getElem _ _ (by omega), List.getD_eq_getElem _ _ hi]
    have hb : i < (L.drop j).length := by simp; omega
    have e : L[j + i] = (L.drop j)[i] := by rw [List.getElem_drop]
    rw [e]
    simp only [← ht]
    rw [List.getElem_append_left hi]

theorem search_back_found (m : Mem) (q : Nat)
    (hq : memcmp_eq m ((q : Int) - 9) startxref_kw = true) (hq1 : 1 ≤ q) :
    ∀ (n : Nat) (le : Option Int), q ≤ n →
      (∀ r : Nat, q < r → r ≤ n → memcmp_eq m ((r : Int) - 9) startxref_kw = false) →
      (search_back m n le).1 = true ∧ (search_back m n le).2.1 = q := by
  intro n
  induction n with
  | zero => intro le h; omega
  | succ n ih =>
    intro le hn hno
    rw [search_back]
    by_cases hqn : q = n + 1
    · subst hqn
      rw [if_pos hq]
      exact ⟨rfl, rfl⟩
    · rw [if_neg (by rw [hno (n + 1) (by omega) (le_refl _)]; decide)]
      exact ih _ (by omega) (fun r h1 h2 => hno r h1 (by omega))

theorem cstring_list (m : Mem) : ∀ (L : List Nat) (p : Int) (n : Nat),
    (∀ i : Nat, i < L.length → m (p + i) = L.getD i 0) → m (p + L.length) = 0 → L.length < n →
    cstring m p n = L.takeWhile (fun c => c != 0) := by
  intro L
  induction L with
  | nil =>
    intro p n _ h0 hn
    cases n with
    | zero => omega
    | succ n =>
      rw [cstring, if_pos (by simpa using h0)]
      rfl
  | cons c L ih =>
    intro p n h h0 hn
    cases n with
    | zero => omega
    | succ n =>
      have hc : m p = c := by simpa using h 0 (by simp)
      rw [cstring, hc, List.takeWhile_cons]
      by_cases hz : c = 0
      · rw [if_pos hz, if_neg (by simp [hz])]
      · rw [if_neg hz, if_pos (by simp [hz])]
        congr 1
        apply ih
        · intro i hi
          have := h (i + 1) (by simp; omega)
          simp only [List.getD_cons_succ] at this
          rw [← this]
          congr 1
          push_cast
          ring
        · rw [← h0]
          congr 1
          simp only [List.length_cons]
          push_cast
          ring
        · simp only [List.length_cons] at hn
          omega

theorem isdigit_facts {c : Nat} (h : isdigit c = true) :
    c ≠ 0 ∧ isspace c = false ∧ c ≠ 45 ∧ c ≠ 43 := by
  simp only [isdigit, Bool.and_eq_true, decide_eq_true_eq] at h
  refine ⟨by omega, ?_, by omega, by omega⟩
  simp only [isspace, Bool.or_eq_false_iff, beq_eq_false_iff_ne, ne_eq, Bool.and_eq_false_iff,
    decide_eq_false_iff_not, not_le]
  omega

theorem isspace_ne_zero {c : Nat} (h : isspace c = true) : c ≠ 0 := by
  intro h0
  subst h0
  exact absurd h (by decide)

theorem sscanf_ld_digits (ws ds rest : List Nat) (hws : ∀ c ∈ ws, isspace c = true)
    (hds : ds ≠ []) (hdig : ∀ c ∈ ds, isdigit c = true)
    (hrest : ∀ c, rest.head? = some c → isdigit c = false)
    (hn : digits_value 0 ds < 2 ^ 63) :
    sscanf_ld (ws ++ (ds ++ rest)) = some (digits_value 0 ds : Int) := by
  obtain ⟨d, ds', rfl⟩ := List.exists_cons_of_ne_nil hds
  have hd := isdigit_facts (hdig d (List.mem_cons_self _ _))
  unfold sscanf_ld
  rw [List.dropWhile_append_of_pos hws, List.cons_append, List.dropWhile_cons,
    if_neg (by rw [hd.2.1]; decide)]
  unfold scan_ld
  have h1 : ((d :: (ds' ++ rest)).head? == some 45) = false := by
    simp [hd.2.2.1]
  have h2 : ((d :: (ds' ++ rest)).head? == some 43) = false := by
    simp [hd.2.2.2]
  simp only [h1, h2, Bool.or_self, Bool.false_eq_true, if_false]
  have h3 : (d :: (ds' ++ rest)).takeWhile isdigit = d :: ds' := by
    rw [← List.cons_append, List.takeWhile_append_of_pos hdig]
    have : rest.takeWhile isdigit = [] := by
      cases rest with
      | nil => rfl
      | cons r rest =>
        rw [List.takeWhile_cons, if_neg (by rw [hrest r rfl]; decide)]
    rw [this, List.append_nil]
  rw [h3]
  simp only [List.isEmpty_cons, Bool.false_eq_true, if_false, clamp_long]
  rw [if_pos hn]

theorem scan_eq (env : Env) (file : List Nat) (hB : 1 ≤ env.BUF_SIZE) :
    scan env file = scan_loop file env.BUF_SIZE (file.length + 2) (scan_start env file)
      (first_block env file) (first_block env file) 0 [] := by
  have hoff : min ((env.BUF_SIZE : Int) - 1) (file.length : Int) = (first_block env file : Int) := by
    unfold first_block
    omega
  unfold scan
  simp only [hoff, scan_start]

theorem first_pass (env : Env) (file : List Nat) (hB : 1 ≤ env.BUF_SIZE)
    (hB' : env.BUF_SIZE ≤ 2 ^ 32) :
    pass_got file (scan_start env file) (first_block env file) (first_block env file)
      = first_block env file ∧
    holds (first_mem env file) (file.drop (file.length - first_block env file)) ∧
    first_mem env file (first_block env file : Int) = 0 ∧
    (∀ j : Int, j < 0 → first_mem env file j = env.wild j) ∧
    pass_search file (scan_start env file) (first_block env file) (first_block env file) 0
      = search_back (first_mem env file) (first_block env file) none ∧
    (file.drop (file.length - first_block env file)).length = first_block env file := by
  have hk : first_block env file ≤ file.length := by unfold first_block; omega
  have hk' : first_block env file ≤ env.BUF_SIZE - 1 := by unfold first_block; omega
  have hoff : min ((env.BUF_SIZE : Int) - 1) (file.length : Int) = (first_block env file : Int) := by
    unfold first_block
    omega
  have hcnt : ((first_block env file : Int) % 2 ^ 32).toNat = first_block env file := by
    have e : (2 : Int) ^ 32 = 4294967296 := by norm_num
    have e' : (2 : Nat) ^ 32 = 4294967296 := by norm_num
    rw [e]; rw [e'] at hB'
    omega
  have hpos : ((file.length : Int) - (first_block env file : Int)).toNat
      = file.length - first_block env file := by omega
  have hlen : (file.drop (file.length - first_block env file)).length = first_block env file := by
    rw [List.length_drop]; omega
  have hdata : (file.drop (file.length - first_block env file)).take (first_block env file)
      = file.drop (file.length - first_block env file) :=
    List.take_of_length_le (by rw [hlen])
  have hgot : pass_got file (scan_start env file) (first_block env file) (first_block env file)
      = first_block env file := by
    unfold pass_got
    rw [read_bytes_length, hpos, hcnt]
    omega
  have hmem : first_mem env file = (pdfi_read_bytes file (file.length - first_block env file)
      (first_block env file) (scan_start env file)).2 := by
    unfold first_mem pass_mem
    rw [if_neg (by simp), hpos, hcnt]
  refine ⟨hgot, ?_, ?_, ?_, ?_, hlen⟩
  · intro j hj
    rw [hmem, read_mem_in _ _ _ _ _ (by rw [hdata]; exact hj), hdata]
  · rw [hmem, read_mem_out _ _ _ _ _ (Or.inr (by rw [hdata, hlen]))]
    unfold scan_start
    rw [hoff]
    simp [Mem.store]
  · intro j hj
    rw [hmem, read_mem_out _ _ _ _ _ (Or.inl hj)]
    unfold scan_start
    rw [hoff]
    simp only [Mem.store]
    rw [if_neg (by omega), read_mem_out _ _ _ _ _ (Or.inl hj)]
  · unfold pass_search
    rw [hgot]
    have hn : (((first_block env file : Nat) : Int) + 0) % 2 ^ 32 = (first_block env file : Int) % 2 ^ 32 := by
      rw [add_zero]
    rw [hn, hcnt]
    rfl

theorem scan_finds (env : Env) (file pre ws ds rest : List Nat)
    (hB : 1 ≤ env.BUF_SIZE) (hB' : env.BUF_SIZE ≤ 2 ^ 32)
    (htail : file.drop (file.length - first_block env file)
      = pre ++ startxref_kw ++ ws ++ ds ++ rest)
    (hws : ∀ c ∈ ws, isspace c = true) (hds : ds ≠ []) (hdig : ∀ c ∈ ds, isdigit c = true)
    (hrest : ∀ c, rest.head? = some c → isdigit c = false)
    (hlast : ∀ j < (pre ++ startxref_kw ++ ws ++ ds ++ rest).length, pre.length < j →
      ¬ startxref_kw <+: (pre ++ startxref_kw ++ ws ++ ds ++ rest).drop j)
    (hn : digits_value 0 ds < 2 ^ 63) :
    scan env file = Scan.done true (some (digits_value 0 ds : Int))
      [⟨(file.length : Int) - first_block env file, first_block env file, first_block env file,
        first_block env file, pre.length + 9⟩] := by
  obtain ⟨hgot, hholds, hnul, _, hsearch, hlen⟩ := first_pass env file hB hB'
  rw [htail] at hholds hlen
  have hkw : startxref_kw.length = 9 := rfl
  have hklen : pre.length + 9 + ws.length + ds.length + rest.length = first_block env file := by
    rw [← hlen]
    simp only [List.length_append, hkw]
  have hk : first_block env file ≤ file.length := by unfold first_block; omega
  have hk' : first_block env file ≤ env.BUF_SIZE - 1 := by unfold first_block; omega
  have hassoc : pre ++ startxref_kw ++ ws ++ ds ++ rest
      = pre ++ (startxref_kw ++ (ws ++ (ds ++ rest))) := by
    simp only [List.append_assoc]
  have hq : memcmp_eq (first_mem env file) (((pre.length + 9 : Nat) : Int) - 9) startxref_kw
      = true := by
    have e : ((pre.length + 9 : Nat) : Int) - 9 = (pre.length : Int) := by omega
    rw [e]
    refine (memcmp_holds hholds startxref_kw pre.length ?_).2 ?_
    · simp only [List.length_append, hkw]; omega
    · rw [hassoc, List.drop_left]
      exact List.prefix_append _ _
  have hno : ∀ r : Nat, pre.length + 9 < r → r ≤ first_block env file →
      memcmp_eq (first_mem env file) ((r : Int) - 9) startxref_kw = false := by
    intro r h1 h2
    have e : (r : Int) - 9 = ((r - 9 : Nat) : Int) := by omega
    rw [e]
    by_contra hc
    have ht : memcmp_eq (first_mem env file) ((r - 9 : Nat) : Int) startxref_kw = true := by
      simpa using hc
    have := (memcmp_holds hholds startxref_kw (r - 9) (by rw [hlen, hkw]; omega)).1 ht
    exact hlast (r - 9) (by rw [hlen]; omega) (by omega) this
  obtain ⟨f1, f2⟩ := search_back_found (first_mem env file) (pre.length + 9) hq (by omega)
    (first_block env file) none (by omega) hno
  rw [← hsearch] at f1 f2
  have hstr : cstring (first_mem env file) ((pre.length + 9 : Nat) : Int)
      (env.BUF_SIZE - (pre.length + 9)) = ws ++ (ds ++ rest.takeWhile (fun c => c != 0)) := by
    rw [cstring_list (first_mem env file) (ws ++ (ds ++ rest))]
    · rw [List.takeWhile_append_of_pos, List.takeWhile_append_of_pos]
      · intro c hc
        simpa using (isdigit_facts (hdig c hc)).1
      · intro c hc
        simpa using isspace_ne_zero (hws c hc)
    · intro i hi
      have e : ((pre.length + 9 : Nat) : Int) + (i : Int) = ((pre.length + 9 + i : Nat) : Int) := by
        push_cast; rfl
      simp only [List.length_append] at hi
      rw [e, hholds _ (by rw [hlen]; omega)]
      have h2 : pre ++ startxref_kw ++ ws ++ ds ++ rest
          = (pre ++ startxref_kw) ++ (ws ++ (ds ++ rest)) := by
        simp only [List.append_assoc]
      rw [h2, List.getD_append_right _ _ _ _ (by simp only [List.length_append, hkw]; omega)]
      congr 1
      simp only [List.length_append, hkw]
      omega
    · have e : ((pre.length + 9 : Nat) : Int) + ((ws ++ (ds ++ rest)).length : Int)
          = (first_block env file : Int) := by
        rw [← hklen]
        simp only [List.length_append]
        push_cast
        ring
      rw [e]
      exact hnul
    · simp only [List.length_append]
      omega
  have hconv : sscanf_ld (ws ++ (ds ++ rest.takeWhile (fun c => c != 0)))
      = some (digits_value 0 ds : Int) := by
    apply sscanf_ld_digits ws ds _ hws hds hdig _ hn
    intro c hc
    cases rest with
    | nil => simp at hc
    | cons r rest =>
      rw [List.takeWhile_cons] at hc
      split_ifs at hc with hr
      · have e : r = c := by simpa using hc
        rw [← e]
        exact hrest r rfl
      · simp at hc
  have hseek : ¬ pdfi_seek_ok file ((file.length : Int) - (first_block env file : Int)) = false := by
    simp only [pdfi_seek_ok, Bool.and_eq_false_iff, decide_eq_false_iff_not, not_or, not_not]
    omega
  have hfuel : file.length + 2 = (file.length + 1) + 1 := rfl
  rw [scan_eq env file hB, hfuel, scan_loop_succ, if_neg hseek, if_neg (by rw [hgot]; omega),
    if_pos f1, f2]
  have hm : pass_mem file (scan_start env file) (first_block env file) (first_block env file) 0
      = first_mem env file := rfl
  rw [hm, hstr, hconv]
  have hp : pass_of file (scan_start env file) (first_block env file) (first_block env file) 0
      = ⟨(file.length : Int) - first_block env file, first_block env file, first_block env file,
        first_block env file, pre.length + 9⟩ := by
    unfold pass_of
    rw [f2, hgot, add_zero]
  rw [hp]
  rfl

/-- C1: let the last `min(BUF_SIZE - 1, length)` bytes of the file be `pre`,
the keyword `startxref`, white space `ws`, decimal digits `ds` (at least one,
of value below `2 ^ 63`, not followed by a further digit) and `rest`, with no
occurrence of the keyword further right.  Then the backward scan sets `found`
on its first pass, at that occurrence (the inner loop stops just behind the
keyword), `sscanf` stores the value of `ds`, and `pdfi_set_input_stream` goes
on to `pdfi_init_file` with `ctx->startxref` holding that value and without
setting `E_PDF_NOSTARTXREF`. -/
theorem set_input_stream_finds_startxref (env : Env) (col : Collab ω) (fuel stm a b : Nat)
    (file pre ws ds rest : List Nat) (s : State ω)
    (hB : 1 ≤ env.BUF_SIZE) (hB' : env.BUF_SIZE ≤ 2 ^ 32)
    (ha : env.alloc_stream = some a) (hb : env.alloc_buffer = some b)
    (htail : file.drop (file.length - first_block env file)
      = pre ++ startxref_kw ++ ws ++ ds ++ rest)
    (hws : ∀ c ∈ ws, isspace c = true) (hds : ds ≠ []) (hdig : ∀ c ∈ ds, isdigit c = true)
    (hrest : rest.takeWhile isdigit = [])
    (hlast : ∀ j < (pre ++ startxref_kw ++ ws ++ ds ++ rest).length, pre.length < j →
      ¬ startxref_kw <+: (pre ++ startxref_kw ++ ws ++ ds ++ rest).drop j)
    (hn : digits_value 0 ds < 2 ^ 63) :
    scan env file = Scan.done true (some (digits_value 0 ds : Int))
      [⟨(file.length : Int) - first_block env file, first_block env file, first_block env file,
        first_block env file, pre.length + 9⟩] ∧
    (after_scan env a stm file true (some (digits_value 0 ds : Int)) s).ctx.startxref
      = (digits_value 0 ds : Int) ∧
    (after_scan env a stm file true (some (digits_value 0 ds : Int)) s).ctx.pdf_errors
      = (after_header env a stm file s).ctx.pdf_errors ∧
    pdfi_set_input_stream env col fuel stm file s =
      ((pdfi_init_file col fuel
          (after_scan env a stm file true (some (digits_value 0 ds : Int)) s)).1,
        wcall (Fn.gs_free_object (some b)) (col.gs_free_object (some b))
          (pdfi_init_file col fuel
            (after_scan env a stm file true (some (digits_value 0 ds : Int)) s)).2) := by
  have hrest' : ∀ c, rest.head? = some c → isdigit c = false := by
    intro c hc
    cases rest with
    | nil => simp at hc
    | cons r rest =>
      have e : r = c := by simpa using hc
      rw [List.takeWhile_cons] at hrest
      by_cases hr : isdigit r = true
      · rw [if_pos hr] at hrest
        cases hrest
      · rw [← e]
        simpa using hr
  have hscan := scan_finds env file pre ws ds rest hB hB' htail hws hds hdig hrest' hlast hn
  have hlen : (file.drop (file.length - first_block env file)).length = first_block env file :=
    (first_pass env file hB hB').2.2.2.2.2
  have hkw : startxref_kw.length = 9 := rfl
  have hk9 : 9 ≤ first_block env file := by
    rw [← hlen, htail]
    simp only [List.length_append, hkw]
    omega
  have h8 : ¬ (pdfi_read_bytes file 0
      ((min ((env.BUF_SIZE : Int) - 1) file.length) % 2 ^ 32).toNat env.wild).1 < 8 := by
    have hoff : min ((env.BUF_SIZE : Int) - 1) (file.length : Int)
        = (first_block env file : Int) := by
      unfold first_block
      omega
    have hk : first_block env file ≤ file.length := by unfold first_block; omega
    have hk' : first_block env file ≤ env.BUF_SIZE - 1 := by unfold first_block; omega
    have hcnt : ((first_block env file : Int) % 2 ^ 32).toNat = first_block env file := by
      have e : (2 : Int) ^ 32 = 4294967296 := by norm_num
      have e' : (2 : Nat) ^ 32 = 4294967296 := by norm_num
      rw [e]; rw [e'] at hB'
      omega
    rw [read_bytes_length, hoff, hcnt]
    omega
  have he := set_input_stream_eq env col fuel stm a b file s ha hb h8
  rw [hscan] at he
  exact ⟨hscan, rfl, rfl, he⟩

/-- C1 at the file `small_pdf`, whose keyword is followed by a line feed and
the digit 9. -/
theorem set_input_stream_finds_startxref_witness :
    (1 ≤ env0.BUF_SIZE ∧ env0.BUF_SIZE ≤ 2 ^ 32 ∧
      small_pdf.drop (small_pdf.length - first_block env0 small_pdf)
        = [37, 80, 68, 70, 45, 49, 46, 52, 10] ++ startxref_kw ++ [10] ++ [57]
          ++ [10, 37, 37, 69, 79, 70, 10] ∧
      digits_value 0 [57] < 2 ^ 63) ∧
    (scan env0 small_pdf = Scan.done true (some (digits_value 0 [57] : Int))
      [⟨(small_pdf.length : Int) - first_block env0 small_pdf, first_block env0 small_pdf,
        first_block env0 small_pdf, first_block env0 small_pdf,
        [37, 80, 68, 70, 45, 49, 46, 52, 10].length + 9⟩] ∧
    (after_scan env0 1 7 small_pdf true (some (digits_value 0 [57] : Int)) ⟨ctx0, []⟩).ctx.startxref
      = (digits_value 0 [57] : Int) ∧
    (after_scan env0 1 7 small_pdf true (some (digits_value 0 [57] : Int)) ⟨ctx0, []⟩).ctx.pdf_errors
      = (after_header env0 1 7 small_pdf ⟨ctx0, []⟩).ctx.pdf_errors ∧
    pdfi_set_input_stream env0 col0 3 7 small_pdf ⟨ctx0, []⟩ =
      ((pdfi_init_file col0 3
          (after_scan env0 1 7 small_pdf true (some (digits_value 0 [57] : Int)) ⟨ctx0, []⟩)).1,
        wcall (Fn.gs_free_object (some 2)) (col0.gs_free_object (some 2))
          (pdfi_init_file col0 3
            (after_scan env0 1 7 small_pdf true (some (digits_value 0 [57] : Int))
              ⟨ctx0, []⟩)).2)) :=
  ⟨⟨by decide, by decide, by decide, by decide⟩,
    set_input_stream_finds_startxref env0 col0 3 7 1 2 small_pdf
      [37, 80, 68, 70, 45, 49, 46, 52, 10] [10] [57] [10, 37, 37, 69, 79, 70, 10] ⟨ctx0, []⟩
      (by decide) (by decide) rfl rfl (by decide) (by decide) (by decide) (by decide) (by decide)
      (by decide) (by decide)⟩

theorem straddle_keyword (B : Nat) : startxref_kw <:+: straddle B := by
  refine ⟨List.replicate 7 97 ++ ([10] ++ List.replicate (B - 12) 97),
    [10, 49, 50, 51, 52, 10, 37, 37, 69, 79, 70, 10] ++ List.replicate (B - 17) 97, ?_⟩
  simp [straddle, straddle_head, xref_tail, startxref_kw]

theorem straddle_first (env : Env) (B : Nat) (hE : env.BUF_SIZE = B) (hB : 18 ≤ B) :
    (straddle B).length = 2 * B ∧ first_block env (straddle B) = B - 1 ∧
    (straddle B).drop ((straddle B).length - first_block env (straddle B))
      = xref_tail ++ List.replicate (B - 17) 97 := by
  have hh : (straddle_head B).length = B + 1 := by
    simp [straddle_head]; omega
  have hl : (straddle B).length = 2 * B := by
    simp [straddle, hh, xref_tail]; omega
  have hf : first_block env (straddle B) = B - 1 := by
    unfold first_block
    rw [hE, hl]; omega
  refine ⟨hl, hf, ?_⟩
  rw [hl, hf]
  have e : 2 * B - (B - 1) = (straddle_head B).length := by rw [hh]; omega
  rw [e]
  exact List.drop_left _ _

theorem xref_tail_byte (B j : Nat) (hj : j < B - 1) :
    ((xref_tail ++ List.replicate (B - 17) 97).getD j 0 = 102 ↔ j = 3) ∧
    ((xref_tail ++ List.replicate (B - 17) 97).getD j 0 = 10 ∨
      (xref_tail ++ List.replicate (B - 17) 97).getD j 0 = 13 → 4 ≤ j) := by
  by_cases h : j < 16
  · rw [List.getD_append _ _ _ _ (by simpa [xref_tail] using h)]
    interval_cases j <;> simp [xref_tail]
  · rw [List.getD_append_right _ _ _ _ (by simp [xref_tail]; omega),
      List.getD_eq_getElem _ _ (by simp [xref_tail]; omega), List.getElem_replicate]
    constructor
    · constructor
      · intro h1; exact absurd h1 (by decide)
      · intro h1; omega
    · intro _; omega

theorem straddle_pass1 (env : Env) (B : Nat) (hE : env.BUF_SIZE = B) (hB : 18 ≤ B)
    (hB' : B ≤ 2 ^ 32) (hw : env.wild (-1) ≠ 116) :
    pass_search (straddle B) (scan_start env (straddle B)) (first_block env (straddle B))
      (first_block env (straddle B)) 0 = (false, 0, some 5) ∧
    ∀ j : Nat, j < B - 1 →
      first_mem env (straddle B) (j : Int)
        = (xref_tail ++ List.replicate (B - 17) 97).getD j 0 := by
  obtain ⟨hl, hf, htail⟩ := straddle_first env B hE hB
  obtain ⟨hgot, hholds, hnul, hwild, hsearch, hlen⟩ :=
    first_pass env (straddle B) (by omega) (by rw [hE]; exact hB')
  rw [htail] at hholds hlen
  rw [hf] at hlen
  have hb1 : ∀ j : Nat, j < B - 1 → first_mem env (straddle B) (j : Int)
      = (xref_tail ++ List.replicate (B - 17) 97).getD j 0 := by
    intro j hj
    exact hholds j (by rw [hlen]; exact hj)
  refine ⟨?_, hb1⟩
  rw [hsearch, hf, search_back_nomatch]
  · rw [first_lineend_at _ 4 ?_ ?_ _ _ (by omega)]
    · rfl
    · left
      rw [hb1 4 (by omega), List.getD_append _ _ _ _ (by simp [xref_tail])]
      rfl
    · intro j hj
      have h1 := (xref_tail_byte B j (by omega)).2
      rw [hb1 j (by omega)]
      constructor
      · intro h; have := h1 (Or.inl h); omega
      · intro h; have := h1 (Or.inr h); omega
  · intro r hr1 hr2
    by_cases h4 : r = 4
    · subst h4
      by_contra hc
      have ht : memcmp_eq (first_mem env (straddle B)) (((4 : Nat) : Int) - 9) startxref_kw
          = true := by simpa using hc
      have := (memcmp_eq_iff _ _ _).1 ht 4 (by decide)
      have e : ((4 : Nat) : Int) - 9 + ((4 : Nat) : Int) = -1 := by norm_num
      rw [e, hwild (-1) (by norm_num)] at this
      exact hw this
    · apply memcmp_eq_last
      have e : (r : Int) - 9 + 8 = ((r - 1 : Nat) : Int) := by omega
      rw [e, hb1 _ (by omega)]
      intro h
      have := (xref_tail_byte B (r - 1) (by omega)).1.1 h
      omega

theorem straddle_data2 (B : Nat) (hB : 18 ≤ B) :
    ((straddle B).drop 7).take (B - 6)
      = [10] ++ List.replicate (B - 12) 97 ++ [115, 116, 97, 114, 116] := by
  have e : straddle B = List.replicate 7 97 ++
      (([10] ++ List.replicate (B - 12) 97 ++ [115, 116, 97, 114, 116]) ++
        (xref_tail ++ List.replicate (B - 17) 97)) := by
    simp only [straddle, straddle_head, List.append_assoc]
  have h7 : (List.replicate 7 97 : List Nat).length = 7 := by simp
  have hD : ([10] ++ List.replicate (B - 12) 97 ++ [115, 116, 97, 114, 116] : List Nat).length
      = B - 6 := by
    simp; omega
  rw [e]
  nth_rewrite 1 [← h7]
  rw [List.drop_left]
  nth_rewrite 1 [← hD]
  rw [List.take_left]

theorem straddle_pass2 (B : Nat) (hB : 18 ≤ B) (hB' : B ≤ 2 ^ 32) (m1 : Mem)
    (hm1 : ∀ j : Nat, j < B - 1 →
      m1 (j : Int) = (xref_tail ++ List.replicate (B - 17) 97).getD j 0) :
    pass_got (straddle B) (memcpy m1 ((B : Int) - 6) 5 5) ((B : Int) - 6) (2 * (B : Int) - 7)
      = B - 6 ∧
    pass_search (straddle B) (memcpy m1 ((B : Int) - 6) 5 5) ((B : Int) - 6)
      (2 * (B : Int) - 7) 5 = (false, 0, some 1) := by
  have hl : (straddle B).length = 2 * B := by
    have hh : (straddle_head B).length = B + 1 := by
      simp [straddle_head]; omega
    simp [straddle, hh, xref_tail]; omega
  have hpos : (((straddle B).length : Int) - (2 * (B : Int) - 7)).toNat = 7 := by
    rw [hl]; push_cast; omega
  have hcnt : (((B : Int) - 6) % 2 ^ 32).toNat = B - 6 := by
    have e : (2 : Int) ^ 32 = 4294967296 := by norm_num
    have e' : (2 : Nat) ^ 32 = 4294967296 := by norm_num
    rw [e]; rw [e'] at hB'
    omega
  have hdata := straddle_data2 B hB
  have hdl : (((straddle B).drop 7).take (B - 6)).length = B - 6 := by
    rw [hdata]; simp; omega
  have hgot : pass_got (straddle B) (memcpy m1 ((B : Int) - 6) 5 5) ((B : Int) - 6)
      (2 * (B : Int) - 7) = B - 6 := by
    unfold pass_got
    rw [read_bytes_length, hpos, hcnt, hl]
    omega
  refine ⟨hgot, ?_⟩
  have hmem : pass_mem (straddle B) (memcpy m1 ((B : Int) - 6) 5 5) ((B : Int) - 6)
      (2 * (B : Int) - 7) 5 =
      (pdfi_read_bytes (straddle B) 7 (B - 6) (memcpy m1 ((B : Int) - 6) 5 5)).2 := by
    unfold pass_mem
    rw [if_neg (by rw [hgot]; omega), hpos, hcnt]
  have hlow : ∀ j : Nat, j < B - 6 →
      (pdfi_read_bytes (straddle B) 7 (B - 6) (memcpy m1 ((B : Int) - 6) 5 5)).2 (j : Int)
        ∈ ([10] ++ List.replicate (B - 12) 97 ++ [115, 116, 97, 114, 116] : List Nat) := by
    intro j hj
    rw [read_mem_in _ _ _ _ _ (by rw [hdl]; exact hj), hdata,
      List.getD_eq_getElem _ _ (by simp; omega)]
    exact List.getElem_mem _
  have hbyte : ∀ j : Nat, j < B - 1 →
      (pdfi_read_bytes (straddle B) 7 (B - 6) (memcpy m1 ((B : Int) - 6) 5 5)).2 (j : Int)
        ≠ 102 := by
    intro j hj
    by_cases hlt : j < B - 6
    · have := hlow j hlt
      intro h
      rw [h] at this
      simp at this
    · rw [read_mem_out _ _ _ _ _ (Or.inr (by rw [hdl]; omega))]
      simp only [memcpy]
      rw [if_pos (by omega)]
      have e : (5 : Int) + ((j : Int) - ((B : Int) - 6)) = ((5 + (j - (B - 6)) : Nat) : Int) := by
        omega
      rw [e, hm1 _ (by omega)]
      intro h
      have := (xref_tail_byte B (5 + (j - (B - 6))) (by omega)).1.1 h
      omega
  have h0 : (pdfi_read_bytes (straddle B) 7 (B - 6) (memcpy m1 ((B : Int) - 6) 5 5)).2
      ((0 : Nat) : Int) = 10 := by
    rw [read_mem_in _ _ _ _ _ (by rw [hdl]; omega), hdata]
    rfl
  unfold pass_search
  rw [hgot, hmem]
  have hn : ((((B - 6 : Nat) : Int) + 5) % 2 ^ 32).toNat = B - 1 := by
    have e : (2 : Int) ^ 32 = 4294967296 := by norm_num
    have e' : (2 : Nat) ^ 32 = 4294967296 := by norm_num
    rw [e]; rw [e'] at hB'
    omega
  rw [hn, search_back_nomatch]
  · rw [first_lineend_at _ 0 (Or.inl h0) (fun j hj => absurd hj (Nat.not_lt_zero _)) _ _
      (by omega)]
    rfl
  · intro r hr1 hr2
    apply memcmp_eq_last
    have e : (r : Int) - 9 + 8 = ((r - 1 : Nat) : Int) := by omega
    rw [e]
    exact hbyte _ (by omega)

theorem scan_straddle (env : Env) (B : Nat) (hE : env.BUF_SIZE = B) (hB : 18 ≤ B)
    (hB' : B ≤ 2 ^ 32) (hw : env.wild (-1) ≠ 116) :
    scan env (straddle B) = Scan.done false none
      [⟨(B : Int) + 1, (B : Int) - 1, B - 1, (B : Int) - 1, 0⟩,
        ⟨7, (B : Int) - 6, B - 6, (B : Int) - 1, 0⟩] := by
  obtain ⟨hl, hf, htail⟩ := straddle_first env B hE hB
  obtain ⟨hgot, _, _, _, _, _⟩ :=
    first_pass env (straddle B) (by omega) (by rw [hE]; exact hB')
  obtain ⟨hs1, hm1⟩ := straddle_pass1 env B hE hB hB' hw
  have hfm : pass_mem (straddle B) (scan_start env (straddle B)) (first_block env (straddle B))
      (first_block env (straddle B)) 0 = first_mem env (straddle B) := rfl
  obtain ⟨hgot2, hs2⟩ := straddle_pass2 B hB hB' (first_mem env (straddle B)) hm1
  have hseek1 : ¬ pdfi_seek_ok (straddle B)
      (((straddle B).length : Int) - (first_block env (straddle B) : Int)) = false := by
    simp only [pdfi_seek_ok, Bool.and_eq_false_iff, decide_eq_false_iff_not, not_or, not_not]
    rw [hl, hf]
    omega
  have hfuel : (straddle B).length + 2 = ((straddle B).length + 1) + 1 := rfl
  rw [scan_eq env (straddle B) (by omega), hfuel, scan_loop_succ, if_neg hseek1,
    if_neg (by rw [hgot, hf]; omega), if_neg (by rw [hs1]; simp)]
  simp only [hs1]
  have hp1 : pass_of (straddle B) (scan_start env (straddle B)) (first_block env (straddle B))
      (first_block env (straddle B)) 0
      = ⟨(B : Int) + 1, (B : Int) - 1, B - 1, (B : Int) - 1, 0⟩ := by
    unfold pass_of
    rw [hs1, hgot, hl, hf]
    congr 1 <;> omega
  have hb2 : ((pass_got (straddle B) (scan_start env (straddle B))
      (first_block env (straddle B)) (first_block env (straddle B)) : Nat) : Int) + 0 - 5
      = (B : Int) - 6 := by
    rw [hgot, hf]; omega
  have hfb : ((first_block env (straddle B) : Nat) : Int) = (B : Int) - 1 := by
    rw [hf]; omega
  rw [hp1, hb2, hfm, hfb]
  have ho2 : (B : Int) - 1 + ((B : Int) - 6) = 2 * (B : Int) - 7 := by ring
  rw [ho2, if_pos (by rw [hl]; push_cast; omega)]
  have hseek2 : ¬ pdfi_seek_ok (straddle B)
      (((straddle B).length : Int) - (2 * (B : Int) - 7)) = false := by
    simp only [pdfi_seek_ok, Bool.and_eq_false_iff, decide_eq_false_iff_not, not_or, not_not]
    rw [hl]
    push_cast
    omega
  rw [scan_loop_succ, if_neg hseek2, if_neg (by rw [hgot2]; omega), if_neg (by rw [hs2]; simp)]
  simp only [hs2]
  rw [if_neg (by rw [hgot2, hl]; push_cast; omega)]
  have hp2 : pass_of (straddle B) (memcpy (first_mem env (straddle B)) ((B : Int) - 6) 5 5)
      ((B : Int) - 6) (2 * (B : Int) - 7) 5 = ⟨7, (B : Int) - 6, B - 6, (B : Int) - 1, 0⟩ := by
    unfold pass_of
    rw [hs2, hgot2, hl]
    congr 1 <;> push_cast <;> omega
  rw [hp2]
  rfl

/-- C3, the defect: in the file `straddle BUF_SIZE` (of `2 * BUF_SIZE` bytes)
the keyword `startxref` is present and straddles the start of the last block:
the block begins with `xref`, what precedes it ends with `start`.  The first
pass finds no match and keeps 5 bytes for the next pass, but line 1149 copies
them from `last_lineend` (the bytes `1234` and a line feed) and not from the
start of the buffer (`xref` and the line feed), so the second pass searches
`start1234` and the scan ends without `found`; `pdfi_set_input_stream` then
sets `E_PDF_NOSTARTXREF`.  The byte just below the buffer is assumed not to
be `t`, since the inner loop compares it (a read outside the buffer). -/
theorem set_input_stream_straddle (env : Env) (col : Collab ω) (fuel stm a b : Nat)
    (s : State ω) (hB : 18 ≤ env.BUF_SIZE) (hB' : env.BUF_SIZE ≤ 2 ^ 32)
    (hw : env.wild (-1) ≠ 116)
    (ha : env.alloc_stream = some a) (hb : env.alloc_buffer = some b) :
    startxref_kw <:+: straddle env.BUF_SIZE ∧
    (straddle env.BUF_SIZE).drop
        ((straddle env.BUF_SIZE).length - first_block env (straddle env.BUF_SIZE))
      = xref_tail ++ List.replicate (env.BUF_SIZE - 17) 97 ∧
    scan env (straddle env.BUF_SIZE) = Scan.done false none
      [⟨(env.BUF_SIZE : Int) + 1, (env.BUF_SIZE : Int) - 1, env.BUF_SIZE - 1,
          (env.BUF_SIZE : Int) - 1, 0⟩,
        ⟨7, (env.BUF_SIZE : Int) - 6, env.BUF_SIZE - 6, (env.BUF_SIZE : Int) - 1, 0⟩] ∧
    (after_scan env a stm (straddle env.BUF_SIZE) false none s).ctx.pdf_errors
      = (after_header env a stm (straddle env.BUF_SIZE) s).ctx.pdf_errors
        ||| E_PDF_NOSTARTXREF ∧
    pdfi_set_input_stream env col fuel stm (straddle env.BUF_SIZE) s =
      ((pdfi_init_file col fuel (after_scan env a stm (straddle env.BUF_SIZE) false none s)).1,
        wcall (Fn.gs_free_object (some b)) (col.gs_free_object (some b))
          (pdfi_init_file col fuel
            (after_scan env a stm (straddle env.BUF_SIZE) false none s)).2) := by
  obtain ⟨hl, hf, htail⟩ := straddle_first env env.BUF_SIZE rfl hB
  have hscan := scan_straddle env env.BUF_SIZE rfl hB hB' hw
  have h8 : ¬ (pdfi_read_bytes (straddle env.BUF_SIZE) 0
      ((min ((env.BUF_SIZE : Int) - 1) (straddle env.BUF_SIZE).length) % 2 ^ 32).toNat
        env.wild).1 < 8 := by
    have hmin : min ((env.BUF_SIZE : Int) - 1) ((straddle env.BUF_SIZE).length : Int)
        = (env.BUF_SIZE : Int) - 1 := by
      rw [hl]; push_cast; omega
    have hcnt : (((env.BUF_SIZE : Int) - 1) % 2 ^ 32).toNat = env.BUF_SIZE - 1 := by
      have e : (2 : Int) ^ 32 = 4294967296 := by norm_num
      have e' : (2 : Nat) ^ 32 = 4294967296 := by norm_num
      rw [e]; rw [e'] at hB'
      omega
    rw [read_bytes_length, hmin, hcnt, hl]
    omega
  have he := set_input_stream_eq env col fuel stm a b (straddle env.BUF_SIZE) s ha hb h8
  rw [hscan] at he
  exact ⟨straddle_keyword _, htail, hscan, rfl, he⟩

/-- C3, the defect, at the buffer size 2048 (a file of 4096 bytes). -/
theorem set_input_stream_straddle_witness :
    (18 ≤ env0.BUF_SIZE ∧ env0.BUF_SIZE ≤ 2 ^ 32 ∧ env0.wild (-1) ≠ 116) ∧
    (startxref_kw <:+: straddle env0.BUF_SIZE ∧
    (straddle env0.BUF_SIZE).drop
        ((straddle env0.BUF_SIZE).length - first_block env0 (straddle env0.BUF_SIZE))
      = xref_tail ++ List.replicate (env0.BUF_SIZE - 17) 97 ∧
    scan env0 (straddle env0.BUF_SIZE) = Scan.done false none
      [⟨(env0.BUF_SIZE : Int) + 1, (env0.BUF_SIZE : Int) - 1, env0.BUF_SIZE - 1,
          (env0.BUF_SIZE : Int) - 1, 0⟩,
        ⟨7, (env0.BUF_SIZE : Int) - 6, env0.BUF_SIZE - 6, (env0.BUF_SIZE : Int) - 1, 0⟩] ∧
    (after_scan env0 1 7 (straddle env0.BUF_SIZE) false none ⟨ctx0, []⟩).ctx.pdf_errors
      = (after_header env0 1 7 (straddle env0.BUF_SIZE) ⟨ctx0, []⟩).ctx.pdf_errors
        ||| E_PDF_NOSTARTXREF ∧
    pdfi_set_input_stream env0 col0 3 7 (straddle env0.BUF_SIZE) ⟨ctx0, []⟩ =
      ((pdfi_init_file col0 3
          (after_scan env0 1 7 (straddle env0.BUF_SIZE) false none ⟨ctx0, []⟩)).1,
        wcall (Fn.gs_free_object (some 2)) (col0.gs_free_object (some 2))
          (pdfi_init_file col0 3
            (after_scan env0 1 7 (straddle env0.BUF_SIZE) false none ⟨ctx0, []⟩)).2)) :=
  ⟨⟨by decide, by decide, by decide⟩,
    set_input_stream_straddle env0 col0 3 7 1 2 ⟨ctx0, []⟩ (by decide) (by decide) (by decide)
      rfl rfl⟩

theorem strstr_none (pat : List Nat) (hp : pat ≠ []) :
    ∀ l : List Nat, ¬ pat <:+: l → strstr pat l = none := by
  intro l
  induction l with
  | nil =>
    intro _
    rw [strstr, if_neg (by simpa using hp)]
  | cons c l ih =>
    intro h
    rw [strstr]
    have h1 : ¬ pat.isPrefixOf (c :: l) = true := by
      rw [ List.isPrefixOf_iff_prefix]
      exact fun hpre => h hpre.isInfix
    rw [if_neg h1]
    exact ih (fun hin => h (hin.trans (List.suffix_cons c l).isInfix))

theorem header_absent (env : Env) (file : List Nat) (hB : 1 ≤ env.BUF_SIZE)
    (hB' : env.BUF_SIZE ≤ 2 ^ 32) (h : ¬ pdf_marker <:+: file.take (first_block env file)) :
    header_flags env (cstring (scan_start env file) 0 env.BUF_SIZE) = E_PDF_NOHEADER := by
  have hk : first_block env file ≤ file.length := by unfold first_block; omega
  have hk' : first_block env file ≤ env.BUF_SIZE - 1 := by unfold first_block; omega
  have hoff : min ((env.BUF_SIZE : Int) - 1) (file.length : Int) = (first_block env file : Int) := by
    unfold first_block
    omega
  have hcnt : ((first_block env file : Int) % 2 ^ 32).toNat = first_block env file := by
    have e : (2 : Int) ^ 32 = 4294967296 := by norm_num
    have e' : (2 : Nat) ^ 32 = 4294967296 := by norm_num
    rw [e]; rw [e'] at hB'
    omega
  have htl : (file.take (first_block env file)).length = first_block env file := by
    rw [List.length_take]; omega
  have hstr : cstring (scan_start env file) 0 env.BUF_SIZE
      = (file.take (first_block env file)).takeWhile (fun c => c != 0) := by
    apply cstring_list
    · intro i hi
      rw [htl] at hi
      unfold scan_start
      rw [hoff, hcnt]
      simp only [Mem.store, zero_add]
      rw [if_neg (by omega), read_mem_in _ _ _ _ _ (by simpa [htl] using hi)]
      simp
    · rw [htl]
      unfold scan_start
      rw [hoff]
      simp [Mem.store]
    · rw [htl]; omega
  unfold header_flags
  rw [hstr, strstr_none pdf_marker (by decide)]
  intro hin
  exact h (hin.trans ( List.takeWhile_prefix _).isInfix)

/-- C18: the first half holds (whenever the first `min(BUF_SIZE - 1, length)`
bytes lack `%PDF`, the header check yields exactly `E_PDF_NOHEADER`, which
the function or-s into `pdf_errors` before it starts the scan).  The second
half fails: `strstr` reads the buffer as a C string, so a marker behind a NUL
byte is not seen.  In `nul_pdf` the marker `%PDF` starts at byte 1 of the
first block, yet `pdfi_set_input_stream` returns with `E_PDF_NOHEADER` set by
it (`ctx0` had no error flag). -/
theorem header_flag_nul :
    (∀ (env : Env) (file : List Nat), 1 ≤ env.BUF_SIZE → env.BUF_SIZE ≤ 2 ^ 32 →
      ¬ pdf_marker <:+: file.take (first_block env file) →
      header_flags env (cstring (scan_start env file) 0 env.BUF_SIZE) = E_PDF_NOHEADER) ∧
    (nul_pdf.take (first_block env0 nul_pdf) = [0] ++ pdf_marker ++ small_pdf.drop 4 ∧
      ctx0.pdf_errors = 0 ∧
      (after_header env0 1 7 nul_pdf ⟨ctx0, []⟩).ctx.pdf_errors = E_PDF_NOHEADER ∧
      (pdfi_set_input_stream env0 col0 3 7 nul_pdf ⟨ctx0, []⟩).2.ctx.pdf_errors
        = E_PDF_NOHEADER) := by
  refine ⟨header_absent, ?_, ?_, ?_, ?_⟩
  · decide
  · decide
  · decide
  · decide

theorem search_reads_all (m : Mem) :
    ∀ (n : Nat) (le : Option Int), 0 < n → (search_back m n le).1 = false →
      1 ∈ search_reads m n := by
  intro n
  induction n with
  | zero => intro le h; exact absurd h (Nat.lt_irrefl 0)
  | succ n ih =>
    intro le _ hs
    rw [search_back] at hs
    rw [search_reads]
    by_cases hm : memcmp_eq m (((n + 1 : Nat) : Int) - 9) startxref_kw = true
    · rw [if_pos hm] at hs
      cases hs
    · rw [if_neg hm] at hs
      rw [if_neg hm]
      cases n with
      | zero => exact List.mem_cons_self _ _
      | succ k => exact List.mem_cons_of_mem _ (ih _ (Nat.succ_pos k) hs)

/-- C29, the defect: the inner loop runs `read` down to 1 whenever the block
holds no match, so its comparisons at `read < 9` start below `Buffer` (first
part, for every buffer content).  On the 13-byte file `xref_only`, which does
not hold the keyword, the loop compares at `read = 13, 12, .., 1`, and the
outcome of the scan depends on the bytes below the buffer: with zeroed memory
there the scan ends without `found`, with the text `start` there it sets
`found` at `read = 4` and stores the offset 9. -/
theorem search_window_outside :
    (∀ (m : Mem) (n : Nat), 0 < n → (search_back m n none).1 = false →
      1 ∈ search_reads m n) ∧
    ¬ startxref_kw <:+: xref_only ∧ 8 ≤ xref_only.length ∧
    search_reads (first_mem env0 xref_only) (first_block env0 xref_only)
      = [13, 12, 11, 10, 9, 8, 7, 6, 5, 4, 3, 2, 1] ∧
    scan env0 xref_only = Scan.done false none [⟨0, 13, 13, 13, 0⟩] ∧
    scan env_start xref_only = Scan.done true (some 9) [⟨0, 13, 13, 13, 4⟩] := by
  refine ⟨fun m n h1 h2 => search_reads_all m n none h1 h2, ?_, ?_, ?_, ?_, ?_⟩
  · decide
  · decide
  · decide
  · decide
  · decide

/-! ## gdevpsds.c: conversion between 1/2/4 and 8 bits (lines 27-232) -/

/-- C25, the defect: with 8 one-bit samples per row (one byte per row) and
three rows `0xA5`, `0x3C`, `0x0F`, given room for 100 bytes, the filter
consumes all three bytes but emits 16 bytes only: the expansion of the first
and of the third row.  When a row is complete (`left == 0`) the next
iteration takes `case 0`, whose `continue` advances `p` past the byte just
fetched, so the first byte of every following row is dropped. -/
theorem n_8_skips_row_byte (ERRC : Int) :
    s_N_8_process ERRC (s_1_init ⟨8, 0, 0⟩) [0xA5, 0x3C, 0x0F] 100 =
      (0, [], [255, 0, 255, 0, 0, 255, 0, 255, 0, 0, 0, 0, 255, 255, 255, 255],
        ⟨8, 1, 0⟩) := by
  rfl

/-- C26, the defect: with 8 samples per row reduced to 1 bit (one output byte
per row) and two rows, given room for 100 bytes, the filter emits four bytes:
after the byte of each row (`0xA9`, `0x0F`) a byte 0.  When a row is complete
(`left == 0`) the next iteration takes `case 0` with `out = 0`, and its
`continue` runs the increment `*++q = out`. -/
theorem n_from_8_extra_byte (ERRC : Int) :
    s_8_N_process ERRC (s_1_init ⟨8, 0, 0⟩)
        [255, 0, 255, 0, 255, 0, 0, 255, 0, 0, 0, 0, 255, 255, 255, 255] 100 =
      (0, [], [0xA9, 0, 0x0F, 0], ⟨8, 1, 8⟩) := by
  rfl

/-! ## gdevpsds.c: downsampling (lines 296-452) -/

/-- C22, the defect: with 3 colours, 5 columns and `XFactor = 2` the array
`sums` has `sum_size + 1 = 7` elements (`sum_size = 3 * (5 / 2) = 6`), and one
input row of 5 pixels makes `s_Average_process` store at the indices listed:
the fifth pixel (column 4, beyond `(Columns / XFactor) * XFactor`) is
accumulated into `sums[6]`, `sums[7]` and `sums[8]`.  The single extra element
holds one colour of the extra samples only. -/
theorem average_overruns_sums :
    (s_Average_process 100 (s_Average_init (fun _ => 0) avg_rgb5) (List.range 15) 100).map
        (fun r => (r.1, r.2.2.2.sum_size, r.2.2.2.written))
      = some (0, 6, [0, 1, 2, 0, 1, 2, 3, 4, 5, 3, 4, 5, 6, 7, 8]) := by
  decide

/-! ## ibnum.c: sdecodelong (lines 173-188) -/

theorem and_two_pow_eq (v n : Nat) : v &&& 2 ^ n = if v.testBit n then 2 ^ n else 0 := by
  apply Nat.eq_of_testBit_eq
  intro i
  rw [Nat.testBit_and, Nat.testBit_two_pow]
  by_cases hi : n = i
  · subst hi
    cases h : v.testBit n <;> simp [Nat.testBit_two_pow]
  · cases h : v.testBit n <;> simp [hi, Nat.testBit_two_pow]

theorem and_sign_bit (v : Nat) (h : v < 2 ^ 32) :
    v &&& 0x80000000 = if v < 2 ^ 31 then 0 else 2 ^ 31 := by
  have e : (0x80000000 : Nat) = 2 ^ 31 := by norm_num
  rw [e, and_two_pow_eq, Nat.testBit_to_div_mod]
  simp only [decide_eq_true_eq]
  have h31 : (2 : Nat) ^ 31 = 2147483648 := by norm_num
  have h32 : (2 : Nat) ^ 32 = 4294967296 := by norm_num
  rw [h32] at h
  rw [h31]
  split_ifs <;> omega

theorem and_low_bits (v : Nat) : v &&& 0x7fffffff = v % 2 ^ 31 := by
  have e : (0x7fffffff : Nat) = 2 ^ 31 - 1 := by norm_num
  rw [e, Nat.and_pow_two_sub_one_eq_mod]

/-- C21: for all bytes `p[0..3]`, whatever the width of `long`, `sdecodelong`
returns the two's-complement value, in `[-2^31, 2^31)`, of the 32-bit word
formed from the bytes most significant first when the format is not LSB and
least significant first when it is; so decoding in LSB format equals decoding
the reversed bytes in MSB format. -/
theorem sdecodelong_value (arch_sizeof_long : Nat) (lsb : Bool) (a b c d : Nat)
    (ha : a < 256) (hb : b < 256) (hc : c < 256) (hd : d < 256) :
    sdecodelong arch_sizeof_long lsb a b c d
      = signed32 (if lsb then word32 d c b a else word32 a b c d) ∧
    -(2 ^ 31 : Int) ≤ sdecodelong arch_sizeof_long lsb a b c d ∧
    sdecodelong arch_sizeof_long lsb a b c d < 2 ^ 31 ∧
    sdecodelong arch_sizeof_long true a b c d = sdecodelong arch_sizeof_long false d c b a := by
  have key : ∀ (x y z t : Nat), x < 256 → y < 256 → z < 256 → t < 256 →
      (if arch_sizeof_long = 4 then wrap_long32 ((word32 x y z t : Nat) : Int)
        else ((word32 x y z t &&& 0x7fffffff : Nat) : Int)
          - ((word32 x y z t &&& 0x80000000 : Nat) : Int)) = signed32 (word32 x y z t) ∧
      -(2 ^ 31 : Int) ≤ signed32 (word32 x y z t) ∧ signed32 (word32 x y z t) < 2 ^ 31 := by
    intro x y z t hx hy hz ht
    have hw : word32 x y z t < 2 ^ 32 := by
      unfold word32
      norm_num
      omega
    generalize word32 x y z t = w at hw
    have h32 : (2 : Nat) ^ 32 = 4294967296 := by norm_num
    have h31 : (2 : Nat) ^ 31 = 2147483648 := by norm_num
    have i32 : (2 : Int) ^ 32 = 4294967296 := by norm_num
    have i31 : (2 : Int) ^ 31 = 2147483648 := by norm_num
    refine ⟨?_, ?_, ?_⟩
    · split_ifs with h4
      · unfold wrap_long32 signed32
        rw [h32] at hw
        rw [i32, i31, h31]
        split_ifs <;> omega
      · rw [and_sign_bit w hw, and_low_bits]
        unfold signed32
        rw [h32] at hw
        rw [h31, i32]
        split_ifs <;> omega
    · unfold signed32
      rw [h32] at hw
      rw [h31, i32, i31]
      split_ifs <;> omega
    · unfold signed32
      rw [h32] at hw
      rw [h31, i32, i31]
      split_ifs <;> omega
  have hv : ∀ (l : Bool) (x y z t : Nat), sdecodelong arch_sizeof_long l x y z t =
      (if arch_sizeof_long = 4 then
          wrap_long32 (((if l then word32 t z y x else word32 x y z t) : Nat) : Int)
        else (((if l then word32 t z y x else word32 x y z t) &&& 0x7fffffff : Nat) : Int)
          - (((if l then word32 t z y x else word32 x y z t) &&& 0x80000000 : Nat) : Int)) := by
    intro l x y z t
    unfold sdecodelong word32
    simp only [Nat.shiftLeft_eq]
  have hmain : ∀ (l : Bool) (x y z t : Nat), x < 256 → y < 256 → z < 256 → t < 256 →
      sdecodelong arch_sizeof_long l x y z t
        = signed32 (if l then word32 t z y x else word32 x y z t) := by
    intro l x y z t hx hy hz ht
    rw [hv]
    cases l
    · exact (key x y z t hx hy hz ht).1
    · exact (key t z y x ht hz hy hx).1
  refine ⟨hmain lsb a b c d ha hb hc hd, ?_, ?_, ?_⟩
  · rw [hmain lsb a b c d ha hb hc hd]
    cases lsb
    · exact (key a b c d ha hb hc hd).2.1
    · exact (key d c b a hd hc hb ha).2.1
  · rw [hmain lsb a b c d ha hb hc hd]
    cases lsb
    · exact (key a b c d ha hb hc hd).2.2
    · exact (key d c b a hd hc hb ha).2.2
  · rw [hmain true a b c d ha hb hc hd, hmain false d c b a hd hc hb ha]
    rfl

/-- C21 at the bytes `0xFF, 0xFE, 0x01, 0x80` with an 8-byte `long`. -/
theorem sdecodelong_value_witness :
    ((0xFF : Nat) < 256 ∧ (0xFE : Nat) < 256 ∧ (0x01 : Nat) < 256 ∧ (0x80 : Nat) < 256) ∧
    (sdecodelong 8 true 0xFF 0xFE 0x01 0x80
      = signed32 (if true then word32 0x80 0x01 0xFE 0xFF else word32 0xFF 0xFE 0x01 0x80) ∧
    -(2 ^ 31 : Int) ≤ sdecodelong 8 true 0xFF 0xFE 0x01 0x80 ∧
    sdecodelong 8 true 0xFF 0xFE 0x01 0x80 < 2 ^ 31 ∧
    sdecodelong 8 true 0xFF 0xFE 0x01 0x80 = sdecodelong 8 false 0x80 0x01 0xFE 0xFF) :=
  ⟨⟨by decide, by decide, by decide, by decide⟩,
    sdecodelong_value 8 true 0xFF 0xFE 0x01 0x80 (by decide) (by decide) (by decide)
      (by decide)⟩

/-! ## write_t2.c: Type 2 integers and the Private dictionary (lines 33-63, 503-545) -/

theorem write_type2_int_put {ω : Type} (w : WRF ω) (out : WRF_output ω) (a_int : Int) :
    (write_type2_int w out a_int).put = out.put ++ type2_bytes a_int := by
  unfold write_type2_int type2_bytes
  split_ifs <;> simp [WRF_wbyte, WRF_wtext]

theorem shr_div (a : Int) (n : Nat) : a >>> n = a / ((2 ^ n : Nat) : Int) :=
  Int.shiftRight_eq_div_pow a n

theorem type2_bytes_spec (a : Int) (hlo : -(2 ^ 31 : Int) ≤ a) (hhi : a < 2 ^ 31) :
    cff_operand (type2_bytes a) = some a ∧ (∀ b ∈ type2_bytes a, b < 256) ∧
    (-107 ≤ a ∧ a ≤ 107 → type2_bytes a = [(a + 139).toNat]) ∧
    (108 ≤ a ∧ a ≤ 1131 → ∃ b0 b1, type2_bytes a = [b0, b1] ∧ 247 ≤ b0 ∧ b0 ≤ 250) ∧
    (-1131 ≤ a ∧ a ≤ -108 → ∃ b0 b1, type2_bytes a = [b0, b1] ∧ 251 ≤ b0 ∧ b0 ≤ 254) ∧
    (-32768 ≤ a ∧ a ≤ 32767 ∧ ¬ (-1131 ≤ a ∧ a ≤ 1131) →
      type2_bytes a = [28, ((a / 256) % 256).toNat, (a % 256).toNat]) ∧
    (¬ (-32768 ≤ a ∧ a ≤ 32767) →
      type2_bytes a = [29, ((a / 2 ^ 24) % 256).toNat, ((a / 2 ^ 16) % 256).toNat,
        ((a / 2 ^ 8) % 256).toNat, (a % 256).toNat]) := by
  have i31 : (2 : Int) ^ 31 = 2147483648 := by norm_num
  rw [i31] at hlo hhi
  have e8 : (((2 : Nat) ^ 8 : Nat) : Int) = 256 := by norm_num
  have e16 : (((2 : Nat) ^ 16 : Nat) : Int) = 65536 := by norm_num
  have e24 : (((2 : Nat) ^ 24 : Nat) : Int) = 16777216 := by norm_num
  have p8 : (2 : Int) ^ 8 = 256 := by norm_num
  have p16 : (2 : Int) ^ 16 = 65536 := by norm_num
  have p24 : (2 : Int) ^ 24 = 16777216 := by norm_num
  by_cases c1 : -107 ≤ a ∧ a ≤ 107
  · have hb : type2_bytes a = [(a + 139).toNat] := by
      unfold type2_bytes to_uchar
      rw [if_pos c1]
      have : (a + 139) % 256 = a + 139 := by omega
      rw [this]
    refine ⟨?_, ?_, fun _ => hb, ?_, ?_, ?_, ?_⟩
    · rw [hb]
      unfold cff_operand
      simp only []
      rw [if_pos (by omega)]
      congr 1
      omega
    · rw [hb]
      intro b hb'
      rw [List.mem_singleton.1 hb']
      omega
    · intro h; omega
    · intro h; omega
    · intro h; omega
    · intro h; omega
  by_cases c2 : -32768 ≤ a ∧ a ≤ 32767
  · by_cases c3 : 108 ≤ a ∧ a ≤ 1131
    · have hb : type2_bytes a = [((a + 63124) / 256 % 256).toNat, ((a + 63124) % 256).toNat] := by
        unfold type2_bytes to_uchar low8
        rw [if_neg c1, if_pos c2, if_pos c3, shr_div, e8]
        have : (a + 63124) % 256 % 256 = (a + 63124) % 256 := by omega
        rw [this]
      generalize h0 : ((a + 63124) / 256 % 256).toNat = b0 at hb
      generalize h1 : ((a + 63124) % 256).toNat = b1 at hb
      have f0 : (b0 : Int) = (a + 63124) / 256 % 256 := by omega
      have f1 : (b1 : Int) = (a + 63124) % 256 := by omega
      refine ⟨?_, ?_, fun h => by omega, fun _ => ⟨b0, b1, hb, by omega, by omega⟩, fun h => by omega,
        fun h => by omega, fun h => absurd c2 h⟩
      · rw [hb]
        unfold cff_operand
        simp only []
        rw [if_pos ⟨by omega, by omega, by omega⟩]
        congr 1
        omega
      · rw [hb]
        intro b hb'
        simp only [List.mem_cons, List.mem_singleton, List.not_mem_nil, or_false] at hb'
        rcases hb' with rfl | rfl <;> omega
    by_cases c4 : -1131 ≤ a ∧ a ≤ -108
    · have hb : type2_bytes a = [((-a + 64148) / 256 % 256).toNat, ((-a + 64148) % 256).toNat] := by
        unfold type2_bytes to_uchar low8
        rw [if_neg c1, if_pos c2, if_neg c3, if_pos c4, shr_div, e8]
        have : (-a + 64148) % 256 % 256 = (-a + 64148) % 256 := by omega
        rw [this]
      generalize h0 : ((-a + 64148) / 256 % 256).toNat = b0 at hb
      generalize h1 : ((-a + 64148) % 256).toNat = b1 at hb
      have f0 : (b0 : Int) = (-a + 64148) / 256 % 256 := by omega
      have f1 : (b1 : Int) = (-a + 64148) % 256 := by omega
      refine ⟨?_, ?_, fun h => by omega, fun h => by omega, fun _ => ⟨b0, b1, hb, by omega, by omega⟩,
        fun h => by omega, fun h => absurd c2 h⟩
      · rw [hb]
        unfold cff_operand
        simp only []
        rw [if_neg (by omega), if_pos ⟨by omega, by omega, by omega⟩]
        congr 1
        omega
      · rw [hb]
        intro b hb'
        simp only [List.mem_cons, List.mem_singleton, List.not_mem_nil, or_false] at hb'
        rcases hb' with rfl | rfl <;> omega
    · have hb : type2_bytes a = [28, (a / 256 % 256).toNat, (a % 256).toNat] := by
        unfold type2_bytes to_uchar low8
        rw [if_neg c1, if_pos c2, if_neg c3, if_neg c4, shr_div, e8]
        have : a % 256 % 256 = a % 256 := by omega
        rw [this]
      refine ⟨?_, ?_, fun h => by omega, fun h => by omega, fun h => by omega, fun _ => hb,
        fun h => absurd c2 h⟩
      · rw [hb]
        generalize h0 : (a / 256 % 256).toNat = b0
        generalize h1 : (a % 256).toNat = b1
        have f0 : (b0 : Int) = a / 256 % 256 := by omega
        have f1 : (b1 : Int) = a % 256 := by omega
        unfold cff_operand
        simp only []
        rw [if_pos ⟨trivial, by omega, by omega⟩]
        congr 1
        have p15 : (2 : Nat) ^ 15 = 32768 := by norm_num
        rw [p15, p16]
        split_ifs <;> push_cast <;> omega
      · rw [hb]
        intro b hb'
        simp only [List.mem_cons, List.mem_singleton, List.not_mem_nil, or_false] at hb'
        rcases hb' with rfl | rfl | rfl <;> omega
  · have hb : type2_bytes a = [29, (a / 2 ^ 24 % 256).toNat, (a / 2 ^ 16 % 256).toNat,
        (a / 2 ^ 8 % 256).toNat, (a % 256).toNat] := by
      unfold type2_bytes write_4_byte_int to_uchar low8
      rw [if_neg c1, if_neg c2, shr_div, shr_div, shr_div, e8, e16, e24, p8, p16, p24]
      have : a % 256 % 256 = a % 256 := by omega
      rw [this]
    refine ⟨?_, ?_, fun h => by omega, fun h => by omega, fun h => by omega, fun h => by omega,
      fun _ => hb⟩
    · rw [hb, p8, p16, p24]
      generalize h1 : (a / 16777216 % 256).toNat = b1
      generalize h2 : (a / 65536 % 256).toNat = b2
      generalize h3 : (a / 256 % 256).toNat = b3
      generalize h4 : (a % 256).toNat = b4
      have f1 : (b1 : Int) = a / 16777216 % 256 := by omega
      have f2 : (b2 : Int) = a / 65536 % 256 := by omega
      have f3 : (b3 : Int) = a / 256 % 256 := by omega
      have f4 : (b4 : Int) = a % 256 := by omega
      unfold cff_operand
      simp only []
      rw [if_pos ⟨trivial, by omega, by omega, by omega, by omega⟩]
      congr 1
      unfold signed32 word32
      have n31 : (2 : Nat) ^ 31 = 2147483648 := by norm_num
      have n24 : (2 : Nat) ^ 24 = 16777216 := by norm_num
      have n16 : (2 : Nat) ^ 16 = 65536 := by norm_num
      have n8 : (2 : Nat) ^ 8 = 256 := by norm_num
      have i32 : (2 : Int) ^ 32 = 4294967296 := by norm_num
      rw [n31, n24, n16, n8, i32]
      split_ifs <;> push_cast <;> omega
    · rw [hb, p8, p16, p24]
      intro b hb'
      simp only [List.mem_cons, List.mem_singleton, List.not_mem_nil, or_false] at hb'
      rcases hb' with rfl | rfl | rfl | rfl | rfl <;> omega

/-- C24: for every `a_int` in the signed 32-bit range `write_type2_int` puts
out a byte sequence that the CFF operand decoding reads back as `a_int`: one
byte `a_int + 139` for -107..107, two bytes with first byte 247..250 for
108..1131 and 251..254 for -1131..-108, the three bytes 28, high, low for the
rest of -32768..32767, and 29 followed by the four bytes of the value, most
significant first, otherwise. -/
theorem write_type2_int_roundtrip {ω : Type} (w : WRF ω) (out : WRF_output ω) (a : Int)
    (hlo : -(2 ^ 31 : Int) ≤ a) (hhi : a < 2 ^ 31) :
    ∃ bs, (write_type2_int w out a).put = out.put ++ bs ∧
      cff_operand bs = some a ∧ (∀ b ∈ bs, b < 256) ∧
      (-107 ≤ a ∧ a ≤ 107 → bs = [(a + 139).toNat]) ∧
      (108 ≤ a ∧ a ≤ 1131 → ∃ b0 b1, bs = [b0, b1] ∧ 247 ≤ b0 ∧ b0 ≤ 250) ∧
      (-1131 ≤ a ∧ a ≤ -108 → ∃ b0 b1, bs = [b0, b1] ∧ 251 ≤ b0 ∧ b0 ≤ 254) ∧
      (-32768 ≤ a ∧ a ≤ 32767 ∧ ¬ (-1131 ≤ a ∧ a ≤ 1131) →
        bs = [28, ((a / 256) % 256).toNat, (a % 256).toNat]) ∧
      (¬ (-32768 ≤ a ∧ a ≤ 32767) →
        bs = [29, ((a / 2 ^ 24) % 256).toNat, ((a / 2 ^ 16) % 256).toNat,
          ((a / 2 ^ 8) % 256).toNat, (a % 256).toNat]) :=
  ⟨type2_bytes a, write_type2_int_put w out a, type2_bytes_spec a hlo hhi⟩

/-- C24 at `a_int = -100000`. -/
theorem write_type2_int_roundtrip_witness :
    (-(2 ^ 31 : Int) ≤ -100000 ∧ (-100000 : Int) < 2 ^ 31) ∧
    ∃ bs, (write_type2_int wrf_count ⟨0, []⟩ (-100000)).put = [] ++ bs ∧
      cff_operand bs = some (-100000) ∧ (∀ b ∈ bs, b < 256) ∧
      (-107 ≤ (-100000 : Int) ∧ (-100000 : Int) ≤ 107 → bs = [((-100000 : Int) + 139).toNat]) ∧
      (108 ≤ (-100000 : Int) ∧ (-100000 : Int) ≤ 1131 →
        ∃ b0 b1, bs = [b0, b1] ∧ 247 ≤ b0 ∧ b0 ≤ 250) ∧
      (-1131 ≤ (-100000 : Int) ∧ (-100000 : Int) ≤ -108 →
        ∃ b0 b1, bs = [b0, b1] ∧ 251 ≤ b0 ∧ b0 ≤ 254) ∧
      (-32768 ≤ (-100000 : Int) ∧ (-100000 : Int) ≤ 32767 ∧
          ¬ (-1131 ≤ (-100000 : Int) ∧ (-100000 : Int) ≤ 1131) →
        bs = [28, (((-100000 : Int) / 256) % 256).toNat, ((-100000 : Int) % 256).toNat]) ∧
      (¬ (-32768 ≤ (-100000 : Int) ∧ (-100000 : Int) ≤ 32767) →
        bs = [29, (((-100000 : Int) / 2 ^ 24) % 256).toNat,
          (((-100000 : Int) / 2 ^ 16) % 256).toNat, (((-100000 : Int) / 2 ^ 8) % 256).toNat,
          ((-100000 : Int) % 256).toNat]) :=
  ⟨⟨by decide, by decide⟩,
    write_type2_int_roundtrip wrf_count ⟨0, []⟩ (-100000) (by decide) (by decide)⟩

theorem write_type2_int_count {ω : Type} (w : WRF ω) (hw : counts w) (out : WRF_output ω)
    (a : Int) :
    w.m_count (write_type2_int w out a).o = w.m_count out.o + (type2_bytes a).length := by
  unfold write_type2_int type2_bytes
  split_ifs <;> simp [WRF_wbyte, WRF_wtext, hw.1, hw.2, write_4_byte_int] <;> ring

theorem type2_bytes_length (a : Int) (hlo : -(2 ^ 31 : Int) ≤ a) (hhi : a < 2 ^ 31) :
    (-107 ≤ a ∧ a ≤ 107 → (type2_bytes a).length = 1) ∧
    (108 ≤ a ∧ a ≤ 1131 → (type2_bytes a).length = 2) ∧
    (1132 ≤ a ∧ a ≤ 32767 → (type2_bytes a).length = 3) := by
  obtain ⟨_, _, h1, h2, _, h4, _⟩ := type2_bytes_spec a hlo hhi
  refine ⟨fun h => by rw [h1 h]; rfl, fun h => ?_, fun h => ?_⟩
  · obtain ⟨b0, b1, hb, _⟩ := h2 h
    rw [hb]; rfl
  · rw [h4 ⟨by omega, by omega, by omega⟩]; rfl

theorem subrs_loop_step {ω : Type} (w : WRF ω) (initial : Int) (k fuel : Nat)
    (hk : k = fuel + 1) (n : Int) (out : WRF_output ω) (r : Int × WRF_output ω)
    (hr : (if n = 1 then
        if -107 ≤ w.m_count out.o - initial + 1 + n ∧ w.m_count out.o - initial + 1 + n ≤ 107
          then (5, write_type2_int w out (w.m_count out.o - initial + 1 + n)) else (n, out)
      else if n = 2 then
        if (108 ≤ w.m_count out.o - initial + 1 + n ∧ w.m_count out.o - initial + 1 + n ≤ 1131)
            ∨ (-1131 ≤ w.m_count out.o - initial + 1 + n
              ∧ w.m_count out.o - initial + 1 + n ≤ -108)
          then (5, write_type2_int w out (w.m_count out.o - initial + 1 + n)) else (n, out)
      else if n = 3 then
        if -32768 ≤ w.m_count out.o - initial + 1 + n
            ∧ w.m_count out.o - initial + 1 + n ≤ 32767
          then (5, write_type2_int w out (w.m_count out.o - initial + 1 + n)) else (n, out)
      else if n = 4 then (n, out)
      else if n = 5 then (n, write_type2_int w out (w.m_count out.o - initial + 1 + n))
      else (n, out)) = r) :
    subrs_offset_loop w initial k n out =
      if r.1 + 1 < 5 then subrs_offset_loop w initial fuel (r.1 + 1) r.2 else some r.2 := by
  subst hk
  rw [subrs_offset_loop]
  simp only [hr]

theorem subrs_loop_run {ω : Type} (w : WRF ω) (initial : Int)
    (out : WRF_output ω) (hL : 0 ≤ w.m_count out.o - initial) :
    (w.m_count out.o - initial ≤ 32763 →
      ∃ bs : Nat, subrs_offset_loop w initial 5 1 out
          = some (write_type2_int w out (w.m_count out.o - initial + bs + 1)) ∧
        (type2_bytes (w.m_count out.o - initial + bs + 1)).length = bs ∧
        -(2 ^ 31 : Int) ≤ w.m_count out.o - initial + bs + 1 ∧
        w.m_count out.o - initial + bs + 1 < 2 ^ 31) ∧
    (32764 ≤ w.m_count out.o - initial → subrs_offset_loop w initial 5 1 out = some out) := by
  have i31 : (2 : Int) ^ 31 = 2147483648 := by norm_num
  constructor
  · intro hle
    by_cases c1 : w.m_count out.o - initial + 1 + 1 ≤ 107
    · refine ⟨1, ?_, ?_, by rw [i31]; push_cast; omega, by rw [i31]; push_cast; omega⟩
      · rw [subrs_loop_step w initial 5 4 rfl 1 out
          (5, write_type2_int w out (w.m_count out.o - initial + 1 + 1))
          (by rw [if_pos rfl, if_pos ⟨by omega, c1⟩])]
        rw [if_neg (by norm_num)]
        push_cast
        rfl
      · have := (type2_bytes_length (w.m_count out.o - initial + ((1 : Nat) : Int) + 1)
          (by rw [i31]; push_cast; omega) (by rw [i31]; push_cast; omega)).1
          ⟨by push_cast; omega, by push_cast; omega⟩
        exact this
    by_cases c2 : w.m_count out.o - initial + 1 + 2 ≤ 1131
    · refine ⟨2, ?_, ?_, by rw [i31]; push_cast; omega, by rw [i31]; push_cast; omega⟩
      · rw [subrs_loop_step w initial 5 4 rfl 1 out (1, out)
          (by rw [if_pos rfl, if_neg (by omega)])]
        rw [if_pos (by norm_num)]
        rw [subrs_loop_step w initial 4 3 rfl (1 + 1) out
          (5, write_type2_int w out (w.m_count out.o - initial + 1 + (1 + 1)))
          (by rw [if_neg (by norm_num), if_pos (by norm_num), if_pos (Or.inl ⟨by omega, by omega⟩)])]
        rw [if_neg (by norm_num)]
        have e : w.m_count out.o - initial + 1 + (1 + 1)
            = w.m_count out.o - initial + ((2 : Nat) : Int) + 1 := by push_cast; ring
        rw [e]
      · have := (type2_bytes_length (w.m_count out.o - initial + ((2 : Nat) : Int) + 1)
          (by rw [i31]; push_cast; omega) (by rw [i31]; push_cast; omega)).2.1
          ⟨by push_cast; omega, by push_cast; omega⟩
        exact this
    · refine ⟨3, ?_, ?_, by rw [i31]; push_cast; omega, by rw [i31]; push_cast; omega⟩
      · rw [subrs_loop_step w initial 5 4 rfl 1 out (1, out)
          (by rw [if_pos rfl, if_neg (by omega)])]
        rw [if_pos (by norm_num)]
        rw [subrs_loop_step w initial 4 3 rfl (1 + 1) out (1 + 1, out)
          (by rw [if_neg (by norm_num), if_pos (by norm_num), if_neg (by omega)])]
        rw [if_pos (by norm_num)]
        rw [subrs_loop_step w initial 3 2 rfl (1 + 1 + 1) out
          (5, write_type2_int w out (w.m_count out.o - initial + 1 + (1 + 1 + 1)))
          (by rw [if_neg (by norm_num), if_neg (by norm_num), if_pos (by norm_num),
            if_pos ⟨by omega, by omega⟩])]
        rw [if_neg (by norm_num)]
        have e : w.m_count out.o - initial + 1 + (1 + 1 + 1)
            = w.m_count out.o - initial + ((3 : Nat) : Int) + 1 := by push_cast; ring
        rw [e]
      · have := (type2_bytes_length (w.m_count out.o - initial + ((3 : Nat) : Int) + 1)
          (by rw [i31]; push_cast; omega) (by rw [i31]; push_cast; omega)).2.2
          ⟨by push_cast; omega, by push_cast; omega⟩
        exact this
  · intro hge
    rw [subrs_loop_step w initial 5 4 rfl 1 out (1, out)
      (by rw [if_pos rfl, if_neg (by omega)])]
    rw [if_pos (by norm_num)]
    rw [subrs_loop_step w initial 4 3 rfl (1 + 1) out (1 + 1, out)
      (by rw [if_neg (by norm_num), if_pos (by norm_num), if_neg (by omega)])]
    rw [if_pos (by norm_num)]
    rw [subrs_loop_step w initial 3 2 rfl (1 + 1 + 1) out (1 + 1 + 1, out)
      (by rw [if_neg (by norm_num), if_neg (by norm_num), if_pos (by norm_num),
        if_neg (by omega)])]
    rw [if_pos (by norm_num)]
    rw [subrs_loop_step w initial 2 1 rfl (1 + 1 + 1 + 1) out (1 + 1 + 1 + 1, out)
      (by rw [if_neg (by norm_num), if_neg (by norm_num), if_neg (by norm_num),
        if_pos (by norm_num)])]
    rw [if_neg (by norm_num)]

/-- C23: when the font has local Subrs and the dictionary data written
before is at most 32763 bytes long, the Private dictionary ends with an
integer operand followed by the operator 19, and the operand is the byte
length of the whole dictionary, its own bytes and the operator included.  The
defect: when the data before is 32764 bytes or longer, the loop `do { ... }
while (n < 5)` ends after `case 4` without having reached `case 5`, and the
operator 19 is put out without any operand. -/
theorem private_dict_subrs_offset {ω : Type} (w : WRF ω) (hw : counts w) (initial : Int)
    (count : Nat) (hc : count ≠ 0) (out : WRF_output ω)
    (hL : 0 ≤ w.m_count out.o - initial) :
    (w.m_count out.o - initial ≤ 32763 →
      ∃ bs r, private_dict_subrs w initial count out = some r ∧
        r.put = out.put ++ bs ++ [19] ∧
        cff_operand bs = some (w.m_count r.o - initial) ∧
        w.m_count r.o - initial = w.m_count out.o - initial + bs.length + 1) ∧
    (32764 ≤ w.m_count out.o - initial →
      ∃ r, private_dict_subrs w initial count out = some r ∧ r.put = out.put ++ [19] ∧
        w.m_count r.o - initial = w.m_count out.o - initial + 1) := by
  obtain ⟨h1, h2⟩ := subrs_loop_run w initial out hL
  constructor
  · intro hle
    obtain ⟨n, e1, e2, e3, e4⟩ := h1 hle
    refine ⟨type2_bytes (w.m_count out.o - initial + n + 1),
      WRF_wbyte w (write_type2_int w out (w.m_count out.o - initial + n + 1)) 19, ?_, ?_, ?_, ?_⟩
    · unfold private_dict_subrs
      rw [if_pos hc, e1]
      rfl
    · show (write_type2_int w out (w.m_count out.o - initial + n + 1)).put ++ [19] = _
      rw [write_type2_int_put]
    · have hcount : w.m_count (WRF_wbyte w (write_type2_int w out
          (w.m_count out.o - initial + n + 1)) 19).o - initial
          = w.m_count out.o - initial + n + 1 := by
        show w.m_count (w.wbyte _ 19) - initial = _
        rw [hw.1, write_type2_int_count w hw, e2]
        ring
      rw [hcount]
      exact (type2_bytes_spec _ e3 e4).1
    · show w.m_count (w.wbyte _ 19) - initial = _
      rw [hw.1, write_type2_int_count w hw, e2]
      ring
  · intro hge
    refine ⟨WRF_wbyte w out 19, ?_, rfl, ?_⟩
    · unfold private_dict_subrs
      rw [if_pos hc, h2 hge]
      rfl
    · show w.m_count (w.wbyte _ 19) - initial = _
      rw [hw.1]
      ring

/-- C23 with the counting output, 32764 bytes of dictionary data and one
local Subr. -/
theorem private_dict_subrs_offset_witness :
    (counts wrf_count ∧ (1 : Nat) ≠ 0 ∧
      (0 : Int) ≤ wrf_count.m_count (⟨32764, []⟩ : WRF_output Int).o - 0) ∧
    ((wrf_count.m_count (⟨32764, []⟩ : WRF_output Int).o - 0 ≤ 32763 →
      ∃ bs r, private_dict_subrs wrf_count 0 1 ⟨32764, []⟩ = some r ∧
        r.put = [] ++ bs ++ [19] ∧
        cff_operand bs = some (wrf_count.m_count r.o - 0) ∧
        wrf_count.m_count r.o - 0
          = wrf_count.m_count (⟨32764, []⟩ : WRF_output Int).o - 0 + bs.length + 1) ∧
    (32764 ≤ wrf_count.m_count (⟨32764, []⟩ : WRF_output Int).o - 0 →
      ∃ r, private_dict_subrs wrf_count 0 1 ⟨32764, []⟩ = some r ∧ r.put = [] ++ [19] ∧
        wrf_count.m_count r.o - 0
          = wrf_count.m_count (⟨32764, []⟩ : WRF_output Int).o - 0 + 1)) :=
  ⟨⟨⟨fun _ _ => rfl, fun _ _ => rfl⟩, by decide, by decide⟩,
    private_dict_subrs_offset wrf_count ⟨fun _ _ => rfl, fun _ _ => rfl⟩ 0 1 (by decide)
      ⟨32764, []⟩ (by decide)⟩

/-! ## gdevpdfi.c: the row loop of gdev_pdf_copy_mono (lines 708-730) -/

theorem aligned_loop_run (mem : Mem) (invert : Nat) (nbytes : Int) :
    ∀ (fuel : Nat) (i data : Int) (strm : List Nat), nbytes - i ≤ fuel →
      aligned_loop mem invert nbytes fuel i data strm
        = some (strm ++ (List.range (nbytes - i).toNat).map
            (fun k : Nat => (mem (data + (k : Int)) ^^^ invert) % 256)) := by
  intro fuel
  induction fuel with
  | zero =>
    intro i data strm h
    have h0 : (nbytes - i).toNat = 0 := by omega
    unfold aligned_loop
    rw [if_neg (by omega), h0]
    simp
  | succ f ih =>
    intro i data strm h
    unfold aligned_loop
    by_cases hc : i < nbytes
    · rw [if_pos hc]
      show aligned_loop mem invert nbytes f (i + 1) (data + 1) _ = _
      rw [ih (i + 1) (data + 1) _ (by omega)]
      have e : (nbytes - i).toNat = (nbytes - (i + 1)).toNat + 1 := by omega
      rw [e, List.range_succ_eq_map, List.map_cons, List.map_map]
      simp only [sputc, List.append_assoc, List.singleton_append]
      refine congrArg some (congrArg (fun l => strm ++ l) ?_)
      refine congrArg₂ List.cons (by simp) (List.map_congr_left ?_)
      intro k _
      have e1 : data + 1 + (k : Int) = data + ((k + 1 : Nat) : Int) := by push_cast; ring
      simp only [Function.comp, e1]
    · have h0 : (nbytes - i).toNat = 0 := by omega
      rw [if_neg hc, h0]
      simp

theorem unaligned_loop_run (mem : Mem) (invert sbit rbit : Nat) :
    ∀ (fuel : Nat) (data wleft : Int) (strm : List Nat), wleft + sbit ≤ 8 * fuel + 8 →
      unaligned_loop mem invert sbit rbit fuel data wleft strm
        = some (data + (((wleft + sbit - 1) / 8).toNat : Int),
            wleft - 8 * (((wleft + sbit - 1) / 8).toNat : Int),
            strm ++ (List.range ((wleft + sbit - 1) / 8).toNat).map
              (fun k : Nat => (((mem (data + (k : Int)) <<< sbit)
                + (mem (data + (k : Int) + 1) >>> rbit)) ^^^ invert) % 256)) := by
  intro fuel
  induction fuel with
  | zero =>
    intro data wleft strm h
    have h0 : ((wleft + sbit - 1) / 8).toNat = 0 := by omega
    unfold unaligned_loop
    rw [if_neg (by omega), h0]
    simp
  | succ f ih =>
    intro data wleft strm h
    unfold unaligned_loop
    by_cases hc : wleft + sbit > 8
    · rw [if_pos hc]
      show unaligned_loop mem invert sbit rbit f (data + 1) (wleft - 8) _ = _
      rw [ih (data + 1) (wleft - 8) _ (by push_cast at h ⊢; omega)]
      have e : ((wleft + sbit - 1) / 8).toNat = ((wleft - 8 + sbit - 1) / 8).toNat + 1 := by
        omega
      rw [e, List.range_succ_eq_map, List.map_cons, List.map_map]
      simp only [sputc, List.append_assoc, List.singleton_append]
      have e2 : data + 1 + ((((wleft - 8 + sbit - 1) / 8).toNat : Nat) : Int)
          = data + (((((wleft - 8 + sbit - 1) / 8).toNat + 1 : Nat)) : Int) := by
        push_cast; ring
      have e3 : wleft - 8 - 8 * ((((wleft - 8 + sbit - 1) / 8).toNat : Nat) : Int)
          = wleft - 8 * (((((wleft - 8 + sbit - 1) / 8).toNat + 1 : Nat)) : Int) := by
        push_cast; ring
      rw [e2, e3]
      refine congrArg some (congrArg (Prod.mk _) (congrArg (Prod.mk _)
        (congrArg (fun l => strm ++ l) ?_)))
      refine congrArg₂ List.cons (by simp) (List.map_congr_left ?_)
      intro k _
      have e1 : data + 1 + (k : Int) = data + ((k + 1 : Nat) : Int) := by push_cast; ring
      simp only [Function.comp, e1]
    · have h0 : ((wleft + sbit - 1) / 8).toNat = 0 := by omega
      rw [if_neg hc, h0]
      simp

theorem byte_bit_xor (x inv k : Nat) (hk : k < 8) :
    ((x ^^^ inv) % 256).testBit k = xor (x.testBit k) (inv.testBit k) := by
  rw [show (256 : Nat) = 2 ^ 8 from rfl, Nat.testBit_mod_two_pow, Nat.testBit_xor]
  simp [hk]

theorem shift_pair_bit (a b s k : Nat) (hb : b < 256) (hs1 : 1 ≤ s) (hs : s ≤ 7)
    (hk : k < 8) :
    (a <<< s + b >>> (8 - s)).testBit k
      = if s ≤ k then a.testBit (k - s) else b.testBit (k + 8 - s) := by
  interval_cases s <;> interval_cases k <;>
    simp only [Nat.testBit_to_div_mod, Nat.shiftLeft_eq, Nat.shiftRight_eq_div_pow] <;>
    norm_num <;> omega

theorem mask_bit (wl k : Nat) (h1 : 1 ≤ wl) (h7 : wl ≤ 7) (hk : k < 8) :
    ((0xff00 >>> wl) % 256).testBit k = decide (8 - wl ≤ k) := by
  interval_cases wl <;> interval_cases k <;> rfl

theorem getD_map_range (f : Nat → Nat) (n q : Nat) (h : q < n) :
    ((List.range n).map f).getD q 0 = f q := by
  rw [List.getD_eq_getElem _ _ (by simpa using h)]
  simp

theorem main_byte_bit (mem : Mem) (hmem : ∀ p, mem p < 256) (invert : Nat) (row sourcex : Int)
    (s : Nat) (hsdef : s = (sourcex % 8).toNat) (hs1 : 1 ≤ s) (j : Nat) :
    ((((mem (row + sourcex / 8 + ((j / 8 : Nat) : Int)) <<< s)
        + (mem (row + sourcex / 8 + ((j / 8 : Nat) : Int) + 1) >>> (8 - s))) ^^^ invert)
          % 256).testBit (7 - j % 8)
      = xor (src_bit mem row (sourcex + j)) (invert.testBit (7 - j % 8)) := by
  rw [byte_bit_xor _ _ _ (by omega), shift_pair_bit _ _ _ _ (hmem _) hs1 (by omega) (by omega)]
  unfold src_bit
  by_cases hc : s ≤ 7 - j % 8
  · rw [if_pos hc]
    have e1 : row + (sourcex + j) / 8 = row + sourcex / 8 + ((j / 8 : Nat) : Int) := by omega
    have e2 : 7 - ((sourcex + j) % 8).toNat = 7 - j % 8 - s := by omega
    rw [e1, e2]
  · rw [if_neg hc]
    have e1 : row + (sourcex + j) / 8 = row + sourcex / 8 + ((j / 8 : Nat) : Int) + 1 := by
      omega
    have e2 : 7 - ((sourcex + j) % 8).toNat = 7 - j % 8 + 8 - s := by omega
    rw [e1, e2]

theorem final_byte_bit (mem : Mem) (invert : Nat) (row sourcex : Int)
    (s : Nat) (hsdef : s = (sourcex % 8).toNat) (hs1 : 1 ≤ s) (wl j : Nat) (hwl : wl + s ≤ 8)
    (hj : j % 8 < wl) :
    ((((mem (row + sourcex / 8 + ((j / 8 : Nat) : Int)) <<< s) ^^^ invert) &&&
        ((0xff00 >>> wl) % 256)) % 256).testBit (7 - j % 8)
      = xor (src_bit mem row (sourcex + j)) (invert.testBit (7 - j % 8)) := by
  rw [show (256 : Nat) = 2 ^ 8 from rfl, Nat.testBit_mod_two_pow, Nat.testBit_and,
    show (2 : Nat) ^ 8 = 256 from rfl, mask_bit _ _ (by omega) (by omega) (by omega),
    Nat.testBit_xor, Nat.testBit_shiftLeft]
  unfold src_bit
  have e1 : row + (sourcex + j) / 8 = row + sourcex / 8 + ((j / 8 : Nat) : Int) := by omega
  have e2 : 7 - ((sourcex + j) % 8).toNat = 7 - j % 8 - s := by omega
  have h1 : 7 - j % 8 < 8 := by omega
  have h2 : 8 - wl ≤ 7 - j % 8 := by omega
  have h3 : 7 - j % 8 ≥ s := by omega
  rw [e1, e2]
  simp [h1, h2, h3]

theorem copy_mono_row_aligned (fuel : Nat) (mem : Mem) (invert : Nat)
    (base raster sourcex w : Int) (yi : Nat) (strm : List Nat)
    (hw : 1 ≤ w) (hf : w ≤ fuel) (hs : (sourcex % 8).toNat = 0) :
    ∃ bs, copy_mono_row fuel mem invert base raster sourcex w yi strm = some (strm ++ bs) ∧
      (bs.length : Int) = (w + 7) / 8 ∧
      ∀ j : Nat, (j : Int) < w →
        out_bit bs j = xor (src_bit mem (base + yi * raster) (sourcex + j))
          (invert.testBit (7 - j % 8)) := by
  refine ⟨(List.range ((w + 7) / 8 - 0).toNat).map
    (fun k : Nat => (mem (base + yi * raster + sourcex / 8 + (k : Int)) ^^^ invert) % 256),
    ?_, ?_, ?_⟩
  · unfold copy_mono_row
    simp only []
    rw [if_pos hs, aligned_loop_run _ _ _ _ _ _ _ (by omega)]
  · simp only [List.length_map, List.length_range]
    omega
  · intro j hj
    unfold out_bit src_bit
    rw [getD_map_range _ _ _ (by omega), byte_bit_xor _ _ _ (by omega)]
    have e1 : base + yi * raster + (sourcex + j) / 8
        = base + yi * raster + sourcex / 8 + ((j / 8 : Nat) : Int) := by omega
    have e2 : ((sourcex + j) % 8).toNat = j % 8 := by omega
    rw [e1, e2]

theorem copy_mono_row_unaligned (fuel : Nat) (mem : Mem) (invert : Nat)
    (base raster sourcex w : Int) (yi : Nat) (strm : List Nat) (hmem : ∀ p, mem p < 256)
    (hw : 1 ≤ w) (hf : w ≤ fuel) (hs : (sourcex % 8).toNat ≠ 0) :
    ∃ bs, copy_mono_row fuel mem invert base raster sourcex w yi strm = some (strm ++ bs) ∧
      (bs.length : Int) = (w + 7) / 8 ∧
      ∀ j : Nat, (j : Int) < w →
        out_bit bs j = xor (src_bit mem (base + yi * raster) (sourcex + j))
          (invert.testBit (7 - j % 8)) := by
  obtain ⟨s, hsdef⟩ : ∃ s : Nat, s = (sourcex % 8).toNat := ⟨_, rfl⟩
  have hs1 : 1 ≤ s := by omega
  have hs7 : s ≤ 7 := by omega
  obtain ⟨n, hn⟩ : ∃ n : Nat, n = ((w + s - 1) / 8).toNat := ⟨_, rfl⟩
  have hrun := unaligned_loop_run mem invert s (8 - s) fuel
    (base + yi * raster + sourcex / 8) w strm (by omega)
  rw [← hn] at hrun
  by_cases hfin : w - 8 * (n : Int) > 0
  · refine ⟨(List.range n).map (fun k : Nat =>
        (((mem (base + yi * raster + sourcex / 8 + (k : Int)) <<< s)
          + (mem (base + yi * raster + sourcex / 8 + (k : Int) + 1) >>> (8 - s)))
            ^^^ invert) % 256) ++
        [(((mem (base + yi * raster + sourcex / 8 + (n : Int)) <<< s) ^^^ invert) &&&
          ((0xff00 >>> (w - 8 * (n : Int)).toNat) % 256)) % 256], ?_, ?_, ?_⟩
    · unfold copy_mono_row
      simp only []
      rw [if_neg hs, ← hsdef, hrun]
      simp only []
      rw [if_pos hfin]
      simp [sputc]
    · simp only [List.length_append, List.length_map, List.length_range, List.length_singleton]
      omega
    · intro j hj
      unfold out_bit
      by_cases hq : j / 8 < n
      · rw [List.getD_append _ _ _ _ (by simpa using hq), getD_map_range _ _ _ hq]
        exact main_byte_bit mem hmem invert (base + yi * raster) sourcex s hsdef hs1 j
      · have hqn : j / 8 = n := by omega
        rw [List.getD_append_right _ _ _ _ (by simp; omega)]
        simp only [List.length_map, List.length_range]
        rw [show j / 8 - n = 0 by omega]
        simp only [List.getD_cons_zero]
        rw [← hqn]
        exact final_byte_bit mem invert (base + yi * raster) sourcex s hsdef hs1 _ j
          (by omega) (by omega)
  · refine ⟨(List.range n).map (fun k : Nat =>
        (((mem (base + yi * raster + sourcex / 8 + (k : Int)) <<< s)
          + (mem (base + yi * raster + sourcex / 8 + (k : Int) + 1) >>> (8 - s)))
            ^^^ invert) % 256), ?_, ?_, ?_⟩
    · unfold copy_mono_row
      simp only []
      rw [if_neg hs, ← hsdef, hrun]
      simp only []
      rw [if_neg hfin]
    · simp only [List.length_map, List.length_range]
      omega
    · intro j hj
      unfold out_bit
      rw [getD_map_range _ _ _ (by omega)]
      exact main_byte_bit mem hmem invert (base + yi * raster) sourcex s hsdef hs1 j

theorem copy_mono_row_spec (fuel : Nat) (mem : Mem) (invert : Nat)
    (base raster sourcex w : Int) (yi : Nat) (strm : List Nat) (hmem : ∀ p, mem p < 256)
    (hw : 1 ≤ w) (hf : w ≤ fuel) :
    ∃ bs, copy_mono_row fuel mem invert base raster sourcex w yi strm = some (strm ++ bs) ∧
      (bs.length : Int) = (w + 7) / 8 ∧
      ∀ j : Nat, (j : Int) < w →
        out_bit bs j = xor (src_bit mem (base + yi * raster) (sourcex + j))
          (invert.testBit (7 - j % 8)) := by
  by_cases hs : (sourcex % 8).toNat = 0
  · exact copy_mono_row_aligned fuel mem invert base raster sourcex w yi strm hw hf hs
  · exact copy_mono_row_unaligned fuel mem invert base raster sourcex w yi strm hmem hw hf hs

theorem out_bit_row_out (strm : List Nat) (a j : Nat) :
    out_bit (row_out strm a) j = (strm.getD (a + j / 8) 0).testBit (7 - j % 8) := by
  simp [out_bit, row_out, List.getD_eq_getElem?_getD, List.getElem?_drop]

theorem copy_mono_rows_run (fuel : Nat) (mem : Mem) (invert : Nat)
    (base raster sourcex w h : Int) (hmem : ∀ p, mem p < 256) (hw : 1 ≤ w) (hf : w ≤ fuel) :
    ∀ (k yi : Nat) (strm : List Nat), h - yi ≤ k → (yi : Int) ≤ max h 0 →
      strm.length = yi * ((w + 7) / 8).toNat →
      (∀ y : Nat, y < yi → ∀ j : Nat, (j : Int) < w →
        out_bit (row_out strm (y * ((w + 7) / 8).toNat)) j
          = xor (src_bit mem (base + y * raster) (sourcex + j)) (invert.testBit (7 - j % 8))) →
      ∃ out, copy_mono_rows fuel mem invert base raster sourcex w h k yi strm = some out ∧
        out.length = h.toNat * ((w + 7) / 8).toNat ∧
        ∀ y : Nat, (y : Int) < h → ∀ j : Nat, (j : Int) < w →
          out_bit (row_out out (y * ((w + 7) / 8).toNat)) j
            = xor (src_bit mem (base + y * raster) (sourcex + j))
                (invert.testBit (7 - j % 8)) := by
  intro k
  induction k with
  | zero =>
    intro yi strm hk hy hlen hinv
    have e : (yi : Int) = h.toNat := by omega
    have e2 : yi = h.toNat := by omega
    refine ⟨strm, ?_, ?_, ?_⟩
    · unfold copy_mono_rows
      rw [if_neg (by omega)]
    · rw [hlen, e2]
    · intro y hyh j hj
      exact hinv y (by omega) j hj
  | succ f ih =>
    intro yi strm hk hy hlen hinv
    by_cases hc : (yi : Int) < h
    · obtain ⟨bs, hrow, hbl, hbits⟩ :=
        copy_mono_row_spec fuel mem invert base raster sourcex w yi strm hmem hw hf
      have hbl2 : bs.length = ((w + 7) / 8).toNat := by omega
      obtain ⟨out, ho, hol, hob⟩ := ih (yi + 1) (strm ++ bs) (by push_cast at hk ⊢; omega)
        (by push_cast; omega) (by rw [List.length_append, hlen, hbl2]; ring) (by
          intro y hy1 j hj
          rw [out_bit_row_out]
          have hq : j / 8 < ((w + 7) / 8).toNat := by omega
          by_cases hyy : y < yi
          · have hlt : y * ((w + 7) / 8).toNat + j / 8 < strm.length := by
              rw [hlen]
              have := Nat.mul_le_mul_right ((w + 7) / 8).toNat (Nat.succ_le_of_lt hyy)
              rw [Nat.succ_mul] at this
              omega
            rw [List.getD_append _ _ _ _ hlt, ← out_bit_row_out]
            exact hinv y hyy j hj
          · have hye : y = yi := by omega
            rw [hye, List.getD_append_right _ _ _ _ (by rw [hlen]; omega), hlen,
              show yi * ((w + 7) / 8).toNat + j / 8 - yi * ((w + 7) / 8).toNat = j / 8 by omega]
            exact hbits j hj)
      refine ⟨out, ?_, hol, hob⟩
      unfold copy_mono_rows
      rw [if_pos hc]
      simp only []
      rw [hrow]
      exact ho
    · have e2 : yi = h.toNat := by omega
      refine ⟨strm, ?_, ?_, ?_⟩
      · unfold copy_mono_rows
        rw [if_neg hc]
      · rw [hlen, e2]
      · intro y hyh j hj
        exact hinv y (by omega) j hj

theorem copy_mono_rows_spec (fuel k : Nat) (mem : Mem) (invert : Nat)
    (base raster sourcex w h : Int) (hmem : ∀ p, mem p < 256) (hw : 1 ≤ w) (hf : w ≤ fuel)
    (hk : h ≤ k) :
    ∃ out, copy_mono_rows fuel mem invert base raster sourcex w h k 0 [] = some out ∧
      out.length = h.toNat * ((w + 7) / 8).toNat ∧
      ∀ y : Nat, (y : Int) < h → ∀ j : Nat, (j : Int) < w →
        out_bit (row_out out (y * ((w + 7) / 8).toNat)) j
          = xor (src_bit mem (base + y * raster) (sourcex + j))
              (invert.testBit (7 - j % 8)) :=
  copy_mono_rows_run fuel mem invert base raster sourcex w h hmem hw hf k 0 []
    (by push_cast; omega) (by push_cast; omega) (by simp) (by intro y hy; omega)

/-- C28: the row loop of gdev_pdf_copy_mono, for bytes below 256, `w >= 1`,
every `sourcex` and enough fuel for the loops, finishes and writes
`(w + 7) >> 3` bytes for each of the `h` rows; bit `j < w` of the bytes of row
`y` (most significant bit first) is bit `sourcex + j` of the source row `y`
XORed with the bit of `invert` at the same place of the byte.  So two calls
whose source rows hold the same bits from `sourcex` on, such as an unaligned
one and an aligned one on the rows shifted left by `sourcex & 7` bits, write
the same first `w` bits in every row. -/
theorem copy_mono_bits (fuel k : Nat) (mem : Mem) (invert : Nat)
    (base raster sourcex w h : Int) (hmem : ∀ p, mem p < 256) (hw : 1 ≤ w) (hf : w ≤ fuel)
    (hk : h ≤ k) :
    ∃ out, copy_mono_rows fuel mem invert base raster sourcex w h k 0 [] = some out ∧
      out.length = h.toNat * ((w + 7) / 8).toNat ∧
      (∀ y : Nat, (y : Int) < h → ∀ j : Nat, (j : Int) < w →
        out_bit (row_out out (y * ((w + 7) / 8).toNat)) j
          = xor (src_bit mem (base + y * raster) (sourcex + j))
              (invert.testBit (7 - j % 8))) ∧
      ∀ (mem2 : Mem) (base2 raster2 sourcex2 : Int), (∀ p, mem2 p < 256) →
        (∀ y : Nat, (y : Int) < h → ∀ j : Nat, (j : Int) < w →
          src_bit mem2 (base2 + y * raster2) (sourcex2 + j)
            = src_bit mem (base + y * raster) (sourcex + j)) →
        ∃ out2, copy_mono_rows fuel mem2 invert base2 raster2 sourcex2 w h k 0 [] = some out2 ∧
          out2.length = out.length ∧
          ∀ y : Nat, (y : Int) < h → ∀ j : Nat, (j : Int) < w →
            out_bit (row_out out2 (y * ((w + 7) / 8).toNat)) j
              = out_bit (row_out out (y * ((w + 7) / 8).toNat)) j := by
  obtain ⟨out, ho, hl, hb⟩ :=
    copy_mono_rows_spec fuel k mem invert base raster sourcex w h hmem hw hf hk
  refine ⟨out, ho, hl, hb, ?_⟩
  intro mem2 base2 raster2 sourcex2 hmem2 hsame
  obtain ⟨out2, ho2, hl2, hb2⟩ :=
    copy_mono_rows_spec fuel k mem2 invert base2 raster2 sourcex2 w h hmem2 hw hf hk
  refine ⟨out2, ho2, by rw [hl2, hl], ?_⟩
  intro y hy j hj
  rw [hb2 y hy j hj, hb y hy j hj, hsame y hy j hj]

/-- C28 on two rows of ten bits taken from bit 3 of a memory that holds the
byte `p % 256` at address `p`, inverted. -/
theorem copy_mono_bits_witness :
    ((∀ p, ramp_mem p < 256) ∧ (1 : Int) ≤ 10 ∧ (10 : Int) ≤ ((10 : Nat) : Int) ∧
      (2 : Int) ≤ ((2 : Nat) : Int)) ∧
    ∃ out, copy_mono_rows 10 ramp_mem 255 0 2 3 10 2 2 0 [] = some out ∧
      out.length = (2 : Int).toNat * (((10 : Int) + 7) / 8).toNat ∧
      (∀ y : Nat, (y : Int) < 2 → ∀ j : Nat, (j : Int) < 10 →
        out_bit (row_out out (y * (((10 : Int) + 7) / 8).toNat)) j
          = xor (src_bit ramp_mem (0 + y * 2) (3 + j)) (Nat.testBit 255 (7 - j % 8))) ∧
      ∀ (mem2 : Mem) (base2 raster2 sourcex2 : Int), (∀ p, mem2 p < 256) →
        (∀ y : Nat, (y : Int) < 2 → ∀ j : Nat, (j : Int) < 10 →
          src_bit mem2 (base2 + y * raster2) (sourcex2 + j)
            = src_bit ramp_mem (0 + y * 2) (3 + j)) →
        ∃ out2, copy_mono_rows 10 mem2 255 base2 raster2 sourcex2 10 2 2 0 [] = some out2 ∧
          out2.length = out.length ∧
          ∀ y : Nat, (y : Int) < 2 → ∀ j : Nat, (j : Int) < 10 →
            out_bit (row_out out2 (y * (((10 : Int) + 7) / 8).toNat)) j
              = out_bit (row_out out (y * (((10 : Int) + 7) / 8).toNat)) j :=
  ⟨⟨fun p => by unfold ramp_mem; omega, by decide, by decide, by decide⟩,
    copy_mono_bits 10 2 ramp_mem 255 0 2 3 10 2 (fun p => by unfold ramp_mem; omega)
      (by decide) (by decide) (by decide)⟩

theorem subsample_loop_succ (spp width xf yf fuel : Nat) (inp : List Nat) (space x y : Nat)
    (out : List Nat) :
    subsample_loop spp width xf yf (fuel + 1) inp space x y out =
      if inp.length < spp then some (0, inp, x, y, out)
      else if y = yf / 2 ∧ x % xf = xf / 2 ∧ x < (width / xf) * xf then
        if space < spp then some (1, inp, x, y, out)
        else
          if x + 1 = width then
            subsample_loop spp width xf yf fuel (inp.drop spp) (space - spp) 0
              (if y + 1 = yf then 0 else y + 1) (out ++ inp.take spp)
          else
            subsample_loop spp width xf yf fuel (inp.drop spp) (space - spp) (x + 1) y
              (out ++ inp.take spp)
      else
        if x + 1 = width then
          subsample_loop spp width xf yf fuel (inp.drop spp) space 0
            (if y + 1 = yf then 0 else y + 1) out
        else subsample_loop spp width xf yf fuel (inp.drop spp) space (x + 1) y out := by
  rw [subsample_loop]

theorem succ_mod_step (q m : Nat) (hm : 1 ≤ m) :
    (q + 1) % m = if q % m + 1 = m then 0 else q % m + 1 := by
  have hlt : q % m < m := Nat.mod_lt _ (by omega)
  by_cases h : q % m + 1 = m
  · rw [if_pos h, Nat.add_mod]
    by_cases h1 : m = 1
    · subst h1
      omega
    · rw [Nat.mod_eq_of_lt (show 1 < m by omega), h, Nat.mod_self]
  · rw [if_neg h, Nat.add_mod]
    have h1 : 1 < m := by omega
    rw [Nat.mod_eq_of_lt h1, Nat.mod_eq_of_lt (by omega)]

theorem succ_div_wrap (i m : Nat) (hm : 1 ≤ m) (h : i % m + 1 = m) : (i + 1) / m = i / m + 1 := by
  have e : i + 1 = m * (i / m + 1) := by
    have := Nat.div_add_mod i m
    rw [Nat.mul_add, Nat.mul_one]
    omega
  rw [e, Nat.mul_div_cancel_left _ (by omega)]

theorem succ_div_stay (i m : Nat) (hm : 1 ≤ m) (h : i % m + 1 ≠ m) : (i + 1) / m = i / m := by
  have hlt : i % m < m := Nat.mod_lt _ (by omega)
  have e : i + 1 = m * (i / m) + (i % m + 1) := by
    have := Nat.div_add_mod i m
    omega
  have key : ∀ q r : Nat, r < m → (m * q + r) / m = q := by
    intro q r hr
    rw [Nat.mul_add_div (by omega), Nat.div_eq_of_lt hr, Nat.add_zero]
  rw [e]
  exact key _ _ (by omega)

theorem pick_length (spp width xf yf : Nat) (inp : List Nat) (i : Nat)
    (h : (i + 1) * spp ≤ inp.length)
    (hc : (i / width) % yf = yf / 2 ∧ (i % width) % xf = xf / 2 ∧ i % width < (width / xf) * xf) :
    pick spp width xf yf inp i = (inp.drop (i * spp)).take spp ∧
      (pick spp width xf yf inp i).length = spp := by
  unfold pick
  rw [if_pos hc]
  refine ⟨rfl, ?_⟩
  rw [List.length_take, List.length_drop]
  have : (i + 1) * spp = i * spp + spp := by ring
  omega

theorem range_flatMap_shift (n i0 : Nat) (f : Nat → List Nat) :
    (List.range (n + 1)).flatMap (fun j => f (i0 + j))
      = f i0 ++ (List.range n).flatMap (fun j => f (i0 + 1 + j)) := by
  rw [List.range_succ_eq_map, List.flatMap_cons, List.flatMap_map]
  refine congrArg₂ (fun a b => a ++ b) rfl (List.flatMap_congr ?_)
  intro j _
  show f (i0 + (j + 1)) = f (i0 + 1 + j)
  rw [Nat.add_assoc, Nat.add_comm 1 j]

theorem subsample_loop_run (spp width xf yf : Nat) (hspp : 1 ≤ spp) (hwd : 1 ≤ width)
    (hyf : 1 ≤ yf) (inp : List Nat) :
    ∀ (n i0 fuel space : Nat) (out : List Nat), inp.length = (i0 + n) * spp → n < fuel →
      ((List.range n).flatMap (fun j => pick spp width xf yf inp (i0 + j))).length ≤ space →
      subsample_loop spp width xf yf fuel (inp.drop (i0 * spp)) space (i0 % width)
          ((i0 / width) % yf) out
        = some (0, [], (i0 + n) % width, ((i0 + n) / width) % yf,
            out ++ (List.range n).flatMap (fun j => pick spp width xf yf inp (i0 + j))) := by
  intro n
  induction n with
  | zero =>
    intro i0 fuel space out hlen hf _
    obtain ⟨f, rfl⟩ : ∃ f, fuel = f + 1 := ⟨fuel - 1, by omega⟩
    have hnil : inp.drop (i0 * spp) = [] := List.drop_eq_nil_of_le (by rw [hlen]; simp)
    rw [subsample_loop_succ, hnil, if_pos (by simpa using hspp)]
    simp
  | succ n ih =>
    intro i0 fuel space out hlen hf hsp
    obtain ⟨f, rfl⟩ : ∃ f, fuel = f + 1 := ⟨fuel - 1, by omega⟩
    have hl : (inp.drop (i0 * spp)).length = (n + 1) * spp := by
      rw [List.length_drop, hlen]
      have : (i0 + (n + 1)) * spp = i0 * spp + (n + 1) * spp := by ring
      omega
    have hge : ¬ (inp.drop (i0 * spp)).length < spp := by
      rw [hl]
      have : (n + 1) * spp = n * spp + spp := by ring
      omega
    have hdd : (inp.drop (i0 * spp)).drop spp = inp.drop ((i0 + 1) * spp) := by
      rw [List.drop_drop]
      congr 1
      ring
    have hlen1 : inp.length = (i0 + 1 + n) * spp := by rw [hlen]; ring_nf
    rw [range_flatMap_shift n i0 (pick spp width xf yf inp)] at hsp ⊢
    rw [List.length_append] at hsp
    have hxy : (if i0 % width + 1 = width then
          subsample_loop spp width xf yf f (inp.drop ((i0 + 1) * spp))
            (space - (pick spp width xf yf inp i0).length) 0
            (if (i0 / width) % yf + 1 = yf then 0 else (i0 / width) % yf + 1)
            (out ++ pick spp width xf yf inp i0)
        else
          subsample_loop spp width xf yf f (inp.drop ((i0 + 1) * spp))
            (space - (pick spp width xf yf inp i0).length) (i0 % width + 1)
            ((i0 / width) % yf) (out ++ pick spp width xf yf inp i0))
        = some (0, [], (i0 + (n + 1)) % width, ((i0 + (n + 1)) / width) % yf,
            out ++ (pick spp width xf yf inp i0 ++
              (List.range n).flatMap (fun j => pick spp width xf yf inp (i0 + 1 + j)))) := by
      have hres := ih (i0 + 1) f (space - (pick spp width xf yf inp i0).length)
        (out ++ pick spp width xf yf inp i0) hlen1 (by omega) (by omega)
      have e3 : i0 + 1 + n = i0 + (n + 1) := by omega
      rw [e3, List.append_assoc] at hres
      by_cases hx : i0 % width + 1 = width
      · rw [if_pos hx, ← hres, succ_mod_step i0 width hwd, if_pos hx,
          succ_div_wrap i0 width hwd hx, succ_mod_step (i0 / width) yf hyf]
      · rw [if_neg hx, ← hres, succ_mod_step i0 width hwd, if_neg hx,
          succ_div_stay i0 width hwd hx]
    rw [subsample_loop_succ, if_neg hge, hdd]
    by_cases hc : (i0 / width) % yf = yf / 2 ∧ (i0 % width) % xf = xf / 2 ∧
        i0 % width < (width / xf) * xf
    · obtain ⟨hp, hpl⟩ := pick_length spp width xf yf inp i0
        (by rw [hlen]; exact Nat.mul_le_mul_right _ (by omega)) hc
      rw [if_pos hc, if_neg (by omega), ← hp]
      rw [hpl] at hxy
      exact hxy
    · have hp : pick spp width xf yf inp i0 = [] := by
        unfold pick
        rw [if_neg hc]
      rw [if_neg hc, hp]
      rw [hp] at hxy
      simpa using hxy

theorem flatMap_range_mul (a b : Nat) (f : Nat → List Nat) :
    (List.range (a * b)).flatMap f
      = (List.range a).flatMap (fun q => (List.range b).flatMap (fun r => f (q * b + r))) := by
  induction a with
  | zero => simp
  | succ a ih =>
    rw [Nat.succ_mul, List.range_add, List.flatMap_append, List.flatMap_map, ih,
      List.range_succ, List.flatMap_append, List.flatMap_singleton]

theorem flatMap_range_single (n c : Nat) (hc : c < n) (A : Nat → List Nat) :
    (List.range n).flatMap (fun y => if y = c then A y else []) = A c := by
  induction n with
  | zero => omega
  | succ n ih =>
    rw [List.range_succ, List.flatMap_append, List.flatMap_singleton]
    by_cases h : c < n
    · rw [ih h, if_neg (by omega), List.append_nil]
    · have e : n = c := by omega
      have hnil : (List.range n).flatMap (fun y => if y = c then A y else []) = [] := by
        rw [List.flatMap_eq_nil_iff]
        intro y hy
        rw [List.mem_range] at hy
        rw [if_neg (by omega)]
      rw [hnil, if_pos e, e, List.nil_append]

theorem row_picks_aux (xf n rem : Nat) (hxf : 1 ≤ xf) (P : Nat → List Nat) :
    (List.range (n * xf + rem)).flatMap
        (fun x => if x % xf = xf / 2 ∧ x < n * xf then P x else [])
      = (List.range n).flatMap (fun k => P (k * xf + xf / 2)) := by
  have hrest : (List.map (fun x => n * xf + x) (List.range rem)).flatMap
      (fun x => if x % xf = xf / 2 ∧ x < n * xf then P x else []) = [] := by
    rw [List.flatMap_eq_nil_iff]
    intro x hx
    rw [List.mem_map] at hx
    obtain ⟨t, _, rfl⟩ := hx
    rw [if_neg (by omega)]
  rw [List.range_add, List.flatMap_append, hrest, List.append_nil, flatMap_range_mul]
  refine List.flatMap_congr ?_
  intro k hk
  rw [List.mem_range] at hk
  have hle : (k + 1) * xf ≤ n * xf := Nat.mul_le_mul_right _ hk
  rw [Nat.succ_mul] at hle
  have hin : (List.range xf).flatMap
        (fun r => if (k * xf + r) % xf = xf / 2 ∧ k * xf + r < n * xf
          then P (k * xf + r) else [])
      = (List.range xf).flatMap (fun r => if r = xf / 2 then P (k * xf + r) else []) := by
    refine List.flatMap_congr ?_
    intro r hr
    rw [List.mem_range] at hr
    have e1 : (k * xf + r) % xf = r := by
      rw [Nat.mul_comm, Nat.mul_add_mod, Nat.mod_eq_of_lt hr]
    rw [e1]
    by_cases h : r = xf / 2
    · rw [if_pos h, if_pos ⟨h, by omega⟩]
    · rw [if_neg h, if_neg (fun hh => h hh.1)]
  rw [hin, flatMap_range_single xf (xf / 2) (by omega) (fun r => P (k * xf + r))]

theorem row_picks (width xf : Nat) (hxf : 1 ≤ xf) (P : Nat → List Nat) :
    (List.range width).flatMap
        (fun x => if x % xf = xf / 2 ∧ x < (width / xf) * xf then P x else [])
      = (List.range (width / xf)).flatMap (fun k => P (k * xf + xf / 2)) := by
  have hw : width = (width / xf) * xf + width % xf := by
    have := Nat.div_add_mod width xf
    rw [Nat.mul_comm] at this
    omega
  rw [congrArg List.range hw]
  exact row_picks_aux xf (width / xf) (width % xf) hxf P

theorem picks_closed (spp width xf yf G : Nat) (inp : List Nat) (hwd : 1 ≤ width)
    (hxf : 1 ≤ xf) (hyf : 1 ≤ yf) :
    (List.range (G * yf * width)).flatMap (fun j => pick spp width xf yf inp (0 + j))
      = centre_pixels spp width xf yf G inp := by
  unfold centre_pixels
  rw [Nat.mul_assoc, flatMap_range_mul]
  refine List.flatMap_congr ?_
  intro g _
  rw [flatMap_range_mul]
  have hy : (List.range yf).flatMap
        (fun y => (List.range width).flatMap
          (fun x => pick spp width xf yf inp (0 + (g * (yf * width) + (y * width + x)))))
      = (List.range yf).flatMap (fun y => if y = yf / 2 then
          (List.range width).flatMap (fun x =>
            if x % xf = xf / 2 ∧ x < (width / xf) * xf then pixel spp width inp (g * yf + y) x
            else [])
          else []) := by
    refine List.flatMap_congr ?_
    intro y hy
    rw [List.mem_range] at hy
    have hx : ∀ x ∈ List.range width,
        pick spp width xf yf inp (0 + (g * (yf * width) + (y * width + x)))
          = if y = yf / 2 then
              (if x % xf = xf / 2 ∧ x < (width / xf) * xf then
                pixel spp width inp (g * yf + y) x else [])
            else [] := by
      intro x hx
      rw [List.mem_range] at hx
      have e0 : 0 + (g * (yf * width) + (y * width + x)) = width * (g * yf + y) + x := by ring
      have e1 : (width * (g * yf + y) + x) % width = x := by
        rw [Nat.mul_add_mod, Nat.mod_eq_of_lt hx]
      have e2 : (width * (g * yf + y) + x) / width = g * yf + y := by
        rw [Nat.mul_add_div (by omega), Nat.div_eq_of_lt hx, Nat.add_zero]
      have e3 : (g * yf + y) % yf = y := by
        rw [Nat.mul_comm, Nat.mul_add_mod, Nat.mod_eq_of_lt hy]
      unfold pick pixel
      rw [e0, e1, e2, e3, Nat.mul_comm width (g * yf + y)]
      by_cases h : y = yf / 2
      · rw [if_pos h]
        by_cases h2 : x % xf = xf / 2 ∧ x < (width / xf) * xf
        · rw [if_pos h2, if_pos ⟨h, h2⟩]
        · rw [if_neg h2, if_neg (fun hh => h2 hh.2)]
      · rw [if_neg h, if_neg (fun hh => h hh.1)]
    rw [List.flatMap_congr hx]
    by_cases h : y = yf / 2
    · rw [if_pos h]
      refine List.flatMap_congr ?_
      intro x _
      rw [if_pos h]
    · rw [if_neg h, List.flatMap_eq_nil_iff]
      intro x _
      rw [if_neg h]
  rw [hy, flatMap_range_single yf (yf / 2) (by omega)]
  exact row_picks width xf hxf (fun x => pixel spp width inp (g * yf + yf / 2) x)

theorem flatMap_range_length (n c : Nat) (f : Nat → List Nat)
    (h : ∀ k, k < n → (f k).length = c) : ((List.range n).flatMap f).length = n * c := by
  induction n with
  | zero => simp
  | succ n ih =>
    rw [List.range_succ, List.flatMap_append, List.flatMap_singleton, List.length_append,
      ih (fun k hk => h k (by omega)), h n (by omega), Nat.succ_mul]

theorem centre_pixels_length (spp width xf yf G : Nat) (inp : List Nat) (hxf : 1 ≤ xf)
    (hyf : 1 ≤ yf) (hlen : inp.length = G * yf * width * spp) :
    (centre_pixels spp width xf yf G inp).length = G * (width / xf) * spp := by
  unfold centre_pixels
  rw [Nat.mul_assoc]
  refine flatMap_range_length G _ _ ?_
  intro g hg
  refine flatMap_range_length _ _ _ ?_
  intro k hk
  unfold pixel
  rw [List.length_take, List.length_drop, hlen]
  have h1 : (k + 1) * xf ≤ (width / xf) * xf := Nat.mul_le_mul_right _ hk
  have h2 : (width / xf) * xf ≤ width := Nat.div_mul_le_self _ _
  rw [Nat.succ_mul] at h1
  have h3 : g * yf + yf / 2 + 1 ≤ G * yf := by
    have := Nat.mul_le_mul_right yf (Nat.succ_le_of_lt hg)
    rw [Nat.succ_mul] at this
    omega
  have h4 : (g * yf + yf / 2 + 1) * width ≤ G * yf * width := Nat.mul_le_mul_right _ h3
  rw [Nat.succ_mul] at h4
  have h5 : ((g * yf + yf / 2) * width + (k * xf + xf / 2) + 1) * spp
      ≤ G * yf * width * spp := Nat.mul_le_mul_right _ (by omega)
  rw [Nat.succ_mul] at h5
  omega

/-- C27: `s_Subsample_process` keeps the centre pixel of each block.  With at
least one byte per pixel, factors of at least one, the state as
`s_Subsample_init` leaves it, an input of `G` complete groups of `yf` rows of
`width` pixels, room for `G * (width / xf)` pixels and enough fuel for the
loop, the call consumes the whole input, returns 0 with `x = y = 0` again, and
writes exactly `centre_pixels`: for each group `width / xf` pixels of `spp`
bytes, the `k`-th being the input pixel in column `k * xf + xf / 2` of row
`yf / 2` of the group; so no pixel of a column from `(width / xf) * xf` on is
written. -/
theorem subsample_centre_pixels (spp width xf yf G fuel space x0 y0 : Nat) (inp : List Nat)
    (hspp : 1 ≤ spp) (hxf : 1 ≤ xf) (hyf : 1 ≤ yf)
    (hlen : inp.length = G * yf * width * spp) (hfuel : G * yf * width < fuel)
    (hspace : G * (width / xf) * spp ≤ space) :
    s_Subsample_process fuel (s_Subsample_init ⟨spp, width, xf, yf, x0, y0⟩) inp space
        = some (0, [], centre_pixels spp width xf yf G inp, ⟨spp, width, xf, yf, 0, 0⟩) ∧
      (centre_pixels spp width xf yf G inp).length = G * (width / xf) * spp := by
  have hcl := centre_pixels_length spp width xf yf G inp hxf hyf hlen
  refine ⟨?_, hcl⟩
  unfold s_Subsample_process s_Subsample_init
  simp only []
  by_cases hwd : 1 ≤ width
  · have hrun := subsample_loop_run spp width xf yf hspp hwd hyf inp (G * yf * width) 0 fuel
      space [] (by rw [hlen, Nat.zero_add]) hfuel
      (by rw [picks_closed spp width xf yf G inp hwd hxf hyf, hcl]; exact hspace)
    rw [picks_closed spp width xf yf G inp hwd hxf hyf, Nat.zero_mul, List.drop_zero,
      Nat.zero_mod, Nat.zero_div, Nat.zero_mod, Nat.zero_add, Nat.mul_mod_left,
      Nat.mul_div_cancel _ (by omega), Nat.mul_mod_left, List.nil_append] at hrun
    rw [hrun]
    rfl
  · have hw0 : width = 0 := by omega
    subst hw0
    have hnil : inp = [] := by
      apply List.eq_nil_of_length_eq_zero
      rw [hlen]
      simp
    subst hnil
    obtain ⟨f, rfl⟩ : ∃ f, fuel = f + 1 := ⟨fuel - 1, by omega⟩
    rw [subsample_loop_succ, if_pos (by simpa using hspp)]
    have hc : centre_pixels spp 0 xf yf G [] = [] := by
      unfold centre_pixels
      rw [List.flatMap_eq_nil_iff]
      intro g _
      rw [Nat.zero_div]
      rfl
    rw [hc]
    rfl

/-- C27 on an image of 5 columns and 4 rows with 2 bytes per pixel and both
factors 2: two groups, each giving the pixels of columns 1 and 3 of its
second row. -/
theorem subsample_centre_pixels_witness :
    ((1 ≤ 2) ∧ (1 ≤ 2) ∧ (1 ≤ 2) ∧ (List.range 40).length = 2 * 2 * 5 * 2 ∧ 2 * 2 * 5 < 21 ∧
      2 * (5 / 2) * 2 ≤ 8) ∧
    (s_Subsample_process 21 (s_Subsample_init ⟨2, 5, 2, 2, 0, 0⟩) (List.range 40) 8
        = some (0, [], centre_pixels 2 5 2 2 2 (List.range 40), ⟨2, 5, 2, 2, 0, 0⟩) ∧
      (centre_pixels 2 5 2 2 2 (List.range 40)).length = 2 * (5 / 2) * 2) ∧
    centre_pixels 2 5 2 2 2 (List.range 40) = [12, 13, 16, 17, 32, 33, 36, 37] :=
  ⟨⟨by decide, by decide, by decide, by decide, by decide, by decide⟩,
    subsample_centre_pixels 2 5 2 2 2 21 8 0 0 (List.range 40) (by decide) (by decide)
      (by decide) (by decide) (by decide) (by decide), by decide⟩

end Ghostpdf
